import Mathlib

/-!
Anti-cache eviction manager: tracker operations.

Shallow embedding of `src/ee/anticache/AntiCacheEvictionManager.cpp`
(H-Store anti-caching).  The tracker keeps, per table, the recency data
from which cold tuples are chosen: an LRU chain threaded through the
tuple headers (single or double linked), a per-tuple timestamp, or a
packed array of clock counters.  Which one is compiled in is decided by
preprocessor switches; they are a `BuildConfig` here.

Conventions of the embedding

* A tuple handle (`TableTuple*`) is the slot id of the tuple in its
  table; `dataPtrForTuple` and `getTupleID` of `PersistentTable` (not
  part of this source file) are taken to be inverse to each other.
* `uint32_t` slot ids are natural numbers; the `int` chain length is an
  integer, so that the `<= 0` tests of the source keep their meaning.
* `int64_t` clock words are natural numbers below `2 ^ 64` holding the
  two's complement bit pattern.
* Every function returns the table it leaves behind next to its C++
  return value.
-/

set_option autoImplicit false

namespace AntiCache

/-! ## Build configuration and table state -/

/-- Preprocessor switches that select the tracker variant, and `NDEBUG`,
which compiles `assert` away. -/
structure BuildConfig where
  ANTICACHE_CLOCK : Bool
  ANTICACHE_CLOCK_SIZE : Nat
  ANTICACHE_TIMESTAMPS : Bool
  ANTICACHE_REVERSIBLE_LRU : Bool
  NDEBUG : Bool

/-- Single linked LRU chain. -/
def lruSingle : BuildConfig :=
  { ANTICACHE_CLOCK := false, ANTICACHE_CLOCK_SIZE := 0,
    ANTICACHE_TIMESTAMPS := false, ANTICACHE_REVERSIBLE_LRU := false,
    NDEBUG := false }

/-- Double linked LRU chain. -/
def lruDouble : BuildConfig :=
  { ANTICACHE_CLOCK := false, ANTICACHE_CLOCK_SIZE := 0,
    ANTICACHE_TIMESTAMPS := false, ANTICACHE_REVERSIBLE_LRU := true,
    NDEBUG := false }

/-- Modelled from the spec: the bytes of a block as the block store returns
them are not laid out in this source file.  A block is "a header declaring
(N_tables, for each table: name and tuple-count), followed by concatenated
serialized tuples"; what `readEvictedBlock` and `mergeUnevictedTuples` parse
from it is the list of the table names with their tuple counts, and the
serialized tuples follow in the order in which they were added. -/
structure AntiCacheBlock where
  /-- The header: one table name and tuple count per table section, in order -/
  header : List (String × Int)
  /-- The serialized tuples behind the header, in order: for each one the slot
  of the tuple that was serialized and the number of bytes of its serialized
  form -/
  body : List (Nat × Int) := []
  deriving DecidableEq

/-- The part of a `PersistentTable` the eviction manager reads and writes. -/
structure PersistentTable where
  /-- True when `getEvictedTable() != NULL` -/
  hasEvictedTable : Bool
  /-- Value of `isBatchEvicted()` -/
  batchEvicted : Bool
  /-- Value of `getOldestTupleID()` -/
  oldestTupleID : Nat
  /-- Value of `getNewestTupleID()` -/
  newestTupleID : Nat
  /-- Value of `getNumTuplesInEvictionChain()` -/
  numTuplesInEvictionChain : Int
  /-- Value of `getNextTupleInChain()` for the tuple in each slot -/
  nextTupleInChain : Nat → Nat
  /-- Value of `getPreviousTupleInChain()` for the tuple in each slot -/
  previousTupleInChain : Nat → Nat
  /-- The words of `m_clock`, the packed clock counters -/
  m_clock : Nat → Nat := fun _ => 0
  /-- The timestamp in the header of the tuple in each slot -/
  timeStamp : Nat → Nat := fun _ => 0
  /-- The table-wide access counter timestamps are drawn from -/
  accessCounter : Nat := 0
  /-- Value of `name()` -/
  name : String := ""
  /-- The clock hand `m_clockPosition` -/
  m_clockPosition : Int := 0
  /-- Value of `getTuplesEvicted()` -/
  tuplesEvicted : Int := 0
  /-- Value of `getBlocksEvicted()` -/
  blocksEvicted : Int := 0
  /-- Value of `getBytesEvicted()` -/
  bytesEvicted : Int := 0
  /-- Value of `getTuplesWritten()` -/
  tuplesWritten : Int := 0
  /-- Value of `getBlocksWritten()` -/
  blocksWritten : Int := 0
  /-- Value of `getBytesWritten()` -/
  bytesWritten : Int := 0
  /-- Value of `getTuplesRead()` -/
  tuplesRead : Int := 0
  /-- The counter `m_blocksRead` -/
  blocksRead : Int := 0
  /-- The counter `m_bytesRead` -/
  bytesRead : Int := 0
  /-- Value of `mergeStrategy()`: true for block-merge, false for tuple-merge -/
  mergeStrategy : Bool := true
  /-- The blocks read and not yet merged, oldest first (`getUnevictedBlocks(i)`) -/
  unevictedBlocks : List AntiCacheBlock := []
  /-- The offsets recorded with the blocks read (`getMergeTupleOffset(i)`) -/
  mergeTupleOffsets : List Int := []
  /-- The entries of the map of unevicted block ids -/
  unevictedBlockIDs : List (Int × Int) := []

/-- Modelled from the spec: `PersistentTable::getTupleID` is not in this
source file.  "A tuple is addressed by its slot id (a dense unsigned
integer ...)": the id of a tuple handle is its slot, reported as `int`. -/
def getTupleID (tuple : Nat) : Int := tuple

/-- Overwrite one entry of a per-slot header field. -/
def setSlot (f : Nat → Nat) (slot value : Nat) : Nat → Nat :=
  fun j => if j = slot then value else f j

/-- Effect of `TableTuple(dataPtrForTuple(slot)).setNextTupleInChain(value)`. -/
def PersistentTable.setNextTupleInChain (table : PersistentTable) (slot value : Nat) :
    PersistentTable :=
  { table with nextTupleInChain := setSlot table.nextTupleInChain slot value }

/-- Effect of `TableTuple(dataPtrForTuple(slot)).setPreviousTupleInChain(value)`. -/
def PersistentTable.setPreviousTupleInChain (table : PersistentTable) (slot value : Nat) :
    PersistentTable :=
  { table with previousTupleInChain := setSlot table.previousTupleInChain slot value }

/-- Modelled from the spec: `TableTuple::setColdTimeStamp` is not in this
source file.  "`on_insert` writes a cold sentinel (`ts = 0`)". -/
def PersistentTable.setColdTimeStamp (table : PersistentTable) (slot : Nat) : PersistentTable :=
  { table with timeStamp := setSlot table.timeStamp slot 0 }

/-- Modelled from the spec: `TableTuple::setTimeStamp` is not in this
source file.  "`on_update` writes the next value of the table's access
counter into the tuple's `ts`". -/
def PersistentTable.setTimeStamp (table : PersistentTable) (slot : Nat) : PersistentTable :=
  { table with
    accessCounter := table.accessCounter + 1
    timeStamp := setSlot table.timeStamp slot (table.accessCounter + 1) }

/-! ## 64-bit words -/

/-- Number of bit patterns of an `int64_t`. -/
def word64 : Nat := 2 ^ 64

/-- Left shift `x << k` on a 64-bit word. -/
def shl64 (x k : Nat) : Nat := (x <<< k) % word64

/-- Right shift `x >> k` on an `int64_t`: the sign bit is replicated. -/
def sar64 (x k : Nat) : Nat :=
  if x < 2 ^ 63 then x >>> k else ((x >>> k) ||| (word64 - 2 ^ (64 - k))) % word64

/-- Complement `~x` on a 64-bit word. -/
def not64 (x : Nat) : Nat := (word64 - 1) ^^^ (x % word64)

/-! ## removeTuple -/

/-- Embedding of `AntiCacheEvictionManager::removeTupleDoubleLinkedList`. -/
def removeTupleDoubleLinkedList (table : PersistentTable) (tuple_to_remove : Nat)
    (removal_id : Nat) : Bool × PersistentTable :=
  let tuples_in_chain := table.numTuplesInEvictionChain
  if tuples_in_chain ≤ 0 then (false, table) else
  let oldest_tuple_id := table.oldestTupleID
  -- we're removing the tail of the chain, i.e. the newest tuple
  let s1 : PersistentTable × Bool :=
    if table.newestTupleID = removal_id then
      if table.numTuplesInEvictionChain = 1 then
        ({ table with oldestTupleID := 0, newestTupleID := 0 }, true)
      else if table.numTuplesInEvictionChain = 2 then
        ({ table with newestTupleID := oldest_tuple_id, oldestTupleID := oldest_tuple_id }, true)
      else
        let previous_tuple_id := table.previousTupleInChain table.newestTupleID
        ({ table with newestTupleID := previous_tuple_id }, true)
    else (table, false)
  -- we're removing the head of the chain, i.e. the oldest tuple
  let s2 : PersistentTable × Bool :=
    if s1.1.oldestTupleID = removal_id ∧ s1.2 = false then
      if s1.1.numTuplesInEvictionChain = 1 then
        ({ s1.1 with oldestTupleID := 0, newestTupleID := 0 }, true)
      else if s1.1.numTuplesInEvictionChain = 2 then
        ({ s1.1 with newestTupleID := s1.1.newestTupleID,
                     oldestTupleID := s1.1.newestTupleID }, true)
      else
        let next_tuple_id := s1.1.nextTupleInChain s1.1.oldestTupleID
        ({ s1.1 with oldestTupleID := next_tuple_id }, true)
    else s1
  let s3 : PersistentTable × Bool :=
    if s2.2 = false then
      let previous_tuple_id := s2.1.previousTupleInChain tuple_to_remove
      let next_tuple_id := s2.1.nextTupleInChain tuple_to_remove
      -- point previous tuple in chain to next tuple
      let t := s2.1.setNextTupleInChain previous_tuple_id next_tuple_id
      -- point next tuple in chain to previous tuple
      let t := t.setPreviousTupleInChain next_tuple_id previous_tuple_id
      (t, true)
    else s2
  if s3.2 then
    (true, { s3.1 with numTuplesInEvictionChain := s3.1.numTuplesInEvictionChain - 1 })
  else (false, s3.1)

/-- Local variables of the scan in `removeTupleSingleLinkedList`. -/
structure ScanState where
  table : PersistentTable
  /-- Slot the temporary `tuple` handle has been moved to -/
  tuple : Nat
  current_tuple_id : Nat
  previous_tuple_id : Nat
  tuple_found : Bool
  iterations : Int

/-- The `while (!tuple_found && iterations < count)` loop of
`removeTupleSingleLinkedList`; `fuel` bounds the number of passes. -/
def scanChain (removal_id : Nat) : Nat → ScanState → ScanState
  | 0, s => s
  | fuel + 1, s =>
    if s.tuple_found = false ∧ s.iterations < s.table.numTuplesInEvictionChain then
      if s.current_tuple_id = removal_id then
        -- we've found the tuple we want to remove
        let next_tuple_id := s.table.nextTupleInChain s.tuple
        let tuple := s.previous_tuple_id
        { s with
          table := s.table.setNextTupleInChain tuple next_tuple_id
          tuple := tuple
          tuple_found := true }
      else
        -- advance pointers
        let previous_tuple_id := s.current_tuple_id
        let current_tuple_id := s.table.nextTupleInChain s.tuple
        scanChain removal_id fuel
          { s with
            previous_tuple_id := previous_tuple_id
            current_tuple_id := current_tuple_id
            tuple := current_tuple_id
            iterations := s.iterations + 1 }
    else s

/-- Embedding of `AntiCacheEvictionManager::removeTupleSingleLinkedList`.  The scan
makes at most `count` passes, which is the fuel it is given. -/
def removeTupleSingleLinkedList (table : PersistentTable) (removal_id : Nat) :
    Bool × PersistentTable :=
  let tuples_in_chain := table.numTuplesInEvictionChain
  if tuples_in_chain ≤ 0 then (false, table) else
  let previous_tuple_id := 0
  let current_tuple_id := table.oldestTupleID
  let newest_tuple_id := table.newestTupleID
  let tuple := current_tuple_id
  -- we're removing the head of the chain, i.e. the oldest tuple
  let s1 : PersistentTable × Bool :=
    if table.oldestTupleID = removal_id then
      if table.numTuplesInEvictionChain = 1 then
        ({ table with oldestTupleID := 0, newestTupleID := 0 }, true)
      else
        let next_tuple_id := table.nextTupleInChain tuple
        ({ table with oldestTupleID := next_tuple_id }, true)
    else (table, false)
  let s2 := scanChain removal_id s1.1.numTuplesInEvictionChain.toNat
    { table := s1.1, tuple := tuple, current_tuple_id := current_tuple_id,
      previous_tuple_id := previous_tuple_id, tuple_found := s1.2, iterations := 0 }
  let s3 : PersistentTable × Bool :=
    if s2.current_tuple_id = newest_tuple_id ∧ s2.tuple_found = false then
      if s2.current_tuple_id = removal_id then
        -- set the previous tuple pointer to 0 since it is now the back of the chain
        let t := s2.table.setNextTupleInChain s2.previous_tuple_id 0
        ({ t with newestTupleID := s2.previous_tuple_id }, true)
      else (s2.table, s2.tuple_found)
    else (s2.table, s2.tuple_found)
  if s3.2 then
    (true, { s3.1 with numTuplesInEvictionChain := tuples_in_chain - 1 })
  else (false, s3.1)

/-- Embedding of `AntiCacheEvictionManager::removeTuple` (compiled for the LRU builds only). -/
def removeTuple (cfg : BuildConfig) (table : PersistentTable) (tuple : Nat) :
    Bool × PersistentTable :=
  let current_tuple_id := getTupleID tuple
  if cfg.ANTICACHE_REVERSIBLE_LRU then
    removeTupleDoubleLinkedList table tuple current_tuple_id.toNat
  else
    removeTupleSingleLinkedList table current_tuple_id.toNat

/-! ## updateUnevictedTuple and updateTuple -/

/-- Embedding of `AntiCacheEvictionManager::updateUnevictedTuple`: insert the
tuple at the front of the chain, next for eviction.  The nesting of the
branches is that of the preprocessor conditionals of the source. -/
def updateUnevictedTuple (cfg : BuildConfig) (table : PersistentTable) (tuple : Nat) :
    Bool × PersistentTable :=
  -- no need to maintain chain for non-evictable tables or batch evicted tables
  if table.hasEvictedTable = false ∨ table.batchEvicted = true then (true, table) else
  if cfg.ANTICACHE_CLOCK then
    let current_tuple_id := (getTupleID tuple).toNat
    let clock_size := cfg.ANTICACHE_CLOCK_SIZE
    let clock_num := 64 / clock_size
    let clock_id := current_tuple_id / clock_num
    let clock_offset := current_tuple_id % clock_num
    let word := table.m_clock clock_id
    let word := word &&& not64 (shl64 (shl64 1 clock_size - 1) (clock_offset * clock_size))
    (true, { table with m_clock := setSlot table.m_clock clock_id word })
  else if cfg.ANTICACHE_TIMESTAMPS = false then
    if cfg.ANTICACHE_CLOCK = false then
      let current_tuple_id := getTupleID tuple
      if current_tuple_id < 0 then (false, table) else
      let current_tuple_id := current_tuple_id.toNat
      if table.numTuplesInEvictionChain = 0 then
        -- this is the first tuple in the chain
        (true, { table with
                 newestTupleID := current_tuple_id
                 oldestTupleID := current_tuple_id
                 numTuplesInEvictionChain := 1 })
      else
        -- update "next" pointer
        let t := table.setNextTupleInChain tuple table.oldestTupleID
        -- update "previous" pointer
        let t := if cfg.ANTICACHE_REVERSIBLE_LRU then
            t.setPreviousTupleInChain t.oldestTupleID current_tuple_id
          else t
        let t := { t with oldestTupleID := current_tuple_id }
        -- increment the number of tuples in the eviction chain
        let tuples_in_chain : Int := t.numTuplesInEvictionChain + 1
        (true, { t with numTuplesInEvictionChain := tuples_in_chain })
    else
      -- set timestamp to the coldest
      (true, table.setColdTimeStamp tuple)
  else (true, table)

/-- Embedding of `AntiCacheEvictionManager::updateTuple`.  `rand` is the value
the call of `rand()` returns (it is made only for an update in an LRU
build); the result is `none` when the `assert` of the source fails. -/
def updateTuple (cfg : BuildConfig) (table : PersistentTable) (tuple : Nat)
    (is_insert : Bool) (rand : Nat) : Option (Bool × PersistentTable) :=
  -- no need to maintain chain for non-evictable tables or batch evicted tables
  if table.hasEvictedTable = false ∨ table.batchEvicted = true then some (true, table) else
  if cfg.ANTICACHE_CLOCK then
    let current_tuple_id := (getTupleID tuple).toNat
    let clock_size := cfg.ANTICACHE_CLOCK_SIZE
    let clock_mask := (1 <<< clock_size) - 1
    let clock_num := 64 / clock_size
    let clock_id := current_tuple_id / clock_num
    let clock_offset := current_tuple_id % clock_num
    let clock_value := sar64 (table.m_clock clock_id) (clock_offset * clock_size) &&& clock_mask
    let clock_value := if clock_value ≠ clock_mask then clock_value + 1 else clock_value
    let word := table.m_clock clock_id
    let word := word &&& not64 (shl64 clock_mask (clock_offset * clock_size))
    let word := word ||| shl64 clock_value (clock_offset * clock_size)
    some (true, { table with m_clock := setSlot table.m_clock clock_id word })
  else if cfg.ANTICACHE_TIMESTAMPS = false then
    let SAMPLE_RATE : Nat := 100 -- aLRU sampling rate
    let update_tuple_id := (getTupleID tuple).toNat
    -- this is an update, so we have to remove the previous entry in the chain
    let removed : Option (Option PersistentTable) :=
      if is_insert = false then
        if rand % SAMPLE_RATE ≠ 0 then none
        else if cfg.NDEBUG = false ∧ ¬ (table.numTuplesInEvictionChain > 0) then some none
        else if cfg.ANTICACHE_REVERSIBLE_LRU then
          some (some (removeTupleDoubleLinkedList table tuple update_tuple_id).2)
        else
          some (some (removeTupleSingleLinkedList table update_tuple_id).2)
      else some (some table)
    match removed with
    | none => some (true, table)       -- the sample missed: `return true`
    | some none => none                -- the assertion failed
    | some (some table) =>
      if table.numTuplesInEvictionChain = 0 then
        -- this is the first tuple in the chain
        some (true, { table with
                      newestTupleID := update_tuple_id
                      oldestTupleID := update_tuple_id
                      numTuplesInEvictionChain := 1 })
      else
        let newest_tuple_id := table.newestTupleID
        if table.numTuplesInEvictionChain = 1 then
          -- update "next" pointer
          let t := table.setNextTupleInChain newest_tuple_id update_tuple_id
          -- update "previous" pointer
          let t := if cfg.ANTICACHE_REVERSIBLE_LRU then
              t.setPreviousTupleInChain update_tuple_id newest_tuple_id
            else t
          -- update oldest and newest pointers for the table
          some (true, { t with
                        newestTupleID := update_tuple_id
                        oldestTupleID := newest_tuple_id
                        numTuplesInEvictionChain := 2 })
        else
          -- update "next" pointer
          let t := table.setNextTupleInChain newest_tuple_id update_tuple_id
          -- update "previous" pointer
          let t := if cfg.ANTICACHE_REVERSIBLE_LRU then
              t.setPreviousTupleInChain update_tuple_id newest_tuple_id
            else t
          -- insert the tuple we're updating to be the newest
          let t := { t with newestTupleID := update_tuple_id }
          -- increment the number of tuples in the eviction chain
          let tuples_in_chain : Int := t.numTuplesInEvictionChain + 1
          some (true, { t with numTuplesInEvictionChain := tuples_in_chain })
  else
    -- set timestamp to the hotest
    some (true, table.setTimeStamp tuple)

/-! ## Well-formed chains -/

/-- The slots visited by following `link` from `start`: `n` slots, that is
`n - 1` steps. -/
def walk (link : Nat → Nat) : Nat → Nat → List Nat
  | _, 0 => []
  | start, n + 1 => start :: walk link (link start) n

/-- The LRU chain invariant of the data model for the member sequence `L`
(oldest first): `count` is the number of members, no tuple appears twice, an
empty chain has both endpoints at the sentinel 0, following `next` from
`oldest` for `count - 1` steps visits `L` and ends at `newest`, and in the
double linked form following `prev` from `newest` visits `L` backwards. -/
def WellFormedChain (reversible : Bool) (table : PersistentTable) (L : List Nat) : Prop :=
  table.numTuplesInEvictionChain = (L.length : Int) ∧
  L.Nodup ∧
  (L = [] → table.oldestTupleID = 0 ∧ table.newestTupleID = 0) ∧
  walk table.nextTupleInChain table.oldestTupleID L.length = L ∧
  (L ≠ [] → L.getLast? = some table.newestTupleID) ∧
  (reversible = true →
    walk table.previousTupleInChain table.newestTupleID L.length = L.reverse)

/-- The tracker maintains a chain for this table: it has an evicted table and
is not batch evicted. -/
def Tracked (table : PersistentTable) : Prop :=
  table.hasEvictedTable = true ∧ table.batchEvicted = false

/-- The build is one of the two LRU chain variants. -/
def IsLRU (cfg : BuildConfig) : Prop :=
  cfg.ANTICACHE_CLOCK = false ∧ cfg.ANTICACHE_TIMESTAMPS = false

instance (reversible : Bool) (table : PersistentTable) (L : List Nat) :
    Decidable (WellFormedChain reversible table L) := by
  unfold WellFormedChain; infer_instance

instance (table : PersistentTable) : Decidable (Tracked table) := by
  unfold Tracked; infer_instance

instance (cfg : BuildConfig) : Decidable (IsLRU cfg) := by
  unfold IsLRU; infer_instance

/-- Consecutive members are joined by `link`. -/
def Linked (link : Nat → Nat) (L : List Nat) : Prop :=
  L.Chain' (fun a b => link a = b)

/-- The chain invariant in the form the proofs use: endpoints are the first
and last member, and consecutive members are linked in both directions. -/
structure ChainInv (reversible : Bool) (table : PersistentTable) (L : List Nat) : Prop where
  count_eq : table.numTuplesInEvictionChain = (L.length : Int)
  nodup : L.Nodup
  sentinel : L = [] → table.oldestTupleID = 0 ∧ table.newestTupleID = 0
  head_eq : ∀ a ∈ L.head?, a = table.oldestTupleID
  last_eq : ∀ a ∈ L.getLast?, a = table.newestTupleID
  fwd : Linked table.nextTupleInChain L
  bwd : reversible = true → Linked table.previousTupleInChain L.reverse

/-- What the operations leave alone: `next` is rewritten only for members that
have a successor in the new chain `L`, `prev` only for members that have a
predecessor in it, and the guard flags are kept. -/
structure Frame (table table' : PersistentTable) (L : List Nat) : Prop where
  next_eq : ∀ x, x ∉ L.dropLast → table'.nextTupleInChain x = table.nextTupleInChain x
  prev_eq : ∀ x, x ∉ L.tail → table'.previousTupleInChain x = table.previousTupleInChain x
  evicted_eq : table'.hasEvictedTable = table.hasEvictedTable
  batch_eq : table'.batchEvicted = table.batchEvicted

/-- The `prev` links after a write that only the double linked build makes. -/
def prevAfter (cfg : BuildConfig) (table : PersistentTable) (slot value : Nat) : Nat → Nat :=
  if cfg.ANTICACHE_REVERSIBLE_LRU then setSlot table.previousTupleInChain slot value
  else table.previousTupleInChain

/-! ## Sequences of tracker calls -/

/-- One call into the tracker. -/
inductive TrackerOp where
  /-- The call `updateTuple(table, tuple, true)` -/
  | insert (tuple : Nat)
  /-- The call `updateUnevictedTuple(table, tuple)` -/
  | headInsert (tuple : Nat)
  /-- The call `updateTuple(table, tuple, false)` in which `rand()` returns `rand` -/
  | update (tuple : Nat) (rand : Nat)
  /-- The call `removeTuple(table, tuple)` -/
  | remove (tuple : Nat)

/-- Run one tracker call of the source; `none` when an `assert` fails. -/
def applyOp (cfg : BuildConfig) (table : PersistentTable) : TrackerOp → Option PersistentTable
  | .insert tuple => (updateTuple cfg table tuple true 0).map Prod.snd
  | .headInsert tuple => some (updateUnevictedTuple cfg table tuple).2
  | .update tuple rand => (updateTuple cfg table tuple false rand).map Prod.snd
  | .remove tuple => some (removeTuple cfg table tuple).2

/-- Run a sequence of tracker calls of the source, first call first. -/
def runOps (cfg : BuildConfig) : PersistentTable → List TrackerOp → Option PersistentTable
  | table, [] => some table
  | table, op :: ops => (applyOp cfg table op).bind (fun t => runOps cfg t ops)

/-- The member sequence the data model prescribes after one call on a chain
with members `L` (oldest first), `none` when the call is not admissible:
insertion of a non-member appends it, head insertion of a non-member puts
it in front, an update whose sample misses changes nothing, a sampled-in
update of a member moves it to the end, removal of a member deletes it. -/
def membersAfterOp (L : List Nat) : TrackerOp → Option (List Nat)
  | .insert tuple => if tuple ∈ L then none else some (L ++ [tuple])
  | .headInsert tuple => if tuple ∈ L then none else some (tuple :: L)
  | .update tuple rand =>
    if rand % 100 ≠ 0 then some L
    else if tuple ∈ L then some (L.erase tuple ++ [tuple]) else none
  | .remove tuple => if tuple ∈ L then some (L.erase tuple) else none

/-- The member sequence after a sequence of admissible calls. -/
def membersAfter : List Nat → List TrackerOp → Option (List Nat)
  | L, [] => some L
  | L, op :: ops => (membersAfterOp L op).bind (fun L' => membersAfter L' ops)

/-- Number of calls that register a tuple (insert or head insert). -/
def registrations : List TrackerOp → Nat
  | [] => 0
  | .insert _ :: ops => registrations ops + 1
  | .headInsert _ :: ops => registrations ops + 1
  | _ :: ops => registrations ops

/-- Number of calls that remove a tuple. -/
def removals : List TrackerOp → Nat
  | [] => 0
  | .remove _ :: ops => removals ops + 1
  | _ :: ops => removals ops

/-- A tracked table whose chain is empty and whose tuple headers are zeroed. -/
def emptyTable : PersistentTable :=
  { hasEvictedTable := true, batchEvicted := false, oldestTupleID := 0, newestTupleID := 0,
    numTuplesInEvictionChain := 0, nextTupleInChain := fun _ => 0,
    previousTupleInChain := fun _ => 0 }

/-- The fields of a table a chain of slots below `n` can be read from:
oldest, newest, count, and the `next` and `prev` links of slots `0 .. n-1`. -/
def PersistentTable.view (table : PersistentTable) (n : Nat) :
    Nat × Nat × Int × List Nat × List Nat :=
  (table.oldestTupleID, table.newestTupleID, table.numTuplesInEvictionChain,
    (List.range n).map table.nextTupleInChain, (List.range n).map table.previousTupleInChain)

/-- A tracked table with the given endpoints and count in which the links of
slot `i` are the `i`-th entries of `next` and `prev` (0 beyond the lists). -/
def tableOf (oldest newest : Nat) (count : Int) (next prev : List Nat) : PersistentTable :=
  { hasEvictedTable := true, batchEvicted := false, oldestTupleID := oldest,
    newestTupleID := newest, numTuplesInEvictionChain := count,
    nextTupleInChain := fun i => next.getD i 0,
    previousTupleInChain := fun i => prev.getD i 0 }

/-- The chain 1 alone. -/
def chain1 : PersistentTable := tableOf 1 1 1 [] []

/-- The chain 1, 2 (1 oldest), linked in both directions. -/
def chain12 : PersistentTable := tableOf 1 2 2 [0, 2] [0, 0, 1]

/-- The chain 1, 2, 3 (1 oldest), linked in both directions. -/
def chain123 : PersistentTable := tableOf 1 3 3 [0, 2, 3] [0, 0, 1, 2]

/-- The chain 1, 2 threaded through a table that has no evicted table. -/
def chain12NoStub : PersistentTable := { chain12 with hasEvictedTable := false }

/-! ## Clock counters -/

/-- The `w`-bit counter of tuple `i` in the clock array: field `i mod (64/w)`
of word `i / (64/w)`. -/
def clockCounter (w : Nat) (m_clock : Nat → Nat) (i : Nat) : Nat :=
  (m_clock (i / (64 / w)) >>> (i % (64 / w) * w)) % 2 ^ w

/-- Clock build with counters of `w` bits. -/
def clockBuild (w : Nat) : BuildConfig :=
  { ANTICACHE_CLOCK := true, ANTICACHE_CLOCK_SIZE := w,
    ANTICACHE_TIMESTAMPS := false, ANTICACHE_REVERSIBLE_LRU := false,
    NDEBUG := false }

/-- Number of `updateTuple` calls (insertions and updates) in a sequence of
tracker calls that name tuple `i`. -/
def touches (i : Nat) : List TrackerOp → Nat
  | [] => 0
  | .insert tuple :: ops => (if tuple = i then 1 else 0) + touches i ops
  | .update tuple _ :: ops => (if tuple = i then 1 else 0) + touches i ops
  | _ :: ops => touches i ops

/-- The sequence consists of `updateTuple` calls only. -/
def onlyUpdateTuple : List TrackerOp → Bool
  | [] => true
  | .insert _ :: ops => onlyUpdateTuple ops
  | .update _ _ :: ops => onlyUpdateTuple ops
  | _ :: _ => false

/-- Scenario S2 of the specification: 64 rows are inserted, then row `i` is
accessed `i mod 4` times. -/
def scenarioS2 : List TrackerOp :=
  (List.range 64).map TrackerOp.insert ++
    (List.range 64).flatMap (fun i => List.replicate (i % 4) (TrackerOp.update i 0))

/-- The words of the clock array after the field of tuple `i` has been
overwritten by `v`, bit by bit: the bits of that field are those of `v`, every
other bit of every word is as before. -/
def FieldWritten (w : Nat) (m m' : Nat → Nat) (i v : Nat) : Prop :=
  ∀ j b, (m' j).testBit b =
    if j = i / (64 / w) ∧ i % (64 / w) * w ≤ b ∧ b < i % (64 / w) * w + w
    then v.testBit (b - i % (64 / w) * w) else (m j).testBit b

/-! ## Eviction: collaborators

`evictBlockToDisk` and `evictBlockToDiskInBatch` drive classes that are not
part of this source file: the eviction iterator, the block builder, the block
store, the evicted table and the indexes of the table.  They are modelled by
what the specification says of them; every call made on them is recorded, in
order, in a trace. -/

/-- The admission ceiling `MAX_EVICTED_TUPLE_SIZE` of the source. -/
def MAX_EVICTED_TUPLE_SIZE : Int := 2500

/-- Conversion to `int32_t`. -/
def toInt32 (x : Int) : Int := (x + 2 ^ 31) % 2 ^ 32 - 2 ^ 31

/-- Value of a conversion to `int16_t`, the type in which the eviction and
`readEvictedBlock` hold a block id. -/
def toInt16 (x : Int) : Int := (x + 2 ^ 15) % 2 ^ 16 - 2 ^ 15

/-- A tuple as the eviction code sees it. -/
structure TableTuple where
  /-- Value of `table->getTupleID(tuple.address())` -/
  id : Nat
  /-- Value of `tuple.isEvicted()` when the tuple is handed out -/
  isEvicted : Bool
  /-- Value of `tuple.tupleLength()` -/
  tupleLength : Int
  /-- Number of bytes `block.addTuple(tuple)` appends to the block -/
  serializedSize : Nat
  /-- Value of `tuple.getNonInlinedMemorySize()` -/
  nonInlinedMemorySize : Nat
  /-- Value of the primary key column, `peekBigInt(tuple.getNValue(columnIndex))` -/
  pkey : Int
  deriving DecidableEq

/-- A row of an evicted table: the stub of one evicted tuple. -/
structure StubRow where
  block_id : Int
  offset : Int
  evicted : Bool
  deriving DecidableEq

/-- Modelled from the spec: `BerkeleyDBBlock` is not in this source file.  A
block is "a header declaring (N_tables, for each table: name and tuple-count),
followed by concatenated serialized tuples"; the builder "tracks size". -/
structure BerkeleyDBBlock where
  blockId : Int
  tableNames : List String
  /-- Tuple counts of the header, one per table -/
  headerCounts : List Int
  /-- The tuples serialized into the body, in order, each with the name of its table -/
  tuples : List (String × TableTuple)
  /-- Value of `getSerializedSize()` -/
  serializedSize : Int
  deriving DecidableEq

/-- A call made on a collaborator, or a write to a tuple outside the tracker. -/
inductive Event where
  /-- The call `evict_itr.reserve(bytes)` -/
  | reserve (bytes : Int)
  /-- The call `evict_itr.initClock(position)` -/
  | initClock (position : Int)
  /-- The call `antiCacheDB->nextBlockId()` and the id it returned -/
  | nextBlockId (id : Int)
  /-- The call `insertEvictedTuple(row)` on the evicted table of `table`, returning `address` -/
  | insertEvictedTuple (table : String) (row : StubRow) (address : Nat)
  /-- The call `setEntryToNewAddressForAllIndexes(&tuple, address)` on `table` -/
  | setEntryToNewAddressForAllIndexes (table : String) (tuple : Nat) (address : Nat)
  /-- The call `block.addTuple(tuple)` -/
  | addTuple (table : String) (tuple : Nat)
  /-- The call `table->updateStringMemory(delta)` -/
  | updateStringMemory (table : String) (delta : Int)
  /-- The call `tuple.freeObjectColumns()` -/
  | freeObjectColumns (table : String) (tuple : Nat)
  /-- The call `table->deleteTupleStorage(tuple)` -/
  | deleteTupleStorage (table : String) (tuple : Nat)
  /-- The call `tuple.setEvictedTrue()` on a live tuple of `table` -/
  | setEvictedTrue (table : String) (tuple : Nat)
  /-- The call `block.writeHeader(counts)` -/
  | writeHeader (counts : List Int)
  /-- The call `antiCacheDB->writeBlock(name, block_id, num_tuples, data, size)` -/
  | writeBlock (name : String) (block_id : Int) (num_tuples : Int) (data : BerkeleyDBBlock)
      (size : Int)
  /-- The call `antiCacheDB->flushBlocks()` -/
  | flushBlocks
  /-- The call `antiCacheDB->readBlock(name, block_id)` -/
  | readBlock (name : String) (block_id : Int)
  /-- The call `tableInBlock->unevictTuple(&in, j, merge_tuple_offset)` on `table` -/
  | unevictTuple (table : String) (j : Int) (merge_tuple_offset : Int)
  /-- The call `deserializeWithHeaderFrom(in)` made for `table`: the serialized
  tuple at the position of the stream, given by the slot it was serialized
  from, and the number of bytes read -/
  | deserializeWithHeaderFrom (table : String) (tuple : Nat) (bytes : Int)
  deriving DecidableEq

/-- A row of the result table of an eviction call. -/
structure ResultRow where
  TABLE_NAME : String
  ANTICACHE_TUPLES_EVICTED : Int
  ANTICACHE_BLOCKS_EVICTED : Int
  ANTICACHE_BYTES_EVICTED : Int
  deriving DecidableEq

/-- What does not change during a call: the size of a block header for given
table names, and the foreign key index of the child table, which lists the
child tuples stored under a key. -/
structure Env where
  headerSize : List String → Nat
  foreignKeyIndex : Int → List TableTuple

/-- The table an eviction call works on together with everything it reaches. -/
structure World where
  table : PersistentTable
  /-- The child table of a parent/child eviction -/
  childTable : PersistentTable := emptyTable
  /-- Modelled from the spec: the eviction iterator is not in this source
  file.  It is "single-pass and not restartable" and yields tuples "in
  coldest-first order"; here it is the sequence of results its `next` calls
  will give, `none` standing for a call that returns false, and `hasNext` is
  true while the sequence is not exhausted. -/
  iterator : List (Option TableTuple) := []
  /-- Rows of the evicted table of `table` -/
  evictedTable : List StubRow := []
  /-- Rows of the evicted table of `childTable` -/
  childEvictedTable : List StubRow := []
  /-- Modelled from the spec: the block id the block store hands out next;
  ids are "allocated monotonically by the block store".  The source keeps an
  id in an `int16_t`, which the counter here does not wrap to: the ids of the
  model are the ids of the program as long as those handed out lie between
  `-2^15` and `2^15 - 1`, and where a result depends on two ids being
  different that range is a hypothesis. -/
  nextBlockId : Int := 0
  /-- Calls made so far, oldest first -/
  trace : List Event := []
  /-- Rows of `m_evictResultTable` -/
  evictResultTable : List ResultRow := []

/-- Record a call. -/
def World.log (w : World) (e : Event) : World := { w with trace := w.trace ++ [e] }

/-- Modelled from the spec: `init(block_size, table_names, block_id)` "writes
a provisional header". -/
def initializeBlock (env : Env) (tableNames : List String) (block_id : Int)
    (num_tuples : Int) : BerkeleyDBBlock :=
  { blockId := block_id, tableNames := tableNames,
    headerCounts := tableNames.map (fun _ => num_tuples), tuples := [],
    serializedSize := env.headerSize tableNames }

/-- Modelled from the spec: `add_tuple(tuple)` "appends the serialized row". -/
def BerkeleyDBBlock.addTuple (block : BerkeleyDBBlock) (table : String) (tuple : TableTuple) :
    BerkeleyDBBlock :=
  { block with tuples := block.tuples ++ [(table, tuple)],
               serializedSize := block.serializedSize + tuple.serializedSize }

/-- Modelled from the spec: `finish(counts_per_table)` "rewrites the header
with exact counts"; the size of the block does not change. -/
def BerkeleyDBBlock.writeHeader (block : BerkeleyDBBlock) (counts : List Int) :
    BerkeleyDBBlock :=
  { block with headerCounts := counts }

/-! ## evictBlockToDisk -/

/-- The build maintains an LRU chain (neither timestamps nor clock). -/
def BuildConfig.hasChain (cfg : BuildConfig) : Bool :=
  !cfg.ANTICACHE_TIMESTAMPS && !cfg.ANTICACHE_CLOCK

/-- Local variables of the `while` loop that fills one block in
`evictBlockToDisk`. -/
structure FillState where
  world : World
  block : BerkeleyDBBlock
  num_tuples_evicted : Int
  tuple_length : Int

/-- The body of the `while` loop of `evictBlockToDisk` for a tuple the
iterator has handed out. -/
def evictTuple (cfg : BuildConfig) (block_id : Int) (s : FillState) (tuple : TableTuple) :
    FillState :=
  let w := s.world
  -- If this is the first tuple, then we need to allocate all of the memory
  let tuple_length := if s.tuple_length = -1 then tuple.tupleLength else s.tuple_length
  -- remove the tuple from the eviction chain
  let table := if cfg.hasChain then (removeTuple cfg w.table tuple.id).2 else w.table
  let w := { w with table := table }
  if tuple.isEvicted then
    -- "is already evicted. Skipping": `continue`
    { s with world := w, tuple_length := tuple_length }
  else
    -- Populate the evicted_tuple with the block id and tuple offset
    let evicted_tuple : StubRow :=
      { block_id := block_id, offset := s.num_tuples_evicted, evicted := true }
    -- Then add it to this table's EvictedTable
    let evicted_tuple_address := w.evictedTable.length
    let w := { w with evictedTable := w.evictedTable ++ [evicted_tuple] }
    let w := w.log (.insertEvictedTuple table.name evicted_tuple evicted_tuple_address)
    -- Change all of the indexes to point to our new evicted tuple
    let w := w.log (.setEntryToNewAddressForAllIndexes table.name tuple.id evicted_tuple_address)
    let block := s.block.addTuple table.name tuple
    let w := w.log (.addTuple table.name tuple.id)
    -- At this point it's safe for us to delete this mofo
    let w := w.log (.updateStringMemory table.name (- (tuple.nonInlinedMemorySize : Int)))
    let w := w.log (.freeObjectColumns table.name tuple.id)
    let w := w.log (.deleteTupleStorage table.name tuple.id)
    { world := w, block := block, num_tuples_evicted := s.num_tuples_evicted + 1,
      tuple_length := tuple_length }

/-- The loop `while (evict_itr.hasNext() && (block.getSerializedSize() +
MAX_EVICTED_TUPLE_SIZE < block_size))` of `evictBlockToDisk`, run on what the
iterator still holds; the iterator is left with what has not been handed out. -/
def fillBlock (cfg : BuildConfig) (block_size : Int) (block_id : Int) :
    List (Option TableTuple) → FillState → FillState
  | [], s => { s with world := { s.world with iterator := [] } }
  | item :: rest, s =>
    if s.block.serializedSize + MAX_EVICTED_TUPLE_SIZE < block_size then
      match item with
      | none =>
        -- `if(!evict_itr.next(tuple)) break;`
        { s with world := { s.world with iterator := rest } }
      | some tuple => fillBlock cfg block_size block_id rest (evictTuple cfg block_id s tuple)
    else { s with world := { s.world with iterator := item :: rest } }

/-- Local variables of the `for` loop over the blocks in `evictBlockToDisk`. -/
structure EvictState where
  world : World
  tuple_length : Int
  needs_flush : Bool
  m_tuplesEvicted : Int
  m_blocksEvicted : Int
  m_bytesEvicted : Int
  m_tuplesWritten : Int
  m_blocksWritten : Int
  m_bytesWritten : Int

/-- The loop `for(int i = 0; i < num_blocks; i++)` of `evictBlockToDisk` with
the given number of passes still to make. -/
def evictBlocks (env : Env) (cfg : BuildConfig) (block_size : Int) :
    Nat → EvictState → EvictState
  | 0, s => s
  | n + 1, s =>
    -- get a unique block id from the executorContext
    let block_id := s.world.nextBlockId
    let w := { s.world with nextBlockId := s.world.nextBlockId + 1 }
    let w := w.log (.nextBlockId block_id)
    let num_tuples_evicted : Int := 0
    let block := initializeBlock env [w.table.name] block_id num_tuples_evicted
    let initSize := block.serializedSize
    let f := fillBlock cfg block_size block_id w.iterator
      { world := w, block := block, num_tuples_evicted := num_tuples_evicted,
        tuple_length := s.tuple_length }
    let w := f.world
    -- Only write out a bock if there are tuples in it
    if f.num_tuples_evicted ≥ 0 then
      let block := f.block.writeHeader [f.num_tuples_evicted]
      let w := w.log (.writeHeader [f.num_tuples_evicted])
      let bytesWritten := block.serializedSize - initSize
      let w := w.log
        (.writeBlock w.table.name block_id f.num_tuples_evicted block block.serializedSize)
      -- Update Stats
      let m_tuplesEvicted := s.m_tuplesEvicted + f.num_tuples_evicted
      let m_blocksEvicted := s.m_blocksEvicted + 1
      let m_bytesEvicted := s.m_bytesEvicted + bytesWritten
      let m_tuplesWritten := s.m_tuplesWritten + f.num_tuples_evicted
      let m_blocksWritten := s.m_blocksWritten + 1
      let m_bytesWritten := s.m_bytesWritten + bytesWritten
      let table := { w.table with
        tuplesEvicted := m_tuplesEvicted, blocksEvicted := m_blocksEvicted,
        bytesEvicted := m_bytesEvicted, tuplesWritten := m_tuplesWritten,
        blocksWritten := m_blocksWritten, bytesWritten := m_bytesWritten }
      evictBlocks env cfg block_size n
        { world := { w with table := table }, tuple_length := f.tuple_length,
          needs_flush := true,
          m_tuplesEvicted := m_tuplesEvicted, m_blocksEvicted := m_blocksEvicted,
          m_bytesEvicted := m_bytesEvicted, m_tuplesWritten := m_tuplesWritten,
          m_blocksWritten := m_blocksWritten, m_bytesWritten := m_bytesWritten }
    else
      -- "No tuples were evicted": `break`
      { s with world := w, tuple_length := f.tuple_length }

/-- Embedding of `AntiCacheEvictionManager::evictBlockToDisk`.  The result is
the world the call leaves behind and either its return value or the message
of the fatal exception it throws. -/
def evictBlockToDisk (env : Env) (cfg : BuildConfig) (w : World) (block_size : Int)
    (num_blocks : Int) : World × Except String Bool :=
  if w.table.hasEvictedTable = false then
    (w, .error "Trying to evict block from table before its EvictedTable has been initialized")
  else
    -- Iterate through the table and pluck out tuples to put in our block
    let w := if cfg.ANTICACHE_TIMESTAMPS then w.log (.reserve (block_size * num_blocks)) else w
    let w := if cfg.ANTICACHE_CLOCK then w.log (.initClock w.table.m_clockPosition) else w
    let s := evictBlocks env cfg block_size num_blocks.toNat
      { world := w, tuple_length := -1, needs_flush := false,
        m_tuplesEvicted := w.table.tuplesEvicted, m_blocksEvicted := w.table.blocksEvicted,
        m_bytesEvicted := w.table.bytesEvicted, m_tuplesWritten := w.table.tuplesWritten,
        m_blocksWritten := w.table.blocksWritten, m_bytesWritten := w.table.bytesWritten }
    -- Tell the AntiCacheDB to flush our new blocks out to disk
    let w := if s.needs_flush then s.world.log .flushBlocks else s.world
    (w, .ok true)

/-- Embedding of `AntiCacheEvictionManager::evictBlock`: the rows of the result
table, or the message of the fatal exception. -/
def evictBlock (env : Env) (cfg : BuildConfig) (w : World) (blockSize : Int)
    (numBlocks : Int) : World × Except String (List ResultRow) :=
  let lastTuplesEvicted := toInt32 w.table.tuplesEvicted
  let lastBlocksEvicted := toInt32 w.table.blocksEvicted
  let lastBytesEvicted := w.table.bytesEvicted
  match evictBlockToDisk env cfg w blockSize numBlocks with
  | (w, .error message) => (w, .error message)
  | (w, .ok false) => (w, .error "Failed to evict tuples from table")
  | (w, .ok true) =>
    let tuplesEvicted := toInt32 (w.table.tuplesEvicted - lastTuplesEvicted)
    let blocksEvicted := toInt32 (w.table.blocksEvicted - lastBlocksEvicted)
    let bytesEvicted := w.table.bytesEvicted - lastBytesEvicted
    -- `m_evictResultTable->deleteAllTuples(false)`, then one `insertTuple`
    let rows : List ResultRow :=
      [{ TABLE_NAME := w.table.name,
         ANTICACHE_TUPLES_EVICTED := toInt32 tuplesEvicted,
         ANTICACHE_BLOCKS_EVICTED := toInt32 blocksEvicted,
         ANTICACHE_BYTES_EVICTED := toInt32 bytesEvicted }]
    ({ w with evictResultTable := rows }, .ok rows)

/-! ## evictBlockToDiskInBatch -/

/-- Local variables of the `while` loop over the parent tuples of one block in
`evictBlockToDiskInBatch`. -/
structure BatchFillState where
  world : World
  block : BerkeleyDBBlock
  num_tuples_evicted : Int
  tuple_length : Int
  parentTuples : Int
  childTuplesToBeEvicted : List TableTuple
  childTuplesSize : Int

/-- The loop `while (!(childTuple = foreignKeyIndex->nextValueAtKey()).isNullTuple())`
over the child tuples stored under the key of a parent: the buffer, the
reserved size and whether the loop has set `nomore`. -/
def bufferChildren (block_size : Int) (serializedSize : Int) :
    List TableTuple → List TableTuple × Int → List TableTuple × Int × Bool
  | [], acc => (acc.1, acc.2, false)
  | childTuple :: more, acc =>
    let childTuplesSize := acc.2 + MAX_EVICTED_TUPLE_SIZE
    if serializedSize + MAX_EVICTED_TUPLE_SIZE + childTuplesSize ≥ block_size then
      -- "Size of block exceeds!!in child": `nomore = true; break;`
      (acc.1, childTuplesSize, true)
    else bufferChildren block_size serializedSize more (acc.1 ++ [childTuple], childTuplesSize)

/-- The loop `while (evict_itr.hasNext())` of `evictBlockToDiskInBatch`, run on
what the iterator still holds. -/
def fillParents (env : Env) (cfg : BuildConfig) (block_size : Int) (block_id : Int) :
    List (Option TableTuple) → BatchFillState → BatchFillState
  | [], s => { s with world := { s.world with iterator := [] } }
  | none :: rest, s =>
    -- `if(!evict_itr.next(tuple)) break;`
    { s with world := { s.world with iterator := rest } }
  | some tuple :: rest, s =>
    let w := { s.world with iterator := rest }
    let tuple_length := if s.tuple_length = -1 then tuple.tupleLength else s.tuple_length
    -- value of the foreign key column
    let pkeyValue := tuple.pkey
    let values := env.foreignKeyIndex pkeyValue
    let found := !values.isEmpty
    let buffered : List TableTuple × Int × Bool :=
      if found then bufferChildren block_size s.block.serializedSize values ([], s.childTuplesSize)
      else ([], s.childTuplesSize, false)
    let buffer := buffered.1
    let childTuplesSize := buffered.2.1
    let nomore := buffered.2.2
    if nomore then
      { s with world := w, tuple_length := tuple_length, childTuplesSize := childTuplesSize }
    else
      let childTuplesToBeEvicted := s.childTuplesToBeEvicted ++ buffer
      if s.block.serializedSize + MAX_EVICTED_TUPLE_SIZE + childTuplesSize ≥ block_size then
        -- "Size of block exceeds!!": `break`
        { s with world := w, tuple_length := tuple_length, childTuplesSize := childTuplesSize,
                 childTuplesToBeEvicted := childTuplesToBeEvicted }
      else
        let parentTuples := s.parentTuples + 1
        -- remove the tuple from the eviction chain
        let table := if cfg.hasChain then (removeTuple cfg w.table tuple.id).2 else w.table
        let w := { w with table := table }
        if tuple.isEvicted then
          -- "is already evicted. Skipping": `continue`
          fillParents env cfg block_size block_id rest
            { s with world := w, tuple_length := tuple_length, parentTuples := parentTuples,
                     childTuplesToBeEvicted := childTuplesToBeEvicted,
                     childTuplesSize := childTuplesSize }
        else
          let w := w.log (.setEvictedTrue table.name tuple.id)
          let evicted_tuple : StubRow :=
            { block_id := block_id, offset := s.num_tuples_evicted, evicted := true }
          -- Then add it to this table's EvictedTable
          let evicted_tuple_address := w.evictedTable.length
          let w := { w with evictedTable := w.evictedTable ++ [evicted_tuple] }
          let w := w.log (.insertEvictedTuple table.name evicted_tuple evicted_tuple_address)
          -- Change all of the indexes to point to our new evicted tuple
          let w := w.log
            (.setEntryToNewAddressForAllIndexes table.name tuple.id evicted_tuple_address)
          let block := s.block.addTuple table.name tuple
          let w := w.log (.addTuple table.name tuple.id)
          -- At this point it's safe for us to delete this mofo
          let w := w.log (.freeObjectColumns table.name tuple.id)
          let w := w.log (.deleteTupleStorage table.name tuple.id)
          let num_tuples_evicted := s.num_tuples_evicted + 1
          let s' : BatchFillState :=
            { world := w, block := block, num_tuples_evicted := num_tuples_evicted,
              tuple_length := tuple_length, parentTuples := parentTuples,
              childTuplesToBeEvicted := childTuplesToBeEvicted,
              childTuplesSize := childTuplesSize }
          if block.serializedSize + childTuplesSize ≥ block_size then s'
          else fillParents env cfg block_size block_id rest s'

/-- Local variables of the loop over `childTuplesToBeEvicted`. -/
structure ChildFillState where
  world : World
  block : BerkeleyDBBlock
  num_tuples_evicted : Int
  childTuples : Int

/-- The loop over `childTuplesToBeEvicted` of `evictBlockToDiskInBatch`.  The
source does not test the evicted table of the child: it calls
`child_evictedTable->tempTuple()` and `insertEvictedTuple` on it for every
child tuple, whatever `childTable->getEvictedTable()` has returned.  The loop
is embedded as it runs for a child table that has an evicted table; where a
result is stated of the rows inserted for the child, that the child has an
evicted table is a hypothesis. -/
def evictChildren (block_id : Int) : List TableTuple → ChildFillState → ChildFillState
  | [], s => s
  | childTuple :: more, s =>
    let w := s.world
    let num_tuples_evicted := s.num_tuples_evicted + 1
    -- removeTuple(childTable, &childTuple) is commented out in the source
    let w := w.log (.setEvictedTrue w.childTable.name childTuple.id)
    let child_evicted_tuple : StubRow :=
      { block_id := block_id, offset := s.childTuples, evicted := true }
    -- Then add it to this table's EvictedTable
    let evicted_tuple_address := w.childEvictedTable.length
    let w := { w with childEvictedTable := w.childEvictedTable ++ [child_evicted_tuple] }
    let w := w.log
      (.insertEvictedTuple w.childTable.name child_evicted_tuple evicted_tuple_address)
    -- Change all of the indexes to point to our new evicted tuple
    let w := w.log
      (.setEntryToNewAddressForAllIndexes w.childTable.name childTuple.id evicted_tuple_address)
    let block := s.block.addTuple w.childTable.name childTuple
    let w := w.log (.addTuple w.childTable.name childTuple.id)
    let w := w.log (.freeObjectColumns w.childTable.name childTuple.id)
    let w := w.log (.deleteTupleStorage w.childTable.name childTuple.id)
    evictChildren block_id more
      { world := w, block := block, num_tuples_evicted := num_tuples_evicted,
        childTuples := s.childTuples + 1 }

/-- Local variables of the `for` loop over the blocks in
`evictBlockToDiskInBatch`. -/
structure BatchEvictState where
  world : World
  tuple_length : Int
  needs_flush : Bool
  m_tuplesEvicted : Int
  m_blocksEvicted : Int
  m_bytesEvicted : Int
  m_tuplesWritten : Int
  m_blocksWritten : Int
  m_bytesWritten : Int
  child_tuplesEvicted : Int
  child_blocksEvicted : Int
  child_bytesEvicted : Int
  child_tuplesWritten : Int
  child_blocksWritten : Int
  child_bytesWritten : Int

/-- The loop `for(int i = 0; i < num_blocks; i++)` of `evictBlockToDiskInBatch`
with the given number of passes still to make. -/
def evictBlocksInBatch (env : Env) (cfg : BuildConfig) (block_size : Int) :
    Nat → BatchEvictState → BatchEvictState
  | 0, s => s
  | n + 1, s =>
    -- get a unique block id from the executorContext
    let block_id := s.world.nextBlockId
    let w := { s.world with nextBlockId := s.world.nextBlockId + 1 }
    let w := w.log (.nextBlockId block_id)
    let num_tuples_evicted : Int := 0
    let block := initializeBlock env [w.table.name, w.childTable.name] block_id
      num_tuples_evicted
    let initSize := block.serializedSize
    let f := fillParents env cfg block_size block_id w.iterator
      { world := w, block := block, num_tuples_evicted := num_tuples_evicted,
        tuple_length := s.tuple_length, parentTuples := 0, childTuplesToBeEvicted := [],
        childTuplesSize := 0 }
    let parentBytes := f.block.serializedSize - initSize
    -- iterate through the child tuples now
    let c := evictChildren block_id f.childTuplesToBeEvicted
      { world := f.world, block := f.block, num_tuples_evicted := f.num_tuples_evicted,
        childTuples := 0 }
    let childBytes := c.block.serializedSize - parentBytes - initSize
    let block := c.block.writeHeader [f.parentTuples, c.childTuples]
    let w := c.world.log (.writeHeader [f.parentTuples, c.childTuples])
    -- Only write out a bock if there are tuples in it
    if c.num_tuples_evicted ≥ 0 then
      let w := w.log
        (.writeBlock w.table.name block_id c.num_tuples_evicted block block.serializedSize)
      -- Update Stats
      let m_tuplesEvicted := s.m_tuplesEvicted + (c.num_tuples_evicted - c.childTuples)
      let m_blocksEvicted := s.m_blocksEvicted + 1
      let m_bytesEvicted := s.m_bytesEvicted + parentBytes
      let m_tuplesWritten := s.m_tuplesWritten + (c.num_tuples_evicted - c.childTuples)
      let m_blocksWritten := s.m_blocksWritten + 1
      let m_bytesWritten := s.m_bytesWritten + parentBytes
      let table := { w.table with
        tuplesEvicted := m_tuplesEvicted, blocksEvicted := m_blocksEvicted,
        bytesEvicted := m_bytesEvicted, tuplesWritten := m_tuplesWritten,
        blocksWritten := m_blocksWritten, bytesWritten := m_bytesWritten }
      -- child table stats
      let child_tuplesEvicted := s.child_tuplesEvicted + c.childTuples
      let child_blocksEvicted := s.child_blocksEvicted + 1
      let child_bytesEvicted := s.child_bytesEvicted + childBytes
      let child_tuplesWritten := s.child_tuplesWritten + c.childTuples
      let child_blocksWritten := s.child_blocksWritten + 1
      let child_bytesWritten := s.child_bytesWritten + childBytes
      let childTable := { w.childTable with
        tuplesEvicted := child_tuplesEvicted, blocksEvicted := child_blocksEvicted,
        bytesEvicted := child_bytesEvicted, tuplesWritten := child_tuplesWritten,
        blocksWritten := child_blocksWritten, bytesWritten := child_bytesWritten }
      evictBlocksInBatch env cfg block_size n
        { world := { w with table := table, childTable := childTable },
          tuple_length := f.tuple_length, needs_flush := true,
          m_tuplesEvicted := m_tuplesEvicted, m_blocksEvicted := m_blocksEvicted,
          m_bytesEvicted := m_bytesEvicted, m_tuplesWritten := m_tuplesWritten,
          m_blocksWritten := m_blocksWritten, m_bytesWritten := m_bytesWritten,
          child_tuplesEvicted := child_tuplesEvicted,
          child_blocksEvicted := child_blocksEvicted,
          child_bytesEvicted := child_bytesEvicted,
          child_tuplesWritten := child_tuplesWritten,
          child_blocksWritten := child_blocksWritten,
          child_bytesWritten := child_bytesWritten }
    else
      -- "No tuples were evicted": the loop goes on
      evictBlocksInBatch env cfg block_size n
        { s with world := w, tuple_length := f.tuple_length }

/-- Embedding of `AntiCacheEvictionManager::evictBlockToDiskInBatch`. -/
def evictBlockToDiskInBatch (env : Env) (cfg : BuildConfig) (w : World) (block_size : Int)
    (num_blocks : Int) : World × Except String Bool :=
  if w.table.hasEvictedTable = false then
    (w, .error "Trying to evict block from table before its EvictedTable has been initialized")
  else
    -- Iterate through the table and pluck out tuples to put in our block
    let w := if cfg.ANTICACHE_TIMESTAMPS then
        w.log (.reserve (Int.tdiv (block_size * num_blocks) 2))
      else w
    let w := if cfg.ANTICACHE_CLOCK then w.log (.initClock w.table.m_clockPosition) else w
    let s := evictBlocksInBatch env cfg block_size num_blocks.toNat
      { world := w, tuple_length := -1, needs_flush := false,
        m_tuplesEvicted := w.table.tuplesEvicted, m_blocksEvicted := w.table.blocksEvicted,
        m_bytesEvicted := w.table.bytesEvicted, m_tuplesWritten := w.table.tuplesWritten,
        m_blocksWritten := w.table.blocksWritten, m_bytesWritten := w.table.bytesWritten,
        child_tuplesEvicted := w.childTable.tuplesEvicted,
        child_blocksEvicted := w.childTable.blocksEvicted,
        child_bytesEvicted := w.childTable.bytesEvicted,
        child_tuplesWritten := w.childTable.tuplesWritten,
        child_blocksWritten := w.childTable.blocksWritten,
        child_bytesWritten := w.childTable.bytesWritten }
    -- Tell the AntiCacheDB to flush our new blocks out to disk
    let w := if s.needs_flush then s.world.log .flushBlocks else s.world
    (w, .ok true)

/-- Embedding of `AntiCacheEvictionManager::evictBlockInBatch`: the rows of the
result table, the parent's first, or the message of the fatal exception. -/
def evictBlockInBatch (env : Env) (cfg : BuildConfig) (w : World) (blockSize : Int)
    (numBlocks : Int) : World × Except String (List ResultRow) :=
  let lastTuplesEvicted := toInt32 w.table.tuplesEvicted
  let lastBlocksEvicted := toInt32 w.table.blocksEvicted
  let lastBytesEvicted := w.table.bytesEvicted
  let childLastTuplesEvicted := toInt32 w.childTable.tuplesEvicted
  let childLastBlocksEvicted := toInt32 w.childTable.blocksEvicted
  let childLastBytesEvicted := w.childTable.bytesEvicted
  match evictBlockToDiskInBatch env cfg w blockSize numBlocks with
  | (w, .error message) => (w, .error message)
  | (w, .ok false) => (w, .error "Failed to evict tuples from table")
  | (w, .ok true) =>
    let tuplesEvicted := toInt32 (w.table.tuplesEvicted - lastTuplesEvicted)
    let blocksEvicted := toInt32 (w.table.blocksEvicted - lastBlocksEvicted)
    let bytesEvicted := w.table.bytesEvicted - lastBytesEvicted
    let childTuplesEvicted := toInt32 (w.childTable.tuplesEvicted - childLastTuplesEvicted)
    let childBlocksEvicted := toInt32 (w.childTable.blocksEvicted - childLastBlocksEvicted)
    let childBytesEvicted := w.childTable.bytesEvicted - childLastBytesEvicted
    let rows : List ResultRow :=
      [{ TABLE_NAME := w.table.name,
         ANTICACHE_TUPLES_EVICTED := toInt32 tuplesEvicted,
         ANTICACHE_BLOCKS_EVICTED := toInt32 blocksEvicted,
         ANTICACHE_BYTES_EVICTED := toInt32 bytesEvicted },
       { TABLE_NAME := w.childTable.name,
         ANTICACHE_TUPLES_EVICTED := toInt32 childTuplesEvicted,
         ANTICACHE_BLOCKS_EVICTED := toInt32 childBlocksEvicted,
         ANTICACHE_BYTES_EVICTED := toInt32 childBytesEvicted }]
    ({ w with evictResultTable := rows }, .ok rows)

/-! ## Reading eviction runs -/

/-- The name, the flags, the eviction and write counters, the clock words and
the timestamps of a table are the same in `t` and `t'`: removal from the
chain touches none of them. -/
structure SameOutsideChain (t t' : PersistentTable) : Prop where
  name_eq : t'.name = t.name
  hasEvictedTable_eq : t'.hasEvictedTable = t.hasEvictedTable
  batchEvicted_eq : t'.batchEvicted = t.batchEvicted
  tuplesEvicted_eq : t'.tuplesEvicted = t.tuplesEvicted
  blocksEvicted_eq : t'.blocksEvicted = t.blocksEvicted
  bytesEvicted_eq : t'.bytesEvicted = t.bytesEvicted
  tuplesWritten_eq : t'.tuplesWritten = t.tuplesWritten
  blocksWritten_eq : t'.blocksWritten = t.blocksWritten
  bytesWritten_eq : t'.bytesWritten = t.bytesWritten
  m_clock_eq : t'.m_clock = t.m_clock
  timeStamp_eq : t'.timeStamp = t.timeStamp

/-- The event is a `writeBlock` call. -/
def Event.isWriteBlock : Event → Bool
  | .writeBlock _ _ _ _ _ => true
  | _ => false

/-- The event is a `nextBlockId` call. -/
def Event.isNextBlockId : Event → Bool
  | .nextBlockId _ => true
  | _ => false

/-- The event is an `insertEvictedTuple` call. -/
def Event.isInsertEvictedTuple : Event → Bool
  | .insertEvictedTuple _ _ _ => true
  | _ => false

/-- The event is a call on the block store (`nextBlockId`, `writeBlock`,
`flushBlocks` or `readBlock`). -/
def Event.isStoreCall : Event → Bool
  | .nextBlockId _ => true
  | .writeBlock _ _ _ _ _ => true
  | .flushBlocks => true
  | .readBlock _ _ => true
  | _ => false

/-- The blocks handed to the block store, oldest first, each with the size
passed along. -/
def writtenBlocks : List Event → List (BerkeleyDBBlock × Int)
  | [] => []
  | .writeBlock _ _ _ data size :: more => (data, size) :: writtenBlocks more
  | _ :: more => writtenBlocks more

/-- A table with an evicted table, an empty chain and the given name. -/
def namedTable (name : String) : PersistentTable := { emptyTable with name := name }

/-- An environment in which every block header takes 100 bytes and the foreign
key index is empty. -/
def env100 : Env := { headerSize := fun _ => 100, foreignKeyIndex := fun _ => [] }

/-- A live tuple of 40 serialized bytes in slot `id`. -/
def smallTuple (id : Nat) : TableTuple :=
  { id := id, isEvicted := false, tupleLength := 40, serializedSize := 40,
    nonInlinedMemorySize := 0, pkey := id }

/-- What filling a block leaves alone and what it adds: the table changes in
its chain only, the block store is not called, and one stub row is inserted
per tuple counted in `num_tuples_evicted`. -/
structure FillRel (s s' : FillState) : Prop where
  outside : SameOutsideChain s.world.table s'.world.table
  ids : s'.world.nextBlockId = s.world.nextBlockId
  written : writtenBlocks s'.world.trace = writtenBlocks s.world.trace
  storeCalls : s'.world.trace.filter Event.isStoreCall
    = s.world.trace.filter Event.isStoreCall
  mono : s.num_tuples_evicted ≤ s'.num_tuples_evicted
  stubs : (s'.world.evictedTable.length : Int)
    = s.world.evictedTable.length + (s'.num_tuples_evicted - s.num_tuples_evicted)
  stubEvents : ((s'.world.trace.countP Event.isInsertEvictedTuple : Nat) : Int)
    = s.world.trace.countP Event.isInsertEvictedTuple
      + (s'.num_tuples_evicted - s.num_tuples_evicted)

/-- The state of the `while` loop of `evictBlockToDisk` when it is left, in a
pass of the `for` loop that starts in state `s`. -/
def filledBlock (env : Env) (cfg : BuildConfig) (block_size : Int) (s : EvictState) :
    FillState :=
  fillBlock cfg block_size s.world.nextBlockId s.world.iterator
    { world := ({ s.world with nextBlockId := s.world.nextBlockId + 1 }).log
        (.nextBlockId s.world.nextBlockId),
      block := initializeBlock env [s.world.table.name] s.world.nextBlockId 0,
      num_tuples_evicted := 0, tuple_length := s.tuple_length }

/-- The state of the `for` loop of `evictBlockToDisk` after a pass that starts
in state `s` and writes its block. -/
def blockPass (env : Env) (cfg : BuildConfig) (block_size : Int) (s : EvictState) :
    EvictState :=
  let f := filledBlock env cfg block_size s
  let block := f.block.writeHeader [f.num_tuples_evicted]
  let bytesWritten := block.serializedSize - (env.headerSize [s.world.table.name] : Int)
  let w := (f.world.log (.writeHeader [f.num_tuples_evicted])).log
    (.writeBlock f.world.table.name s.world.nextBlockId f.num_tuples_evicted block
      block.serializedSize)
  let table := { w.table with
    tuplesEvicted := s.m_tuplesEvicted + f.num_tuples_evicted,
    blocksEvicted := s.m_blocksEvicted + 1,
    bytesEvicted := s.m_bytesEvicted + bytesWritten,
    tuplesWritten := s.m_tuplesWritten + f.num_tuples_evicted,
    blocksWritten := s.m_blocksWritten + 1,
    bytesWritten := s.m_bytesWritten + bytesWritten }
  { world := { w with table := table }, tuple_length := f.tuple_length, needs_flush := true,
    m_tuplesEvicted := s.m_tuplesEvicted + f.num_tuples_evicted,
    m_blocksEvicted := s.m_blocksEvicted + 1,
    m_bytesEvicted := s.m_bytesEvicted + bytesWritten,
    m_tuplesWritten := s.m_tuplesWritten + f.num_tuples_evicted,
    m_blocksWritten := s.m_blocksWritten + 1,
    m_bytesWritten := s.m_bytesWritten + bytesWritten }

/-- The world in which the `for` loop of `evictBlockToDisk` starts: the
iterator has been prepared as the build requires. -/
def startWorld (cfg : BuildConfig) (w : World) (block_size num_blocks : Int) : World :=
  let w := if cfg.ANTICACHE_TIMESTAMPS then w.log (.reserve (block_size * num_blocks)) else w
  if cfg.ANTICACHE_CLOCK then w.log (.initClock w.table.m_clockPosition) else w

/-- The state in which the `for` loop of `evictBlockToDisk` starts. -/
def startState (cfg : BuildConfig) (w : World) (block_size num_blocks : Int) : EvictState :=
  let w := startWorld cfg w block_size num_blocks
  { world := w, tuple_length := -1, needs_flush := false,
    m_tuplesEvicted := w.table.tuplesEvicted, m_blocksEvicted := w.table.blocksEvicted,
    m_bytesEvicted := w.table.bytesEvicted, m_tuplesWritten := w.table.tuplesWritten,
    m_blocksWritten := w.table.blocksWritten, m_bytesWritten := w.table.bytesWritten }

/-- The end of `evictBlockToDisk`: `if (needs_flush) antiCacheDB->flushBlocks()`. -/
def flushed (s : EvictState) : World :=
  if s.needs_flush then s.world.log .flushBlocks else s.world

/-- A table named T without evicted table, one live tuple to hand out, and a
block store whose next id is 7. -/
def worldNoStub : World :=
  { table := { namedTable "T" with hasEvictedTable := false },
    childTable := namedTable "C",
    iterator := [some (smallTuple 1)], nextBlockId := 7 }

/-- A table named T whose iterator hands out one live tuple of 40 bytes. -/
def worldOneTuple : World :=
  { table := namedTable "T", iterator := [some (smallTuple 1)] }

/-- A table named T whose iterator has nothing to hand out. -/
def worldNoTuples : World := { table := namedTable "T" }

/-- A table named T with 5 tuples and 2 blocks evicted so far, whose iterator
hands out a live tuple, an evicted one and another live one. -/
def worldThreeTuples : World :=
  { table := { namedTable "T" with tuplesEvicted := 5, blocksEvicted := 2 },
    iterator := [some (smallTuple 1), some { smallTuple 2 with isEvicted := true },
      some (smallTuple 3)],
    evictedTable := [⟨0, 0, true⟩], nextBlockId := 2 }

/-- A table named T whose iterator hands out one live tuple that serializes
to 2^31 bytes. -/
def worldBigTuple : World :=
  { table := namedTable "T",
    iterator := [some { smallTuple 1 with serializedSize := 2147483648 }] }

/-! ## The calls of a single-table eviction, written out -/

/-- The calls made for one tuple put into a block: the stub row
`(block_id, offset)` is inserted at `address`, the indexes of the table are
pointed to it, and the tuple is serialized and freed. -/
def tupleEvents (name : String) (block_id offset : Int) (address : Nat) (t : TableTuple) :
    List Event :=
  [.insertEvictedTuple name ⟨block_id, offset, true⟩ address,
   .setEntryToNewAddressForAllIndexes name t.id address,
   .addTuple name t.id,
   .updateStringMemory name (- (t.nonInlinedMemorySize : Int)),
   .freeObjectColumns name t.id,
   .deleteTupleStorage name t.id]

/-- The calls made for the tuples put into one block, the first of which gets
`offset` and the stub address `address`; each further tuple gets the next
offset and the next address. -/
def admittedEvents (name : String) (block_id : Int) :
    Int → Nat → List TableTuple → List Event
  | _, _, [] => []
  | offset, address, t :: ts =>
    tupleEvents name block_id offset address t
      ++ admittedEvents name block_id (offset + 1) (address + 1) ts

/-- The stub rows `(block_id, offset), (block_id, offset + 1), ...` of `n`
tuples, all flagged evicted. -/
def stubRows (block_id : Int) (offset : Int) (n : Nat) : List StubRow :=
  (List.range n).map (fun (k : Nat) => ⟨block_id, offset + (k : Int), true⟩)

/-- The block built from a header for the table `name` and the tuples
`admitted`, in this order, with their count in the header. -/
def builtBlock (env : Env) (name : String) (block_id : Int) (admitted : List TableTuple) :
    BerkeleyDBBlock :=
  { blockId := block_id, tableNames := [name], headerCounts := [(admitted.length : Int)],
    tuples := admitted.map (fun t => (name, t)),
    serializedSize := env.headerSize [name] + ((admitted.map (·.serializedSize)).sum : Nat) }

/-- The calls of one pass of the loop over the blocks in which the tuples
`admitted` are put into the block `block_id`: the id is fetched, the tuples
are stubbed at offsets `0, 1, ...`, and the block is written with their count. -/
def blockEvents (env : Env) (name : String) (block_id : Int) (address : Nat)
    (admitted : List TableTuple) : List Event :=
  [.nextBlockId block_id] ++ admittedEvents name block_id 0 address admitted
    ++ [.writeHeader [(admitted.length : Int)],
        .writeBlock name block_id admitted.length (builtBlock env name block_id admitted)
          (builtBlock env name block_id admitted).serializedSize]

/-- The calls of consecutive passes, one list of admitted tuples per block;
block ids and stub addresses go on where the pass before stopped. -/
def runEvents (env : Env) (name : String) : Int → Nat → List (List TableTuple) → List Event
  | _, _, [] => []
  | block_id, address, admitted :: more =>
    blockEvents env name block_id address admitted
      ++ runEvents env name (block_id + 1) (address + admitted.length) more

/-- The stub rows of consecutive passes. -/
def runStubs : Int → List (List TableTuple) → List StubRow
  | _, [] => []
  | block_id, admitted :: more =>
    stubRows block_id 0 admitted.length ++ runStubs (block_id + 1) more

/-- Scanning the calls in order, every `insertEvictedTuple` carries a block id
that is in `seen` or was returned by an earlier `nextBlockId` call. -/
def stubsFollowIds : List Int → List Event → Bool
  | _, [] => true
  | seen, .nextBlockId id :: rest => stubsFollowIds (id :: seen) rest
  | seen, .insertEvictedTuple _ row _ :: rest =>
    decide (row.block_id ∈ seen) && stubsFollowIds seen rest
  | seen, _ :: rest => stubsFollowIds seen rest

/-! ## The passes of a parent/child eviction, step by step -/

/-- The buffer of children, the reserved size and the flag `nomore` after the
loop over the children of a parent tuple in `evictBlockToDiskInBatch`. -/
def bufferedFor (env : Env) (block_size : Int) (s : BatchFillState) (tuple : TableTuple) :
    List TableTuple × Int × Bool :=
  if !(env.foreignKeyIndex tuple.pkey).isEmpty then
    bufferChildren block_size s.block.serializedSize (env.foreignKeyIndex tuple.pkey)
      ([], s.childTuplesSize)
  else ([], s.childTuplesSize, false)

/-- The state in which the loop over the parents is left by a `break` at the
tuple `tuple`: the reserved size and the children to be evicted are as given,
nothing else has changed. -/
def parentRejected (s : BatchFillState) (tuple : TableTuple) (rest : List (Option TableTuple))
    (childTuplesSize : Int) (childTuplesToBeEvicted : List TableTuple) : BatchFillState :=
  { s with world := { s.world with iterator := rest },
           tuple_length := if s.tuple_length = -1 then tuple.tupleLength else s.tuple_length,
           childTuplesSize := childTuplesSize,
           childTuplesToBeEvicted := childTuplesToBeEvicted }

/-- The state after a parent tuple that passes both size tests and is found
evicted: it is counted in `parentTuples` and its children are buffered. -/
def parentSkipped (env : Env) (cfg : BuildConfig) (block_size : Int) (s : BatchFillState)
    (tuple : TableTuple) (rest : List (Option TableTuple)) : BatchFillState :=
  { s with
    world := { s.world with
      iterator := rest,
      table := if cfg.hasChain then (removeTuple cfg s.world.table tuple.id).2
        else s.world.table },
    tuple_length := if s.tuple_length = -1 then tuple.tupleLength else s.tuple_length,
    parentTuples := s.parentTuples + 1,
    childTuplesToBeEvicted := s.childTuplesToBeEvicted ++ (bufferedFor env block_size s tuple).1,
    childTuplesSize := (bufferedFor env block_size s tuple).2.1 }

/-- The calls made for a parent tuple put into a block. -/
def parentEvents (name : String) (block_id offset : Int) (address : Nat) (t : TableTuple) :
    List Event :=
  [.setEvictedTrue name t.id,
   .insertEvictedTuple name ⟨block_id, offset, true⟩ address,
   .setEntryToNewAddressForAllIndexes name t.id address,
   .addTuple name t.id,
   .freeObjectColumns name t.id,
   .deleteTupleStorage name t.id]

/-- The state after a live parent tuple that passes both size tests: it is
stubbed and serialized, and its children are buffered. -/
def parentAdmitted (env : Env) (cfg : BuildConfig) (block_size block_id : Int)
    (s : BatchFillState) (tuple : TableTuple) (rest : List (Option TableTuple)) :
    BatchFillState :=
  { world := { s.world with
      iterator := rest,
      table := if cfg.hasChain then (removeTuple cfg s.world.table tuple.id).2
        else s.world.table,
      evictedTable := s.world.evictedTable ++ [⟨block_id, s.num_tuples_evicted, true⟩],
      trace := s.world.trace
        ++ parentEvents
            (if cfg.hasChain then (removeTuple cfg s.world.table tuple.id).2
              else s.world.table).name
            block_id s.num_tuples_evicted s.world.evictedTable.length tuple },
    block := s.block.addTuple
      (if cfg.hasChain then (removeTuple cfg s.world.table tuple.id).2
        else s.world.table).name tuple,
    num_tuples_evicted := s.num_tuples_evicted + 1,
    tuple_length := if s.tuple_length = -1 then tuple.tupleLength else s.tuple_length,
    parentTuples := s.parentTuples + 1,
    childTuplesToBeEvicted := s.childTuplesToBeEvicted ++ (bufferedFor env block_size s tuple).1,
    childTuplesSize := (bufferedFor env block_size s tuple).2.1 }

/-- The state of the loop over the parents of `evictBlockToDiskInBatch` when
it is left, in a pass of the `for` loop that starts in state `s`. -/
def filledParents (env : Env) (cfg : BuildConfig) (block_size : Int) (s : BatchEvictState) :
    BatchFillState :=
  fillParents env cfg block_size s.world.nextBlockId s.world.iterator
    { world := ({ s.world with nextBlockId := s.world.nextBlockId + 1 }).log
        (.nextBlockId s.world.nextBlockId),
      block := initializeBlock env [s.world.table.name, s.world.childTable.name]
        s.world.nextBlockId 0,
      num_tuples_evicted := 0, tuple_length := s.tuple_length, parentTuples := 0,
      childTuplesToBeEvicted := [], childTuplesSize := 0 }

/-- The state after the loop over `childTuplesToBeEvicted` in a pass of the
`for` loop that starts in state `s`. -/
def filledChildren (env : Env) (cfg : BuildConfig) (block_size : Int) (s : BatchEvictState) :
    ChildFillState :=
  evictChildren s.world.nextBlockId (filledParents env cfg block_size s).childTuplesToBeEvicted
    { world := (filledParents env cfg block_size s).world,
      block := (filledParents env cfg block_size s).block,
      num_tuples_evicted := (filledParents env cfg block_size s).num_tuples_evicted,
      childTuples := 0 }

/-- The block handed to `writeBlock` in a pass of the `for` loop of
`evictBlockToDiskInBatch` that starts in state `s`. -/
def batchBlock (env : Env) (cfg : BuildConfig) (block_size : Int) (s : BatchEvictState) :
    BerkeleyDBBlock :=
  (filledChildren env cfg block_size s).block.writeHeader
    [(filledParents env cfg block_size s).parentTuples,
     (filledChildren env cfg block_size s).childTuples]

/-- The state of the `for` loop of `evictBlockToDiskInBatch` after a pass that
starts in state `s` and writes its block. -/
def batchPass (env : Env) (cfg : BuildConfig) (block_size : Int) (s : BatchEvictState) :
    BatchEvictState :=
  let f := filledParents env cfg block_size s
  let c := filledChildren env cfg block_size s
  let initSize : Int := env.headerSize [s.world.table.name, s.world.childTable.name]
  let parentBytes := f.block.serializedSize - initSize
  let childBytes := c.block.serializedSize - parentBytes - initSize
  let block := batchBlock env cfg block_size s
  let w := (c.world.log (.writeHeader [f.parentTuples, c.childTuples])).log
    (.writeBlock c.world.table.name s.world.nextBlockId c.num_tuples_evicted block
      block.serializedSize)
  let table := { w.table with
    tuplesEvicted := s.m_tuplesEvicted + (c.num_tuples_evicted - c.childTuples),
    blocksEvicted := s.m_blocksEvicted + 1,
    bytesEvicted := s.m_bytesEvicted + parentBytes,
    tuplesWritten := s.m_tuplesWritten + (c.num_tuples_evicted - c.childTuples),
    blocksWritten := s.m_blocksWritten + 1,
    bytesWritten := s.m_bytesWritten + parentBytes }
  let childTable := { w.childTable with
    tuplesEvicted := s.child_tuplesEvicted + c.childTuples,
    blocksEvicted := s.child_blocksEvicted + 1,
    bytesEvicted := s.child_bytesEvicted + childBytes,
    tuplesWritten := s.child_tuplesWritten + c.childTuples,
    blocksWritten := s.child_blocksWritten + 1,
    bytesWritten := s.child_bytesWritten + childBytes }
  { world := { w with table := table, childTable := childTable },
    tuple_length := f.tuple_length, needs_flush := true,
    m_tuplesEvicted := s.m_tuplesEvicted + (c.num_tuples_evicted - c.childTuples),
    m_blocksEvicted := s.m_blocksEvicted + 1,
    m_bytesEvicted := s.m_bytesEvicted + parentBytes,
    m_tuplesWritten := s.m_tuplesWritten + (c.num_tuples_evicted - c.childTuples),
    m_blocksWritten := s.m_blocksWritten + 1,
    m_bytesWritten := s.m_bytesWritten + parentBytes,
    child_tuplesEvicted := s.child_tuplesEvicted + c.childTuples,
    child_blocksEvicted := s.child_blocksEvicted + 1,
    child_bytesEvicted := s.child_bytesEvicted + childBytes,
    child_tuplesWritten := s.child_tuplesWritten + c.childTuples,
    child_blocksWritten := s.child_blocksWritten + 1,
    child_bytesWritten := s.child_bytesWritten + childBytes }

/-- What the loops over the parents and over the buffered children leave
alone and what they add, from one state of the parent loop to a later one. -/
structure ParentsRel (s s' : BatchFillState) : Prop where
  outside : SameOutsideChain s.world.table s'.world.table
  childTable_eq : s'.world.childTable = s.world.childTable
  childStubs_eq : s'.world.childEvictedTable = s.world.childEvictedTable
  ids : s'.world.nextBlockId = s.world.nextBlockId
  written : writtenBlocks s'.world.trace = writtenBlocks s.world.trace
  mono : s.num_tuples_evicted ≤ s'.num_tuples_evicted
  stubs : (s'.world.evictedTable.length : Int)
    = s.world.evictedTable.length + (s'.num_tuples_evicted - s.num_tuples_evicted)
  serialized : (s'.block.tuples.length : Int)
    = s.block.tuples.length + (s'.num_tuples_evicted - s.num_tuples_evicted)
  header : s'.block.blockId = s.block.blockId ∧ s'.block.tableNames = s.block.tableNames

/-- The calls made for a child tuple put into a block. -/
def childEvents (name : String) (block_id offset : Int) (address : Nat) (t : TableTuple) :
    List Event :=
  [.setEvictedTrue name t.id,
   .insertEvictedTuple name ⟨block_id, offset, true⟩ address,
   .setEntryToNewAddressForAllIndexes name t.id address,
   .addTuple name t.id,
   .freeObjectColumns name t.id,
   .deleteTupleStorage name t.id]

/-- The state after one pass of the loop over `childTuplesToBeEvicted`. -/
def childAdmitted (block_id : Int) (s : ChildFillState) (childTuple : TableTuple) :
    ChildFillState :=
  { world := { s.world with
      childEvictedTable := s.world.childEvictedTable ++ [⟨block_id, s.childTuples, true⟩],
      trace := s.world.trace
        ++ childEvents s.world.childTable.name block_id s.childTuples
            s.world.childEvictedTable.length childTuple },
    block := s.block.addTuple s.world.childTable.name childTuple,
    num_tuples_evicted := s.num_tuples_evicted + 1,
    childTuples := s.childTuples + 1 }

/-- The world in which the `for` loop of `evictBlockToDiskInBatch` starts. -/
def batchStartWorld (cfg : BuildConfig) (w : World) (block_size num_blocks : Int) : World :=
  let w := if cfg.ANTICACHE_TIMESTAMPS then
      w.log (.reserve (Int.tdiv (block_size * num_blocks) 2))
    else w
  if cfg.ANTICACHE_CLOCK then w.log (.initClock w.table.m_clockPosition) else w

/-- The state in which the `for` loop of `evictBlockToDiskInBatch` starts. -/
def batchStartState (cfg : BuildConfig) (w : World) (block_size num_blocks : Int) :
    BatchEvictState :=
  let w := batchStartWorld cfg w block_size num_blocks
  { world := w, tuple_length := -1, needs_flush := false,
    m_tuplesEvicted := w.table.tuplesEvicted, m_blocksEvicted := w.table.blocksEvicted,
    m_bytesEvicted := w.table.bytesEvicted, m_tuplesWritten := w.table.tuplesWritten,
    m_blocksWritten := w.table.blocksWritten, m_bytesWritten := w.table.bytesWritten,
    child_tuplesEvicted := w.childTable.tuplesEvicted,
    child_blocksEvicted := w.childTable.blocksEvicted,
    child_bytesEvicted := w.childTable.bytesEvicted,
    child_tuplesWritten := w.childTable.tuplesWritten,
    child_blocksWritten := w.childTable.blocksWritten,
    child_bytesWritten := w.childTable.bytesWritten }

/-- The end of `evictBlockToDiskInBatch`: `if (needs_flush) antiCacheDB->flushBlocks()`. -/
def batchFlushed (s : BatchEvictState) : World :=
  if s.needs_flush then s.world.log .flushBlocks else s.world

/-- A live child tuple of 60 serialized bytes in slot `id`. -/
def childTuple (id : Nat) : TableTuple :=
  { id := id, isEvicted := false, tupleLength := 60, serializedSize := 60,
    nonInlinedMemorySize := 0, pkey := id }

/-- An environment in which every block header takes 100 bytes, the parent
with key 1 has the children in slots 11 and 12, and the parent with key 2 has
the child in slot 21. -/
def envFamily : Env :=
  { headerSize := fun _ => 100,
    foreignKeyIndex := fun key =>
      if key = 1 then [childTuple 11, childTuple 12]
      else if key = 2 then [childTuple 21]
      else [] }

/-- A parent table P and a child table C, both with an evicted table; the
iterator hands out the live parents with keys 1, 2 and 3. -/
def worldFamily : World :=
  { table := namedTable "P", childTable := namedTable "C",
    iterator := [some (smallTuple 1), some (smallTuple 2), some (smallTuple 3)] }

/-- As `worldFamily`, but the parent with key 1 is already flagged evicted
when the iterator hands it out. -/
def worldFamilyStale : World :=
  { table := namedTable "P", childTable := namedTable "C",
    iterator := [some { smallTuple 1 with isEvicted := true }, some (smallTuple 2)] }

/-! ## readEvictedBlock -/

/-- Modelled from the spec: `PersistentTable::isAlreadyUnEvicted` is not in
this source file.  A read is "idempotent per (table, block_id)": the block id
is looked up among the keys of the map of unevicted block ids. -/
def isAlreadyUnEvicted (table : PersistentTable) (block_id : Int) : Bool :=
  table.unevictedBlockIDs.any (fun entry => entry.1 == block_id)

/-- Modelled from the spec: `PersistentTable::insertUnevictedBlock` "stores the
raw buffer on the table's pending-merge list". -/
def insertUnevictedBlock (table : PersistentTable) (block : AntiCacheBlock) : PersistentTable :=
  { table with unevictedBlocks := table.unevictedBlocks ++ [block] }

/-- Modelled from the spec: `PersistentTable::insertTupleOffset` "records the
offset of the faulting tuple". -/
def insertTupleOffset (table : PersistentTable) (tuple_offset : Int) : PersistentTable :=
  { table with mergeTupleOffsets := table.mergeTupleOffsets ++ [tuple_offset] }

/-- Modelled from the spec: `PersistentTable::insertUnevictedBlockID` adds an
entry to the map of unevicted block ids; a key that is present keeps its
entry. -/
def insertUnevictedBlockID (table : PersistentTable) (entry : Int × Int) : PersistentTable :=
  if table.unevictedBlockIDs.any (fun e => e.1 == entry.1) then table
  else { table with unevictedBlockIDs := table.unevictedBlockIDs ++ [entry] }

/-- Embedding of `AntiCacheEvictionManager::readEvictedBlock`.  The block store
is given by `readBlock`, which returns the block stored for a table name and a
block id, or `none` where `antiCacheDB->readBlock` throws
`UnknownBlockAccessException`.  The result is the world the call leaves behind
and either its return value or the exception it throws. -/
def readEvictedBlock (readBlock : String → Int → Option AntiCacheBlock) (w : World)
    (block_id : Int) (tuple_offset : Int) : World × Except String Bool :=
  let table := w.table
  let already_unevicted := isAlreadyUnEvicted table block_id
  if already_unevicted then
    -- this block has already been read
    (w, .ok true)
  else
    let w := w.log (.readBlock table.name block_id)
    match readBlock table.name block_id with
    | none =>
      -- `catch (UnknownBlockAccessException e) { throw e; ... }`
      (w, .error "UnknownBlockAccessException")
    | some value =>
      -- the meta-data of the block is read into locals only
      let table := insertUnevictedBlock table value
      let table := insertTupleOffset table tuple_offset
      let table := insertUnevictedBlockID table (block_id, 0)
      ({ w with table := table }, .ok true)

/-! ## mergeUnevictedTuples -/

/-- The tables of the engine, found by name as `m_engine->getTable(name)`
does, and the calls made so far. -/
structure Engine where
  tables : List PersistentTable
  trace : List Event := []

/-- Value of `m_engine->getTable(name)`, `none` standing for a null pointer. -/
def Engine.getTable (e : Engine) (name : String) : Option PersistentTable :=
  e.tables.find? (fun t => t.name == name)

/-- Store the fields written through a pointer to the table named as `table`. -/
def Engine.setTable (e : Engine) (table : PersistentTable) : Engine :=
  { e with tables := e.tables.map (fun t => if t.name == table.name then table else t) }

/-- The state of the loops over one block in `mergeUnevictedTuples`: the calls
made so far, the input stream `in` as the serialized tuples not yet read, and
`bytes_unevicted`. -/
structure MergeState where
  trace : List Event
  stream : List (Nat × Int)
  bytes_unevicted : Int
  deriving DecidableEq

/-- Modelled from the spec: `PersistentTable::unevictTuple` is not in this
source file.  It "allocates a fresh slot, deserializes, looks the tuple up in
an index to find its stub, ..."; the body it replaced is kept as a comment in
`mergeUnevictedTuples` and reads `bytes_unevicted +=
m_tmpTarget1->deserializeWithHeaderFrom(in)`.  The call reads the serialized
tuple at the position of the stream `in`, moves the stream behind it and
returns the number of bytes read; `none` when the stream has no tuple left. -/
def unevictTuple (name : String) (j merge_tuple_offset : Int) (s : MergeState) :
    Option (MergeState × Int) :=
  match s.stream with
  | [] => none
  | serialized :: rest =>
    some ({ s with
            trace := s.trace ++ [.unevictTuple name j merge_tuple_offset,
                                 .deserializeWithHeaderFrom name serialized.1 serialized.2],
            stream := rest }, serialized.2)

/-- The loop `for (int j = 0; j < num_tuples_in_block; j++)` of
`mergeUnevictedTuples` over the values of `j` still to come.  A value of `j`
that is passed over by `continue` leaves the stream where it is. -/
def unevictTuples (tableStrategy : Bool) (name : String) (merge_tuple_offset : Int) :
    List Nat → MergeState → Option MergeState
  | [], s => some s
  | j :: more, s =>
    -- if we're using the tuple-merge strategy, only merge in a single tuple
    if !tableStrategy && (j : Int) ≠ merge_tuple_offset then
      unevictTuples tableStrategy name merge_tuple_offset more s
    else
      match unevictTuple name j merge_tuple_offset s with
      | none => none
      | some (s, bytes) =>
        unevictTuples tableStrategy name merge_tuple_offset more
          { s with bytes_unevicted := s.bytes_unevicted + bytes }

/-- The body of the loop over the table names of a block in
`mergeUnevictedTuples`, for the table section `(name, num_tuples_in_block)`
and the stream `in` of the block; `tableStrategy` is `table->mergeStrategy()`
of the table the merge was called for.  The result is `none` when the engine
has no table of that name or the stream ends before the loop does. -/
def mergeSection (tableStrategy : Bool) (merge_tuple_offset : Int) (e : Engine)
    (stream : List (Nat × Int)) (sect : String × Int) : Option (Engine × List (Nat × Int)) :=
  match e.getTable sect.1 with
  | none => none
  | some tableInBlock =>
    let num_tuples_in_block := sect.2
    -- Now read the actual tuples
    match unevictTuples tableStrategy sect.1 merge_tuple_offset
        (List.range num_tuples_in_block.toNat)
        { trace := e.trace, stream := stream, bytes_unevicted := 0 } with
    | none => none
    | some read =>
      let bytes_unevicted := read.bytes_unevicted
      let tuplesRead : Int := if tableInBlock.mergeStrategy then num_tuples_in_block else 1
      let tableInBlock := { tableInBlock with
        tuplesEvicted := tableInBlock.tuplesEvicted - tuplesRead,
        tuplesRead := tableInBlock.tuplesRead + tuplesRead,
        bytesEvicted := tableInBlock.bytesEvicted - bytes_unevicted,
        bytesRead := tableInBlock.bytesRead + bytes_unevicted,
        blocksEvicted := tableInBlock.blocksEvicted - 1,
        blocksRead := tableInBlock.blocksRead + 1 }
      some (({ e with trace := read.trace }).setTable tableInBlock, read.stream)

/-- The loop over the table names of one block. -/
def mergeSections (tableStrategy : Bool) (merge_tuple_offset : Int) :
    Engine → List (Nat × Int) → List (String × Int) → Option (Engine × List (Nat × Int))
  | e, stream, [] => some (e, stream)
  | e, stream, sect :: more =>
    match mergeSection tableStrategy merge_tuple_offset e stream sect with
    | none => none
    | some (e, stream) => mergeSections tableStrategy merge_tuple_offset e stream more

/-- The loop `for (int i = 0; i < num_blocks; i++)` of `mergeUnevictedTuples`
over the blocks still to come with their merge offsets; the stream of a block
starts behind its header.  The result is `none` when a block has no offset
recorded. -/
def mergeBlocks (tableStrategy : Bool) :
    Engine → List AntiCacheBlock → List Int → Option Engine
  | e, [], _ => some e
  | _, _ :: _, [] => none
  | e, block :: blocks, merge_tuple_offset :: offsets =>
    match mergeSections tableStrategy merge_tuple_offset e block.body block.header with
    | none => none
    | some (e, _) => mergeBlocks tableStrategy e blocks offsets

/-- Embedding of `AntiCacheEvictionManager::mergeUnevictedTuples` for the
table of the engine named `tableName`.  The merge strategy, the blocks and the
offsets of that table are not written before the loops end, so they are read
once.  The result is `none` where the source dereferences a pointer or an
index it does not have: the table itself, its evicted table in
`table->getEvictedTable()->tempTuple()`, a table named in a block, an offset
that was not recorded, a tuple behind the end of a block. -/
def mergeUnevictedTuples (e : Engine) (tableName : String) : Option (Engine × Bool) :=
  match e.getTable tableName with
  | none => none
  | some table =>
    let num_blocks := table.unevictedBlocks.length
    if num_blocks = 0 then
      -- "Trying to merge unevicted blocks ... but there aren't any available?"
      some (e, false)
    else if table.hasEvictedTable = false then
      -- `TableTuple evicted_tuple = table->getEvictedTable()->tempTuple();`
      none
    else
      match mergeBlocks table.mergeStrategy e table.unevictedBlocks
          table.mergeTupleOffsets with
      | none => none
      | some e =>
        match e.getTable tableName with
        | none => none
        | some table =>
          -- `clearUnevictedBlocks()`, `clearMergeTupleOffsets()`
          some (e.setTable { table with unevictedBlocks := [], mergeTupleOffsets := [] }, true)

/-- A block store that holds the block 7 of the table T, with three tuples of
T, and nothing else. -/
def storeWithBlock7 : String → Int → Option AntiCacheBlock :=
  fun name block_id =>
    if name = "T" ∧ block_id = 7 then
      some { header := [("T", 3)], body := [(1, 40), (2, 50), (3, 60)] }
    else none

/-- An engine with a parent table P under tuple-merge and a child table C
under block-merge.  P has read one block, with one tuple of P and two of C,
for a fault on the tuple at offset 0. -/
def engineMixed : Engine :=
  { tables :=
      [{ namedTable "P" with
          mergeStrategy := false, tuplesEvicted := 1, blocksEvicted := 1,
          unevictedBlocks :=
            [{ header := [("P", 1), ("C", 2)], body := [(1, 10), (11, 10), (12, 10)] }],
          mergeTupleOffsets := [0],
          unevictedBlockIDs := [(0, 0)] },
       { namedTable "C" with mergeStrategy := true, tuplesEvicted := 2, blocksEvicted := 1 }] }

/-- An engine with a parent table P and a child table C, both under
tuple-merge.  P has read one block, with three tuples of P and one of C, for a
fault on the parent at offset 2. -/
def engineTupleMerge : Engine :=
  { tables :=
      [{ namedTable "P" with
          mergeStrategy := false, tuplesEvicted := 3, blocksEvicted := 1,
          unevictedBlocks :=
            [{ header := [("P", 3), ("C", 1)],
               body := [(1, 10), (2, 10), (3, 10), (11, 10)] }],
          mergeTupleOffsets := [2],
          unevictedBlockIDs := [(0, 0)] },
       { namedTable "C" with mergeStrategy := false, tuplesEvicted := 1, blocksEvicted := 1 }] }

/-- Per table of the engine, the name with `tuples_evicted` and `tuples_read`. -/
def Engine.tupleCounters (e : Engine) : List (String × Int × Int) :=
  e.tables.map (fun t => (t.name, t.tuplesEvicted, t.tuplesRead))

/-- Per table of the engine, the name with `blocks_evicted` and `blocks_read`. -/
def Engine.blockCounters (e : Engine) : List (String × Int × Int) :=
  e.tables.map (fun t => (t.name, t.blocksEvicted, t.blocksRead))

/-- A table named T with the chain 1, 2 whose iterator hands out the tuple of
slot 1, already flagged evicted. -/
def worldStaleChain : World :=
  { table := { chain12 with name := "T" },
    iterator := [some { smallTuple 1 with isEvicted := true }] }

/-- A parent table P and a child table C whose iterator has nothing to hand
out. -/
def worldFamilyEmpty : World := { table := namedTable "P", childTable := namedTable "C" }

/-! ## Evicted access tracking -/

/-- A `catalog::Table` as the access tracking reads it. -/
structure CatalogTable where
  name : String
  relativeIndex : Int
  deriving DecidableEq

/-- A tuple handed to `recordEvictedAccess`: whether it is active, and the
two columns its address shows when it is read with the schema of an evicted
tuple. -/
structure AccessedTuple where
  /-- Value of `tuple->isActive()` -/
  isActive : Bool
  /-- Column 0 of the stub, read with `peekSmallInt` -/
  block_id : Int
  /-- Column 1 of the stub, read with `peekInteger` -/
  tuple_id : Int
  deriving DecidableEq

/-- The three lists in which the manager keeps the evicted accesses of a
transaction. -/
structure AccessLists where
  m_evicted_tables : List CatalogTable := []
  m_evicted_block_ids : List Int := []
  m_evicted_offsets : List Int := []
  deriving DecidableEq

/-- The payload of an `EvictedTupleAccessException`. -/
structure EvictedTupleAccessException where
  tableId : Int
  numBlocks : Int
  blockIds : List Int
  tupleIds : List Int
  deriving DecidableEq

/-- Embedding of `AntiCacheEvictionManager::recordEvictedAccess`: the lists
after the call, or the message of the fatal exception. -/
def recordEvictedAccess (m : AccessLists) (catalogTable : CatalogTable)
    (tuple : AccessedTuple) : Except String AccessLists :=
  -- Make sure that this tuple isn't deleted
  if tuple.isActive = false then
    .error "Trying to access evicted tuple from table that is also marked as deleted"
  else
    -- Determine the block id and tuple offset in the block using the EvictedTable tuple
    let block_id := tuple.block_id
    let tuple_id := tuple.tuple_id
    -- Updated internal tracking info
    .ok { m_evicted_tables := m.m_evicted_tables ++ [catalogTable],
          m_evicted_block_ids := m.m_evicted_block_ids ++ [block_id],
          m_evicted_offsets := m.m_evicted_offsets ++ [tuple_id] }

/-- Embedding of `AntiCacheEvictionManager::throwEvictedAccessException`: the
exception it throws.  The result is `none` where the source has no defined
outcome: with no block id recorded (the assertion fails, or `front()` is
taken of an empty vector), and when the offsets do not fill the array of
`num_block_ids` entries exactly. -/
def throwEvictedAccessException (m : AccessLists) : Option EvictedTupleAccessException :=
  let num_block_ids : Int := m.m_evicted_block_ids.length
  if num_block_ids > 0 then
    -- copy the block ids into an array
    let block_ids := m.m_evicted_block_ids
    -- copy the tuple offsets into an array
    if m.m_evicted_offsets.length = m.m_evicted_block_ids.length then
      let tuple_ids := m.m_evicted_offsets
      -- HACK
      match m.m_evicted_tables.head? with
      | none => none
      | some catalogTable =>
        some { tableId := catalogTable.relativeIndex, numBlocks := num_block_ids,
               blockIds := block_ids, tupleIds := tuple_ids }
    else none
  else none

/-- A sequence of `recordEvictedAccess` calls, stopped by the first fatal
exception. -/
def recordAll : AccessLists → List (CatalogTable × AccessedTuple) → Except String AccessLists
  | m, [] => .ok m
  | m, (catalogTable, tuple) :: more =>
    match recordEvictedAccess m catalogTable tuple with
    | .error message => .error message
    | .ok m => recordAll m more

/-- The table with its six eviction and write counters set as given, as the
`setTuplesEvicted` ... `setBytesWritten` calls after a block leave it. -/
def PersistentTable.setCounters (table : PersistentTable)
    (tuplesEvicted blocksEvicted bytesEvicted tuplesWritten blocksWritten bytesWritten : Int) :
    PersistentTable :=
  { table with
    tuplesEvicted := tuplesEvicted, blocksEvicted := blocksEvicted,
    bytesEvicted := bytesEvicted, tuplesWritten := tuplesWritten,
    blocksWritten := blocksWritten, bytesWritten := bytesWritten }

/-- The chain of `t'` is the chain of `t`: endpoints, count and links agree. -/
structure SameChain (t t' : PersistentTable) : Prop where
  oldest_eq : t'.oldestTupleID = t.oldestTupleID
  newest_eq : t'.newestTupleID = t.newestTupleID
  count_eq : t'.numTuplesInEvictionChain = t.numTuplesInEvictionChain
  next_eq : t'.nextTupleInChain = t.nextTupleInChain
  prev_eq : t'.previousTupleInChain = t.previousTupleInChain

/-- The table after `removeTuple` has been called for each of the tuples, in
order; in a build without LRU chain the call is not compiled and the table is
as it was. -/
def chainAfter (cfg : BuildConfig) : PersistentTable → List TableTuple → PersistentTable
  | table, [] => table
  | table, p :: more =>
    chainAfter cfg (if cfg.hasChain then (removeTuple cfg table p.id).2 else table) more

/-- A parent table P with the chain 1, 2, 3 and a child table C with the
chain 11, 12, not flagged batch-evicted; the iterator hands out the live
parents with keys 1, 2 and 3. -/
def worldFamilyChains : World :=
  { table := { chain123 with name := "P" },
    childTable :=
      { tableOf 11 12 2 (List.replicate 11 0 ++ [12]) (List.replicate 12 0 ++ [11]) with
        name := "C" },
    iterator := [some (smallTuple 1), some (smallTuple 2), some (smallTuple 3)] }

/-- An engine with the one table T under tuple-merge.  T has evicted three
tuples in one block, serialized from the slots 1, 2, 3 in 40, 50 and 60 bytes,
and has read that block for a fault on the tuple at offset `k`. -/
def engineFault (k : Int) : Engine :=
  { tables :=
      [{ namedTable "T" with
          mergeStrategy := false, tuplesEvicted := 3, blocksEvicted := 1, bytesEvicted := 150,
          unevictedBlocks := [{ header := [("T", 3)], body := [(1, 40), (2, 50), (3, 60)] }],
          mergeTupleOffsets := [k],
          unevictedBlockIDs := [(7, 0)] }] }

/-- Per table of the engine, the name with `bytes_evicted` and `bytes_read`. -/
def Engine.byteCounters (e : Engine) : List (String × Int × Int) :=
  e.tables.map (fun t => (t.name, t.bytesEvicted, t.bytesRead))

/-- A call on the table of a fault: `readEvictedBlock(table, block_id,
tuple_offset)` or `mergeUnevictedTuples(table)`. -/
inductive PendingCall where
  | readEvictedBlock (block_id : Int) (tuple_offset : Int)
  | mergeUnevictedTuples
  deriving DecidableEq

/-- One call on the table of the engine named `name`.  A call of
`readEvictedBlock` that throws leaves the state it has reached; the result is
`none` when the engine has no such table or the merge is undefined. -/
def callOnTable (readBlock : String → Int → Option AntiCacheBlock) (name : String)
    (e : Engine) : PendingCall → Option Engine
  | .readEvictedBlock block_id tuple_offset =>
    match e.getTable name with
    | none => none
    | some table =>
      let w := (readEvictedBlock readBlock { table := table, trace := e.trace }
        block_id tuple_offset).1
      some (({ e with trace := w.trace }).setTable w.table)
  | .mergeUnevictedTuples => (mergeUnevictedTuples e name).map (fun r => r.1)

/-- A sequence of calls on the table of the engine named `name`, in order. -/
def callsOnTable (readBlock : String → Int → Option AntiCacheBlock) (name : String) :
    Engine → List PendingCall → Option Engine
  | e, [] => some e
  | e, call :: more =>
    match callOnTable readBlock name e call with
    | none => none
    | some e => callsOnTable readBlock name e more

/-- The names of the tables of the engine, in order. -/
def Engine.names (e : Engine) : List String := e.tables.map (fun t => t.name)

/-- The engine has a table named `name`, and the list of its pending blocks
and the list of its merge offsets have the same length. -/
def pendingParallel (name : String) (e : Engine) : Bool :=
  match e.getTable name with
  | none => false
  | some table => decide (table.unevictedBlocks.length = table.mergeTupleOffsets.length)

/-- A block as an eviction writes it for tables named in `names`: every
section of the header names one of these tables, and the body holds at least
as many serialized tuples as the header counts. -/
def AntiCacheBlock.wellFormed (names : List String) (block : AntiCacheBlock) : Bool :=
  block.header.all (fun sect => names.contains sect.1)
    && decide ((block.header.map (fun sect => sect.2.toNat)).sum ≤ block.body.length)

/-- The engine has a table named `name` that has an evicted table, whose
pending lists are parallel and whose pending blocks are all well formed for
the tables of the engine. -/
def pendingWellFormed (name : String) (e : Engine) : Bool :=
  match e.getTable name with
  | none => false
  | some table =>
    table.hasEvictedTable
      && decide (table.unevictedBlocks.length = table.mergeTupleOffsets.length)
      && table.unevictedBlocks.all (fun block => block.wellFormed e.names)

/-- An engine with the one table T, under block-merge, that has evicted three
tuples in one block and has nothing pending. -/
def engineOneTable : Engine :=
  { tables := [{ namedTable "T" with tuplesEvicted := 3, blocksEvicted := 1 }] }

/-- Per table of the engine, the number of pending blocks with the merge
offsets and the unevicted block ids. -/
def Engine.pending (e : Engine) : List (Nat × List Int × List (Int × Int)) :=
  e.tables.map (fun t => (t.unevictedBlocks.length, t.mergeTupleOffsets, t.unevictedBlockIDs))

/-- The fields of a table that reading and merging blocks use and that an
eviction leaves alone: the merge strategy, the pending blocks, the merge
offsets, the unevicted block ids and the three `*_read` counters. -/
def PersistentTable.pendingView (t : PersistentTable) :
    Bool × List AntiCacheBlock × List Int × List (Int × Int) × Int × Int × Int :=
  (t.mergeStrategy, t.unevictedBlocks, t.mergeTupleOffsets, t.unevictedBlockIDs,
    t.tuplesRead, t.blocksRead, t.bytesRead)

/-- Modelled from the spec: the block store is not in this source file.  What
it returns for a block is what was written: "a header declaring (N_tables, for
each table: name and tuple-count), followed by concatenated serialized
tuples". -/
def storedBlock (block : BerkeleyDBBlock) : AntiCacheBlock :=
  { header := block.tableNames.zip block.headerCounts,
    body := block.tuples.map (fun entry => (entry.2.id, (entry.2.serializedSize : Int))) }

/-- Modelled from the spec: the block store after the calls of a trace.  The
block id is part of "the block-store key"; `readBlock(name, block_id)` returns
the block of the last `writeBlock` call for that name and id, and `none`,
standing for `UnknownBlockAccessException`, when there was no such call. -/
def blockStore : List Event → String → Int → Option AntiCacheBlock
  | [], _, _ => none
  | .writeBlock written id _ data _ :: more, name, block_id =>
    match blockStore more name block_id with
    | some block => some block
    | none => if written = name ∧ id = block_id then some (storedBlock data) else none
  | _ :: more, name, block_id => blockStore more name block_id

/-- Calls of `readEvictedBlock` on the table of the world, one per pair of a
block id and a tuple offset, in order. -/
def readBlocks (readBlock : String → Int → Option AntiCacheBlock) :
    World → List (Int × Int) → World
  | w, [] => w
  | w, (block_id, tuple_offset) :: more =>
    readBlocks readBlock (readEvictedBlock readBlock w block_id tuple_offset).1 more

/-- The round trip of a table: `evictBlockToDisk` for `num_blocks` blocks,
then one call of `readEvictedBlock` for each block id the eviction was given,
with the offsets `offsets`, on the block store the eviction has written to,
then `mergeUnevictedTuples` in an engine that holds this table.  The ids are
passed as the `int16_t block_id` of `readEvictedBlock`. -/
def evictReadMerge (env : Env) (cfg : BuildConfig) (w : World) (block_size num_blocks : Int)
    (offsets : List Int) : Option (Engine × Bool) :=
  let evicted := (evictBlockToDisk env cfg w block_size num_blocks).1
  let ids := (List.range num_blocks.toNat).map
    (fun (i : Nat) => toInt16 (w.nextBlockId + (i : Int)))
  let read := readBlocks (blockStore evicted.trace) evicted (ids.zip offsets)
  mergeUnevictedTuples { tables := [read.table], trace := read.trace } read.table.name

/-- What the block store holds for a block of the table `name` into which the
tuples `admitted` were put, in this order. -/
def writtenAs (name : String) (admitted : List TableTuple) : AntiCacheBlock :=
  { header := [(name, (admitted.length : Int))],
    body := admitted.map (fun t => (t.id, (t.serializedSize : Int))) }

/-- The name of a table with its `tuples_evicted` and `tuples_read`. -/
def PersistentTable.tupleCountersOf (t : PersistentTable) : String × Int × Int :=
  (t.name, t.tuplesEvicted, t.tuplesRead)

/-! ### Lemmas on walks and links -/

theorem walk_length (link : Nat → Nat) (n start : Nat) : (walk link start n).length = n := by
  induction n generalizing start with
  | zero => rfl
  | succ n ih => simp [walk, ih]

theorem walk_eq_iff (link : Nat → Nat) (L : List Nat) (start : Nat) :
    walk link start L.length = L ↔ (∀ a ∈ L.head?, a = start) ∧ Linked link L := by
  induction L generalizing start with
  | nil => simp [walk, Linked]
  | cons a l ih =>
    simp only [List.length_cons, walk, List.cons.injEq, ih, Linked, List.head?_cons,
      Option.mem_def, Option.some.injEq, forall_eq', List.chain'_cons']
    constructor
    · rintro ⟨rfl, h1, h2⟩
      exact ⟨rfl, fun y hy => (h1 y hy).symm, h2⟩
    · rintro ⟨rfl, h1, h2⟩
      exact ⟨rfl, fun y hy => (h1 y hy).symm, h2⟩

theorem Linked.congr {f g : Nat → Nat} {L : List Nat}
    (h : ∀ x ∈ L.dropLast, g x = f x) (hl : Linked f L) : Linked g L := by
  induction L with
  | nil => exact List.chain'_nil
  | cons a l ih =>
    cases l with
    | nil => exact List.chain'_singleton a
    | cons b l =>
      have hab : f a = b ∧ Linked f (b :: l) := List.chain'_cons.mp hl
      refine List.chain'_cons.mpr ⟨?_, ih (fun x hx => h x ?_) hab.2⟩
      · rw [h a (by simp [List.dropLast])]; exact hab.1
      · simp only [List.dropLast_cons₂, List.mem_cons]; exact Or.inr hx

theorem setSlot_same (f : Nat → Nat) (i v : Nat) : setSlot f i v i = v := by
  simp [setSlot]

theorem setSlot_other (f : Nat → Nat) {i j : Nat} (v : Nat) (h : j ≠ i) :
    setSlot f i v j = f j := by
  simp [setSlot, h]

theorem nil_or_snoc (L : List Nat) : L = [] ∨ ∃ A n, L = A ++ [n] := by
  rcases List.eq_nil_or_concat L with h | ⟨A, n, h⟩
  · exact Or.inl h
  · exact Or.inr ⟨A, n, by rw [h, List.concat_eq_append]⟩

theorem last_not_mem_dropLast {L : List Nat} {a : Nat} (hnd : L.Nodup)
    (ha : a ∈ L.getLast?) : a ∉ L.dropLast := by
  rcases nil_or_snoc L with rfl | ⟨A, n, rfl⟩
  · simp
  · simp only [List.getLast?_append, List.getLast?_singleton, Option.mem_def] at ha
    simp at ha
    subst ha
    rw [List.dropLast_concat]
    intro hmem
    have := List.nodup_append.mp hnd
    exact this.2.2 hmem (List.mem_singleton_self _)

theorem Linked.append_one {f : Nat → Nat} {L : List Nat} {n t : Nat} (hl : Linked f L)
    (hlast : ∀ a ∈ L.getLast?, a = n) (hnd : L.Nodup) :
    Linked (setSlot f n t) (L ++ [t]) := by
  refine List.chain'_append.mpr ⟨?_, List.chain'_singleton t, ?_⟩
  · refine Linked.congr (fun x hx => setSlot_other f t ?_) hl
    rintro rfl
    rcases nil_or_snoc L with rfl | ⟨A, m, rfl⟩
    · simp at hx
    · have hm : m = x := hlast m (by simp)
      subst hm
      exact last_not_mem_dropLast hnd (by simp) hx
  · intro x hx y hy
    simp only [List.head?_cons, Option.mem_def, Option.some.injEq] at hy
    subst hy
    rw [hlast x hx, setSlot_same]

theorem Linked.cons_one {f : Nat → Nat} {L : List Nat} {o t : Nat} (hl : Linked f L)
    (ht : t ∉ L) (hhead : ∀ a ∈ L.head?, a = o) :
    Linked (setSlot f t o) (t :: L) := by
  refine List.chain'_cons'.mpr ⟨?_, ?_⟩
  · intro y hy
    rw [setSlot_same, hhead y hy]
  · refine Linked.congr (fun x hx => setSlot_other f o ?_) hl
    rintro rfl
    exact ht (List.dropLast_subset L hx)

theorem Linked.splice {f : Nat → Nat} {A B : List Nat} {p t q : Nat}
    (hl : Linked f (A ++ p :: t :: q :: B)) (hnd : (A ++ p :: q :: B).Nodup) :
    Linked (setSlot f p q) (A ++ p :: q :: B) := by
  have h1 := List.chain'_split.mp hl
  have hA : p ∉ A := by
    intro hp
    exact (List.nodup_append.mp hnd).2.2 hp (List.mem_cons_self _ _)
  have hB : p ∉ q :: B := by
    have := (List.nodup_append.mp hnd).2.1
    exact (List.nodup_cons.mp this).1
  refine List.chain'_split.mpr ⟨?_, ?_⟩
  · refine Linked.congr (fun x hx => setSlot_other f q ?_) h1.1
    rintro rfl
    rw [List.dropLast_concat] at hx
    exact hA hx
  · refine List.chain'_cons.mpr ⟨setSlot_same f p q, ?_⟩
    have h2 : Linked f (q :: B) := (List.Chain'.tail (List.Chain'.tail h1.2))
    refine Linked.congr (fun x hx => setSlot_other f q ?_) h2
    rintro rfl
    exact hB (List.dropLast_subset _ hx)

theorem Linked.next_of_mem {f : Nat → Nat} {A B : List Nat} {a b : Nat}
    (hl : Linked f (A ++ a :: b :: B)) : f a = b :=
  (List.chain'_cons.mp (List.chain'_split.mp hl).2).1

theorem wf_iff (rev : Bool) (table : PersistentTable) (L : List Nat) :
    WellFormedChain rev table L ↔ ChainInv rev table L := by
  constructor
  · rintro ⟨h1, h2, h3, h4, h5, h6⟩
    have h4' := (walk_eq_iff _ _ _).mp h4
    refine ⟨h1, h2, h3, h4'.1, ?_, h4'.2, ?_⟩
    · intro a ha
      by_cases hL : L = []
      · subst hL; simp at ha
      · rw [h5 hL] at ha; simpa using ha.symm
    · intro hr
      have h := h6 hr
      rw [← List.length_reverse] at h
      exact ((walk_eq_iff _ _ _).mp h).2
  · intro h
    refine ⟨h.count_eq, h.nodup, h.sentinel, (walk_eq_iff _ _ _).mpr ⟨h.head_eq, h.fwd⟩, ?_, ?_⟩
    · intro hL
      obtain ⟨a, ha⟩ : ∃ a, L.getLast? = some a := by
        cases hl : L.getLast? with
        | none => simp at hl; exact absurd hl hL
        | some a => exact ⟨a, rfl⟩
      rw [ha, h.last_eq a ha]
    · intro hr
      rw [← List.length_reverse]
      refine (walk_eq_iff _ _ _).mpr ⟨?_, h.bwd hr⟩
      intro a ha
      rw [List.head?_reverse] at ha
      exact h.last_eq a ha

/-! ### What `removeTupleDoubleLinkedList` computes, branch by branch -/

theorem removeDouble_newest_one (table : PersistentTable) (tup id : Nat)
    (hc : table.numTuplesInEvictionChain = 1) (hn : table.newestTupleID = id) :
    removeTupleDoubleLinkedList table tup id =
      (true, { table with oldestTupleID := 0, newestTupleID := 0,
                          numTuplesInEvictionChain := 0 }) := by
  simp [removeTupleDoubleLinkedList, hc, hn]

theorem removeDouble_newest_two (table : PersistentTable) (tup id : Nat)
    (hc : table.numTuplesInEvictionChain = 2) (hn : table.newestTupleID = id) :
    removeTupleDoubleLinkedList table tup id =
      (true, { table with oldestTupleID := table.oldestTupleID,
                          newestTupleID := table.oldestTupleID,
                          numTuplesInEvictionChain := 1 }) := by
  simp [removeTupleDoubleLinkedList, hc, hn]

theorem removeDouble_newest_many (table : PersistentTable) (tup id : Nat)
    (hc : 2 < table.numTuplesInEvictionChain) (hn : table.newestTupleID = id) :
    removeTupleDoubleLinkedList table tup id =
      (true, { table with newestTupleID := table.previousTupleInChain id,
                          numTuplesInEvictionChain := table.numTuplesInEvictionChain - 1 }) := by
  have h0 : ¬ table.numTuplesInEvictionChain ≤ 0 := by omega
  have h1 : ¬ table.numTuplesInEvictionChain = 1 := by omega
  have h2 : ¬ table.numTuplesInEvictionChain = 2 := by omega
  simp [removeTupleDoubleLinkedList, h0, h1, h2, hn]

theorem removeDouble_oldest_one (table : PersistentTable) (tup id : Nat)
    (hc : table.numTuplesInEvictionChain = 1) (hn : table.newestTupleID ≠ id)
    (ho : table.oldestTupleID = id) :
    removeTupleDoubleLinkedList table tup id =
      (true, { table with oldestTupleID := 0, newestTupleID := 0,
                          numTuplesInEvictionChain := 0 }) := by
  simp [removeTupleDoubleLinkedList, hc, hn, ho]

theorem removeDouble_oldest_two (table : PersistentTable) (tup id : Nat)
    (hc : table.numTuplesInEvictionChain = 2) (hn : table.newestTupleID ≠ id)
    (ho : table.oldestTupleID = id) :
    removeTupleDoubleLinkedList table tup id =
      (true, { table with oldestTupleID := table.newestTupleID,
                          newestTupleID := table.newestTupleID,
                          numTuplesInEvictionChain := 1 }) := by
  simp [removeTupleDoubleLinkedList, hc, hn, ho]

theorem removeDouble_oldest_many (table : PersistentTable) (tup id : Nat)
    (hc : 2 < table.numTuplesInEvictionChain) (hn : table.newestTupleID ≠ id)
    (ho : table.oldestTupleID = id) :
    removeTupleDoubleLinkedList table tup id =
      (true, { table with oldestTupleID := table.nextTupleInChain id,
                          numTuplesInEvictionChain := table.numTuplesInEvictionChain - 1 }) := by
  have h0 : ¬ table.numTuplesInEvictionChain ≤ 0 := by omega
  have h1 : ¬ table.numTuplesInEvictionChain = 1 := by omega
  have h2 : ¬ table.numTuplesInEvictionChain = 2 := by omega
  simp [removeTupleDoubleLinkedList, h0, h1, h2, hn, ho]

theorem removeDouble_other (table : PersistentTable) (tup id : Nat)
    (hc : 0 < table.numTuplesInEvictionChain) (hn : table.newestTupleID ≠ id)
    (ho : table.oldestTupleID ≠ id) :
    removeTupleDoubleLinkedList table tup id =
      (true, { table with
        nextTupleInChain := setSlot table.nextTupleInChain (table.previousTupleInChain tup)
          (table.nextTupleInChain tup)
        previousTupleInChain := setSlot table.previousTupleInChain (table.nextTupleInChain tup)
          (table.previousTupleInChain tup)
        numTuplesInEvictionChain := table.numTuplesInEvictionChain - 1 }) := by
  have h0 : ¬ table.numTuplesInEvictionChain ≤ 0 := by omega
  simp [removeTupleDoubleLinkedList, h0, hn, ho, PersistentTable.setNextTupleInChain,
    PersistentTable.setPreviousTupleInChain]

theorem removeDouble_empty (table : PersistentTable) (tup id : Nat)
    (hc : table.numTuplesInEvictionChain ≤ 0) :
    removeTupleDoubleLinkedList table tup id = (false, table) := by
  simp [removeTupleDoubleLinkedList, hc]

theorem Linked.prev_of_mem {f : Nat → Nat} {A B : List Nat} {a b : Nat}
    (hl : Linked f (A ++ a :: b :: B).reverse) : f b = a := by
  have : (A ++ a :: b :: B).reverse = B.reverse ++ b :: a :: A.reverse := by simp
  rw [this] at hl
  exact Linked.next_of_mem hl

theorem removeDouble_inv (table : PersistentTable) (L : List Nat) (t : Nat)
    (h : ChainInv true table L) (ht : t ∈ L) :
    ∃ table', removeTupleDoubleLinkedList table t t = (true, table') ∧
      ChainInv true table' (L.erase t) ∧ Frame table table' (L.erase t) ∧
      table'.numTuplesInEvictionChain = table.numTuplesInEvictionChain - 1 := by
  obtain ⟨A, B, rfl⟩ := List.append_of_mem ht
  have hnd := h.nodup
  have hcount := h.count_eq
  have hfwd := h.fwd
  have hbwd := h.bwd rfl
  have hhead := h.head_eq
  have hlast := h.last_eq
  have hnd' := List.nodup_append.mp hnd
  have htA : t ∉ A := fun hm => hnd'.2.2 hm (List.mem_cons_self _ _)
  have htB : t ∉ B := (List.nodup_cons.mp hnd'.2.1).1
  have herase : (A ++ t :: B).erase t = A ++ B := by
    rw [List.erase_append_right _ htA, List.erase_cons_head]
  have hndAB : (A ++ B).Nodup :=
    List.nodup_append.mpr ⟨hnd'.1, (List.nodup_cons.mp hnd'.2.1).2,
      fun x hx hy => hnd'.2.2 hx (List.mem_cons_of_mem _ hy)⟩
  rw [herase]
  cases B with
  | nil =>
    have hnew : table.newestTupleID = t := (hlast t (by simp)).symm
    rcases nil_or_snoc A with rfl | ⟨A', p, rfl⟩
    · have hc : table.numTuplesInEvictionChain = 1 := by simpa using hcount
      refine ⟨_, removeDouble_newest_one table t t hc hnew, ?_, ?_, by simp [hc]⟩
      · exact ⟨by simp, by simp, fun _ => ⟨rfl, rfl⟩, by simp, by simp,
          List.chain'_nil, fun _ => List.chain'_nil⟩
      · exact ⟨fun _ _ => rfl, fun _ _ => rfl, rfl, rfl⟩
    · have hlen : ((A' ++ [p]) ++ [t]).length = A'.length + 2 := by simp
      have hprev : table.previousTupleInChain t = p := by
        have : Linked table.previousTupleInChain (A' ++ p :: t :: []).reverse := by
          simpa using hbwd
        exact Linked.prev_of_mem this
      have hfwd' : Linked table.nextTupleInChain (A' ++ [p]) :=
        List.Chain'.left_of_append hfwd
      have hbwd' : Linked table.previousTupleInChain (A' ++ [p]).reverse := by
        have : Linked table.previousTupleInChain (t :: (A' ++ [p]).reverse) := by
          simpa using hbwd
        exact List.Chain'.tail this
      have hhead' : ∀ x ∈ (A' ++ [p]).head?, x = table.oldestTupleID := fun x hx =>
        hhead x (List.mem_head?_append_of_mem_head? hx)
      have hlast' : ∀ x ∈ (A' ++ [p]).getLast?, x = p := fun x hx => by
        rw [List.getLast?_concat] at hx; exact (Option.some.inj hx).symm
      simp only [List.append_nil] at hndAB ⊢
      cases A' with
      | nil =>
        have hc : table.numTuplesInEvictionChain = 2 := by rw [hcount, hlen]; rfl
        have hold : table.oldestTupleID = p := (hhead' p (by simp)).symm
        refine ⟨_, removeDouble_newest_two table t t hc hnew, ?_, ?_, by simp [hc]⟩
        · exact ⟨by simp, hndAB, by simp, by simp [hold], by simp [hold],
            hfwd', fun _ => hbwd'⟩
        · exact ⟨fun _ _ => rfl, fun _ _ => rfl, rfl, rfl⟩
      | cons a A'' =>
        have hc : 2 < table.numTuplesInEvictionChain := by
          rw [hcount, hlen]; simp
        refine ⟨_, removeDouble_newest_many table t t hc hnew, ?_, ?_, by simp⟩
        · refine ⟨?_, hndAB, by simp, hhead', ?_, hfwd', fun _ => hbwd'⟩
          · show table.numTuplesInEvictionChain - 1 = _
            rw [hcount, hlen]; simp; omega
          · intro x hx
            show x = table.previousTupleInChain t
            rw [hprev]; exact hlast' x hx
        · exact ⟨fun _ _ => rfl, fun _ _ => rfl, rfl, rfl⟩
  | cons q B' =>
    have hnew : table.newestTupleID ≠ t := by
      intro hn
      have hz : (q :: B').getLast (by simp) ∈ (q :: B').getLast? :=
        List.getLast_mem_getLast? _
      have hz2 : (q :: B').getLast (by simp) ∈ (A ++ t :: q :: B').getLast? :=
        List.mem_getLast?_append_of_mem_getLast? (List.mem_getLast?_cons hz)
      have hz' := hlast _ hz2
      rw [hn] at hz'
      exact htB (hz' ▸ List.getLast_mem _)
    have hlast' : ∀ x ∈ (q :: B').getLast?, x = table.newestTupleID := fun x hx =>
      hlast x (List.mem_getLast?_append_of_mem_getLast? (List.mem_getLast?_cons hx))
    have hnext : table.nextTupleInChain t = q := Linked.next_of_mem hfwd
    rcases nil_or_snoc A with rfl | ⟨A', p, rfl⟩
    · have hold : table.oldestTupleID = t := (hhead t (by simp)).symm
      have hfwd' : Linked table.nextTupleInChain (q :: B') := List.Chain'.tail hfwd
      have hbwd' : Linked table.previousTupleInChain (q :: B').reverse := by
        have : Linked table.previousTupleInChain ((q :: B').reverse ++ [t]) := by
          simpa using hbwd
        exact List.Chain'.left_of_append this
      simp only [List.nil_append] at hndAB hcount ⊢
      cases B' with
      | nil =>
        have hc : table.numTuplesInEvictionChain = 2 := by rw [hcount]; rfl
        have hq : table.newestTupleID = q := (hlast' q (by simp)).symm
        refine ⟨_, removeDouble_oldest_two table t t hc hnew hold, ?_, ?_, by simp [hc]⟩
        · exact ⟨by simp, hndAB, by simp, by simp [hq], by simp [hq], hfwd', fun _ => hbwd'⟩
        · exact ⟨fun _ _ => rfl, fun _ _ => rfl, rfl, rfl⟩
      | cons b B'' =>
        have hc : 2 < table.numTuplesInEvictionChain := by rw [hcount]; simp; omega
        refine ⟨_, removeDouble_oldest_many table t t hc hnew hold, ?_, ?_, by simp⟩
        · refine ⟨?_, hndAB, by simp, ?_, hlast', hfwd', fun _ => hbwd'⟩
          · show table.numTuplesInEvictionChain - 1 = _
            rw [hcount]; simp
          · intro x hx
            show x = table.nextTupleInChain t
            rw [hnext]; simpa using hx.symm
        · exact ⟨fun _ _ => rfl, fun _ _ => rfl, rfl, rfl⟩
    · have hold : table.oldestTupleID ≠ t := by
        intro ho
        have hz : (A' ++ [p]).head (by simp) ∈ (A' ++ [p]).head? :=
          List.head_mem_head? _
        have hz2 : (A' ++ [p]).head (by simp) ∈ (A' ++ [p] ++ t :: q :: B').head? :=
          List.mem_head?_append_of_mem_head? hz
        have hz' := hhead _ hz2
        rw [ho] at hz'
        exact htA (hz' ▸ List.head_mem _)
      have hc : 0 < table.numTuplesInEvictionChain := by rw [hcount]; simp; omega
      have hL : A' ++ [p] ++ t :: q :: B' = A' ++ p :: t :: q :: B' := by simp
      have hL' : A' ++ [p] ++ q :: B' = A' ++ p :: q :: B' := by simp
      rw [hL] at hfwd hbwd hcount hhead hlast
      rw [hL'] at hndAB ⊢
      have hprev : table.previousTupleInChain t = p := Linked.prev_of_mem hbwd
      refine ⟨_, removeDouble_other table t t hc hnew hold, ?_, ?_, by simp⟩
      · refine ⟨?_, hndAB, by simp, ?_, ?_, ?_, fun _ => ?_⟩
        · show table.numTuplesInEvictionChain - 1 = _
          rw [hcount]; simp; omega
        · intro x hx
          refine hhead x ?_
          cases A' <;> simpa using hx
        · intro x hx
          refine hlast x ?_
          simpa [List.getLast?_append] using hx
        · show Linked (setSlot table.nextTupleInChain (table.previousTupleInChain t)
            (table.nextTupleInChain t)) _
          rw [hprev, hnext]
          exact Linked.splice hfwd hndAB
        · show Linked (setSlot table.previousTupleInChain (table.nextTupleInChain t)
            (table.previousTupleInChain t)) _
          rw [hprev, hnext]
          have e1 : (A' ++ p :: q :: B').reverse = B'.reverse ++ q :: p :: A'.reverse := by simp
          have e2 : (A' ++ p :: t :: q :: B').reverse
              = B'.reverse ++ q :: t :: p :: A'.reverse := by simp
          rw [e1]
          rw [e2] at hbwd
          refine Linked.splice hbwd ?_
          rw [← e1]
          exact List.nodup_reverse.mpr hndAB
      · refine ⟨fun x hx => ?_, fun x hx => ?_, rfl, rfl⟩
        · show setSlot table.nextTupleInChain (table.previousTupleInChain t)
            (table.nextTupleInChain t) x = _
          rw [hprev]
          refine setSlot_other _ _ ?_
          rintro rfl
          exact hx (by rw [List.dropLast_append_cons]; simp)
        · show setSlot table.previousTupleInChain (table.nextTupleInChain t)
            (table.previousTupleInChain t) x = _
          rw [hnext]
          refine setSlot_other _ _ ?_
          rintro rfl
          exact hx (by cases A' <;> simp)

/-! ### What the insertion paths compute -/

theorem updateTuple_insert_empty (cfg : BuildConfig) (hcfg : IsLRU cfg)
    (table : PersistentTable) (htr : Tracked table) (t r : Nat)
    (hc : table.numTuplesInEvictionChain = 0) :
    updateTuple cfg table t true r =
      some (true, { table with newestTupleID := t, oldestTupleID := t,
                               numTuplesInEvictionChain := 1 }) := by
  simp [updateTuple, hcfg.1, hcfg.2, htr.1, htr.2, hc, getTupleID]

theorem updateTuple_insert_one (cfg : BuildConfig) (hcfg : IsLRU cfg)
    (table : PersistentTable) (htr : Tracked table) (t r : Nat)
    (hc : table.numTuplesInEvictionChain = 1) :
    updateTuple cfg table t true r =
      some (true, { table with
        nextTupleInChain := setSlot table.nextTupleInChain table.newestTupleID t
        previousTupleInChain := prevAfter cfg table t table.newestTupleID
        newestTupleID := t, oldestTupleID := table.newestTupleID,
        numTuplesInEvictionChain := 2 }) := by
  cases hr : cfg.ANTICACHE_REVERSIBLE_LRU <;>
  simp [updateTuple, hcfg.1, hcfg.2, htr.1, htr.2, hc, getTupleID, prevAfter, hr,
    PersistentTable.setNextTupleInChain, PersistentTable.setPreviousTupleInChain]

theorem updateTuple_insert_many (cfg : BuildConfig) (hcfg : IsLRU cfg)
    (table : PersistentTable) (htr : Tracked table) (t r : Nat)
    (hc : 1 < table.numTuplesInEvictionChain) :
    updateTuple cfg table t true r =
      some (true, { table with
        nextTupleInChain := setSlot table.nextTupleInChain table.newestTupleID t
        previousTupleInChain := prevAfter cfg table t table.newestTupleID
        newestTupleID := t,
        numTuplesInEvictionChain := table.numTuplesInEvictionChain + 1 }) := by
  have h0 : ¬ table.numTuplesInEvictionChain = 0 := by omega
  have h1 : ¬ table.numTuplesInEvictionChain = 1 := by omega
  cases hr : cfg.ANTICACHE_REVERSIBLE_LRU <;>
  simp [updateTuple, hcfg.1, hcfg.2, htr.1, htr.2, h0, h1, getTupleID, prevAfter, hr,
    PersistentTable.setNextTupleInChain, PersistentTable.setPreviousTupleInChain]

theorem updateUnevictedTuple_empty (cfg : BuildConfig) (hcfg : IsLRU cfg)
    (table : PersistentTable) (htr : Tracked table) (t : Nat)
    (hc : table.numTuplesInEvictionChain = 0) :
    updateUnevictedTuple cfg table t =
      (true, { table with newestTupleID := t, oldestTupleID := t,
                          numTuplesInEvictionChain := 1 }) := by
  simp [updateUnevictedTuple, hcfg.1, hcfg.2, htr.1, htr.2, hc, getTupleID]

theorem updateUnevictedTuple_nonempty (cfg : BuildConfig) (hcfg : IsLRU cfg)
    (table : PersistentTable) (htr : Tracked table) (t : Nat)
    (hc : table.numTuplesInEvictionChain ≠ 0) :
    updateUnevictedTuple cfg table t =
      (true, { table with
        nextTupleInChain := setSlot table.nextTupleInChain t table.oldestTupleID
        previousTupleInChain := prevAfter cfg table table.oldestTupleID t
        oldestTupleID := t,
        numTuplesInEvictionChain := table.numTuplesInEvictionChain + 1 }) := by
  cases hr : cfg.ANTICACHE_REVERSIBLE_LRU <;>
  simp [updateUnevictedTuple, hcfg.1, hcfg.2, htr.1, htr.2, hc, getTupleID, prevAfter, hr,
    PersistentTable.setNextTupleInChain, PersistentTable.setPreviousTupleInChain]

theorem prevAfter_other (cfg : BuildConfig) (table : PersistentTable) {slot x : Nat} (v : Nat)
    (h : x ≠ slot) : prevAfter cfg table slot v x = table.previousTupleInChain x := by
  unfold prevAfter
  split
  · exact setSlot_other _ _ h
  · rfl

theorem prevAfter_rev (cfg : BuildConfig) (table : PersistentTable) (slot v : Nat)
    (h : cfg.ANTICACHE_REVERSIBLE_LRU = true) :
    prevAfter cfg table slot v = setSlot table.previousTupleInChain slot v := by
  simp [prevAfter, h]

theorem insert_inv (cfg : BuildConfig) (hcfg : IsLRU cfg) (table : PersistentTable)
    (htr : Tracked table) (L : List Nat) (t r : Nat)
    (h : ChainInv cfg.ANTICACHE_REVERSIBLE_LRU table L) (ht : t ∉ L) :
    ∃ table', updateTuple cfg table t true r = some (true, table') ∧
      ChainInv cfg.ANTICACHE_REVERSIBLE_LRU table' (L ++ [t]) ∧
      Frame table table' (L ++ [t]) ∧
      table'.numTuplesInEvictionChain = table.numTuplesInEvictionChain + 1 := by
  have hcount := h.count_eq
  have hnd : (L ++ [t]).Nodup :=
    List.nodup_append.mpr ⟨h.nodup, List.nodup_singleton t, fun x hx hy => by
      rw [List.mem_singleton] at hy; exact ht (hy ▸ hx)⟩
  rcases nil_or_snoc L with rfl | ⟨A, n, rfl⟩
  · have hc : table.numTuplesInEvictionChain = 0 := by simpa using hcount
    refine ⟨_, updateTuple_insert_empty cfg hcfg table htr t r hc, ?_, ?_, by simp [hc]⟩
    · exact ⟨by simp, hnd, by simp, by simp, by simp, List.chain'_singleton t,
        fun _ => List.chain'_singleton t⟩
    · exact ⟨fun _ _ => rfl, fun _ _ => rfl, rfl, rfl⟩
  · have hnew : n = table.newestTupleID := h.last_eq n (by simp)
    have hfwd : Linked (setSlot table.nextTupleInChain table.newestTupleID t)
        (A ++ [n] ++ [t]) := Linked.append_one h.fwd h.last_eq h.nodup
    have hbwd : cfg.ANTICACHE_REVERSIBLE_LRU = true →
        Linked (prevAfter cfg table t table.newestTupleID) (A ++ [n] ++ [t]).reverse := by
      intro hr
      rw [prevAfter_rev cfg table _ _ hr, List.reverse_append, List.reverse_singleton,
        List.singleton_append]
      refine Linked.cons_one (h.bwd hr) (fun hm => ht (List.mem_reverse.mp hm)) ?_
      intro a ha
      rw [List.head?_reverse] at ha
      exact h.last_eq a ha
    have hlast : ∀ a ∈ (A ++ [n] ++ [t]).getLast?, a = t := fun a ha => by
      rw [List.getLast?_concat] at ha; exact (Option.some.inj ha).symm
    have hhead : ∀ a ∈ (A ++ [n] ++ [t]).head?, a = table.oldestTupleID := fun a ha =>
      h.head_eq a (by
        rw [List.head?_append_of_ne_nil _ (by simp)] at ha; exact ha)
    have hframe : ∀ tbl : PersistentTable,
        tbl.nextTupleInChain = setSlot table.nextTupleInChain table.newestTupleID t →
        tbl.previousTupleInChain = prevAfter cfg table t table.newestTupleID →
        tbl.hasEvictedTable = table.hasEvictedTable →
        tbl.batchEvicted = table.batchEvicted → Frame table tbl (A ++ [n] ++ [t]) := by
      intro tbl e1 e2 e3 e4
      refine ⟨fun x hx => ?_, fun x hx => ?_, e3, e4⟩
      · rw [e1]
        refine setSlot_other _ _ ?_
        rintro rfl
        rw [List.dropLast_concat] at hx
        exact hx (hnew ▸ by simp)
      · rw [e2]
        refine prevAfter_other cfg table _ ?_
        rintro rfl
        exact hx (by cases A <;> simp)
    cases A with
    | nil =>
      have hc : table.numTuplesInEvictionChain = 1 := by simpa using hcount
      have hold : table.oldestTupleID = table.newestTupleID := by
        rw [← hnew]; exact (h.head_eq n (by simp)).symm
      refine ⟨_, updateTuple_insert_one cfg hcfg table htr t r hc, ?_,
        hframe _ rfl rfl rfl rfl, by simp [hc]⟩
      exact ⟨by simp, hnd, by simp, fun a ha => (hhead a ha).trans hold, hlast, hfwd, hbwd⟩
    | cons a A' =>
      have hc : 1 < table.numTuplesInEvictionChain := by rw [hcount]; simp
      refine ⟨_, updateTuple_insert_many cfg hcfg table htr t r hc, ?_,
        hframe _ rfl rfl rfl rfl, by simp⟩
      refine ⟨?_, hnd, by simp, hhead, hlast, hfwd, hbwd⟩
      show table.numTuplesInEvictionChain + 1 = _
      rw [hcount]; simp; omega

theorem headInsert_inv (cfg : BuildConfig) (hcfg : IsLRU cfg) (table : PersistentTable)
    (htr : Tracked table) (L : List Nat) (t : Nat)
    (h : ChainInv cfg.ANTICACHE_REVERSIBLE_LRU table L) (ht : t ∉ L) :
    ∃ table', updateUnevictedTuple cfg table t = (true, table') ∧
      ChainInv cfg.ANTICACHE_REVERSIBLE_LRU table' (t :: L) ∧
      Frame table table' (t :: L) ∧
      table'.numTuplesInEvictionChain = table.numTuplesInEvictionChain + 1 := by
  have hcount := h.count_eq
  have hnd : (t :: L).Nodup := List.nodup_cons.mpr ⟨ht, h.nodup⟩
  cases L with
  | nil =>
    have hc : table.numTuplesInEvictionChain = 0 := by simpa using hcount
    refine ⟨_, updateUnevictedTuple_empty cfg hcfg table htr t hc, ?_, ?_, by simp [hc]⟩
    · exact ⟨by simp, hnd, by simp, by simp, by simp, List.chain'_singleton t,
        fun _ => List.chain'_singleton t⟩
    · exact ⟨fun _ _ => rfl, fun _ _ => rfl, rfl, rfl⟩
  | cons o L' =>
    have hold : o = table.oldestTupleID := h.head_eq o (by simp)
    have hc : table.numTuplesInEvictionChain ≠ 0 := by rw [hcount]; simp; omega
    refine ⟨_, updateUnevictedTuple_nonempty cfg hcfg table htr t hc, ?_, ?_, by simp⟩
    · refine ⟨?_, hnd, by simp, by simp, ?_, ?_, fun hr => ?_⟩
      · show table.numTuplesInEvictionChain + 1 = _
        rw [hcount]; simp
      · intro a ha
        exact h.last_eq a (by simpa using ha)
      · exact Linked.cons_one h.fwd ht h.head_eq
      · show Linked (prevAfter cfg table table.oldestTupleID t) _
        rw [prevAfter_rev cfg table _ _ hr, List.reverse_cons]
        refine Linked.append_one (h.bwd hr) ?_ (List.nodup_reverse.mpr h.nodup)
        intro a ha
        rw [List.getLast?_reverse] at ha
        exact h.head_eq a ha
    · refine ⟨fun x hx => ?_, fun x hx => ?_, rfl, rfl⟩
      · show setSlot table.nextTupleInChain t table.oldestTupleID x = _
        refine setSlot_other _ _ ?_
        rintro rfl
        exact hx (by simp)
      · show prevAfter cfg table table.oldestTupleID t x = _
        refine prevAfter_other cfg table _ ?_
        rintro rfl
        exact hx (by rw [← hold]; simp)

theorem removeTuple_double (cfg : BuildConfig) (hr : cfg.ANTICACHE_REVERSIBLE_LRU = true)
    (table : PersistentTable) (t : Nat) :
    removeTuple cfg table t = removeTupleDoubleLinkedList table t t := by
  simp [removeTuple, hr, getTupleID]

theorem removeTuple_single (cfg : BuildConfig) (hr : cfg.ANTICACHE_REVERSIBLE_LRU = false)
    (table : PersistentTable) (t : Nat) :
    removeTuple cfg table t = removeTupleSingleLinkedList table t := by
  simp [removeTuple, hr, getTupleID]

theorem updateTuple_miss (cfg : BuildConfig) (hcfg : IsLRU cfg) (table : PersistentTable)
    (t r : Nat) (hmiss : r % 100 ≠ 0) :
    updateTuple cfg table t false r = some (true, table) := by
  by_cases hg : table.hasEvictedTable = false ∨ table.batchEvicted = true
  · simp [updateTuple, hg]
  · simp [updateTuple, hg, hcfg.1, hcfg.2, hmiss]

theorem Frame.trans_append {table t1 t2 : PersistentTable} {L1 : List Nat} {t : Nat}
    (h1 : Frame table t1 L1) (h2 : Frame t1 t2 (L1 ++ [t])) : Frame table t2 (L1 ++ [t]) := by
  refine ⟨fun x hx => ?_, fun x hx => ?_, h2.evicted_eq.trans h1.evicted_eq,
    h2.batch_eq.trans h1.batch_eq⟩
  · rw [h2.next_eq x hx]
    refine h1.next_eq x (fun hm => hx ?_)
    rw [List.dropLast_concat]
    exact List.dropLast_subset _ hm
  · rw [h2.prev_eq x hx]
    refine h1.prev_eq x (fun hm => hx ?_)
    cases L1 with
    | nil => simp at hm
    | cons a l => simp at hm ⊢; exact Or.inl hm

theorem update_inv_double (cfg : BuildConfig) (hcfg : IsLRU cfg)
    (hr : cfg.ANTICACHE_REVERSIBLE_LRU = true) (table : PersistentTable)
    (htr : Tracked table) (L : List Nat) (t r : Nat) (hhit : r % 100 = 0)
    (h : ChainInv true table L) (ht : t ∈ L) :
    ∃ table', updateTuple cfg table t false r = some (true, table') ∧
      ChainInv true table' (L.erase t ++ [t]) ∧
      Frame table table' (L.erase t ++ [t]) ∧
      table'.numTuplesInEvictionChain = table.numTuplesInEvictionChain := by
  obtain ⟨t1, hrem, hinv1, hfr1, hcnt1⟩ := removeDouble_inv table L t h ht
  have htr1 : Tracked t1 := ⟨hfr1.evicted_eq.trans htr.1, hfr1.batch_eq.trans htr.2⟩
  have hpos : 0 < table.numTuplesInEvictionChain := by
    rw [h.count_eq]
    exact_mod_cast List.length_pos_of_mem ht
  have hstep : updateTuple cfg table t false r = updateTuple cfg t1 t true r := by
    simp [updateTuple, hcfg.1, hcfg.2, htr.1, htr.2, htr1.1, htr1.2, hhit, hpos, hr, hrem,
      getTupleID]
  have hnot : t ∉ L.erase t := fun hm => (List.Nodup.mem_erase_iff h.nodup).mp hm |>.1 rfl
  have hinv1' : ChainInv cfg.ANTICACHE_REVERSIBLE_LRU t1 (L.erase t) := by rw [hr]; exact hinv1
  obtain ⟨t2, hins, hinv2, hfr2, hcnt2⟩ := insert_inv cfg hcfg t1 htr1 (L.erase t) t r hinv1' hnot
  refine ⟨t2, hstep.trans hins, by rw [hr] at hinv2; exact hinv2, hfr1.trans_append hfr2, ?_⟩
  rw [hcnt2, hcnt1]; omega

theorem Frame.refl (table : PersistentTable) (L : List Nat) : Frame table table L :=
  ⟨fun _ _ => rfl, fun _ _ => rfl, rfl, rfl⟩

theorem Frame.tracked {table table' : PersistentTable} {L : List Nat}
    (h : Frame table table' L) (htr : Tracked table) : Tracked table' :=
  ⟨h.evicted_eq.trans htr.1, h.batch_eq.trans htr.2⟩

/-- Every admissible call keeps the double linked chain invariant, with the
member sequence the data model prescribes, and writes only the inward links
of the new chain. -/
theorem applyOp_inv (cfg : BuildConfig) (hcfg : IsLRU cfg)
    (hr : cfg.ANTICACHE_REVERSIBLE_LRU = true) (table : PersistentTable)
    (htr : Tracked table) (L L' : List Nat) (op : TrackerOp)
    (h : ChainInv true table L) (hop : membersAfterOp L op = some L') :
    ∃ table', applyOp cfg table op = some table' ∧ ChainInv true table' L' ∧
      Frame table table' L' := by
  have h' : ChainInv cfg.ANTICACHE_REVERSIBLE_LRU table L := by rw [hr]; exact h
  cases op with
  | insert t =>
    simp only [membersAfterOp] at hop
    split at hop
    · exact absurd hop (by simp)
    · rename_i ht
      obtain rfl := Option.some.inj hop
      obtain ⟨t', h1, h2, h3, _⟩ := insert_inv cfg hcfg table htr L t 0 h' ht
      exact ⟨t', by simp [applyOp, h1], by rw [hr] at h2; exact h2, h3⟩
  | headInsert t =>
    simp only [membersAfterOp] at hop
    split at hop
    · exact absurd hop (by simp)
    · rename_i ht
      obtain rfl := Option.some.inj hop
      obtain ⟨t', h1, h2, h3, _⟩ := headInsert_inv cfg hcfg table htr L t h' ht
      exact ⟨t', by simp [applyOp, h1], by rw [hr] at h2; exact h2, h3⟩
  | update t r =>
    simp only [membersAfterOp] at hop
    split at hop
    · rename_i hmiss
      obtain rfl := Option.some.inj hop
      exact ⟨table, by simp [applyOp, updateTuple_miss cfg hcfg table t r hmiss], h,
        Frame.refl table L⟩
    · rename_i hhit
      split at hop
      · rename_i ht
        obtain rfl := Option.some.inj hop
        obtain ⟨t', h1, h2, h3, _⟩ :=
          update_inv_double cfg hcfg hr table htr L t r (by omega) h ht
        exact ⟨t', by simp [applyOp, h1], h2, h3⟩
      · exact absurd hop (by simp)
  | remove t =>
    simp only [membersAfterOp] at hop
    split at hop
    · rename_i ht
      obtain rfl := Option.some.inj hop
      obtain ⟨t', h1, h2, h3, _⟩ := removeDouble_inv table L t h ht
      exact ⟨t', by simp [applyOp, removeTuple_double cfg hr, h1], h2, h3⟩
    · exact absurd hop (by simp)

theorem runOps_inv (cfg : BuildConfig) (hcfg : IsLRU cfg)
    (hr : cfg.ANTICACHE_REVERSIBLE_LRU = true) (ops : List TrackerOp) :
    ∀ (table : PersistentTable) (L L' : List Nat), Tracked table → ChainInv true table L →
      membersAfter L ops = some L' →
      ∃ table', runOps cfg table ops = some table' ∧ Tracked table' ∧
        ChainInv true table' L' := by
  induction ops with
  | nil =>
    intro table L L' htr h hm
    simp only [membersAfter, Option.some.injEq] at hm
    subst hm
    exact ⟨table, rfl, htr, h⟩
  | cons op ops ih =>
    intro table L L' htr h hm
    simp only [membersAfter] at hm
    cases hop : membersAfterOp L op with
    | none => rw [hop] at hm; simp at hm
    | some L1 =>
      rw [hop] at hm
      simp only [Option.some_bind] at hm
      obtain ⟨t1, h1, h2, h3⟩ := applyOp_inv cfg hcfg hr table htr L L1 op h hop
      obtain ⟨t2, h4, h5, h6⟩ := ih t1 L1 L' (h3.tracked htr) h2 hm
      exact ⟨t2, by simp [runOps, h1, h4], h5, h6⟩

theorem membersAfterOp_length (L L' : List Nat) (op : TrackerOp)
    (hop : membersAfterOp L op = some L') :
    (L'.length : Int) + removals [op] = L.length + registrations [op] := by
  cases op with
  | insert t =>
    simp only [membersAfterOp] at hop
    split at hop
    · simp at hop
    · obtain rfl := Option.some.inj hop; simp [removals, registrations]
  | headInsert t =>
    simp only [membersAfterOp] at hop
    split at hop
    · simp at hop
    · obtain rfl := Option.some.inj hop; simp [removals, registrations]
  | update t r =>
    simp only [membersAfterOp] at hop
    split at hop
    · obtain rfl := Option.some.inj hop; simp [removals, registrations]
    · split at hop
      · rename_i ht
        obtain rfl := Option.some.inj hop
        have := List.length_pos_of_mem ht
        simp [removals, registrations, List.length_erase_of_mem ht]
        omega
      · simp at hop
  | remove t =>
    simp only [membersAfterOp] at hop
    split at hop
    · rename_i ht
      obtain rfl := Option.some.inj hop
      have := List.length_pos_of_mem ht
      simp [removals, registrations, List.length_erase_of_mem ht]
      omega
    · simp at hop

theorem registrations_cons (op : TrackerOp) (ops : List TrackerOp) :
    registrations (op :: ops) = registrations [op] + registrations ops := by
  cases op <;> simp [registrations, Nat.add_comm]

theorem removals_cons (op : TrackerOp) (ops : List TrackerOp) :
    removals (op :: ops) = removals [op] + removals ops := by
  cases op <;> simp [removals, Nat.add_comm]

theorem membersAfter_length (ops : List TrackerOp) :
    ∀ (L L' : List Nat), membersAfter L ops = some L' →
      (L'.length : Int) + removals ops = L.length + registrations ops := by
  induction ops with
  | nil =>
    intro L L' hm
    simp only [membersAfter, Option.some.injEq] at hm
    subst hm
    simp [removals, registrations]
  | cons op ops ih =>
    intro L L' hm
    simp only [membersAfter] at hm
    cases hop : membersAfterOp L op with
    | none => rw [hop] at hm; simp at hm
    | some L1 =>
      rw [hop] at hm
      simp only [Option.some_bind] at hm
      have h1 := membersAfterOp_length L L1 op hop
      have h2 := ih L1 L' hm
      rw [registrations_cons, removals_cons]
      push_cast
      omega

theorem Linked.both {next prev : Nat → Nat} {L : List Nat} (hf : Linked next L)
    (hb : Linked prev L.reverse) :
    L.Chain' (fun a b => next a = b ∧ prev b = a) := by
  have hb' : L.Chain' (fun a b => prev b = a) := List.chain'_reverse.mp hb
  induction L with
  | nil => exact List.chain'_nil
  | cons a l ih =>
    cases l with
    | nil => exact List.chain'_singleton a
    | cons b l =>
      have h1 := List.chain'_cons.mp hf
      have h2 := List.chain'_cons.mp hb'
      refine List.chain'_cons.mpr ⟨⟨h1.1, h2.1⟩, ih h1.2 ?_ h2.2⟩
      exact List.chain'_reverse.mpr h2.2

/-! ### The scan of the single linked chain -/

/-- The loop of `removeTupleSingleLinkedList` stops by its own test within the
fuel it is given: once `count - iterations ≤ fuel`, more fuel changes nothing. -/
theorem scanChain_fuel (removal_id : Nat) (extra : Nat) :
    ∀ (fuel : Nat) (s : ScanState),
      (s.table.numTuplesInEvictionChain - s.iterations).toNat ≤ fuel →
      scanChain removal_id (fuel + extra) s = scanChain removal_id fuel s := by
  intro fuel
  induction fuel with
  | zero =>
    intro s hs
    have hle : ¬ s.iterations < s.table.numTuplesInEvictionChain := by omega
    cases extra with
    | zero => rfl
    | succ k =>
      rw [Nat.zero_add]
      simp [scanChain, hle]
  | succ n ih =>
    intro s hs
    rw [Nat.add_right_comm]
    unfold scanChain
    split
    · rename_i hcond
      split
      · rfl
      · refine ih _ ?_
        show (s.table.numTuplesInEvictionChain - (s.iterations + 1)).toNat ≤ n
        omega
    · rfl

theorem scanChain_found (removal_id fuel : Nat) (s : ScanState) (h : s.tuple_found = true) :
    scanChain removal_id fuel s = s := by
  cases fuel with
  | zero => rfl
  | succ n => simp [scanChain, h]

/-- Scanning for a tuple `t` that lies `M.length` links ahead of the current
tuple finds it, as long as the pass counter allows: the predecessor is linked
to the successor of `t` and the scan ends with `current = t`, found. -/
theorem scanChain_reaches (table : PersistentTable) (t : Nat) :
    ∀ (M : List Nat) (c prev : Nat) (iter : Int) (fuel : Nat),
      t ∉ M → Linked table.nextTupleInChain (M ++ [t]) →
      (∀ a ∈ (M ++ [t]).head?, a = c) →
      iter + M.length < table.numTuplesInEvictionChain → M.length < fuel →
      scanChain t fuel
          { table := table, tuple := c, current_tuple_id := c, previous_tuple_id := prev,
            tuple_found := false, iterations := iter } =
        { table := table.setNextTupleInChain ((prev :: M).getLast (by simp))
            (table.nextTupleInChain t),
          tuple := (prev :: M).getLast (by simp), current_tuple_id := t,
          previous_tuple_id := (prev :: M).getLast (by simp), tuple_found := true,
          iterations := iter + M.length } := by
  intro M
  induction M with
  | nil =>
    intro c prev iter fuel _ _ hhead hiter hfuel
    have hc : t = c := hhead t (by simp)
    subst hc
    obtain ⟨f, rfl⟩ : ∃ f, fuel = f + 1 := ⟨fuel - 1, by simp at hfuel; omega⟩
    have hiter' : iter < table.numTuplesInEvictionChain := by simpa using hiter
    simp [scanChain, hiter']
  | cons m M' ih =>
    intro c prev iter fuel htM hl hhead hiter hfuel
    have hc : m = c := hhead m (by simp)
    subst hc
    have hmt : m ≠ t := fun e => htM (e ▸ List.mem_cons_self _ _)
    obtain ⟨f, rfl⟩ : ∃ f, fuel = f + 1 := ⟨fuel - 1, by simp at hfuel; omega⟩
    have hiter' : iter < table.numTuplesInEvictionChain := by
      simp only [List.length_cons, Nat.cast_add, Nat.cast_one] at hiter; omega
    have hl' : Linked table.nextTupleInChain (M' ++ [t]) := List.Chain'.tail hl
    have hhead' : ∀ a ∈ (M' ++ [t]).head?, a = table.nextTupleInChain m := by
      intro a ha
      have := List.Chain'.rel_head? hl ha
      exact this.symm
    have := ih (table.nextTupleInChain m) m (iter + 1) f
      (fun hm => htM (List.mem_cons_of_mem _ hm)) hl' hhead'
      (by simp only [List.length_cons, Nat.cast_add, Nat.cast_one] at hiter; omega)
      (by simpa using hfuel)
    rw [scanChain]
    simp only [hiter', and_self, if_true, hmt, if_false]
    rw [this]
    simp only [List.getLast_cons_cons, List.length_cons, Nat.cast_add, Nat.cast_one,
      ScanState.mk.injEq, and_true, true_and]
    omega

theorem removeSingle_oldest_one (table : PersistentTable) (id : Nat)
    (hc : table.numTuplesInEvictionChain = 1) (ho : table.oldestTupleID = id) :
    removeTupleSingleLinkedList table id =
      (true, { table with oldestTupleID := 0, newestTupleID := 0,
                          numTuplesInEvictionChain := 0 }) := by
  simp [removeTupleSingleLinkedList, hc, ho, scanChain]

/-- Removing a member `t` that is not the oldest from a single linked chain:
with `M` the members before `t`, the last of them is linked to whatever follows
`t` and the count is decremented.  Nothing else is written, `newest_id`
included, also when `t` is the newest tuple. -/
theorem removeSingle_scan (table : PersistentTable) (M : List Nat) (t : Nat) (hM : M ≠ [])
    (htM : t ∉ M) (hl : Linked table.nextTupleInChain (M ++ [t]))
    (hhead : ∀ a ∈ (M ++ [t]).head?, a = table.oldestTupleID)
    (hc : (M.length : Int) < table.numTuplesInEvictionChain) :
    removeTupleSingleLinkedList table t =
      (true, { table with
        nextTupleInChain := setSlot table.nextTupleInChain (M.getLast hM)
          (table.nextTupleInChain t)
        numTuplesInEvictionChain := table.numTuplesInEvictionChain - 1 }) := by
  have hold : table.oldestTupleID ≠ t := by
    intro ho
    have hz : M.head hM ∈ M.head? := List.head_mem_head? _
    have hz2 : M.head hM ∈ (M ++ [t]).head? := List.mem_head?_append_of_mem_head? hz
    have := hhead _ hz2
    rw [ho] at this
    exact htM (this ▸ List.head_mem _)
  have h0 : ¬ table.numTuplesInEvictionChain ≤ 0 := by omega
  have hscan := scanChain_reaches table t M table.oldestTupleID 0 0
    table.numTuplesInEvictionChain.toNat htM hl hhead (by omega) (by omega)
  have hlast : (0 :: M).getLast (by simp) = M.getLast hM := List.getLast_cons hM
  simp only [removeTupleSingleLinkedList, h0, if_false, hold, hscan]
  simp [hlast, PersistentTable.setNextTupleInChain]

theorem removeSingle_oldest_many (table : PersistentTable) (id : Nat)
    (hc : 1 < table.numTuplesInEvictionChain) (ho : table.oldestTupleID = id) :
    removeTupleSingleLinkedList table id =
      (true, { table with oldestTupleID := table.nextTupleInChain id,
                          numTuplesInEvictionChain := table.numTuplesInEvictionChain - 1 }) := by
  have h0 : ¬ table.numTuplesInEvictionChain ≤ 0 := by omega
  have h1 : ¬ table.numTuplesInEvictionChain = 1 := by omega
  simp [removeTupleSingleLinkedList, h0, h1, ho, scanChain_found]

/-- Removing the newest tuple of a single linked chain with two or more
members: the predecessor is linked to whatever followed the removed tuple and
the count is decremented, but `newest_id` is left at the removed tuple. -/
theorem removeSingle_newest (table : PersistentTable) (M : List Nat) (t : Nat) (hM : M ≠ [])
    (h : ChainInv false table (M ++ [t])) :
    removeTupleSingleLinkedList table t =
      (true, { table with
        nextTupleInChain := setSlot table.nextTupleInChain (M.getLast hM)
          (table.nextTupleInChain t)
        numTuplesInEvictionChain := table.numTuplesInEvictionChain - 1 }) := by
  have hnd := List.nodup_append.mp h.nodup
  refine removeSingle_scan table M t hM (fun hm => hnd.2.2 hm (List.mem_singleton_self t))
    h.fwd h.head_eq ?_
  rw [h.count_eq]; simp

/-- Removal from a single linked chain keeps the chain invariant for every
member other than the newest of several. -/
theorem removeSingle_inv (table : PersistentTable) (L : List Nat) (t : Nat)
    (h : ChainInv false table L) (ht : t ∈ L)
    (hnew : table.newestTupleID ≠ t ∨ L = [t]) :
    ∃ table', removeTupleSingleLinkedList table t = (true, table') ∧
      ChainInv false table' (L.erase t) ∧ Frame table table' (L.erase t) ∧
      table'.numTuplesInEvictionChain = table.numTuplesInEvictionChain - 1 := by
  obtain ⟨A, B, rfl⟩ := List.append_of_mem ht
  have hnd := h.nodup
  have hcount := h.count_eq
  have hfwd := h.fwd
  have hhead := h.head_eq
  have hlast := h.last_eq
  have hnd' := List.nodup_append.mp hnd
  have htA : t ∉ A := fun hm => hnd'.2.2 hm (List.mem_cons_self _ _)
  have htB : t ∉ B := (List.nodup_cons.mp hnd'.2.1).1
  have herase : (A ++ t :: B).erase t = A ++ B := by
    rw [List.erase_append_right _ htA, List.erase_cons_head]
  have hndAB : (A ++ B).Nodup :=
    List.nodup_append.mpr ⟨hnd'.1, (List.nodup_cons.mp hnd'.2.1).2,
      fun x hx hy => hnd'.2.2 hx (List.mem_cons_of_mem _ hy)⟩
  rw [herase]
  cases B with
  | nil =>
    have hn : table.newestTupleID = t := (hlast t (by simp)).symm
    rcases hnew with hne | hsole
    · exact absurd hn hne
    · have hA : A = [] := by
        have := congrArg List.length hsole
        simpa using this
      subst hA
      have hc : table.numTuplesInEvictionChain = 1 := by simpa using hcount
      have ho : table.oldestTupleID = t := (hhead t (by simp)).symm
      refine ⟨_, removeSingle_oldest_one table t hc ho, ?_, ?_, by simp [hc]⟩
      · exact ⟨by simp, by simp, fun _ => ⟨rfl, rfl⟩, by simp, by simp,
          List.chain'_nil, fun hr => by simp at hr⟩
      · exact ⟨fun _ _ => rfl, fun _ _ => rfl, rfl, rfl⟩
  | cons q B' =>
    have hlast' : ∀ x ∈ (q :: B').getLast?, x = table.newestTupleID := fun x hx =>
      hlast x (List.mem_getLast?_append_of_mem_getLast? (List.mem_getLast?_cons hx))
    have hnext : table.nextTupleInChain t = q := Linked.next_of_mem hfwd
    rcases nil_or_snoc A with rfl | ⟨A', p, rfl⟩
    · have hold : table.oldestTupleID = t := (hhead t (by simp)).symm
      have hc : 1 < table.numTuplesInEvictionChain := by rw [hcount]; simp
      simp only [List.nil_append] at hndAB hcount ⊢
      refine ⟨_, removeSingle_oldest_many table t hc hold, ?_, ?_, by simp⟩
      · refine ⟨?_, hndAB, by simp, ?_, hlast', List.Chain'.tail hfwd, fun hr => by simp at hr⟩
        · show table.numTuplesInEvictionChain - 1 = _
          rw [hcount]; simp
        · intro x hx
          show x = table.nextTupleInChain t
          rw [hnext]; simpa using hx.symm
      · exact ⟨fun _ _ => rfl, fun _ _ => rfl, rfl, rfl⟩
    · have hl : Linked table.nextTupleInChain (A' ++ [p] ++ [t]) := by
        have e : A' ++ [p] ++ t :: q :: B' = (A' ++ [p] ++ [t]) ++ q :: B' := by simp
        rw [e] at hfwd
        exact List.Chain'.left_of_append hfwd
      have hh : ∀ a ∈ (A' ++ [p] ++ [t]).head?, a = table.oldestTupleID := by
        intro a ha
        refine hhead a ?_
        have hne : A' ++ [p] ≠ [] := by simp
        rw [List.head?_append_of_ne_nil _ hne] at ha
        rw [List.head?_append_of_ne_nil _ hne]
        exact ha
      have hc : ((A' ++ [p]).length : Int) < table.numTuplesInEvictionChain := by
        rw [hcount]; simp; omega
      have hrem := removeSingle_scan table (A' ++ [p]) t (by simp) htA hl hh hc
      have hgl : (A' ++ [p]).getLast (by simp) = p := List.getLast_append_singleton _
      rw [hgl, hnext] at hrem
      have hL : A' ++ [p] ++ t :: q :: B' = A' ++ p :: t :: q :: B' := by simp
      have hL' : A' ++ [p] ++ q :: B' = A' ++ p :: q :: B' := by simp
      rw [hL] at hfwd hcount hhead hlast
      rw [hL'] at hndAB ⊢
      refine ⟨_, hrem, ?_, ?_, by simp⟩
      · refine ⟨?_, hndAB, by simp, ?_, ?_, Linked.splice hfwd hndAB, fun hr => by simp at hr⟩
        · show table.numTuplesInEvictionChain - 1 = _
          rw [hcount]; simp; omega
        · intro x hx
          refine hhead x ?_
          cases A' <;> simpa using hx
        · intro x hx
          refine hlast x ?_
          simpa [List.getLast?_append] using hx
      · refine ⟨fun x hx => ?_, fun _ _ => rfl, rfl, rfl⟩
        show setSlot table.nextTupleInChain p q x = _
        refine setSlot_other _ _ ?_
        rintro rfl
        exact hx (by rw [List.dropLast_append_cons]; simp)

/-- A sampled-in update in the single linked build moves every member other
than the newest of several to the end of the chain. -/
theorem update_inv_single (cfg : BuildConfig) (hcfg : IsLRU cfg)
    (hr : cfg.ANTICACHE_REVERSIBLE_LRU = false) (table : PersistentTable)
    (htr : Tracked table) (L : List Nat) (t r : Nat) (hhit : r % 100 = 0)
    (h : ChainInv false table L) (ht : t ∈ L)
    (hnew : table.newestTupleID ≠ t ∨ L = [t]) :
    ∃ table', updateTuple cfg table t false r = some (true, table') ∧
      ChainInv false table' (L.erase t ++ [t]) ∧
      Frame table table' (L.erase t ++ [t]) ∧
      table'.numTuplesInEvictionChain = table.numTuplesInEvictionChain := by
  obtain ⟨t1, hrem, hinv1, hfr1, hcnt1⟩ := removeSingle_inv table L t h ht hnew
  have htr1 : Tracked t1 := hfr1.tracked htr
  have hpos : 0 < table.numTuplesInEvictionChain := by
    rw [h.count_eq]
    exact_mod_cast List.length_pos_of_mem ht
  have hstep : updateTuple cfg table t false r = updateTuple cfg t1 t true r := by
    simp [updateTuple, hcfg.1, hcfg.2, htr.1, htr.2, htr1.1, htr1.2, hhit, hpos, hr, hrem,
      getTupleID]
  have hnot : t ∉ L.erase t := fun hm => (List.Nodup.mem_erase_iff h.nodup).mp hm |>.1 rfl
  have hinv1' : ChainInv cfg.ANTICACHE_REVERSIBLE_LRU t1 (L.erase t) := by rw [hr]; exact hinv1
  obtain ⟨t2, hins, hinv2, hfr2, hcnt2⟩ := insert_inv cfg hcfg t1 htr1 (L.erase t) t r hinv1' hnot
  refine ⟨t2, hstep.trans hins, by rw [hr] at hinv2; exact hinv2, hfr1.trans_append hfr2, ?_⟩
  rw [hcnt2, hcnt1]; omega

/-! ## The claims -/

/-- C1 (defect in the code): removing the newest tuple of a single linked chain
with two or more members should make its predecessor the newest tuple.  On the
well-formed chain 1, 2 the removal of 2 returns true and decrements the count
to 1, but `newest_id` is still 2 while `oldest_id` is 1: the scan finds the
newest tuple in its last pass and treats it as an interior one, so the branch
after the loop that resets `newest_id` is never reached.  The same happens on
the chain 1, 2, 3 when 3 is removed. -/
theorem C1_removeSingle_newest_keeps_newest_id :
    WellFormedChain false chain12 [1, 2] ∧
    (removeTupleSingleLinkedList chain12 2).1 = true ∧
    (removeTupleSingleLinkedList chain12 2).2.view 3 = (1, 2, 1, [0, 0, 0], [0, 0, 1]) ∧
    WellFormedChain false chain123 [1, 2, 3] ∧
    (removeTupleSingleLinkedList chain123 3).1 = true ∧
    (removeTupleSingleLinkedList chain123 3).2.view 4
      = (1, 3, 2, [0, 2, 0, 0], [0, 0, 1, 2]) := by
  decide

/-- C2 (defect in the code): a sampled-in update of a member should move it to
the end of the chain.  When the member is already the newest of two or more
the chain is destroyed instead: on the chain 1, 2 the update of 2 leaves
`oldest_id = newest_id = 2`, count 2 and `next(2) = 2`, so tuple 1 is lost; on
the chain 1, 2, 3 the update of 3 leaves `next(2) = 0` and `next(3) = 3`, so
the walk from the oldest tuple no longer reaches the newest one.  An update of
a member that is not the newest works: on 1, 2, 3 the update of 1 yields the
chain 2, 3, 1. -/
theorem C2_updateSingle_newest_breaks_chain :
    WellFormedChain false chain12 [1, 2] ∧
    (updateTuple lruSingle chain12 2 false 0).map Prod.fst = some true ∧
    (updateTuple lruSingle chain12 2 false 0).map (fun r => r.2.view 3)
      = some (2, 2, 2, [0, 0, 2], [0, 0, 1]) ∧
    WellFormedChain false chain123 [1, 2, 3] ∧
    (updateTuple lruSingle chain123 3 false 0).map (fun r => r.2.view 4)
      = some (1, 3, 3, [0, 2, 0, 3], [0, 0, 1, 2]) ∧
    (updateTuple lruSingle chain123 1 false 0).map
      (fun r => (r.1, decide (WellFormedChain false r.2 [2, 3, 1]))) = some (true, true) :=
  ⟨by decide, by decide, by decide, by decide, by decide, by decide⟩

/-- C3: in a well-formed double linked chain with three or more members the
removal of any member returns true, decrements the count by one, and leaves a
chain whose forward walk from `oldest_id` visits the old members without the
removed one and ends at `newest_id`, and whose backward walk from `newest_id`
is the reverse. -/
theorem C3_removeDouble_three_or_more (table : PersistentTable) (L : List Nat) (t : Nat)
    (hwf : WellFormedChain true table L) (hlen : 3 ≤ L.length) (ht : t ∈ L) :
    (removeTupleDoubleLinkedList table t t).1 = true ∧
    (removeTupleDoubleLinkedList table t t).2.numTuplesInEvictionChain
      = table.numTuplesInEvictionChain - 1 ∧
    walk (removeTupleDoubleLinkedList table t t).2.nextTupleInChain
      (removeTupleDoubleLinkedList table t t).2.oldestTupleID (L.length - 1) = L.erase t ∧
    (L.erase t).getLast? = some (removeTupleDoubleLinkedList table t t).2.newestTupleID ∧
    walk (removeTupleDoubleLinkedList table t t).2.previousTupleInChain
      (removeTupleDoubleLinkedList table t t).2.newestTupleID (L.length - 1)
      = (L.erase t).reverse := by
  obtain ⟨t', h1, h2, _, h4⟩ := removeDouble_inv table L t ((wf_iff _ _ _).mp hwf) ht
  obtain ⟨_, _, _, w4, w5, w6⟩ := (wf_iff _ _ _).mpr h2
  have hl : (L.erase t).length = L.length - 1 := List.length_erase_of_mem ht
  have hne : L.erase t ≠ [] := by
    intro h0
    rw [h0] at hl
    simp at hl
    omega
  rw [h1]
  rw [hl] at w4
  have w6' := w6 rfl
  rw [hl] at w6'
  exact ⟨rfl, h4, w4, w5 hne, w6'⟩

/-- Witness for C3: the interior member 2 of the chain 1, 2, 3. -/
theorem C3_removeDouble_three_or_more_witness :
    WellFormedChain true chain123 [1, 2, 3] ∧
    (removeTupleDoubleLinkedList chain123 2 2).2.view 4
      = (1, 3, 2, [0, 3, 3, 0], [0, 0, 1, 1]) ∧
    walk (removeTupleDoubleLinkedList chain123 2 2).2.nextTupleInChain
      (removeTupleDoubleLinkedList chain123 2 2).2.oldestTupleID 2 = [1, 3] :=
  ⟨by decide, by decide,
    (C3_removeDouble_three_or_more chain123 [1, 2, 3] 2 (by decide) (by decide)
      (by decide)).2.2.1⟩

/-- C4: in a well-formed double linked chain of two members `a` (oldest) and
`b` (newest), removing either one returns true and leaves count 1 with both
endpoints at the survivor; removing the survivor next returns true and leaves
both endpoints at 0 and count 0. -/
theorem C4_removeDouble_pair (table : PersistentTable) (a b : Nat)
    (hwf : WellFormedChain true table [a, b]) :
    ((removeTupleDoubleLinkedList table b b).1 = true ∧
      (removeTupleDoubleLinkedList table b b).2.numTuplesInEvictionChain = 1 ∧
      (removeTupleDoubleLinkedList table b b).2.oldestTupleID = a ∧
      (removeTupleDoubleLinkedList table b b).2.newestTupleID = a ∧
      (removeTupleDoubleLinkedList (removeTupleDoubleLinkedList table b b).2 a a).1 = true ∧
      (removeTupleDoubleLinkedList
        (removeTupleDoubleLinkedList table b b).2 a a).2.oldestTupleID = 0 ∧
      (removeTupleDoubleLinkedList
        (removeTupleDoubleLinkedList table b b).2 a a).2.newestTupleID = 0 ∧
      (removeTupleDoubleLinkedList
        (removeTupleDoubleLinkedList table b b).2 a a).2.numTuplesInEvictionChain = 0) ∧
    ((removeTupleDoubleLinkedList table a a).1 = true ∧
      (removeTupleDoubleLinkedList table a a).2.numTuplesInEvictionChain = 1 ∧
      (removeTupleDoubleLinkedList table a a).2.oldestTupleID = b ∧
      (removeTupleDoubleLinkedList table a a).2.newestTupleID = b ∧
      (removeTupleDoubleLinkedList (removeTupleDoubleLinkedList table a a).2 b b).1 = true ∧
      (removeTupleDoubleLinkedList
        (removeTupleDoubleLinkedList table a a).2 b b).2.oldestTupleID = 0 ∧
      (removeTupleDoubleLinkedList
        (removeTupleDoubleLinkedList table a a).2 b b).2.newestTupleID = 0 ∧
      (removeTupleDoubleLinkedList
        (removeTupleDoubleLinkedList table a a).2 b b).2.numTuplesInEvictionChain = 0) := by
  have h := (wf_iff _ _ _).mp hwf
  have hc : table.numTuplesInEvictionChain = 2 := by simpa using h.count_eq
  have ho : table.oldestTupleID = a := (h.head_eq a (by simp)).symm
  have hn : table.newestTupleID = b := (h.last_eq b (by simp)).symm
  have hab : a ≠ b := by
    have := h.nodup
    simp at this
    exact this
  have hna : table.newestTupleID ≠ a := by rw [hn]; exact fun e => hab e.symm
  constructor
  · have e1 := removeDouble_newest_two table b b hc hn
    have e2 := removeDouble_newest_one
      { table with oldestTupleID := table.oldestTupleID, newestTupleID := table.oldestTupleID,
                   numTuplesInEvictionChain := 1 } a a rfl ho
    rw [e1]
    refine ⟨rfl, rfl, ho, ho, ?_⟩
    simp only [e2, and_self]
  · have e1 := removeDouble_oldest_two table a a hc hna ho
    have e2 := removeDouble_newest_one
      { table with oldestTupleID := table.newestTupleID, newestTupleID := table.newestTupleID,
                   numTuplesInEvictionChain := 1 } b b rfl hn
    rw [e1]
    refine ⟨rfl, rfl, hn, hn, ?_⟩
    simp only [e2, and_self]

/-- Witness for C4: the chain 1, 2. -/
theorem C4_removeDouble_pair_witness :
    WellFormedChain true chain12 [1, 2] ∧
    (removeTupleDoubleLinkedList chain12 2 2).2.oldestTupleID = 1 ∧
    (removeTupleDoubleLinkedList chain12 1 1).2.newestTupleID = 2 :=
  ⟨by decide, (C4_removeDouble_pair chain12 1 2 (by decide)).1.2.2.1,
    (C4_removeDouble_pair chain12 1 2 (by decide)).2.2.2.2.1⟩

/-- C5: in both chain forms, removing the only member of a chain of one
returns true and leaves `oldest_id = 0`, `newest_id = 0` and count 0. -/
theorem C5_remove_sole_member (reversible : Bool) (table : PersistentTable) (t : Nat)
    (hwf : WellFormedChain reversible table [t]) :
    ((removeTupleSingleLinkedList table t).1 = true ∧
      (removeTupleSingleLinkedList table t).2.oldestTupleID = 0 ∧
      (removeTupleSingleLinkedList table t).2.newestTupleID = 0 ∧
      (removeTupleSingleLinkedList table t).2.numTuplesInEvictionChain = 0) ∧
    ((removeTupleDoubleLinkedList table t t).1 = true ∧
      (removeTupleDoubleLinkedList table t t).2.oldestTupleID = 0 ∧
      (removeTupleDoubleLinkedList table t t).2.newestTupleID = 0 ∧
      (removeTupleDoubleLinkedList table t t).2.numTuplesInEvictionChain = 0) := by
  have h := (wf_iff _ _ _).mp hwf
  have hc : table.numTuplesInEvictionChain = 1 := by simpa using h.count_eq
  have ho : table.oldestTupleID = t := (h.head_eq t (by simp)).symm
  have hn : table.newestTupleID = t := (h.last_eq t (by simp)).symm
  rw [removeSingle_oldest_one table t hc ho, removeDouble_newest_one table t t hc hn]
  exact ⟨⟨rfl, rfl, rfl, rfl⟩, ⟨rfl, rfl, rfl, rfl⟩⟩

/-- Witness for C5: the chain holding tuple 1 alone. -/
theorem C5_remove_sole_member_witness :
    WellFormedChain true chain1 [1] ∧
    (removeTupleSingleLinkedList chain1 1).2.numTuplesInEvictionChain = 0 ∧
    (removeTupleDoubleLinkedList chain1 1 1).2.numTuplesInEvictionChain = 0 :=
  ⟨by decide, (C5_remove_sole_member true chain1 1 (by decide)).1.2.2.2,
    (C5_remove_sole_member true chain1 1 (by decide)).2.2.2.2⟩

/-- C6: in an LRU build, on a tracked table with a well-formed chain `L`,
inserting a tuple `t` that is not a member returns true and yields the
well-formed chain `L` followed by `t`: `newest_id = t`, the count grows by
one, `oldest_id` is unchanged when `L` is not empty and is `t` when it is. -/
theorem C6_insert_appends (cfg : BuildConfig) (hcfg : IsLRU cfg) (table : PersistentTable)
    (htr : Tracked table) (L : List Nat) (t rand : Nat)
    (hwf : WellFormedChain cfg.ANTICACHE_REVERSIBLE_LRU table L) (ht : t ∉ L) :
    ∃ table', updateTuple cfg table t true rand = some (true, table') ∧
      WellFormedChain cfg.ANTICACHE_REVERSIBLE_LRU table' (L ++ [t]) ∧
      table'.newestTupleID = t ∧
      table'.numTuplesInEvictionChain = table.numTuplesInEvictionChain + 1 ∧
      (L ≠ [] → table'.oldestTupleID = table.oldestTupleID) ∧
      (L = [] → table'.oldestTupleID = t) := by
  have h := (wf_iff _ _ _).mp hwf
  obtain ⟨t', h1, h2, _, h4⟩ := insert_inv cfg hcfg table htr L t rand h ht
  refine ⟨t', h1, (wf_iff _ _ _).mpr h2, (h2.last_eq t (by simp)).symm, h4, ?_, ?_⟩
  · intro hne
    cases L with
    | nil => exact absurd rfl hne
    | cons a l =>
      have e1 := h.head_eq a (by simp)
      have e2 := h2.head_eq a (by simp)
      rw [← e1, ← e2]
  · rintro rfl
    exact (h2.head_eq t (by simp)).symm

/-- Witness for C6: tuple 3 inserted into the chain 1, 2 of the double linked
build. -/
theorem C6_insert_appends_witness :
    ∃ table', updateTuple lruDouble chain12 3 true 0 = some (true, table') ∧
      WellFormedChain true table' [1, 2, 3] ∧ table'.newestTupleID = 3 :=
  (C6_insert_appends lruDouble (by decide) chain12 (by decide) [1, 2] 3 0 (by decide)
    (by decide)).imp fun _ h => ⟨h.1, h.2.1, h.2.2.1⟩

/-- C7: in an LRU build, on a tracked table with a well-formed chain `L`,
`updateUnevictedTuple` of a tuple `t` that is not a member returns true and
yields the well-formed chain `t` followed by `L`: `oldest_id = t`, the count
grows by one, and `newest_id` is unchanged when `L` is not empty. -/
theorem C7_headInsert_prepends (cfg : BuildConfig) (hcfg : IsLRU cfg)
    (table : PersistentTable) (htr : Tracked table) (L : List Nat) (t : Nat)
    (hwf : WellFormedChain cfg.ANTICACHE_REVERSIBLE_LRU table L) (ht : t ∉ L) :
    ∃ table', updateUnevictedTuple cfg table t = (true, table') ∧
      WellFormedChain cfg.ANTICACHE_REVERSIBLE_LRU table' (t :: L) ∧
      table'.oldestTupleID = t ∧
      table'.numTuplesInEvictionChain = table.numTuplesInEvictionChain + 1 ∧
      (L ≠ [] → table'.newestTupleID = table.newestTupleID) := by
  have h := (wf_iff _ _ _).mp hwf
  obtain ⟨t', h1, h2, _, h4⟩ := headInsert_inv cfg hcfg table htr L t h ht
  refine ⟨t', h1, (wf_iff _ _ _).mpr h2, (h2.head_eq t (by simp)).symm, h4, ?_⟩
  intro hne
  have hz := List.getLast_mem_getLast? hne
  have e1 := h.last_eq _ hz
  have e2 := h2.last_eq _ (List.mem_getLast?_cons hz)
  rw [← e1, ← e2]

/-- Witness for C7: tuple 3 put in front of the chain 1, 2 of the single linked
build. -/
theorem C7_headInsert_prepends_witness :
    ∃ table', updateUnevictedTuple lruSingle chain12 3 = (true, table') ∧
      WellFormedChain false table' [3, 1, 2] ∧ table'.oldestTupleID = 3 :=
  (C7_headInsert_prepends lruSingle (by decide) chain12 (by decide) [1, 2] 3 (by decide)
    (by decide)).imp fun _ h => ⟨h.1, h.2.1, h.2.2.1⟩

/-- C8: in the double linked build, starting from the empty chain, after any
sequence of insertions of non-members, head insertions of non-members, updates
of members (sampled in or not) and removals of members, the count is the
number of members, which is the number of registrations minus the number of
removals, no tuple appears twice, and consecutive members `a`, `b` of the chain
satisfy `next(a) = b` and `prev(b) = a`. -/
theorem C8_double_chain_invariant (cfg : BuildConfig) (hcfg : IsLRU cfg)
    (hr : cfg.ANTICACHE_REVERSIBLE_LRU = true) (table0 : PersistentTable)
    (htr : Tracked table0) (hempty : WellFormedChain true table0 [])
    (ops : List TrackerOp) (L : List Nat) (hops : membersAfter [] ops = some L) :
    ∃ table, runOps cfg table0 ops = some table ∧
      table.numTuplesInEvictionChain = (L.length : Int) ∧
      table.numTuplesInEvictionChain = (registrations ops : Int) - removals ops ∧
      L.Nodup ∧
      L.Chain' (fun a b => table.nextTupleInChain a = b ∧ table.previousTupleInChain b = a) ∧
      WellFormedChain true table L := by
  obtain ⟨table, h1, _, h3⟩ :=
    runOps_inv cfg hcfg hr ops table0 [] L htr ((wf_iff _ _ _).mp hempty) hops
  have hlen := membersAfter_length ops [] L hops
  refine ⟨table, h1, h3.count_eq, ?_, h3.nodup, Linked.both h3.fwd (h3.bwd rfl),
    (wf_iff _ _ _).mpr h3⟩
  rw [h3.count_eq]
  simp only [List.length_nil, Nat.cast_zero, zero_add] at hlen
  omega

/-- Witness for C8: five calls on the empty table leave the chain 3, 1. -/
theorem C8_double_chain_invariant_witness :
    membersAfter [] [.insert 1, .insert 2, .headInsert 3, .update 1 0, .remove 2]
      = some [3, 1] ∧
    ∃ table, runOps lruDouble emptyTable
        [.insert 1, .insert 2, .headInsert 3, .update 1 0, .remove 2] = some table ∧
      table.numTuplesInEvictionChain = 2 ∧
      table.nextTupleInChain 3 = 1 ∧ table.previousTupleInChain 1 = 3 :=
  ⟨by decide,
    (C8_double_chain_invariant lruDouble (by decide) rfl emptyTable (by decide) (by decide)
      [.insert 1, .insert 2, .headInsert 3, .update 1 0, .remove 2] [3, 1] (by decide)).imp
      fun _ h => ⟨h.1, h.2.1, (List.chain'_pair.mp h.2.2.2.2.1).1,
        (List.chain'_pair.mp h.2.2.2.2.1).2⟩⟩

/-- C9, as stated, fails: the endpoints need not have sentinel neighbours.
Three insertions into the empty table give the chain 1, 2, 3 with `next(3) = 0`
and `prev(1) = 0`; removing the oldest tuple 1 leaves the chain 2, 3 in which
`prev(2)` is still 1, and removing the newest tuple 3 instead leaves the chain
1, 2 in which `next(2)` is still 3. -/
theorem C9_counterexample_endpoint_links :
    (runOps lruDouble emptyTable [.insert 1, .insert 2, .insert 3]).map (fun t => t.view 4)
      = some (1, 3, 3, [0, 2, 3, 0], [0, 0, 1, 2]) ∧
    (runOps lruDouble emptyTable [.insert 1, .insert 2, .insert 3, .remove 1]).map
      (fun t => (t.numTuplesInEvictionChain, t.oldestTupleID,
        t.previousTupleInChain t.oldestTupleID)) = some (2, 2, 1) ∧
    (runOps lruDouble emptyTable [.insert 1, .insert 2, .insert 3, .remove 3]).map
      (fun t => (t.numTuplesInEvictionChain, t.newestTupleID,
        t.nextTupleInChain t.newestTupleID)) = some (2, 2, 3) ∧
    ¬ (∀ table, runOps lruDouble emptyTable [.insert 1, .insert 2, .insert 3, .remove 1]
          = some table → table.numTuplesInEvictionChain ≠ 0 →
        table.nextTupleInChain table.newestTupleID = 0 ∧
        table.previousTupleInChain table.oldestTupleID = 0) := by
  refine ⟨by decide, by decide, by decide, ?_⟩
  intro h
  have h2 : (runOps lruDouble emptyTable [.insert 1, .insert 2, .insert 3, .remove 1]).map
    (fun t => (t.numTuplesInEvictionChain, t.oldestTupleID,
      t.previousTupleInChain t.oldestTupleID)) = some (2, 2, 1) := by decide
  cases hrun : runOps lruDouble emptyTable [.insert 1, .insert 2, .insert 3, .remove 1] with
  | none => rw [hrun] at h2; simp at h2
  | some table =>
    rw [hrun] at h2
    simp only [Option.map_some', Option.some.injEq, Prod.mk.injEq] at h2
    have h3 := (h table hrun (by rw [h2.1]; decide)).2
    rw [h2.2.1] at h3 h2
    rw [h3] at h2
    exact absurd h2.2.2 (by decide)

/-- C9, amended: in the double linked build every admissible call that leaves
the chain non-empty leaves a well-formed chain, and it does not assign the
outward links of the endpoints: `next` of the tuple that is newest afterwards
and `prev` of the tuple that is oldest afterwards hold the values they held
before the call (so they are 0 exactly when they were 0 before). -/
theorem C9_endpoint_links_not_assigned (cfg : BuildConfig) (hcfg : IsLRU cfg)
    (hr : cfg.ANTICACHE_REVERSIBLE_LRU = true) (table : PersistentTable)
    (htr : Tracked table) (L L' : List Nat) (op : TrackerOp)
    (hwf : WellFormedChain true table L) (hop : membersAfterOp L op = some L')
    (hne : L' ≠ []) :
    ∃ table', applyOp cfg table op = some table' ∧ WellFormedChain true table' L' ∧
      table'.nextTupleInChain table'.newestTupleID
        = table.nextTupleInChain table'.newestTupleID ∧
      table'.previousTupleInChain table'.oldestTupleID
        = table.previousTupleInChain table'.oldestTupleID := by
  obtain ⟨table', h1, h2, h3⟩ :=
    applyOp_inv cfg hcfg hr table htr L L' op ((wf_iff _ _ _).mp hwf) hop
  refine ⟨table', h1, (wf_iff _ _ _).mpr h2, h3.next_eq _ ?_, h3.prev_eq _ ?_⟩
  · have hz := List.getLast_mem_getLast? hne
    rw [← h2.last_eq _ hz]
    exact last_not_mem_dropLast h2.nodup hz
  · cases L' with
    | nil => exact absurd rfl hne
    | cons a l =>
      rw [← h2.head_eq a (by simp)]
      exact (List.nodup_cons.mp h2.nodup).1

/-- Witness for C9 (amended): removing the oldest tuple of the chain 1, 2, 3. -/
theorem C9_endpoint_links_not_assigned_witness :
    ∃ table', applyOp lruDouble chain123 (.remove 1) = some table' ∧
      WellFormedChain true table' [2, 3] ∧
      table'.previousTupleInChain table'.oldestTupleID
        = chain123.previousTupleInChain table'.oldestTupleID :=
  (C9_endpoint_links_not_assigned lruDouble (by decide) rfl chain123 (by decide) [1, 2, 3]
    [2, 3] (.remove 1) (by decide) (by decide) (by decide)).imp
    fun _ h => ⟨h.1, h.2.1, h.2.2.2⟩

/-- C10: in an LRU build an update whose sample misses (`rand % 100 != 0`)
returns true and leaves the whole table as it was: `oldest_id`, `newest_id`,
the count and every link. -/
theorem C10_update_sample_miss (cfg : BuildConfig) (hcfg : IsLRU cfg)
    (table : PersistentTable) (t rand : Nat) (hmiss : rand % 100 ≠ 0) :
    updateTuple cfg table t false rand = some (true, table) :=
  updateTuple_miss cfg hcfg table t rand hmiss

/-- Witness for C10: `rand()` returning 4217 on the chain 1, 2, 3. -/
theorem C10_update_sample_miss_witness :
    4217 % 100 ≠ 0 ∧ updateTuple lruDouble chain123 2 false 4217 = some (true, chain123) :=
  ⟨by decide, C10_update_sample_miss lruDouble (by decide) chain123 2 4217 (by decide)⟩

/-! ## Guards -/

theorem updateTuple_guard (cfg : BuildConfig) (table : PersistentTable) (t : Nat)
    (is_insert : Bool) (rand : Nat)
    (hguard : table.hasEvictedTable = false ∨ table.batchEvicted = true) :
    updateTuple cfg table t is_insert rand = some (true, table) := by
  simp [updateTuple, hguard]

theorem updateUnevictedTuple_guard (cfg : BuildConfig) (table : PersistentTable) (t : Nat)
    (hguard : table.hasEvictedTable = false ∨ table.batchEvicted = true) :
    updateUnevictedTuple cfg table t = (true, table) := by
  simp [updateUnevictedTuple, hguard]

theorem removeSingle_empty (table : PersistentTable) (id : Nat)
    (hc : table.numTuplesInEvictionChain ≤ 0) :
    removeTupleSingleLinkedList table id = (false, table) := by
  simp [removeTupleSingleLinkedList, hc]

theorem removeTuple_empty (cfg : BuildConfig) (table : PersistentTable) (t : Nat)
    (hc : table.numTuplesInEvictionChain ≤ 0) :
    removeTuple cfg table t = (false, table) := by
  unfold removeTuple
  split
  · exact removeDouble_empty table _ _ hc
  · exact removeSingle_empty table _ hc

theorem runOps_guarded (cfg : BuildConfig) (table : PersistentTable)
    (hguard : table.hasEvictedTable = false ∨ table.batchEvicted = true)
    (hc : table.numTuplesInEvictionChain ≤ 0) (ops : List TrackerOp) :
    runOps cfg table ops = some table := by
  induction ops with
  | nil => rfl
  | cons op ops ih =>
    have hop : applyOp cfg table op = some table := by
      cases op with
      | insert t => simp [applyOp, updateTuple_guard cfg table t true 0 hguard]
      | headInsert t => simp [applyOp, updateUnevictedTuple_guard cfg table t hguard]
      | update t r => simp [applyOp, updateTuple_guard cfg table t false r hguard]
      | remove t => simp [applyOp, removeTuple_empty cfg table t hc]
    simp [runOps, hop, ih]

/-- C11: on a table that has no evicted table or is flagged batch evicted,
`updateTuple` (for either value of `is_insert`) and `updateUnevictedTuple`
return true and leave the table as it was, in every build: chain endpoints,
count, links, clock words and timestamps. -/
theorem C11_update_guard (cfg : BuildConfig) (table : PersistentTable) (t : Nat)
    (is_insert : Bool) (rand : Nat)
    (hguard : table.hasEvictedTable = false ∨ table.batchEvicted = true) :
    updateTuple cfg table t is_insert rand = some (true, table) ∧
    updateUnevictedTuple cfg table t = (true, table) :=
  ⟨updateTuple_guard cfg table t is_insert rand hguard,
    updateUnevictedTuple_guard cfg table t hguard⟩

/-- Witness for C11: the chain 1, 2 in a table without an evicted table. -/
theorem C11_update_guard_witness :
    chain12NoStub.hasEvictedTable = false ∧
    updateTuple lruDouble chain12NoStub 2 false 0 = some (true, chain12NoStub) ∧
    updateUnevictedTuple lruDouble chain12NoStub 3 = (true, chain12NoStub) :=
  ⟨rfl, (C11_update_guard lruDouble chain12NoStub 2 false 0 (Or.inl rfl)).1,
    (C11_update_guard lruDouble chain12NoStub 3 true 0 (Or.inl rfl)).2⟩

/-- C12, as stated, fails: `removeTuple` has no guard.  On the chain 1, 2 of a
table without an evicted table it removes tuple 2 in both LRU builds: the
count drops to 1 and, in the double linked build, `newest_id` moves to 1. -/
theorem C12_counterexample_removeTuple_unguarded :
    chain12NoStub.hasEvictedTable = false ∧
    chain12NoStub.view 3 = (1, 2, 2, [0, 2, 0], [0, 0, 1]) ∧
    (removeTuple lruDouble chain12NoStub 2).1 = true ∧
    (removeTuple lruDouble chain12NoStub 2).2.view 3 = (1, 1, 1, [0, 2, 0], [0, 0, 1]) ∧
    (removeTuple lruSingle chain12NoStub 2).1 = true ∧
    (removeTuple lruSingle chain12NoStub 2).2.view 3 = (1, 2, 1, [0, 0, 0], [0, 0, 1]) :=
  ⟨rfl, by decide, by decide, by decide, by decide, by decide⟩

/-- C12, amended: on a table that has no evicted table or is flagged batch
evicted and whose chain is empty, `removeTuple` changes nothing (it returns
false), and the chain stays empty under every sequence of tracker calls, so
that this is the only state the guarded insertions and updates produce. -/
theorem C12_removeTuple_guarded_empty (cfg : BuildConfig) (table : PersistentTable) (t : Nat)
    (hguard : table.hasEvictedTable = false ∨ table.batchEvicted = true)
    (hempty : table.numTuplesInEvictionChain ≤ 0) :
    removeTuple cfg table t = (false, table) ∧
    ∀ ops : List TrackerOp, runOps cfg table ops = some table :=
  ⟨removeTuple_empty cfg table t hempty, runOps_guarded cfg table hguard hempty⟩

/-- Witness for C12 (amended): an empty table flagged batch evicted. -/
theorem C12_removeTuple_guarded_empty_witness :
    removeTuple lruSingle { emptyTable with batchEvicted := true } 4
      = (false, { emptyTable with batchEvicted := true }) :=
  (C12_removeTuple_guarded_empty lruSingle { emptyTable with batchEvicted := true } 4
    (Or.inr rfl) (by decide)).1

/-! ### 64-bit words, bit by bit -/

theorem testBit_shl64 (x k b : Nat) :
    (shl64 x k).testBit b = (decide (b < 64) && (decide (k ≤ b) && x.testBit (b - k))) := by
  unfold shl64 word64
  rw [Nat.testBit_mod_two_pow, Nat.testBit_shiftLeft]

theorem testBit_not64 (x b : Nat) :
    (not64 x).testBit b = (decide (b < 64) && !x.testBit b) := by
  simp only [not64, word64, Nat.testBit_xor, Nat.testBit_two_pow_sub_one,
    Nat.testBit_mod_two_pow]
  cases decide (b < 64) <;> cases x.testBit b <;> rfl

theorem testBit_of_lt {v w b : Nat} (hv : v < 2 ^ w) (hb : w ≤ b) : v.testBit b = false :=
  Nat.testBit_lt_two_pow (Nat.lt_of_lt_of_le hv (Nat.pow_le_pow_right (by decide) hb))

/-- Clearing a field: the bits `k .. k+w-1` of the word become 0, the others
stay. -/
theorem testBit_clear_field (x w k b : Nat) (hx : x < 2 ^ 64) (hk : k + w ≤ 64) :
    (x &&& not64 (shl64 (2 ^ w - 1) k)).testBit b
      = if k ≤ b ∧ b < k + w then false else x.testBit b := by
  rw [Nat.testBit_and, testBit_not64, testBit_shl64, Nat.testBit_two_pow_sub_one]
  by_cases h1 : k ≤ b ∧ b < k + w
  · have h2 : b < 64 := by omega
    have h3 : b - k < w := by omega
    simp [h1, h2, h3]
  · rw [if_neg h1]
    by_cases h2 : b < 64
    · have h3 : ¬ (k ≤ b ∧ b - k < w) := by omega
      by_cases h4 : k ≤ b
      · have h5 : ¬ b - k < w := by omega
        simp [h2, h4, h5]
      · simp [h2, h4]
    · have : x.testBit b = false := testBit_of_lt hx (by omega)
      simp [this]

/-- Writing a field: the bits `k .. k+w-1` of the word become those of `v`,
the others stay. -/
theorem testBit_write_field (x w k v b : Nat) (hx : x < 2 ^ 64) (hk : k + w ≤ 64)
    (hv : v < 2 ^ w) :
    ((x &&& not64 (shl64 (2 ^ w - 1) k)) ||| shl64 v k).testBit b
      = if k ≤ b ∧ b < k + w then v.testBit (b - k) else x.testBit b := by
  rw [Nat.testBit_or, testBit_clear_field x w k b hx hk, testBit_shl64]
  by_cases h1 : k ≤ b ∧ b < k + w
  · have h2 : b < 64 := by omega
    simp [h1, h2]
  · rw [if_neg h1, if_neg h1]
    by_cases h4 : k ≤ b
    · have : v.testBit (b - k) = false := testBit_of_lt hv (by omega)
      simp [this]
    · simp [h4]

theorem clear_field_lt (x w k : Nat) :
    x &&& not64 (shl64 (2 ^ w - 1) k) < 2 ^ 64 := by
  refine Nat.and_lt_two_pow x ?_
  unfold not64 word64
  exact Nat.xor_lt_two_pow (by decide) (Nat.mod_lt _ (by decide))

theorem write_field_lt (x w k v : Nat) :
    (x &&& not64 (shl64 (2 ^ w - 1) k)) ||| shl64 v k < 2 ^ 64 := by
  refine Nat.or_lt_two_pow (clear_field_lt x w k) ?_
  unfold shl64 word64
  exact Nat.mod_lt _ (by decide)

/-- Reading a field through the arithmetic shift of the source gives the
`w` bits at `k`. -/
theorem read_field (x w k : Nat) (hk : k + w ≤ 64) :
    sar64 x k &&& (2 ^ w - 1) = (x >>> k) % 2 ^ w := by
  rw [Nat.and_pow_two_sub_one_eq_mod]
  unfold sar64
  split
  · rfl
  · refine Nat.eq_of_testBit_eq fun b => ?_
    unfold word64
    rw [Nat.testBit_mod_two_pow, Nat.testBit_mod_two_pow, Nat.testBit_mod_two_pow,
      Nat.testBit_or, Nat.testBit_shiftRight]
    by_cases hb : b < w
    · have h64 : b < 64 := by omega
      have hhigh : (2 ^ 64 - 2 ^ (64 - k)).testBit b = false := by
        have e : 2 ^ 64 - 2 ^ (64 - k) = 2 ^ (64 - k) * (2 ^ k - 1) := by
          rw [Nat.mul_sub, Nat.mul_one, ← Nat.pow_add]
          congr 2
          omega
        rw [e, Nat.testBit_mul_pow_two]
        have : ¬ b ≥ 64 - k := by omega
        simp [this]
      rw [hhigh]
      simp [hb, h64]
    · simp [hb]

theorem FieldWritten.counters {w : Nat} (hw : w = 2 ∨ w = 4 ∨ w = 8) {m m' : Nat → Nat}
    {i v : Nat} (hv : v < 2 ^ w) (h : FieldWritten w m m' i v) :
    clockCounter w m' i = v ∧ ∀ j, j ≠ i → clockCounter w m' j = clockCounter w m j := by
  constructor
  · refine Nat.eq_of_testBit_eq fun b => ?_
    unfold clockCounter
    rw [Nat.testBit_mod_two_pow, Nat.testBit_shiftRight, h]
    by_cases hb : b < w
    · have : i % (64 / w) * w ≤ i % (64 / w) * w + b ∧
          i % (64 / w) * w + b < i % (64 / w) * w + w := by omega
      simp [hb, this]
    · simp [hb, testBit_of_lt hv (Nat.le_of_not_lt hb)]
  · intro j hj
    refine Nat.eq_of_testBit_eq fun b => ?_
    unfold clockCounter
    rw [Nat.testBit_mod_two_pow, Nat.testBit_mod_two_pow, Nat.testBit_shiftRight,
      Nat.testBit_shiftRight, h]
    by_cases hb : b < w
    · have : ¬ (j / (64 / w) = i / (64 / w) ∧ i % (64 / w) * w ≤ j % (64 / w) * w + b ∧
          j % (64 / w) * w + b < i % (64 / w) * w + w) := by
        rcases hw with rfl | rfl | rfl <;> norm_num <;> omega
      rw [if_neg this]
    · simp [hb]

theorem field_fits {w : Nat} (hw : w = 2 ∨ w = 4 ∨ w = 8) (i : Nat) :
    i % (64 / w) * w + w ≤ 64 := by
  rcases hw with rfl | rfl | rfl <;> norm_num <;> omega

theorem FieldWritten.of_setSlot {w : Nat} {m : Nat → Nat} {i v word : Nat}
    (h : ∀ b, word.testBit b =
      if i % (64 / w) * w ≤ b ∧ b < i % (64 / w) * w + w
      then v.testBit (b - i % (64 / w) * w) else (m (i / (64 / w))).testBit b) :
    FieldWritten w m (setSlot m (i / (64 / w)) word) i v := by
  intro j b
  by_cases hj : j = i / (64 / w)
  · subst hj
    rw [setSlot_same, h]
    simp
  · rw [setSlot_other _ _ hj]
    simp [hj]

/-- In a clock build `updateTuple` overwrites the field of the tuple by its
saturated successor, whatever `is_insert` says. -/
theorem updateTuple_clock (cfg : BuildConfig) (hclock : cfg.ANTICACHE_CLOCK = true) (w : Nat)
    (hw : w = 2 ∨ w = 4 ∨ w = 8) (hsize : cfg.ANTICACHE_CLOCK_SIZE = w)
    (table : PersistentTable) (htr : Tracked table) (hwords : ∀ j, table.m_clock j < 2 ^ 64)
    (i : Nat) (is_insert : Bool) (rand : Nat) :
    ∃ m', updateTuple cfg table i is_insert rand = some (true, { table with m_clock := m' }) ∧
      FieldWritten w table.m_clock m' i (min (clockCounter w table.m_clock i + 1) (2 ^ w - 1)) ∧
      ∀ j, m' j < 2 ^ 64 := by
  have hfit := field_fits hw i
  have hpos : 0 < 2 ^ w := Nat.two_pow_pos w
  have hc : clockCounter w table.m_clock i < 2 ^ w := Nat.mod_lt _ hpos
  have hv : min (clockCounter w table.m_clock i + 1) (2 ^ w - 1) < 2 ^ w := by
    have := Nat.min_le_right (clockCounter w table.m_clock i + 1) (2 ^ w - 1)
    omega
  have hval : (if sar64 (table.m_clock (i / (64 / w))) (i % (64 / w) * w) &&& (2 ^ w - 1)
        ≠ 2 ^ w - 1
      then (sar64 (table.m_clock (i / (64 / w))) (i % (64 / w) * w) &&& (2 ^ w - 1)) + 1
      else sar64 (table.m_clock (i / (64 / w))) (i % (64 / w) * w) &&& (2 ^ w - 1))
      = min (clockCounter w table.m_clock i + 1) (2 ^ w - 1) := by
    rw [read_field _ w _ hfit]
    show (if clockCounter w table.m_clock i ≠ 2 ^ w - 1 then clockCounter w table.m_clock i + 1
      else clockCounter w table.m_clock i) = _
    split
    · rw [Nat.min_eq_left]; omega
    · rw [Nat.min_eq_right]
      · omega
      · omega
  refine ⟨setSlot table.m_clock (i / (64 / w))
    ((table.m_clock (i / (64 / w)) &&& not64 (shl64 (2 ^ w - 1) (i % (64 / w) * w))) |||
      shl64 (min (clockCounter w table.m_clock i + 1) (2 ^ w - 1)) (i % (64 / w) * w)),
    ?_, ?_, ?_⟩
  · simp only [updateTuple, htr.1, htr.2, hclock, hsize, getTupleID, Int.toNat_ofNat,
      Nat.one_shiftLeft, hval]
    simp
  · exact FieldWritten.of_setSlot fun b =>
      testBit_write_field _ w _ _ b (hwords _) hfit hv
  · intro j
    by_cases hj : j = i / (64 / w)
    · subst hj
      rw [setSlot_same]
      exact write_field_lt _ _ _ _
    · rw [setSlot_other _ _ hj]
      exact hwords j

/-- In a clock build `updateUnevictedTuple` clears the field of the tuple. -/
theorem updateUnevictedTuple_clock (cfg : BuildConfig) (hclock : cfg.ANTICACHE_CLOCK = true)
    (w : Nat) (hw : w = 2 ∨ w = 4 ∨ w = 8) (hsize : cfg.ANTICACHE_CLOCK_SIZE = w)
    (table : PersistentTable) (htr : Tracked table) (hwords : ∀ j, table.m_clock j < 2 ^ 64)
    (i : Nat) :
    ∃ m', updateUnevictedTuple cfg table i = (true, { table with m_clock := m' }) ∧
      FieldWritten w table.m_clock m' i 0 ∧ ∀ j, m' j < 2 ^ 64 := by
  have hfit := field_fits hw i
  have hone : shl64 1 w = 2 ^ w := by
    unfold shl64 word64
    rw [Nat.one_shiftLeft]
    refine Nat.mod_eq_of_lt (Nat.pow_lt_pow_right (by decide) ?_)
    rcases hw with rfl | rfl | rfl <;> decide
  refine ⟨setSlot table.m_clock (i / (64 / w))
    (table.m_clock (i / (64 / w)) &&& not64 (shl64 (2 ^ w - 1) (i % (64 / w) * w))),
    ?_, ?_, ?_⟩
  · simp only [updateUnevictedTuple, htr.1, htr.2, hclock, hsize, getTupleID, Int.toNat_ofNat,
      hone]
    simp
  · refine FieldWritten.of_setSlot fun b => ?_
    rw [testBit_clear_field _ w _ b (hwords _) hfit]
    simp
  · intro j
    by_cases hj : j = i / (64 / w)
    · subst hj
      rw [setSlot_same]
      exact clear_field_lt _ _ _
    · rw [setSlot_other _ _ hj]
      exact hwords j

theorem FieldWritten.frame {w : Nat} {m m' : Nat → Nat} {i v : Nat}
    (h : FieldWritten w m m' i v) (j b : Nat)
    (hout : ¬ (j = i / (64 / w) ∧ i % (64 / w) * w ≤ b ∧ b < i % (64 / w) * w + w)) :
    (m' j).testBit b = (m j).testBit b := by
  rw [h j b, if_neg hout]

theorem clockCounter_le (w : Nat) (m : Nat → Nat) (j : Nat) : clockCounter w m j ≤ 2 ^ w - 1 := by
  have := Nat.mod_lt (m (j / (64 / w)) >>> (j % (64 / w) * w)) (Nat.two_pow_pos w)
  unfold clockCounter
  omega

/-- Any sequence of `updateTuple` calls in a clock build adds, saturating, the
number of calls that name a tuple to its counter. -/
theorem runOps_clock (cfg : BuildConfig) (hclock : cfg.ANTICACHE_CLOCK = true) (w : Nat)
    (hw : w = 2 ∨ w = 4 ∨ w = 8) (hsize : cfg.ANTICACHE_CLOCK_SIZE = w) (ops : List TrackerOp) :
    ∀ table : PersistentTable, Tracked table → (∀ j, table.m_clock j < 2 ^ 64) →
      onlyUpdateTuple ops = true →
      ∃ table', runOps cfg table ops = some table' ∧
        ∀ i, clockCounter w table'.m_clock i
          = min (clockCounter w table.m_clock i + touches i ops) (2 ^ w - 1) := by
  induction ops with
  | nil =>
    intro table _ _ _
    refine ⟨table, rfl, fun i => ?_⟩
    have := clockCounter_le w table.m_clock i
    simp only [touches, Nat.add_zero]
    omega
  | cons op ops ih =>
    intro table htr hwords hops
    have key : ∀ (t : Nat) (is_insert : Bool) (r : Nat), onlyUpdateTuple ops = true →
        ∃ table', ((updateTuple cfg table t is_insert r).map Prod.snd).bind
            (fun x => runOps cfg x ops) = some table' ∧
          ∀ i, clockCounter w table'.m_clock i
            = min (clockCounter w table.m_clock i + ((if t = i then 1 else 0) + touches i ops))
                (2 ^ w - 1) := by
      intro t is_insert r hops'
      obtain ⟨m', h1, h2, h3⟩ :=
        updateTuple_clock cfg hclock w hw hsize table htr hwords t is_insert r
      have hv : min (clockCounter w table.m_clock t + 1) (2 ^ w - 1) < 2 ^ w := by
        have := Nat.two_pow_pos w
        omega
      obtain ⟨c1, c2⟩ := h2.counters hw hv
      obtain ⟨t2, r1, r2⟩ := ih { table with m_clock := m' } htr h3 hops'
      refine ⟨t2, by simp [h1, r1], fun i => ?_⟩
      rw [r2 i]
      by_cases hti : t = i
      · subst hti
        show min (clockCounter w m' t + _) _ = _
        rw [c1, if_pos rfl]
        omega
      · show min (clockCounter w m' i + _) _ = _
        rw [c2 i (Ne.symm hti), if_neg hti]
        omega
    cases op with
    | insert t => exact key t true 0 hops
    | update t r => exact key t false r hops
    | headInsert t => simp [onlyUpdateTuple] at hops
    | remove t => simp [onlyUpdateTuple] at hops

/-- C13: in a clock build with counters of `w` bits, `w` one of 2, 4, 8, on a
tracked table `updateTuple` replaces the counter of tuple `i` (field
`i mod (64/w)` of word `i / (64/w)`) by `min (old + 1) (2^w - 1)` and leaves
every other bit of the array, hence every other counter, unchanged; every
counter is at most `2^w - 1` and every word stays a 64-bit word. -/
theorem C13_clock_update (cfg : BuildConfig) (hclock : cfg.ANTICACHE_CLOCK = true) (w : Nat)
    (hw : w = 2 ∨ w = 4 ∨ w = 8) (hsize : cfg.ANTICACHE_CLOCK_SIZE = w)
    (table : PersistentTable) (htr : Tracked table) (hwords : ∀ j, table.m_clock j < 2 ^ 64)
    (i : Nat) (is_insert : Bool) (rand : Nat) :
    ∃ table', updateTuple cfg table i is_insert rand = some (true, table') ∧
      clockCounter w table'.m_clock i = min (clockCounter w table.m_clock i + 1) (2 ^ w - 1) ∧
      (∀ j b, ¬ (j = i / (64 / w) ∧ i % (64 / w) * w ≤ b ∧ b < i % (64 / w) * w + w) →
        (table'.m_clock j).testBit b = (table.m_clock j).testBit b) ∧
      (∀ j, j ≠ i → clockCounter w table'.m_clock j = clockCounter w table.m_clock j) ∧
      (∀ j, clockCounter w table'.m_clock j ≤ 2 ^ w - 1) ∧
      (∀ j, table'.m_clock j < 2 ^ 64) := by
  obtain ⟨m', h1, h2, h3⟩ :=
    updateTuple_clock cfg hclock w hw hsize table htr hwords i is_insert rand
  have hv : min (clockCounter w table.m_clock i + 1) (2 ^ w - 1) < 2 ^ w := by
    have := Nat.two_pow_pos w
    omega
  obtain ⟨c1, c2⟩ := h2.counters hw hv
  exact ⟨_, h1, c1, h2.frame, c2, fun j => clockCounter_le w m' j, h3⟩

/-- Witness for C13: tuple 37 of an empty table with 2-bit counters is
updated; its counter goes from 0 to 1. -/
theorem C13_clock_update_witness :
    ∃ table', updateTuple (clockBuild 2) emptyTable 37 false 0 = some (true, table') ∧
      clockCounter 2 table'.m_clock 37 = min (clockCounter 2 emptyTable.m_clock 37 + 1) 3 :=
  (C13_clock_update (clockBuild 2) rfl 2 (Or.inl rfl) rfl emptyTable (by decide)
    (fun _ => Nat.two_pow_pos 64) 37 false 0).imp fun _ h => ⟨h.1, h.2.1⟩

/-- C14: in a clock build with counters of `w` bits, `w` one of 2, 4, 8, on a
tracked table `updateUnevictedTuple` sets the counter of tuple `i` to 0 and
leaves every other bit of the array, hence every other counter, unchanged. -/
theorem C14_clock_cold (cfg : BuildConfig) (hclock : cfg.ANTICACHE_CLOCK = true) (w : Nat)
    (hw : w = 2 ∨ w = 4 ∨ w = 8) (hsize : cfg.ANTICACHE_CLOCK_SIZE = w)
    (table : PersistentTable) (htr : Tracked table) (hwords : ∀ j, table.m_clock j < 2 ^ 64)
    (i : Nat) :
    ∃ table', updateUnevictedTuple cfg table i = (true, table') ∧
      clockCounter w table'.m_clock i = 0 ∧
      (∀ j b, ¬ (j = i / (64 / w) ∧ i % (64 / w) * w ≤ b ∧ b < i % (64 / w) * w + w) →
        (table'.m_clock j).testBit b = (table.m_clock j).testBit b) ∧
      (∀ j, j ≠ i → clockCounter w table'.m_clock j = clockCounter w table.m_clock j) := by
  obtain ⟨m', h1, h2, _⟩ := updateUnevictedTuple_clock cfg hclock w hw hsize table htr hwords i
  obtain ⟨c1, c2⟩ := h2.counters hw (Nat.two_pow_pos w)
  exact ⟨_, h1, c1, h2.frame, c2⟩

/-- Witness for C14: tuple 9 of a table whose 4-bit counters are all 15. -/
theorem C14_clock_cold_witness :
    clockCounter 4 (fun _ => 2 ^ 64 - 1) 9 = 15 ∧
    ∃ table', updateUnevictedTuple (clockBuild 4)
        { emptyTable with m_clock := fun _ => 2 ^ 64 - 1 } 9 = (true, table') ∧
      clockCounter 4 table'.m_clock 9 = 0 :=
  ⟨by decide,
    (C14_clock_cold (clockBuild 4) rfl 4 (Or.inr (Or.inl rfl)) rfl
      { emptyTable with m_clock := fun _ => 2 ^ 64 - 1 } (by decide)
      (fun _ => Nat.sub_lt (Nat.two_pow_pos 64) Nat.one_pos) 9).imp fun _ h => ⟨h.1, h.2.1⟩⟩

set_option maxRecDepth 200000 in
/-- C15, as stated, fails: an insertion does not leave a zero counter at 0.
With 2-bit counters, inserting tuple 0 into the empty table sets its counter
to 1, and after scenario S2 (64 rows inserted, row `i` accessed `i mod 4`
times) the counters of rows 0 to 7 are 1, 2, 3, 3, 1, 2, 3, 3. -/
theorem C15_counterexample_insert_counts :
    clockCounter 2 emptyTable.m_clock 0 = 0 ∧
    (updateTuple (clockBuild 2) emptyTable 0 true 0).map
      (fun r => clockCounter 2 r.2.m_clock 0) = some 1 ∧
    (runOps (clockBuild 2) emptyTable scenarioS2).map
      (fun t => (List.range 8).map (clockCounter 2 t.m_clock))
      = some [1, 2, 3, 3, 1, 2, 3, 3] :=
  ⟨by decide, by decide, by decide⟩


theorem onlyUpdateTuple_replicate (i r k : Nat) :
    onlyUpdateTuple (List.replicate k (TrackerOp.update i r)) = true := by
  induction k with
  | zero => rfl
  | succ k ih => simpa [List.replicate, onlyUpdateTuple] using ih

theorem touches_replicate (i r k : Nat) :
    touches i (List.replicate k (TrackerOp.update i r)) = k := by
  induction k with
  | zero => rfl
  | succ k ih => simp [List.replicate, touches, ih]; omega

/-- C15, amended: the clock build ignores `is_insert`, so an insertion counts
like an access.  After any sequence of insertions and accesses on a tracked
table the counter of tuple `i` is `min (c + n) (2^w - 1)`, where `c` is its
counter before and `n` the number of calls that name `i`.  In particular,
inserting into a slot whose counter is 0 and accessing it `k` times leaves the
counter at `min (k + 1) (2^w - 1)`. -/
theorem C15_clock_insert_is_access (cfg : BuildConfig) (hclock : cfg.ANTICACHE_CLOCK = true)
    (w : Nat) (hw : w = 2 ∨ w = 4 ∨ w = 8) (hsize : cfg.ANTICACHE_CLOCK_SIZE = w)
    (table : PersistentTable) (htr : Tracked table)
    (hwords : ∀ j, table.m_clock j < 2 ^ 64) :
    (∀ ops, onlyUpdateTuple ops = true →
      ∃ table', runOps cfg table ops = some table' ∧
        ∀ i, clockCounter w table'.m_clock i
          = min (clockCounter w table.m_clock i + touches i ops) (2 ^ w - 1)) ∧
    (∀ i k r, clockCounter w table.m_clock i = 0 →
      ∃ table', runOps cfg table (.insert i :: List.replicate k (.update i r)) = some table' ∧
        clockCounter w table'.m_clock i = min (k + 1) (2 ^ w - 1)) := by
  refine ⟨fun ops hops => runOps_clock cfg hclock w hw hsize ops table htr hwords hops, ?_⟩
  intro i k r hzero
  obtain ⟨t', h1, h2⟩ := runOps_clock cfg hclock w hw hsize
    (.insert i :: List.replicate k (.update i r)) table htr hwords
    (by simpa [onlyUpdateTuple] using onlyUpdateTuple_replicate i r k)
  refine ⟨t', h1, ?_⟩
  rw [h2 i, hzero]
  simp only [touches, if_pos, touches_replicate]
  congr 1
  omega

set_option maxRecDepth 200000 in
/-- Witness for C15 (amended): scenario S2 with 2-bit counters on the empty
table leaves row `i` with counter `min (i mod 4 + 1) 3`. -/
theorem C15_clock_insert_is_access_witness :
    ∃ table', runOps (clockBuild 2) emptyTable scenarioS2 = some table' ∧
      ∀ i, i < 64 → clockCounter 2 table'.m_clock i = min (i % 4 + 1) 3 := by
  obtain ⟨t', h1, h2⟩ := (C15_clock_insert_is_access (clockBuild 2) rfl 2 (Or.inl rfl) rfl
    emptyTable (by decide) (fun _ => Nat.two_pow_pos 64)).1 scenarioS2 (by decide)
  refine ⟨t', h1, fun i hi => ?_⟩
  have ht : ∀ i, i < 64 → touches i scenarioS2 = i % 4 + 1 := by decide
  have h0 : clockCounter 2 emptyTable.m_clock i = 0 := by simp [clockCounter, emptyTable]
  rw [h2 i, h0, ht i hi]
  simp

/-! ### Removal touches the chain only -/

theorem sameOutsideChain_refl (t : PersistentTable) : SameOutsideChain t t :=
  ⟨rfl, rfl, rfl, rfl, rfl, rfl, rfl, rfl, rfl, rfl, rfl⟩

theorem sameOutsideChain_trans {a b c : PersistentTable} (h1 : SameOutsideChain a b)
    (h2 : SameOutsideChain b c) : SameOutsideChain a c :=
  ⟨h2.name_eq.trans h1.name_eq, h2.hasEvictedTable_eq.trans h1.hasEvictedTable_eq,
    h2.batchEvicted_eq.trans h1.batchEvicted_eq, h2.tuplesEvicted_eq.trans h1.tuplesEvicted_eq,
    h2.blocksEvicted_eq.trans h1.blocksEvicted_eq, h2.bytesEvicted_eq.trans h1.bytesEvicted_eq,
    h2.tuplesWritten_eq.trans h1.tuplesWritten_eq, h2.blocksWritten_eq.trans h1.blocksWritten_eq,
    h2.bytesWritten_eq.trans h1.bytesWritten_eq, h2.m_clock_eq.trans h1.m_clock_eq,
    h2.timeStamp_eq.trans h1.timeStamp_eq⟩

theorem removeDouble_outside (table : PersistentTable) (tup id : Nat) :
    SameOutsideChain table (removeTupleDoubleLinkedList table tup id).2 := by
  by_cases h0 : table.numTuplesInEvictionChain ≤ 0
  · rw [removeDouble_empty table tup id h0]; exact sameOutsideChain_refl _
  · have hpos : 0 < table.numTuplesInEvictionChain := by omega
    by_cases hn : table.newestTupleID = id
    · by_cases h1 : table.numTuplesInEvictionChain = 1
      · rw [removeDouble_newest_one table tup id h1 hn]
        exact ⟨rfl, rfl, rfl, rfl, rfl, rfl, rfl, rfl, rfl, rfl, rfl⟩
      · by_cases h2 : table.numTuplesInEvictionChain = 2
        · rw [removeDouble_newest_two table tup id h2 hn]
          exact ⟨rfl, rfl, rfl, rfl, rfl, rfl, rfl, rfl, rfl, rfl, rfl⟩
        · rw [removeDouble_newest_many table tup id (by omega) hn]
          exact ⟨rfl, rfl, rfl, rfl, rfl, rfl, rfl, rfl, rfl, rfl, rfl⟩
    · by_cases ho : table.oldestTupleID = id
      · by_cases h1 : table.numTuplesInEvictionChain = 1
        · rw [removeDouble_oldest_one table tup id h1 hn ho]
          exact ⟨rfl, rfl, rfl, rfl, rfl, rfl, rfl, rfl, rfl, rfl, rfl⟩
        · by_cases h2 : table.numTuplesInEvictionChain = 2
          · rw [removeDouble_oldest_two table tup id h2 hn ho]
            exact ⟨rfl, rfl, rfl, rfl, rfl, rfl, rfl, rfl, rfl, rfl, rfl⟩
          · rw [removeDouble_oldest_many table tup id (by omega) hn ho]
            exact ⟨rfl, rfl, rfl, rfl, rfl, rfl, rfl, rfl, rfl, rfl, rfl⟩
      · rw [removeDouble_other table tup id hpos hn ho]
        exact ⟨rfl, rfl, rfl, rfl, rfl, rfl, rfl, rfl, rfl, rfl, rfl⟩

theorem scanChain_outside (removal_id : Nat) :
    ∀ (fuel : Nat) (s : ScanState),
      SameOutsideChain s.table (scanChain removal_id fuel s).table := by
  intro fuel
  induction fuel with
  | zero => intro s; exact sameOutsideChain_refl _
  | succ n ih =>
    intro s
    unfold scanChain
    split
    · split
      · exact ⟨rfl, rfl, rfl, rfl, rfl, rfl, rfl, rfl, rfl, rfl, rfl⟩
      · exact ih ⟨s.table, s.table.nextTupleInChain s.tuple, s.table.nextTupleInChain s.tuple,
          s.current_tuple_id, s.tuple_found, s.iterations + 1⟩
    · exact sameOutsideChain_refl _

theorem removeSingle_outside (table : PersistentTable) (id : Nat) :
    SameOutsideChain table (removeTupleSingleLinkedList table id).2 := by
  unfold removeTupleSingleLinkedList
  lift_lets
  intro tuples_in_chain previous current newest tuple nxt s1 s2 relinked s3 t3
  have h1 : SameOutsideChain table s1.1 := by
    show SameOutsideChain table (Prod.fst (ite _ _ _))
    split_ifs <;> exact ⟨rfl, rfl, rfl, rfl, rfl, rfl, rfl, rfl, rfl, rfl, rfl⟩
  have h2 : SameOutsideChain table s2.table := sameOutsideChain_trans h1
    (scanChain_outside id s1.1.numTuplesInEvictionChain.toNat
      ⟨s1.1, tuple, current, previous, s1.2, 0⟩)
  have h3 : SameOutsideChain table s3.1 := by
    show SameOutsideChain table (Prod.fst (ite _ _ _))
    split_ifs
    · exact sameOutsideChain_trans h2 ⟨rfl, rfl, rfl, rfl, rfl, rfl, rfl, rfl, rfl, rfl, rfl⟩
    · exact h2
    · exact h2
  split_ifs
  · exact sameOutsideChain_refl _
  · exact sameOutsideChain_trans h3 ⟨rfl, rfl, rfl, rfl, rfl, rfl, rfl, rfl, rfl, rfl, rfl⟩
  · exact h3

theorem removeTuple_outside (cfg : BuildConfig) (table : PersistentTable) (t : Nat) :
    SameOutsideChain table (removeTuple cfg table t).2 := by
  unfold removeTuple
  split
  · exact removeDouble_outside _ _ _
  · exact removeSingle_outside _ _

/-! ### Filling one block -/

theorem writtenBlocks_append (a b : List Event) :
    writtenBlocks (a ++ b) = writtenBlocks a ++ writtenBlocks b := by
  induction a with
  | nil => rfl
  | cons e a ih => cases e <;> simp [writtenBlocks, ih]

@[simp] theorem World.log_trace (w : World) (e : Event) : (w.log e).trace = w.trace ++ [e] := rfl

@[simp] theorem World.log_table (w : World) (e : Event) : (w.log e).table = w.table := rfl

@[simp] theorem World.log_evictedTable (w : World) (e : Event) :
    (w.log e).evictedTable = w.evictedTable := rfl

@[simp] theorem World.log_nextBlockId (w : World) (e : Event) :
    (w.log e).nextBlockId = w.nextBlockId := rfl

@[simp] theorem World.log_iterator (w : World) (e : Event) :
    (w.log e).iterator = w.iterator := rfl

theorem fillRel_refl (s : FillState) : FillRel s s :=
  ⟨sameOutsideChain_refl _, rfl, rfl, rfl, le_refl _, by simp, by simp⟩

theorem fillRel_trans {a b c : FillState} (h1 : FillRel a b) (h2 : FillRel b c) : FillRel a c :=
  ⟨sameOutsideChain_trans h1.outside h2.outside, h2.ids.trans h1.ids, h2.written.trans h1.written,
    h2.storeCalls.trans h1.storeCalls, le_trans h1.mono h2.mono,
    by rw [h2.stubs, h1.stubs]; ring, by rw [h2.stubEvents, h1.stubEvents]; ring⟩

theorem chainTable_outside (cfg : BuildConfig) (table : PersistentTable) (t : Nat) :
    SameOutsideChain table
      (if cfg.hasChain then (removeTuple cfg table t).2 else table) := by
  split
  · exact removeTuple_outside cfg table t
  · exact sameOutsideChain_refl _

theorem evictTuple_rel (cfg : BuildConfig) (block_id : Int) (s : FillState)
    (tuple : TableTuple) : FillRel s (evictTuple cfg block_id s tuple) := by
  have ho := chainTable_outside cfg s.world.table tuple.id
  unfold evictTuple
  by_cases he : tuple.isEvicted = true
  · simp only [he, if_true]
    exact ⟨ho, rfl, rfl, rfl, le_refl _, by simp, by simp⟩
  · simp only [he, if_false]
    refine ⟨ho, rfl, ?_, ?_, by simp, ?_, ?_⟩
    · simp [writtenBlocks_append, writtenBlocks]
    · simp [List.filter_append, Event.isStoreCall]
    · simp
    · simp [List.countP_append, Event.isInsertEvictedTuple]

theorem fillBlock_rel (cfg : BuildConfig) (block_size block_id : Int)
    (items : List (Option TableTuple)) :
    ∀ s : FillState, FillRel s (fillBlock cfg block_size block_id items s) := by
  induction items with
  | nil =>
    intro s
    exact ⟨sameOutsideChain_refl _, rfl, rfl, rfl, le_refl _, by simp [fillBlock],
      by simp [fillBlock]⟩
  | cons item rest ih =>
    intro s
    unfold fillBlock
    split_ifs with hroom
    · cases item with
      | none => exact ⟨sameOutsideChain_refl _, rfl, rfl, rfl, le_refl _, by simp, by simp⟩
      | some tuple => exact fillRel_trans (evictTuple_rel cfg block_id s tuple) (ih _)
    · exact ⟨sameOutsideChain_refl _, rfl, rfl, rfl, le_refl _, by simp, by simp⟩

theorem evictTuple_size (cfg : BuildConfig) (block_id : Int) (s : FillState)
    (tuple : TableTuple) :
    (evictTuple cfg block_id s tuple).block.serializedSize
      ≤ s.block.serializedSize + tuple.serializedSize := by
  unfold evictTuple
  cases he : tuple.isEvicted
  · simp [BerkeleyDBBlock.addTuple]
  · simp

theorem fillBlock_size (cfg : BuildConfig) (block_size block_id : Int)
    (items : List (Option TableTuple))
    (hsmall : ∀ t, some t ∈ items → (t.serializedSize : Int) ≤ MAX_EVICTED_TUPLE_SIZE) :
    ∀ s : FillState, s.block.serializedSize ≤ block_size →
      (fillBlock cfg block_size block_id items s).block.serializedSize ≤ block_size := by
  induction items with
  | nil => intro s hs; exact hs
  | cons item rest ih =>
    intro s hs
    unfold fillBlock
    split_ifs with hroom
    · cases item with
      | none => exact hs
      | some tuple =>
        refine ih (fun t ht => hsmall t (List.mem_cons_of_mem _ ht)) _ ?_
        have h1 := evictTuple_size cfg block_id s tuple
        have h2 := hsmall tuple (List.mem_cons_self _ _)
        omega
    · exact hs

theorem fillBlock_iterator (cfg : BuildConfig) (block_size block_id : Int)
    (items : List (Option TableTuple)) :
    ∀ s : FillState, (fillBlock cfg block_size block_id items s).world.iterator <:+ items := by
  induction items with
  | nil => intro s; exact List.suffix_refl _
  | cons item rest ih =>
    intro s
    unfold fillBlock
    split_ifs with hroom
    · cases item with
      | none => exact List.suffix_cons _ _
      | some tuple => exact (ih _).trans (List.suffix_cons _ _)
    · exact List.suffix_refl _

/-! ### The loop over the blocks -/

theorem filledBlock_rel (env : Env) (cfg : BuildConfig) (block_size : Int) (s : EvictState) :
    FillRel
      { world := ({ s.world with nextBlockId := s.world.nextBlockId + 1 }).log
          (.nextBlockId s.world.nextBlockId),
        block := initializeBlock env [s.world.table.name] s.world.nextBlockId 0,
        num_tuples_evicted := 0, tuple_length := s.tuple_length }
      (filledBlock env cfg block_size s) :=
  fillBlock_rel cfg block_size _ _ _

theorem filledBlock_nonneg (env : Env) (cfg : BuildConfig) (block_size : Int)
    (s : EvictState) : 0 ≤ (filledBlock env cfg block_size s).num_tuples_evicted :=
  (filledBlock_rel env cfg block_size s).mono

/-- The test `num_tuples_evicted >= 0` never fails: every pass of the loop
writes its block and goes on. -/
theorem evictBlocks_succ (env : Env) (cfg : BuildConfig) (block_size : Int) (n : Nat)
    (s : EvictState) :
    evictBlocks env cfg block_size (n + 1) s
      = evictBlocks env cfg block_size n (blockPass env cfg block_size s) := by
  have h := filledBlock_nonneg env cfg block_size s
  rw [evictBlocks]
  simp only [filledBlock] at h
  simp only [World.log_table, World.log_iterator, ge_iff_le, h, if_true]
  rfl

theorem blockPass_nextBlockId (env : Env) (cfg : BuildConfig) (block_size : Int)
    (s : EvictState) :
    (blockPass env cfg block_size s).world.nextBlockId = s.world.nextBlockId + 1 := by
  have h := (filledBlock_rel env cfg block_size s).ids
  simpa [blockPass] using h

theorem blockPass_written (env : Env) (cfg : BuildConfig) (block_size : Int)
    (s : EvictState) :
    writtenBlocks (blockPass env cfg block_size s).world.trace
      = writtenBlocks s.world.trace
        ++ [(((filledBlock env cfg block_size s).block.writeHeader
              [(filledBlock env cfg block_size s).num_tuples_evicted]),
            (filledBlock env cfg block_size s).block.serializedSize)] := by
  have h := (filledBlock_rel env cfg block_size s).written
  simp only [World.log_trace, writtenBlocks_append] at h
  simp [blockPass, writtenBlocks_append, h, writtenBlocks, BerkeleyDBBlock.writeHeader]

theorem blockPass_storeCalls (env : Env) (cfg : BuildConfig) (block_size : Int)
    (s : EvictState) :
    (blockPass env cfg block_size s).world.trace.filter Event.isStoreCall
      = s.world.trace.filter Event.isStoreCall
        ++ [.nextBlockId s.world.nextBlockId,
            .writeBlock s.world.table.name s.world.nextBlockId
              (filledBlock env cfg block_size s).num_tuples_evicted
              ((filledBlock env cfg block_size s).block.writeHeader
                [(filledBlock env cfg block_size s).num_tuples_evicted])
              (filledBlock env cfg block_size s).block.serializedSize] := by
  have h := (filledBlock_rel env cfg block_size s).storeCalls
  have hn := (filledBlock_rel env cfg block_size s).outside.name_eq
  simp only [World.log_trace, World.log_table, List.filter_append] at h hn
  simp [blockPass, List.filter_append, h, Event.isStoreCall, BerkeleyDBBlock.writeHeader, hn]

theorem blockPass_stubs (env : Env) (cfg : BuildConfig) (block_size : Int) (s : EvictState) :
    ((blockPass env cfg block_size s).world.evictedTable.length : Int)
      = s.world.evictedTable.length + (filledBlock env cfg block_size s).num_tuples_evicted := by
  have h := (filledBlock_rel env cfg block_size s).stubs
  simpa [blockPass] using h

theorem blockPass_stubEvents (env : Env) (cfg : BuildConfig) (block_size : Int)
    (s : EvictState) :
    (((blockPass env cfg block_size s).world.trace.countP Event.isInsertEvictedTuple : Nat) : Int)
      = s.world.trace.countP Event.isInsertEvictedTuple
        + (filledBlock env cfg block_size s).num_tuples_evicted := by
  have h := (filledBlock_rel env cfg block_size s).stubEvents
  simp only [World.log_trace, List.countP_append] at h
  simp [blockPass, List.countP_append, Event.isInsertEvictedTuple] at h ⊢
  omega

theorem blockPass_outside (env : Env) (cfg : BuildConfig) (block_size : Int) (s : EvictState) :
    (blockPass env cfg block_size s).world.table.name = s.world.table.name
    ∧ (blockPass env cfg block_size s).world.table.hasEvictedTable
      = s.world.table.hasEvictedTable
    ∧ (blockPass env cfg block_size s).world.table.batchEvicted = s.world.table.batchEvicted
    ∧ (blockPass env cfg block_size s).world.table.m_clock = s.world.table.m_clock
    ∧ (blockPass env cfg block_size s).world.table.timeStamp = s.world.table.timeStamp := by
  have h := (filledBlock_rel env cfg block_size s).outside
  exact ⟨h.name_eq, h.hasEvictedTable_eq, h.batchEvicted_eq, h.m_clock_eq, h.timeStamp_eq⟩

theorem blockPass_iterator (env : Env) (cfg : BuildConfig) (block_size : Int)
    (s : EvictState) :
    (blockPass env cfg block_size s).world.iterator <:+ s.world.iterator :=
  fillBlock_iterator cfg block_size _ _ _

theorem filledBlock_size (env : Env) (cfg : BuildConfig) (block_size : Int) (s : EvictState)
    (hsmall : ∀ t, some t ∈ s.world.iterator →
      (t.serializedSize : Int) ≤ MAX_EVICTED_TUPLE_SIZE)
    (hheader : (env.headerSize [s.world.table.name] : Int) ≤ block_size) :
    (filledBlock env cfg block_size s).block.serializedSize ≤ block_size :=
  fillBlock_size cfg block_size _ _ hsmall _ hheader

theorem evictBlocks_nextBlockId (env : Env) (cfg : BuildConfig) (block_size : Int) (n : Nat) :
    ∀ s : EvictState,
      (evictBlocks env cfg block_size n s).world.nextBlockId = s.world.nextBlockId + n := by
  induction n with
  | zero => intro s; simp [evictBlocks]
  | succ n ih =>
    intro s
    rw [evictBlocks_succ, ih, blockPass_nextBlockId]
    push_cast; ring

theorem evictBlocks_blocksEvicted (env : Env) (cfg : BuildConfig) (block_size : Int)
    (n : Nat) :
    ∀ s : EvictState,
      (evictBlocks env cfg block_size n s).m_blocksEvicted = s.m_blocksEvicted + n := by
  induction n with
  | zero => intro s; simp [evictBlocks]
  | succ n ih =>
    intro s
    rw [evictBlocks_succ, ih]
    simp only [blockPass]
    push_cast; ring

theorem evictBlocks_written (env : Env) (cfg : BuildConfig) (block_size : Int) (n : Nat) :
    ∀ s : EvictState, ∃ blocks : List (BerkeleyDBBlock × Int),
      writtenBlocks (evictBlocks env cfg block_size n s).world.trace
        = writtenBlocks s.world.trace ++ blocks ∧ blocks.length = n := by
  induction n with
  | zero => intro s; exact ⟨[], by simp [evictBlocks], rfl⟩
  | succ n ih =>
    intro s
    obtain ⟨blocks, h1, h2⟩ := ih (blockPass env cfg block_size s)
    refine ⟨(((filledBlock env cfg block_size s).block.writeHeader
        [(filledBlock env cfg block_size s).num_tuples_evicted]),
      (filledBlock env cfg block_size s).block.serializedSize) :: blocks, ?_, by simp [h2]⟩
    rw [evictBlocks_succ, h1, blockPass_written, List.append_assoc]
    rfl

theorem evictBlocks_written_size (env : Env) (cfg : BuildConfig) (block_size : Int) (n : Nat) :
    ∀ s : EvictState,
      (∀ t, some t ∈ s.world.iterator → (t.serializedSize : Int) ≤ MAX_EVICTED_TUPLE_SIZE) →
      (env.headerSize [s.world.table.name] : Int) ≤ block_size →
      ∃ blocks : List (BerkeleyDBBlock × Int),
        writtenBlocks (evictBlocks env cfg block_size n s).world.trace
          = writtenBlocks s.world.trace ++ blocks
        ∧ ∀ b ∈ blocks, b.1.serializedSize ≤ block_size ∧ b.2 = b.1.serializedSize := by
  induction n with
  | zero => intro s _ _; exact ⟨[], by simp [evictBlocks], by simp⟩
  | succ n ih =>
    intro s hsmall hheader
    have hname := (blockPass_outside env cfg block_size s).1
    obtain ⟨blocks, h1, h2⟩ := ih (blockPass env cfg block_size s)
      (fun t ht => hsmall t ((blockPass_iterator env cfg block_size s).subset ht))
      (by rw [hname]; exact hheader)
    refine ⟨(((filledBlock env cfg block_size s).block.writeHeader
        [(filledBlock env cfg block_size s).num_tuples_evicted]),
      (filledBlock env cfg block_size s).block.serializedSize) :: blocks, ?_, ?_⟩
    · rw [evictBlocks_succ, h1, blockPass_written, List.append_assoc]
      rfl
    · intro b hb
      rcases List.mem_cons.1 hb with rfl | hb
      · exact ⟨filledBlock_size env cfg block_size s hsmall hheader, rfl⟩
      · exact h2 b hb

theorem evictBlocks_tuples (env : Env) (cfg : BuildConfig) (block_size : Int) (n : Nat) :
    ∀ s : EvictState,
      (evictBlocks env cfg block_size n s).m_tuplesEvicted - s.m_tuplesEvicted
        = ((evictBlocks env cfg block_size n s).world.evictedTable.length : Int)
          - s.world.evictedTable.length := by
  induction n with
  | zero => intro s; simp [evictBlocks]
  | succ n ih =>
    intro s
    rw [evictBlocks_succ]
    have h1 := ih (blockPass env cfg block_size s)
    have h2 := blockPass_stubs env cfg block_size s
    have h3 : (blockPass env cfg block_size s).m_tuplesEvicted
        = s.m_tuplesEvicted + (filledBlock env cfg block_size s).num_tuples_evicted := rfl
    omega

theorem evictBlocks_stubEvents (env : Env) (cfg : BuildConfig) (block_size : Int) (n : Nat) :
    ∀ s : EvictState,
      (evictBlocks env cfg block_size n s).m_tuplesEvicted - s.m_tuplesEvicted
        = (((evictBlocks env cfg block_size n s).world.trace.countP
              Event.isInsertEvictedTuple : Nat) : Int)
          - s.world.trace.countP Event.isInsertEvictedTuple := by
  induction n with
  | zero => intro s; simp [evictBlocks]
  | succ n ih =>
    intro s
    rw [evictBlocks_succ]
    have h1 := ih (blockPass env cfg block_size s)
    have h2 := blockPass_stubEvents env cfg block_size s
    have h3 : (blockPass env cfg block_size s).m_tuplesEvicted
        = s.m_tuplesEvicted + (filledBlock env cfg block_size s).num_tuples_evicted := rfl
    omega

theorem evictBlocks_outside (env : Env) (cfg : BuildConfig) (block_size : Int) (n : Nat) :
    ∀ s : EvictState,
      (evictBlocks env cfg block_size n s).world.table.name = s.world.table.name
      ∧ (evictBlocks env cfg block_size n s).world.table.hasEvictedTable
        = s.world.table.hasEvictedTable := by
  induction n with
  | zero => intro s; simp [evictBlocks]
  | succ n ih =>
    intro s
    rw [evictBlocks_succ]
    have h1 := ih (blockPass env cfg block_size s)
    have h2 := blockPass_outside env cfg block_size s
    exact ⟨h1.1.trans h2.1, h1.2.trans h2.2.1⟩

theorem evictBlocks_sync (env : Env) (cfg : BuildConfig) (block_size : Int) (n : Nat) :
    ∀ s : EvictState,
      s.world.table.tuplesEvicted = s.m_tuplesEvicted →
      s.world.table.blocksEvicted = s.m_blocksEvicted →
      (evictBlocks env cfg block_size n s).world.table.tuplesEvicted
        = (evictBlocks env cfg block_size n s).m_tuplesEvicted
      ∧ (evictBlocks env cfg block_size n s).world.table.blocksEvicted
        = (evictBlocks env cfg block_size n s).m_blocksEvicted := by
  induction n with
  | zero => intro s h1 h2; exact ⟨h1, h2⟩
  | succ n ih =>
    intro s _ _
    rw [evictBlocks_succ]
    exact ih (blockPass env cfg block_size s) rfl rfl

theorem evictBlocks_needs_flush (env : Env) (cfg : BuildConfig) (block_size : Int) (n : Nat) :
    ∀ s : EvictState,
      (evictBlocks env cfg block_size n s).needs_flush = (s.needs_flush || decide (0 < n)) := by
  induction n with
  | zero => intro s; simp [evictBlocks]
  | succ n ih =>
    intro s
    rw [evictBlocks_succ, ih]
    simp [blockPass]

theorem evictBlocks_evictedTable_mono (env : Env) (cfg : BuildConfig) (block_size : Int)
    (n : Nat) :
    ∀ s : EvictState,
      s.world.evictedTable.length
        ≤ (evictBlocks env cfg block_size n s).world.evictedTable.length := by
  induction n with
  | zero => intro s; simp [evictBlocks]
  | succ n ih =>
    intro s
    rw [evictBlocks_succ]
    have h1 := ih (blockPass env cfg block_size s)
    have h2 := blockPass_stubs env cfg block_size s
    have h3 := filledBlock_nonneg env cfg block_size s
    omega

/-! ### evictBlockToDisk as a whole -/

theorem evictBlockToDisk_eq (env : Env) (cfg : BuildConfig) (w : World)
    (block_size num_blocks : Int) (hstub : w.table.hasEvictedTable = true) :
    evictBlockToDisk env cfg w block_size num_blocks
      = (flushed (evictBlocks env cfg block_size num_blocks.toNat
          (startState cfg w block_size num_blocks)), .ok true) := by
  unfold evictBlockToDisk
  simp only [hstub, Bool.true_eq_false, if_false]
  rfl

theorem startWorld_facts (cfg : BuildConfig) (w : World) (block_size num_blocks : Int) :
    (startWorld cfg w block_size num_blocks).table = w.table
    ∧ (startWorld cfg w block_size num_blocks).iterator = w.iterator
    ∧ (startWorld cfg w block_size num_blocks).evictedTable = w.evictedTable
    ∧ (startWorld cfg w block_size num_blocks).nextBlockId = w.nextBlockId
    ∧ writtenBlocks (startWorld cfg w block_size num_blocks).trace = writtenBlocks w.trace
    ∧ (startWorld cfg w block_size num_blocks).trace.countP Event.isInsertEvictedTuple
      = w.trace.countP Event.isInsertEvictedTuple := by
  unfold startWorld
  simp only
  split_ifs <;>
    simp [writtenBlocks_append, writtenBlocks, List.countP_append, Event.isInsertEvictedTuple]

theorem flushed_facts (s : EvictState) :
    (flushed s).table = s.world.table
    ∧ (flushed s).iterator = s.world.iterator
    ∧ (flushed s).evictedTable = s.world.evictedTable
    ∧ (flushed s).nextBlockId = s.world.nextBlockId
    ∧ writtenBlocks (flushed s).trace = writtenBlocks s.world.trace
    ∧ (flushed s).trace.countP Event.isInsertEvictedTuple
      = s.world.trace.countP Event.isInsertEvictedTuple := by
  unfold flushed
  split_ifs <;>
    simp [writtenBlocks_append, writtenBlocks, List.countP_append, Event.isInsertEvictedTuple]

theorem toInt32_sub (a b : Int) : toInt32 (a - toInt32 b) = toInt32 (a - b) := by
  unfold toInt32; omega

theorem toInt32_idem (a : Int) : toInt32 (toInt32 a) = toInt32 a := by
  unfold toInt32; omega

theorem toInt32_of_range (a : Int) (h0 : -2 ^ 31 ≤ a) (h1 : a < 2 ^ 31) : toInt32 a = a := by
  unfold toInt32; omega

theorem evictTuple_count (cfg : BuildConfig) (block_id : Int) (s : FillState)
    (tuple : TableTuple) :
    (evictTuple cfg block_id s tuple).num_tuples_evicted ≤ s.num_tuples_evicted + 1
    ∧ (evictTuple cfg block_id s tuple).world.iterator = s.world.iterator := by
  unfold evictTuple
  cases he : tuple.isEvicted <;> simp

theorem fillBlock_count (cfg : BuildConfig) (block_size block_id : Int)
    (items : List (Option TableTuple)) :
    ∀ s : FillState,
      (fillBlock cfg block_size block_id items s).num_tuples_evicted - s.num_tuples_evicted
        + (fillBlock cfg block_size block_id items s).world.iterator.length ≤ items.length := by
  induction items with
  | nil => intro s; simp [fillBlock]
  | cons item rest ih =>
    intro s
    unfold fillBlock
    split_ifs with hroom
    · cases item with
      | none => simp
      | some tuple =>
        have h1 := ih (evictTuple cfg block_id s tuple)
        have h2 := (evictTuple_count cfg block_id s tuple).1
        simp only [List.length_cons]
        push_cast
        omega
    · simp

theorem blockPass_count (env : Env) (cfg : BuildConfig) (block_size : Int) (s : EvictState) :
    (blockPass env cfg block_size s).m_tuplesEvicted - s.m_tuplesEvicted
      + (blockPass env cfg block_size s).world.iterator.length ≤ s.world.iterator.length := by
  have h := fillBlock_count cfg block_size s.world.nextBlockId s.world.iterator
    { world := ({ s.world with nextBlockId := s.world.nextBlockId + 1 }).log
        (.nextBlockId s.world.nextBlockId),
      block := initializeBlock env [s.world.table.name] s.world.nextBlockId 0,
      num_tuples_evicted := 0, tuple_length := s.tuple_length }
  simp only [sub_zero] at h
  simpa [blockPass, filledBlock] using h

theorem evictBlocks_count (env : Env) (cfg : BuildConfig) (block_size : Int) (n : Nat) :
    ∀ s : EvictState,
      (evictBlocks env cfg block_size n s).m_tuplesEvicted - s.m_tuplesEvicted
        + (evictBlocks env cfg block_size n s).world.iterator.length
        ≤ s.world.iterator.length := by
  induction n with
  | zero => intro s; simp [evictBlocks]
  | succ n ih =>
    intro s
    rw [evictBlocks_succ]
    have h1 := ih (blockPass env cfg block_size s)
    have h2 := blockPass_count env cfg block_size s
    omega

theorem evictTuple_tuples (cfg : BuildConfig) (block_id : Int) (s : FillState)
    (tuple : TableTuple) :
    (evictTuple cfg block_id s tuple).block.tuples
      = if tuple.isEvicted then s.block.tuples
        else s.block.tuples ++ [(s.world.table.name, tuple)] := by
  have hn := (chainTable_outside cfg s.world.table tuple.id).name_eq
  unfold evictTuple
  cases he : tuple.isEvicted
  · simp [BerkeleyDBBlock.addTuple, hn]
  · simp

theorem fillBlock_tuples (cfg : BuildConfig) (block_size block_id : Int)
    (items : List (Option TableTuple)) :
    ∀ s : FillState,
      s.block.tuples <+: (fillBlock cfg block_size block_id items s).block.tuples := by
  induction items with
  | nil => intro s; exact List.prefix_refl _
  | cons item rest ih =>
    intro s
    unfold fillBlock
    split_ifs with hroom
    · cases item with
      | none => exact List.prefix_refl _
      | some tuple =>
        refine List.IsPrefix.trans ?_ (ih _)
        rw [evictTuple_tuples]
        split
        · exact List.prefix_refl _
        · exact List.prefix_append _ _
    · exact List.prefix_refl _

/-- What a call of `evictBlockToDisk` on a table with an evicted table does to
the block store, the evicted table and the counters of the table. -/
theorem evictBlockToDisk_facts (env : Env) (cfg : BuildConfig) (w : World)
    (block_size num_blocks : Int) (hstub : w.table.hasEvictedTable = true) :
    (evictBlockToDisk env cfg w block_size num_blocks).2 = .ok true
    ∧ (evictBlockToDisk env cfg w block_size num_blocks).1.nextBlockId
      = w.nextBlockId + num_blocks.toNat
    ∧ (∃ blocks : List (BerkeleyDBBlock × Int),
        writtenBlocks (evictBlockToDisk env cfg w block_size num_blocks).1.trace
          = writtenBlocks w.trace ++ blocks ∧ blocks.length = num_blocks.toNat)
    ∧ (evictBlockToDisk env cfg w block_size num_blocks).1.table.blocksEvicted
      = w.table.blocksEvicted + num_blocks.toNat
    ∧ (evictBlockToDisk env cfg w block_size num_blocks).1.table.tuplesEvicted
        - w.table.tuplesEvicted
      = ((evictBlockToDisk env cfg w block_size num_blocks).1.evictedTable.length : Int)
        - w.evictedTable.length
    ∧ (evictBlockToDisk env cfg w block_size num_blocks).1.table.tuplesEvicted
        - w.table.tuplesEvicted
      = (((evictBlockToDisk env cfg w block_size num_blocks).1.trace.countP
            Event.isInsertEvictedTuple : Nat) : Int)
        - w.trace.countP Event.isInsertEvictedTuple
    ∧ (evictBlockToDisk env cfg w block_size num_blocks).1.table.name = w.table.name
    ∧ w.evictedTable.length
      ≤ (evictBlockToDisk env cfg w block_size num_blocks).1.evictedTable.length
    ∧ (evictBlockToDisk env cfg w block_size num_blocks).1.table.tuplesEvicted
        - w.table.tuplesEvicted ≤ w.iterator.length := by
  rw [evictBlockToDisk_eq env cfg w block_size num_blocks hstub]
  obtain ⟨f1, f2, f3, f4, f5, f6⟩ :=
    flushed_facts (evictBlocks env cfg block_size num_blocks.toNat
      (startState cfg w block_size num_blocks))
  obtain ⟨s1, s2, s3, s4, s5, s6⟩ := startWorld_facts cfg w block_size num_blocks
  have hw : (startState cfg w block_size num_blocks).world
      = startWorld cfg w block_size num_blocks := rfl
  have hmt : (startState cfg w block_size num_blocks).m_tuplesEvicted
      = w.table.tuplesEvicted := by simp [startState, s1]
  have hmb : (startState cfg w block_size num_blocks).m_blocksEvicted
      = w.table.blocksEvicted := by simp [startState, s1]
  obtain ⟨y1, y2⟩ := evictBlocks_sync env cfg block_size num_blocks.toNat
    (startState cfg w block_size num_blocks) (by rw [hmt, hw, s1]) (by rw [hmb, hw, s1])
  have e1 := evictBlocks_nextBlockId env cfg block_size num_blocks.toNat
    (startState cfg w block_size num_blocks)
  obtain ⟨blocks, e2, e2l⟩ := evictBlocks_written env cfg block_size num_blocks.toNat
    (startState cfg w block_size num_blocks)
  have e3 := evictBlocks_blocksEvicted env cfg block_size num_blocks.toNat
    (startState cfg w block_size num_blocks)
  have e4 := evictBlocks_tuples env cfg block_size num_blocks.toNat
    (startState cfg w block_size num_blocks)
  have e5 := evictBlocks_stubEvents env cfg block_size num_blocks.toNat
    (startState cfg w block_size num_blocks)
  have e6 := (evictBlocks_outside env cfg block_size num_blocks.toNat
    (startState cfg w block_size num_blocks)).1
  have e7 := evictBlocks_evictedTable_mono env cfg block_size num_blocks.toNat
    (startState cfg w block_size num_blocks)
  have e8 := evictBlocks_count env cfg block_size num_blocks.toNat
    (startState cfg w block_size num_blocks)
  rw [hw] at e1 e2 e4 e5 e6 e7 e8
  rw [s2] at e8
  rw [s3] at e4 e7
  rw [s4] at e1
  rw [s5] at e2
  rw [s6] at e5
  rw [s1] at e6
  rw [hmt] at e4 e5 e8
  rw [hmb] at e3
  simp only [f1, f3, f4, f5, f6, y1, y2]
  refine ⟨trivial, e1, ⟨blocks, e2, e2l⟩, e3, e4, e5, e6, e7, ?_⟩
  have := Int.natCast_nonneg
    (evictBlocks env cfg block_size num_blocks.toNat
      (startState cfg w block_size num_blocks)).world.iterator.length
  omega

/-! ### C16: eviction without an evicted table -/

/-- C16: on a table whose evicted table is missing, `evictBlockToDisk` and
`evictBlockToDiskInBatch` (and with them `evictBlock` and `evictBlockInBatch`)
throw a fatal exception, and the world after the call is the world before it:
no block id has been allocated, the block store has not been called, and the
counters, the evicted tables and the chain are as they were. -/
theorem C16_missing_stub_table_is_fatal (env : Env) (cfg : BuildConfig) (w : World)
    (block_size num_blocks : Int) (hnull : w.table.hasEvictedTable = false) :
    (∃ message, evictBlockToDisk env cfg w block_size num_blocks = (w, .error message))
    ∧ (∃ message,
        evictBlockToDiskInBatch env cfg w block_size num_blocks = (w, .error message))
    ∧ (∃ message, evictBlock env cfg w block_size num_blocks = (w, .error message))
    ∧ (∃ message, evictBlockInBatch env cfg w block_size num_blocks = (w, .error message)) := by
  have h1 : evictBlockToDisk env cfg w block_size num_blocks
      = (w, .error
          "Trying to evict block from table before its EvictedTable has been initialized") := by
    simp [evictBlockToDisk, hnull]
  have h2 : evictBlockToDiskInBatch env cfg w block_size num_blocks
      = (w, .error
          "Trying to evict block from table before its EvictedTable has been initialized") := by
    simp [evictBlockToDiskInBatch, hnull]
  have h3 : evictBlock env cfg w block_size num_blocks
      = (w, .error
          "Trying to evict block from table before its EvictedTable has been initialized") := by
    simp only [evictBlock, h1]
  have h4 : evictBlockInBatch env cfg w block_size num_blocks
      = (w, .error
          "Trying to evict block from table before its EvictedTable has been initialized") := by
    simp only [evictBlockInBatch, h2]
  exact ⟨⟨_, h1⟩, ⟨_, h2⟩, ⟨_, h3⟩, ⟨_, h4⟩⟩

/-- C16 at a table named T without evicted table whose iterator has a tuple
to hand out. -/
theorem C16_missing_stub_table_is_fatal_witness :
    worldNoStub.table.hasEvictedTable = false
    ∧ (∃ message, evictBlockToDisk env100 lruDouble worldNoStub 3000 2
        = (worldNoStub, .error message))
    ∧ (∃ message, evictBlockToDiskInBatch env100 lruDouble worldNoStub 3000 2
        = (worldNoStub, .error message))
    ∧ (∃ message, evictBlock env100 lruDouble worldNoStub 3000 2
        = (worldNoStub, .error message))
    ∧ (∃ message, evictBlockInBatch env100 lruDouble worldNoStub 3000 2
        = (worldNoStub, .error message)) :=
  ⟨rfl, C16_missing_stub_table_is_fatal env100 lruDouble worldNoStub 3000 2 rfl⟩

/-! ### C17: the admission test of the single-table loop -/

/-- C17, counterexample: with a header of 100 bytes and a block size of 2600,
`serialized_size + 2500 = block_size`, so the claim admits the tuple the
iterator holds.  The loop test is `serialized_size + 2500 < block_size`: the
tuple is refused, the block is written empty, no stub row is inserted and the
iterator still holds the tuple. -/
theorem C17_counterexample_equality_is_refused :
    (initializeBlock env100 ["T"] 0 0).serializedSize + MAX_EVICTED_TUPLE_SIZE = 2600
    ∧ (evictBlockToDisk env100 lruDouble worldOneTuple 2600 1).1.trace
      = [.nextBlockId 0, .writeHeader [0],
         .writeBlock "T" 0 0 ⟨0, ["T"], [0], [], 100⟩ 100, .flushBlocks]
    ∧ (evictBlockToDisk env100 lruDouble worldOneTuple 2600 1).1.evictedTable = []
    ∧ (evictBlockToDisk env100 lruDouble worldOneTuple 2600 1).1.iterator
      = [some (smallTuple 1)] := by
  refine ⟨by decide, by decide, by decide, by decide⟩

/-- C17, amended: a live tuple the iterator holds is put into the current
block exactly when `serialized_size + MAX_EVICTED_TUPLE_SIZE < block_size`.
When `serialized_size + MAX_EVICTED_TUPLE_SIZE >= block_size`, equality
included, the loop is left with the tuple still in the iterator and nothing
else changed; otherwise the tuple is taken from the iterator and processed,
and the loop goes on with the rest. -/
theorem C17_admission_is_strict (cfg : BuildConfig) (block_size block_id : Int)
    (s : FillState) (tuple : TableTuple) (rest : List (Option TableTuple))
    (hlive : tuple.isEvicted = false)
    (hfresh : (s.world.table.name, tuple) ∉ s.block.tuples) :
    ((s.world.table.name, tuple)
        ∈ (fillBlock cfg block_size block_id (some tuple :: rest) s).block.tuples
      ↔ s.block.serializedSize + MAX_EVICTED_TUPLE_SIZE < block_size)
    ∧ (block_size ≤ s.block.serializedSize + MAX_EVICTED_TUPLE_SIZE →
        fillBlock cfg block_size block_id (some tuple :: rest) s
          = { s with world := { s.world with iterator := some tuple :: rest } })
    ∧ (s.block.serializedSize + MAX_EVICTED_TUPLE_SIZE < block_size →
        fillBlock cfg block_size block_id (some tuple :: rest) s
          = fillBlock cfg block_size block_id rest (evictTuple cfg block_id s tuple)) := by
  have hno : block_size ≤ s.block.serializedSize + MAX_EVICTED_TUPLE_SIZE →
      fillBlock cfg block_size block_id (some tuple :: rest) s
        = { s with world := { s.world with iterator := some tuple :: rest } } := by
    intro h
    rw [fillBlock, if_neg (not_lt.2 h)]
  have hyes : s.block.serializedSize + MAX_EVICTED_TUPLE_SIZE < block_size →
      fillBlock cfg block_size block_id (some tuple :: rest) s
        = fillBlock cfg block_size block_id rest (evictTuple cfg block_id s tuple) := by
    intro h
    rw [fillBlock, if_pos h]
  refine ⟨⟨?_, ?_⟩, hno, hyes⟩
  · intro hmem
    by_contra hroom
    rw [hno (not_lt.1 hroom)] at hmem
    exact hfresh hmem
  · intro hroom
    rw [hyes hroom]
    apply (fillBlock_tuples cfg block_size block_id rest _).subset
    rw [evictTuple_tuples, hlive]
    simp

/-- C17 at the first tuple of a block of size 2600 with a header of 100
bytes, where `serialized_size + 2500 = block_size`: the tuple is refused. -/
theorem C17_admission_is_strict_witness :
    (smallTuple 1).isEvicted = false
    ∧ ((namedTable "T").name, smallTuple 1) ∉ (initializeBlock env100 ["T"] 0 0).tuples
    ∧ (((namedTable "T").name, smallTuple 1)
        ∈ (fillBlock lruDouble 2600 0 [some (smallTuple 1)]
            { world := worldOneTuple, block := initializeBlock env100 ["T"] 0 0,
              num_tuples_evicted := 0, tuple_length := -1 }).block.tuples
      ↔ (initializeBlock env100 ["T"] 0 0).serializedSize + MAX_EVICTED_TUPLE_SIZE < 2600)
    ∧ ¬ ((initializeBlock env100 ["T"] 0 0).serializedSize + MAX_EVICTED_TUPLE_SIZE < 2600) :=
  ⟨rfl, by decide,
    (C17_admission_is_strict lruDouble 2600 0
      { world := worldOneTuple, block := initializeBlock env100 ["T"] 0 0,
        num_tuples_evicted := 0, tuple_length := -1 }
      (smallTuple 1) [] rfl (by decide)).1,
    by decide⟩

/-! ### C18: the size law of single-table eviction -/

/-- C18: if every tuple the iterator can hand out serializes to at most
`MAX_EVICTED_TUPLE_SIZE` bytes and the header of a block fits in `block_size`,
then every block `evictBlockToDisk` hands to `writeBlock` has a serialized
size of at most `block_size`, and that size is the one passed to `writeBlock`. -/
theorem C18_size_law (env : Env) (cfg : BuildConfig) (w : World) (block_size num_blocks : Int)
    (hsmall : ∀ t, some t ∈ w.iterator → (t.serializedSize : Int) ≤ MAX_EVICTED_TUPLE_SIZE)
    (hheader : (env.headerSize [w.table.name] : Int) ≤ block_size) :
    ∃ blocks : List (BerkeleyDBBlock × Int),
      writtenBlocks (evictBlockToDisk env cfg w block_size num_blocks).1.trace
        = writtenBlocks w.trace ++ blocks
      ∧ ∀ b ∈ blocks, b.1.serializedSize ≤ block_size ∧ b.2 = b.1.serializedSize := by
  cases hstub : w.table.hasEvictedTable
  · refine ⟨[], ?_, by simp⟩
    simp [evictBlockToDisk, hstub]
  · rw [evictBlockToDisk_eq env cfg w block_size num_blocks hstub]
    obtain ⟨s1, s2, -, -, s5, -⟩ := startWorld_facts cfg w block_size num_blocks
    have hw : (startState cfg w block_size num_blocks).world
        = startWorld cfg w block_size num_blocks := rfl
    obtain ⟨blocks, h1, h2⟩ := evictBlocks_written_size env cfg block_size num_blocks.toNat
      (startState cfg w block_size num_blocks)
      (by rw [hw, s2]; exact hsmall) (by rw [hw, s1]; exact hheader)
    refine ⟨blocks, ?_, h2⟩
    rw [(flushed_facts _).2.2.2.2.1, h1, hw, s5]

/-- C18 at a table whose iterator hands out three tuples of 40 bytes, with
blocks of 2650 bytes and headers of 100 bytes. -/
theorem C18_size_law_witness :
    (∀ t, some t ∈ worldThreeTuples.iterator →
      (t.serializedSize : Int) ≤ MAX_EVICTED_TUPLE_SIZE)
    ∧ (env100.headerSize [worldThreeTuples.table.name] : Int) ≤ 2650
    ∧ ∃ blocks : List (BerkeleyDBBlock × Int),
      writtenBlocks (evictBlockToDisk env100 lruDouble worldThreeTuples 2650 2).1.trace
        = writtenBlocks worldThreeTuples.trace ++ blocks
      ∧ ∀ b ∈ blocks, b.1.serializedSize ≤ 2650 ∧ b.2 = b.1.serializedSize :=
  have hsmall : ∀ t, some t ∈ worldThreeTuples.iterator →
      (t.serializedSize : Int) ≤ MAX_EVICTED_TUPLE_SIZE := by
    intro t ht
    simp only [worldThreeTuples, List.mem_cons, Option.some.injEq, List.mem_singleton,
      List.not_mem_nil, or_false] at ht
    rcases ht with rfl | rfl | rfl <;> decide
  ⟨hsmall, by decide, C18_size_law env100 lruDouble worldThreeTuples 2650 2 hsmall (by decide)⟩

/-! ### C19: blocks without tuples -/

/-- C19, evaluated: on a table whose iterator has nothing to hand out,
`evictBlockToDisk` with `num_blocks = 3` does not stop after the first empty
block.  It allocates the block ids 0, 1 and 2, writes three empty blocks and
leaves `blocks_evicted` at 3; the claim has one block id and one block. -/
theorem C19_empty_block_does_not_stop_the_loop :
    worldNoTuples.iterator = []
    ∧ (evictBlockToDisk env100 lruDouble worldNoTuples 1000 3).1.trace
      = [.nextBlockId 0, .writeHeader [0], .writeBlock "T" 0 0 ⟨0, ["T"], [0], [], 100⟩ 100,
         .nextBlockId 1, .writeHeader [0], .writeBlock "T" 1 0 ⟨1, ["T"], [0], [], 100⟩ 100,
         .nextBlockId 2, .writeHeader [0], .writeBlock "T" 2 0 ⟨2, ["T"], [0], [], 100⟩ 100,
         .flushBlocks]
    ∧ (evictBlockToDisk env100 lruDouble worldNoTuples 1000 3).1.nextBlockId = 3
    ∧ (evictBlockToDisk env100 lruDouble worldNoTuples 1000 3).1.table.blocksEvicted = 3
    ∧ (evictBlockToDisk env100 lruDouble worldNoTuples 1000 3).1.table.tuplesEvicted = 0 := by
  refine ⟨rfl, by decide, by decide, by decide, by decide⟩

/-! ### C20: the result row of evictBlock -/

theorem evictBlock_eq (env : Env) (cfg : BuildConfig) (w : World) (blockSize numBlocks : Int)
    (hstub : w.table.hasEvictedTable = true) :
    evictBlock env cfg w blockSize numBlocks
      = ({ (evictBlockToDisk env cfg w blockSize numBlocks).1 with
            evictResultTable :=
              [{ TABLE_NAME := (evictBlockToDisk env cfg w blockSize numBlocks).1.table.name,
                 ANTICACHE_TUPLES_EVICTED := toInt32 (toInt32
                   ((evictBlockToDisk env cfg w blockSize numBlocks).1.table.tuplesEvicted
                     - toInt32 w.table.tuplesEvicted)),
                 ANTICACHE_BLOCKS_EVICTED := toInt32 (toInt32
                   ((evictBlockToDisk env cfg w blockSize numBlocks).1.table.blocksEvicted
                     - toInt32 w.table.blocksEvicted)),
                 ANTICACHE_BYTES_EVICTED := toInt32
                   ((evictBlockToDisk env cfg w blockSize numBlocks).1.table.bytesEvicted
                     - w.table.bytesEvicted) }] },
         .ok
           [{ TABLE_NAME := (evictBlockToDisk env cfg w blockSize numBlocks).1.table.name,
              ANTICACHE_TUPLES_EVICTED := toInt32 (toInt32
                ((evictBlockToDisk env cfg w blockSize numBlocks).1.table.tuplesEvicted
                  - toInt32 w.table.tuplesEvicted)),
              ANTICACHE_BLOCKS_EVICTED := toInt32 (toInt32
                ((evictBlockToDisk env cfg w blockSize numBlocks).1.table.blocksEvicted
                  - toInt32 w.table.blocksEvicted)),
              ANTICACHE_BYTES_EVICTED := toInt32
                ((evictBlockToDisk env cfg w blockSize numBlocks).1.table.bytesEvicted
                  - w.table.bytesEvicted) }]) := by
  have h := evictBlockToDisk_eq env cfg w blockSize numBlocks hstub
  unfold evictBlock
  rw [h]

/-- C20: on a table with an evicted table, `evictBlock` returns a result
table of exactly one row `(table name, T, B, bytes)`.  When the iterator holds
fewer than 2^31 tuples and fewer than 2^31 blocks are asked for, `T` is the
increase of `tuples_evicted` of the table during the call, which is the number
of rows inserted into the evicted table, and `B` is the increase of
`blocks_evicted`, which is the number of `writeBlock` calls. -/
theorem C20_evictBlock_result_row (env : Env) (cfg : BuildConfig) (w : World)
    (blockSize numBlocks : Int) (hstub : w.table.hasEvictedTable = true)
    (htuples : (w.iterator.length : Int) < 2 ^ 31) (hblocks : numBlocks < 2 ^ 31) :
    ∃ T B bytes : Int,
      (evictBlock env cfg w blockSize numBlocks).2 = .ok [⟨w.table.name, T, B, bytes⟩]
      ∧ (evictBlock env cfg w blockSize numBlocks).1.evictResultTable
        = [⟨w.table.name, T, B, bytes⟩]
      ∧ T = (evictBlock env cfg w blockSize numBlocks).1.table.tuplesEvicted
          - w.table.tuplesEvicted
      ∧ T = ((evictBlock env cfg w blockSize numBlocks).1.evictedTable.length : Int)
          - w.evictedTable.length
      ∧ T = (((evictBlock env cfg w blockSize numBlocks).1.trace.countP
                Event.isInsertEvictedTuple : Nat) : Int)
          - w.trace.countP Event.isInsertEvictedTuple
      ∧ B = (evictBlock env cfg w blockSize numBlocks).1.table.blocksEvicted
          - w.table.blocksEvicted
      ∧ B = ((writtenBlocks (evictBlock env cfg w blockSize numBlocks).1.trace).length : Int)
          - (writtenBlocks w.trace).length := by
  obtain ⟨-, -, ⟨blocks, hb, hbl⟩, hB, hT, hE, hname, hmono, hle⟩ :=
    evictBlockToDisk_facts env cfg w blockSize numBlocks hstub
  have hTval : toInt32 (toInt32
      ((evictBlockToDisk env cfg w blockSize numBlocks).1.table.tuplesEvicted
        - toInt32 w.table.tuplesEvicted))
      = (evictBlockToDisk env cfg w blockSize numBlocks).1.table.tuplesEvicted
        - w.table.tuplesEvicted := by
    rw [toInt32_idem, toInt32_sub]
    apply toInt32_of_range <;> omega
  have hBval : toInt32 (toInt32
      ((evictBlockToDisk env cfg w blockSize numBlocks).1.table.blocksEvicted
        - toInt32 w.table.blocksEvicted))
      = (evictBlockToDisk env cfg w blockSize numBlocks).1.table.blocksEvicted
        - w.table.blocksEvicted := by
    rw [toInt32_idem, toInt32_sub]
    apply toInt32_of_range <;> omega
  rw [evictBlock_eq env cfg w blockSize numBlocks hstub]
  refine ⟨(evictBlockToDisk env cfg w blockSize numBlocks).1.table.tuplesEvicted
      - w.table.tuplesEvicted,
    (evictBlockToDisk env cfg w blockSize numBlocks).1.table.blocksEvicted
      - w.table.blocksEvicted,
    toInt32 ((evictBlockToDisk env cfg w blockSize numBlocks).1.table.bytesEvicted
      - w.table.bytesEvicted), ?_, ?_, ?_⟩
  · simp only [hname, hTval, hBval]
  · simp only [hname, hTval, hBval]
  · simp only [hb, List.length_append, hbl]
    refine ⟨trivial, hT, hE, trivial, ?_⟩
    rw [hB]; push_cast; ring

/-- C20 at a table named T with 5 tuples and 2 blocks evicted before the call,
whose iterator hands out two live tuples and an evicted one: the row is
`(T, 2, 2, 80)`. -/
theorem C20_evictBlock_result_row_witness :
    worldThreeTuples.table.hasEvictedTable = true
    ∧ (worldThreeTuples.iterator.length : Int) < 2 ^ 31
    ∧ (2 : Int) < 2 ^ 31
    ∧ (evictBlock env100 lruDouble worldThreeTuples 3000 2).1.evictResultTable
      = [⟨"T", 2, 2, 80⟩]
    ∧ ∃ T B bytes : Int,
      (evictBlock env100 lruDouble worldThreeTuples 3000 2).2
        = .ok [⟨worldThreeTuples.table.name, T, B, bytes⟩]
      ∧ (evictBlock env100 lruDouble worldThreeTuples 3000 2).1.evictResultTable
        = [⟨worldThreeTuples.table.name, T, B, bytes⟩]
      ∧ T = (evictBlock env100 lruDouble worldThreeTuples 3000 2).1.table.tuplesEvicted
          - worldThreeTuples.table.tuplesEvicted
      ∧ T = ((evictBlock env100 lruDouble worldThreeTuples 3000 2).1.evictedTable.length : Int)
          - worldThreeTuples.evictedTable.length
      ∧ T = (((evictBlock env100 lruDouble worldThreeTuples 3000 2).1.trace.countP
                Event.isInsertEvictedTuple : Nat) : Int)
          - worldThreeTuples.trace.countP Event.isInsertEvictedTuple
      ∧ B = (evictBlock env100 lruDouble worldThreeTuples 3000 2).1.table.blocksEvicted
          - worldThreeTuples.table.blocksEvicted
      ∧ B = ((writtenBlocks
                (evictBlock env100 lruDouble worldThreeTuples 3000 2).1.trace).length : Int)
          - (writtenBlocks worldThreeTuples.trace).length :=
  ⟨rfl, by decide, by decide, by decide,
    C20_evictBlock_result_row env100 lruDouble worldThreeTuples 3000 2 rfl (by decide)
      (by decide)⟩

/-! ### C21: the bytes column of the result row -/

/-- The bytes column of the row of `evictBlock` is the increase of
`bytes_evicted` of the table converted to `int32_t`. -/
theorem evictBlock_bytes (env : Env) (cfg : BuildConfig) (w : World) (blockSize numBlocks : Int)
    (hstub : w.table.hasEvictedTable = true) :
    (evictBlock env cfg w blockSize numBlocks).1.evictResultTable.map
        ResultRow.ANTICACHE_BYTES_EVICTED
      = [toInt32 ((evictBlock env cfg w blockSize numBlocks).1.table.bytesEvicted
          - w.table.bytesEvicted)] := by
  rw [evictBlock_eq env cfg w blockSize numBlocks hstub]
  rfl

/-- C21, evaluated: `evictBlock` on a table whose iterator hands out one tuple
of 2^31 serialized bytes, with room for it in the block.  `bytes_evicted` of
the table grows by 2147483648, and the bytes column of the result row holds
-2147483648: the difference goes through `static_cast<int32_t>` before it is
stored in the 64-bit column. -/
theorem C21_bytes_column_goes_through_int32 :
    (evictBlock env100 lruDouble worldBigTuple 2147486249 1).1.table.bytesEvicted
        - worldBigTuple.table.bytesEvicted = 2147483648
    ∧ (evictBlock env100 lruDouble worldBigTuple 2147486249 1).1.evictResultTable
      = [⟨"T", 1, 1, -2147483648⟩] := by
  refine ⟨by decide, by decide⟩

/-! ### The calls of one block -/

theorem stubRows_succ (block_id offset : Int) (n : Nat) :
    stubRows block_id offset (n + 1)
      = ⟨block_id, offset, true⟩ :: stubRows block_id (offset + 1) n := by
  unfold stubRows
  rw [List.range_succ_eq_map, List.map_cons, List.map_map]
  congr 1
  · simp
  · apply List.map_congr_left
    intro k _
    simp only [Function.comp, Nat.cast_succ]
    congr 1
    ring

theorem evictTuple_live (cfg : BuildConfig) (block_id : Int) (s : FillState)
    (tuple : TableTuple) (hlive : tuple.isEvicted = false) :
    (evictTuple cfg block_id s tuple).block
        = s.block.addTuple s.world.table.name tuple
    ∧ (evictTuple cfg block_id s tuple).num_tuples_evicted = s.num_tuples_evicted + 1
    ∧ (evictTuple cfg block_id s tuple).world.evictedTable
        = s.world.evictedTable ++ [⟨block_id, s.num_tuples_evicted, true⟩]
    ∧ (evictTuple cfg block_id s tuple).world.trace
        = s.world.trace ++ tupleEvents s.world.table.name block_id s.num_tuples_evicted
            s.world.evictedTable.length tuple
    ∧ (evictTuple cfg block_id s tuple).world.table.name = s.world.table.name := by
  have hn := (chainTable_outside cfg s.world.table tuple.id).name_eq
  unfold evictTuple
  simp [hlive, hn, tupleEvents]

theorem evictTuple_evicted (cfg : BuildConfig) (block_id : Int) (s : FillState)
    (tuple : TableTuple) (hev : tuple.isEvicted = true) :
    (evictTuple cfg block_id s tuple).block = s.block
    ∧ (evictTuple cfg block_id s tuple).num_tuples_evicted = s.num_tuples_evicted
    ∧ (evictTuple cfg block_id s tuple).world.evictedTable = s.world.evictedTable
    ∧ (evictTuple cfg block_id s tuple).world.trace = s.world.trace
    ∧ (evictTuple cfg block_id s tuple).world.table.name = s.world.table.name := by
  have hn := (chainTable_outside cfg s.world.table tuple.id).name_eq
  unfold evictTuple
  simp [hev, hn]

/-- What the `while` loop of `evictBlockToDisk` does, by the list of the
tuples it puts into the block. -/
theorem fillBlock_calls (cfg : BuildConfig) (block_size block_id : Int)
    (items : List (Option TableTuple)) :
    ∀ s : FillState, ∃ admitted : List TableTuple,
      (∀ t ∈ admitted, t.isEvicted = false ∧ some t ∈ items)
      ∧ (fillBlock cfg block_size block_id items s).block
        = { s.block with
            tuples := s.block.tuples ++ admitted.map (fun t => (s.world.table.name, t)),
            serializedSize := s.block.serializedSize
              + ((admitted.map (·.serializedSize)).sum : Nat) }
      ∧ (fillBlock cfg block_size block_id items s).num_tuples_evicted
        = s.num_tuples_evicted + admitted.length
      ∧ (fillBlock cfg block_size block_id items s).world.evictedTable
        = s.world.evictedTable ++ stubRows block_id s.num_tuples_evicted admitted.length
      ∧ (fillBlock cfg block_size block_id items s).world.trace
        = s.world.trace ++ admittedEvents s.world.table.name block_id s.num_tuples_evicted
            s.world.evictedTable.length admitted := by
  induction items with
  | nil =>
    intro s
    exact ⟨[], by simp, by simp [fillBlock], by simp [fillBlock],
      by simp [fillBlock, stubRows], by simp [fillBlock, admittedEvents]⟩
  | cons item rest ih =>
    intro s
    unfold fillBlock
    split_ifs with hroom
    · cases item with
      | none =>
        exact ⟨[], by simp, by simp, by simp, by simp [stubRows], by simp [admittedEvents]⟩
      | some tuple =>
        obtain ⟨adm, h1, h2, h3, h4, h5⟩ := ih (evictTuple cfg block_id s tuple)
        cases hev : tuple.isEvicted
        · obtain ⟨e1, e2, e3, e4, e5⟩ := evictTuple_live cfg block_id s tuple hev
          refine ⟨tuple :: adm, ?_, ?_, ?_, ?_, ?_⟩
          · intro t ht
            rcases List.mem_cons.1 ht with rfl | ht
            · exact ⟨hev, List.mem_cons_self _ _⟩
            · exact ⟨(h1 t ht).1, List.mem_cons_of_mem _ (h1 t ht).2⟩
          · simp only [h2, e1, e5, BerkeleyDBBlock.addTuple, List.map_cons, List.sum_cons,
              List.append_assoc, List.singleton_append]
            congr 1
            push_cast
            ring
          · rw [h3, e2, List.length_cons]; push_cast; ring
          · rw [h4, e3, e2, List.length_cons, stubRows_succ, List.append_assoc]
            rfl
          · rw [h5, e4, e5, e2, e3, List.length_append, List.length_singleton,
              List.append_assoc]
            rfl
        · obtain ⟨e1, e2, e3, e4, e5⟩ := evictTuple_evicted cfg block_id s tuple hev
          refine ⟨adm, ?_, ?_, ?_, ?_, ?_⟩
          · intro t ht
            exact ⟨(h1 t ht).1, List.mem_cons_of_mem _ (h1 t ht).2⟩
          · rw [h2, e1, e5]
          · rw [h3, e2]
          · rw [h4, e3, e2]
          · rw [h5, e4, e5, e2, e3]
    · exact ⟨[], by simp, by simp, by simp, by simp [stubRows], by simp [admittedEvents]⟩

theorem blockPass_calls (env : Env) (cfg : BuildConfig) (block_size : Int) (s : EvictState) :
    ∃ admitted : List TableTuple,
      (∀ t ∈ admitted, t.isEvicted = false ∧ some t ∈ s.world.iterator)
      ∧ (blockPass env cfg block_size s).world.trace
        = s.world.trace ++ blockEvents env s.world.table.name s.world.nextBlockId
            s.world.evictedTable.length admitted
      ∧ (blockPass env cfg block_size s).world.evictedTable
        = s.world.evictedTable ++ stubRows s.world.nextBlockId 0 admitted.length := by
  obtain ⟨adm, h1, h2, h3, h4, h5⟩ := fillBlock_calls cfg block_size s.world.nextBlockId
    s.world.iterator
    { world := ({ s.world with nextBlockId := s.world.nextBlockId + 1 }).log
        (.nextBlockId s.world.nextBlockId),
      block := initializeBlock env [s.world.table.name] s.world.nextBlockId 0,
      num_tuples_evicted := 0, tuple_length := s.tuple_length }
  have hn : (filledBlock env cfg block_size s).world.table.name = s.world.table.name :=
    (filledBlock_rel env cfg block_size s).outside.name_eq
  have g2 : (filledBlock env cfg block_size s).block.writeHeader [(adm.length : Int)]
      = builtBlock env s.world.table.name s.world.nextBlockId adm := by
    show BerkeleyDBBlock.writeHeader (fillBlock _ _ _ _ _).block _ = _
    rw [h2]
    simp [BerkeleyDBBlock.writeHeader, initializeBlock, builtBlock]
  have g3 : (filledBlock env cfg block_size s).num_tuples_evicted = adm.length := by
    show (fillBlock _ _ _ _ _).num_tuples_evicted = _
    rw [h3]; simp
  have g4 : (filledBlock env cfg block_size s).world.evictedTable
      = s.world.evictedTable ++ stubRows s.world.nextBlockId 0 adm.length := h4
  have g5 : (filledBlock env cfg block_size s).world.trace
      = s.world.trace ++ [.nextBlockId s.world.nextBlockId]
        ++ admittedEvents s.world.table.name s.world.nextBlockId 0
            s.world.evictedTable.length adm := h5
  have ht : (blockPass env cfg block_size s).world.trace
      = (filledBlock env cfg block_size s).world.trace
        ++ [.writeHeader [(filledBlock env cfg block_size s).num_tuples_evicted],
            .writeBlock (filledBlock env cfg block_size s).world.table.name
              s.world.nextBlockId (filledBlock env cfg block_size s).num_tuples_evicted
              ((filledBlock env cfg block_size s).block.writeHeader
                [(filledBlock env cfg block_size s).num_tuples_evicted])
              ((filledBlock env cfg block_size s).block.writeHeader
                [(filledBlock env cfg block_size s).num_tuples_evicted]).serializedSize] := by
    simp [blockPass]
  refine ⟨adm, h1, ?_, g4⟩
  rw [ht, g3, g2, g5, hn]
  simp [blockEvents]

theorem evictBlocks_calls (env : Env) (cfg : BuildConfig) (block_size : Int) (n : Nat) :
    ∀ s : EvictState, ∃ passes : List (List TableTuple),
      passes.length = n
      ∧ (∀ admitted ∈ passes, ∀ t ∈ admitted, t.isEvicted = false ∧ some t ∈ s.world.iterator)
      ∧ (evictBlocks env cfg block_size n s).world.trace
        = s.world.trace ++ runEvents env s.world.table.name s.world.nextBlockId
            s.world.evictedTable.length passes
      ∧ (evictBlocks env cfg block_size n s).world.evictedTable
        = s.world.evictedTable ++ runStubs s.world.nextBlockId passes := by
  induction n with
  | zero =>
    intro s
    exact ⟨[], rfl, by simp, by simp [evictBlocks, runEvents], by simp [evictBlocks, runStubs]⟩
  | succ n ih =>
    intro s
    obtain ⟨adm, a1, a2, a3⟩ := blockPass_calls env cfg block_size s
    obtain ⟨passes, p1, p2, p3, p4⟩ := ih (blockPass env cfg block_size s)
    have hname := (blockPass_outside env cfg block_size s).1
    have hid := blockPass_nextBlockId env cfg block_size s
    have hit := blockPass_iterator env cfg block_size s
    refine ⟨adm :: passes, by simp [p1], ?_, ?_, ?_⟩
    · intro admitted hmem t ht
      rcases List.mem_cons.1 hmem with rfl | hmem
      · exact a1 t ht
      · exact ⟨(p2 admitted hmem t ht).1, hit.subset (p2 admitted hmem t ht).2⟩
    · rw [evictBlocks_succ, p3, a2, a3, hname, hid, List.length_append, List.append_assoc]
      simp [runEvents, stubRows]
    · rw [evictBlocks_succ, p4, a3, hid, List.append_assoc]
      rfl

theorem startWorld_trace (cfg : BuildConfig) (w : World) (block_size num_blocks : Int) :
    (startWorld cfg w block_size num_blocks).trace
      = w.trace
        ++ (if cfg.ANTICACHE_TIMESTAMPS then [.reserve (block_size * num_blocks)] else [])
        ++ (if cfg.ANTICACHE_CLOCK then [.initClock w.table.m_clockPosition] else []) := by
  unfold startWorld
  simp only
  split_ifs <;> simp

theorem flushed_trace (s : EvictState) :
    (flushed s).trace = s.world.trace ++ (if s.needs_flush then [.flushBlocks] else []) := by
  unfold flushed
  split_ifs <;> simp

/-- The whole trace of a call of `evictBlockToDisk` on a table with an evicted
table, by the lists of tuples put into each block. -/
theorem evictBlockToDisk_calls (env : Env) (cfg : BuildConfig) (w : World)
    (block_size num_blocks : Int) (hstub : w.table.hasEvictedTable = true) :
    ∃ passes : List (List TableTuple),
      passes.length = num_blocks.toNat
      ∧ (∀ admitted ∈ passes, ∀ t ∈ admitted, t.isEvicted = false ∧ some t ∈ w.iterator)
      ∧ (evictBlockToDisk env cfg w block_size num_blocks).1.trace
        = w.trace
          ++ (if cfg.ANTICACHE_TIMESTAMPS then [.reserve (block_size * num_blocks)] else [])
          ++ (if cfg.ANTICACHE_CLOCK then [.initClock w.table.m_clockPosition] else [])
          ++ runEvents env w.table.name w.nextBlockId w.evictedTable.length passes
          ++ (if 0 < num_blocks then [.flushBlocks] else [])
      ∧ (evictBlockToDisk env cfg w block_size num_blocks).1.evictedTable
        = w.evictedTable ++ runStubs w.nextBlockId passes := by
  rw [evictBlockToDisk_eq env cfg w block_size num_blocks hstub]
  obtain ⟨s1, s2, s3, s4, -, -⟩ := startWorld_facts cfg w block_size num_blocks
  have hw : (startState cfg w block_size num_blocks).world
      = startWorld cfg w block_size num_blocks := rfl
  obtain ⟨passes, p1, p2, p3, p4⟩ := evictBlocks_calls env cfg block_size num_blocks.toNat
    (startState cfg w block_size num_blocks)
  have hf := evictBlocks_needs_flush env cfg block_size num_blocks.toNat
    (startState cfg w block_size num_blocks)
  rw [hw] at p2 p3 p4
  rw [s1, s3, s4, startWorld_trace] at p3
  rw [s3, s4] at p4
  rw [s2] at p2
  refine ⟨passes, p1, p2, ?_, ?_⟩
  · simp only [flushed_trace, p3, hf]
    congr 1
    have : (startState cfg w block_size num_blocks).needs_flush = false := rfl
    rw [this]
    by_cases h : 0 < num_blocks
    · have h2 : 0 < num_blocks.toNat := by omega
      simp [h, h2]
    · have h2 : ¬ 0 < num_blocks.toNat := by omega
      simp [h, h2]
  · rw [(flushed_facts _).2.2.1, p4]

theorem stubRows_offsets_nodup (block_id : Int) (n : Nat) :
    ((stubRows block_id 0 n).map StubRow.offset).Nodup := by
  unfold stubRows
  rw [List.map_map]
  refine List.Nodup.map ?_ (List.nodup_range n)
  intro a b h
  simpa [Function.comp] using h

/-! ### C22: stub addressing in single-table eviction -/

/-- C22: a call of `evictBlockToDisk` on a table with an evicted table makes,
after the preparation of the iterator, exactly the calls of `runEvents` for
some lists of live tuples of the iterator, one list per block.  By the
definition of `runEvents`, the block with id `b` is built from its list of
`n` admitted tuples in admission order, the `k`-th of them gets the stub row
`(b, k)` flagged evicted and the indexes of the table are pointed to that
row, and `n` is the count written to the header and passed to `writeBlock`.
The rows added to the evicted table are these stub rows, and the offsets of
the stubs of one block are distinct. -/
theorem C22_stub_addressing (env : Env) (cfg : BuildConfig) (w : World)
    (block_size num_blocks : Int) (hstub : w.table.hasEvictedTable = true) :
    ∃ passes : List (List TableTuple),
      passes.length = num_blocks.toNat
      ∧ (∀ admitted ∈ passes, ∀ t ∈ admitted, t.isEvicted = false ∧ some t ∈ w.iterator)
      ∧ (evictBlockToDisk env cfg w block_size num_blocks).1.trace
        = w.trace
          ++ (if cfg.ANTICACHE_TIMESTAMPS then [.reserve (block_size * num_blocks)] else [])
          ++ (if cfg.ANTICACHE_CLOCK then [.initClock w.table.m_clockPosition] else [])
          ++ runEvents env w.table.name w.nextBlockId w.evictedTable.length passes
          ++ (if 0 < num_blocks then [.flushBlocks] else [])
      ∧ (evictBlockToDisk env cfg w block_size num_blocks).1.evictedTable
        = w.evictedTable ++ runStubs w.nextBlockId passes
      ∧ ∀ admitted ∈ passes, ∀ b : Int,
          ((stubRows b 0 admitted.length).map StubRow.offset).Nodup := by
  obtain ⟨passes, h1, h2, h3, h4⟩ :=
    evictBlockToDisk_calls env cfg w block_size num_blocks hstub
  exact ⟨passes, h1, h2, h3, h4, fun admitted _ b => stubRows_offsets_nodup b admitted.length⟩

set_option maxRecDepth 200000 in
/-- C22 at a table named T whose iterator hands out a live tuple in slot 1, an
evicted one in slot 2 and a live one in slot 3, with room for all of them in
the first of two blocks: the block with id 2 holds the tuples of slots 1 and
3, with the stub rows `(2, 0)` and `(2, 1)`, and the block with id 3 is empty. -/
theorem C22_stub_addressing_witness :
    worldThreeTuples.table.hasEvictedTable = true
    ∧ (evictBlockToDisk env100 lruDouble worldThreeTuples 3000 2).1.trace
      = runEvents env100 "T" 2 1 [[smallTuple 1, smallTuple 3], []] ++ [.flushBlocks]
    ∧ (evictBlockToDisk env100 lruDouble worldThreeTuples 3000 2).1.evictedTable
      = [⟨0, 0, true⟩, ⟨2, 0, true⟩, ⟨2, 1, true⟩]
    ∧ ∃ passes : List (List TableTuple),
      passes.length = (2 : Int).toNat
      ∧ (∀ admitted ∈ passes, ∀ t ∈ admitted,
          t.isEvicted = false ∧ some t ∈ worldThreeTuples.iterator)
      ∧ (evictBlockToDisk env100 lruDouble worldThreeTuples 3000 2).1.trace
        = worldThreeTuples.trace
          ++ (if lruDouble.ANTICACHE_TIMESTAMPS then [.reserve (3000 * 2)] else [])
          ++ (if lruDouble.ANTICACHE_CLOCK then
                [.initClock worldThreeTuples.table.m_clockPosition]
              else [])
          ++ runEvents env100 worldThreeTuples.table.name worldThreeTuples.nextBlockId
              worldThreeTuples.evictedTable.length passes
          ++ (if (0 : Int) < 2 then [.flushBlocks] else [])
      ∧ (evictBlockToDisk env100 lruDouble worldThreeTuples 3000 2).1.evictedTable
        = worldThreeTuples.evictedTable ++ runStubs worldThreeTuples.nextBlockId passes
      ∧ ∀ admitted ∈ passes, ∀ b : Int,
          ((stubRows b 0 admitted.length).map StubRow.offset).Nodup :=
  ⟨rfl, by decide, by decide, C22_stub_addressing env100 lruDouble worldThreeTuples 3000 2 rfl⟩

/-! ### C23: the order of the calls on the block store -/

theorem stubsFollowIds_admitted (name : String) (block_id : Int) (seen : List Int)
    (hseen : block_id ∈ seen) (rest : List Event) (admitted : List TableTuple) :
    ∀ (offset : Int) (address : Nat),
      stubsFollowIds seen (admittedEvents name block_id offset address admitted ++ rest)
        = stubsFollowIds seen rest := by
  induction admitted with
  | nil => intro offset address; simp [admittedEvents]
  | cons t ts ih =>
    intro offset address
    simp [admittedEvents, tupleEvents, stubsFollowIds, hseen, ih]

theorem stubsFollowIds_run (env : Env) (name : String) (rest : List Event)
    (hrest : ∀ seen, stubsFollowIds seen rest = true) (passes : List (List TableTuple)) :
    ∀ (block_id : Int) (address : Nat) (seen : List Int),
      stubsFollowIds seen (runEvents env name block_id address passes ++ rest) = true := by
  induction passes with
  | nil => intro block_id address seen; simpa [runEvents] using hrest seen
  | cons admitted more ih =>
    intro block_id address seen
    have hshape : runEvents env name block_id address (admitted :: more) ++ rest
        = .nextBlockId block_id :: (admittedEvents name block_id 0 address admitted
          ++ (.writeHeader [(admitted.length : Int)]
            :: .writeBlock name block_id admitted.length
                (builtBlock env name block_id admitted)
                (builtBlock env name block_id admitted).serializedSize
            :: (runEvents env name (block_id + 1) (address + admitted.length) more
                ++ rest))) := by
      simp [runEvents, blockEvents]
    rw [hshape]
    simp only [stubsFollowIds]
    rw [stubsFollowIds_admitted name block_id (block_id :: seen) (List.mem_cons_self _ _)]
    simp only [stubsFollowIds]
    exact ih _ _ _

theorem flushBlocks_not_mem_admitted (name : String) (block_id : Int)
    (admitted : List TableTuple) :
    ∀ (offset : Int) (address : Nat),
      Event.flushBlocks ∉ admittedEvents name block_id offset address admitted := by
  induction admitted with
  | nil => intro offset address; simp [admittedEvents]
  | cons t ts ih =>
    intro offset address
    simp [admittedEvents, tupleEvents, ih]

theorem flushBlocks_not_mem_run (env : Env) (name : String) (passes : List (List TableTuple)) :
    ∀ (block_id : Int) (address : Nat),
      Event.flushBlocks ∉ runEvents env name block_id address passes := by
  induction passes with
  | nil => intro block_id address; simp [runEvents]
  | cons admitted more ih =>
    intro block_id address
    simp [runEvents, blockEvents, ih, flushBlocks_not_mem_admitted]

/-- C23: the calls of a run of `evictBlockToDisk` on a table with an evicted
table.  Every stub row inserted carries a block id that an earlier
`nextBlockId` call of the run returned.  With `num_blocks >= 1` the calls on
the block store end with `flushBlocks`, which is not called before, so every
`writeBlock` precedes it; with `num_blocks <= 0` the block store is not
called. -/
theorem C23_call_order (env : Env) (cfg : BuildConfig) (w : World)
    (block_size num_blocks : Int) (hstub : w.table.hasEvictedTable = true) :
    ∃ calls : List Event,
      (evictBlockToDisk env cfg w block_size num_blocks).1.trace = w.trace ++ calls
      ∧ stubsFollowIds [] calls = true
      ∧ (1 ≤ num_blocks →
          ∃ before, calls.filter Event.isStoreCall = before ++ [.flushBlocks]
            ∧ Event.flushBlocks ∉ before)
      ∧ (num_blocks ≤ 0 → calls.filter Event.isStoreCall = []) := by
  obtain ⟨passes, h1, -, h3, -⟩ := evictBlockToDisk_calls env cfg w block_size num_blocks hstub
  refine ⟨(if cfg.ANTICACHE_TIMESTAMPS then [.reserve (block_size * num_blocks)] else [])
      ++ (if cfg.ANTICACHE_CLOCK then [.initClock w.table.m_clockPosition] else [])
      ++ runEvents env w.table.name w.nextBlockId w.evictedTable.length passes
      ++ (if 0 < num_blocks then [.flushBlocks] else []), ?_, ?_, ?_, ?_⟩
  · rw [h3]; simp only [List.append_assoc]
  · have hrest : ∀ seen, stubsFollowIds seen
        (if 0 < num_blocks then [Event.flushBlocks] else []) = true := by
      intro seen; split_ifs <;> simp [stubsFollowIds]
    have hrun := stubsFollowIds_run env w.table.name _ hrest passes w.nextBlockId
      w.evictedTable.length
    simp only [List.append_assoc]
    cases cfg.ANTICACHE_TIMESTAMPS <;> cases cfg.ANTICACHE_CLOCK <;>
      simp [stubsFollowIds, hrun]
  · intro hn
    have hpos : 0 < num_blocks := by omega
    refine ⟨(runEvents env w.table.name w.nextBlockId w.evictedTable.length
      passes).filter Event.isStoreCall, ?_, ?_⟩
    · simp only [hpos, if_true, List.filter_append]
      split_ifs <;> simp [Event.isStoreCall]
    · intro hmem
      exact flushBlocks_not_mem_run env w.table.name passes _ _ (List.mem_filter.1 hmem).1
  · intro hn
    have hlen : passes = [] := by
      apply List.eq_nil_of_length_eq_zero
      rw [h1]; omega
    have hneg : ¬ 0 < num_blocks := by omega
    simp only [hlen, hneg, if_false, runEvents, List.append_nil, List.filter_append]
    split_ifs <;> simp [Event.isStoreCall]

set_option maxRecDepth 200000 in
/-- C23 at a table named T with three tuples to hand out and two blocks. -/
theorem C23_call_order_witness :
    worldThreeTuples.table.hasEvictedTable = true
    ∧ ((evictBlockToDisk env100 lruDouble worldThreeTuples 3000 2).1.trace.filter
        Event.isStoreCall).map
        (fun e => match e with
          | .nextBlockId id => (0, id)
          | .writeBlock _ id _ _ _ => (1, id)
          | _ => ((2 : Nat), (0 : Int)))
      = [(0, 2), (1, 2), (0, 3), (1, 3), (2, 0)]
    ∧ ∃ calls : List Event,
      (evictBlockToDisk env100 lruDouble worldThreeTuples 3000 2).1.trace
        = worldThreeTuples.trace ++ calls
      ∧ stubsFollowIds [] calls = true
      ∧ ((1 : Int) ≤ 2 →
          ∃ before, calls.filter Event.isStoreCall = before ++ [.flushBlocks]
            ∧ Event.flushBlocks ∉ before)
      ∧ ((2 : Int) ≤ 0 → calls.filter Event.isStoreCall = []) :=
  ⟨rfl, by decide, C23_call_order env100 lruDouble worldThreeTuples 3000 2 rfl⟩

/-! ### The loop over the parents, one tuple at a time -/

/-- The five ways in which `evictBlockToDiskInBatch` deals with a parent tuple
the iterator hands out. -/
theorem fillParents_some (env : Env) (cfg : BuildConfig) (block_size block_id : Int)
    (s : BatchFillState) (tuple : TableTuple) (rest : List (Option TableTuple)) :
    fillParents env cfg block_size block_id (some tuple :: rest) s
      = if (bufferedFor env block_size s tuple).2.2 then
          parentRejected s tuple rest (bufferedFor env block_size s tuple).2.1
            s.childTuplesToBeEvicted
        else if s.block.serializedSize + MAX_EVICTED_TUPLE_SIZE
            + (bufferedFor env block_size s tuple).2.1 ≥ block_size then
          parentRejected s tuple rest (bufferedFor env block_size s tuple).2.1
            (s.childTuplesToBeEvicted ++ (bufferedFor env block_size s tuple).1)
        else if tuple.isEvicted then
          fillParents env cfg block_size block_id rest
            (parentSkipped env cfg block_size s tuple rest)
        else if (parentAdmitted env cfg block_size block_id s tuple rest).block.serializedSize
            + (bufferedFor env block_size s tuple).2.1 ≥ block_size then
          parentAdmitted env cfg block_size block_id s tuple rest
        else
          fillParents env cfg block_size block_id rest
            (parentAdmitted env cfg block_size block_id s tuple rest) := by
  rw [fillParents]
  simp only [bufferedFor, parentRejected, parentSkipped, parentAdmitted, parentEvents,
    World.log, BerkeleyDBBlock.addTuple, List.append_assoc, List.singleton_append,
    List.cons_append, List.nil_append]

theorem bufferChildren_facts (block_size serializedSize : Int) (values : List TableTuple) :
    ∀ acc : List TableTuple × Int,
      (∀ c ∈ (bufferChildren block_size serializedSize values acc).1, c ∈ acc.1 ∨ c ∈ values)
      ∧ MAX_EVICTED_TUPLE_SIZE
          * (((bufferChildren block_size serializedSize values acc).1.length : Int)
              - acc.1.length)
        ≤ (bufferChildren block_size serializedSize values acc).2.1 - acc.2
      ∧ ((bufferChildren block_size serializedSize values acc).2.2 = false →
          (bufferChildren block_size serializedSize values acc).1 = acc.1 ++ values
          ∧ (values ≠ [] → serializedSize + MAX_EVICTED_TUPLE_SIZE
              + (bufferChildren block_size serializedSize values acc).2.1 < block_size)) := by
  induction values with
  | nil =>
    intro acc
    simp [bufferChildren]
  | cons c more ih =>
    intro acc
    rw [bufferChildren]
    split_ifs with hfull
    · refine ⟨fun c hc => Or.inl hc, ?_, ?_⟩
      · simp [MAX_EVICTED_TUPLE_SIZE]
      · intro h; simp at h
    · obtain ⟨h1, h2, h3⟩ := ih (acc.1 ++ [c], acc.2 + MAX_EVICTED_TUPLE_SIZE)
      refine ⟨?_, ?_, ?_⟩
      · intro x hx
        rcases h1 x hx with h | h
        · rcases List.mem_append.1 h with h | h
          · exact Or.inl h
          · exact Or.inr (by simp at h; simp [h])
        · exact Or.inr (List.mem_cons_of_mem _ h)
      · simp only [List.length_append, List.length_singleton, Nat.cast_add, Nat.cast_one] at h2
        simp only [MAX_EVICTED_TUPLE_SIZE] at h2 ⊢
        omega
      · intro hno
        obtain ⟨h4, h5⟩ := h3 hno
        refine ⟨by rw [h4]; simp, fun _ => ?_⟩
        by_cases hm : more = []
        · subst hm
          simp only [bufferChildren]
          simp only [ge_iff_le, not_le] at hfull
          exact hfull
        · exact h5 hm

theorem bufferedFor_facts (env : Env) (block_size : Int) (s : BatchFillState)
    (tuple : TableTuple) :
    (∀ c ∈ (bufferedFor env block_size s tuple).1, c ∈ env.foreignKeyIndex tuple.pkey)
    ∧ MAX_EVICTED_TUPLE_SIZE * ((bufferedFor env block_size s tuple).1.length : Int)
        ≤ (bufferedFor env block_size s tuple).2.1 - s.childTuplesSize
    ∧ ((bufferedFor env block_size s tuple).2.2 = false →
        (bufferedFor env block_size s tuple).1 = env.foreignKeyIndex tuple.pkey
        ∧ ((bufferedFor env block_size s tuple).1 ≠ [] →
            s.block.serializedSize + MAX_EVICTED_TUPLE_SIZE
              + (bufferedFor env block_size s tuple).2.1 < block_size)) := by
  unfold bufferedFor
  split_ifs with hfound
  · obtain ⟨h1, h2, h3⟩ := bufferChildren_facts block_size s.block.serializedSize
      (env.foreignKeyIndex tuple.pkey) ([], s.childTuplesSize)
    refine ⟨?_, ?_, ?_⟩
    · intro c hc
      rcases h1 c hc with h | h
      · simp at h
      · exact h
    · simpa using h2
    · intro hno
      obtain ⟨h4, h5⟩ := h3 hno
      refine ⟨by simpa using h4, fun hne => h5 ?_⟩
      rw [h4] at hne
      simpa using hne
  · refine ⟨by simp, by simp, fun _ => ⟨?_, by simp⟩⟩
    simp only [Bool.not_eq_true, Bool.not_eq_false', List.isEmpty_iff] at hfound
    simp [hfound]

/-! ### What the loop over the parents keeps -/

theorem parentsRel_refl (s : BatchFillState) : ParentsRel s s :=
  ⟨sameOutsideChain_refl _, rfl, rfl, rfl, rfl, le_refl _, by simp, by simp, ⟨rfl, rfl⟩⟩

theorem parentsRel_trans {a b c : BatchFillState} (h1 : ParentsRel a b) (h2 : ParentsRel b c) :
    ParentsRel a c :=
  ⟨sameOutsideChain_trans h1.outside h2.outside, h2.childTable_eq.trans h1.childTable_eq,
    h2.childStubs_eq.trans h1.childStubs_eq, h2.ids.trans h1.ids,
    h2.written.trans h1.written, le_trans h1.mono h2.mono,
    by rw [h2.stubs, h1.stubs]; ring, by rw [h2.serialized, h1.serialized]; ring,
    ⟨h2.header.1.trans h1.header.1, h2.header.2.trans h1.header.2⟩⟩

theorem parentRejected_rel (s : BatchFillState) (tuple : TableTuple)
    (rest : List (Option TableTuple)) (childTuplesSize : Int)
    (childTuplesToBeEvicted : List TableTuple) :
    ParentsRel s (parentRejected s tuple rest childTuplesSize childTuplesToBeEvicted) :=
  ⟨sameOutsideChain_refl _, rfl, rfl, rfl, rfl, le_refl _, by simp [parentRejected],
    by simp [parentRejected], ⟨rfl, rfl⟩⟩

theorem parentSkipped_rel (env : Env) (cfg : BuildConfig) (block_size : Int)
    (s : BatchFillState) (tuple : TableTuple) (rest : List (Option TableTuple)) :
    ParentsRel s (parentSkipped env cfg block_size s tuple rest) :=
  ⟨chainTable_outside cfg s.world.table tuple.id, rfl, rfl, rfl, rfl, le_refl _,
    by simp [parentSkipped], by simp [parentSkipped], ⟨rfl, rfl⟩⟩

theorem parentAdmitted_rel (env : Env) (cfg : BuildConfig) (block_size block_id : Int)
    (s : BatchFillState) (tuple : TableTuple) (rest : List (Option TableTuple)) :
    ParentsRel s (parentAdmitted env cfg block_size block_id s tuple rest) :=
  ⟨chainTable_outside cfg s.world.table tuple.id, rfl, rfl, rfl,
    by simp [parentAdmitted, writtenBlocks_append, parentEvents, writtenBlocks],
    by simp [parentAdmitted], by simp [parentAdmitted],
    by simp [parentAdmitted, BerkeleyDBBlock.addTuple], ⟨rfl, rfl⟩⟩

theorem fillParents_rel (env : Env) (cfg : BuildConfig) (block_size block_id : Int)
    (items : List (Option TableTuple)) :
    ∀ s : BatchFillState, ParentsRel s (fillParents env cfg block_size block_id items s) := by
  induction items with
  | nil =>
    intro s
    rw [fillParents]
    exact ⟨sameOutsideChain_refl _, rfl, rfl, rfl, rfl, le_refl _, by simp, by simp,
      ⟨rfl, rfl⟩⟩
  | cons item rest ih =>
    intro s
    cases item with
    | none =>
      rw [fillParents]
      exact ⟨sameOutsideChain_refl _, rfl, rfl, rfl, rfl, le_refl _, by simp, by simp,
        ⟨rfl, rfl⟩⟩
    | some tuple =>
      rw [fillParents_some]
      split_ifs
      · exact parentRejected_rel _ _ _ _ _
      · exact parentRejected_rel _ _ _ _ _
      · exact parentsRel_trans (parentSkipped_rel env cfg block_size s tuple rest) (ih _)
      · exact parentAdmitted_rel env cfg block_size block_id s tuple rest
      · exact parentsRel_trans (parentAdmitted_rel env cfg block_size block_id s tuple rest)
          (ih _)

theorem fillParents_iterator (env : Env) (cfg : BuildConfig) (block_size block_id : Int)
    (items : List (Option TableTuple)) :
    ∀ s : BatchFillState,
      (fillParents env cfg block_size block_id items s).world.iterator <:+ items := by
  induction items with
  | nil => intro s; rw [fillParents]
  | cons item rest ih =>
    intro s
    cases item with
    | none => rw [fillParents]; exact List.suffix_cons _ _
    | some tuple =>
      rw [fillParents_some]
      split_ifs
      · exact List.suffix_cons _ _
      · exact List.suffix_cons _ _
      · exact (ih _).trans (List.suffix_cons _ _)
      · exact List.suffix_cons _ _
      · exact (ih _).trans (List.suffix_cons _ _)

theorem evictChildren_cons (block_id : Int) (c : TableTuple) (more : List TableTuple)
    (s : ChildFillState) :
    evictChildren block_id (c :: more) s
      = evictChildren block_id more (childAdmitted block_id s c) := by
  rw [evictChildren]
  simp only [childAdmitted, childEvents, World.log, List.append_assoc, List.singleton_append,
    List.cons_append, List.nil_append]

/-- What the loop over `childTuplesToBeEvicted` does. -/
theorem evictChildren_facts (block_id : Int) (children : List TableTuple) :
    ∀ s : ChildFillState,
      (evictChildren block_id children s).world.table = s.world.table
      ∧ (evictChildren block_id children s).world.childTable = s.world.childTable
      ∧ (evictChildren block_id children s).world.evictedTable = s.world.evictedTable
      ∧ (evictChildren block_id children s).world.nextBlockId = s.world.nextBlockId
      ∧ (evictChildren block_id children s).world.iterator = s.world.iterator
      ∧ writtenBlocks (evictChildren block_id children s).world.trace
        = writtenBlocks s.world.trace
      ∧ (evictChildren block_id children s).childTuples = s.childTuples + children.length
      ∧ (evictChildren block_id children s).num_tuples_evicted
        = s.num_tuples_evicted + children.length
      ∧ (evictChildren block_id children s).world.childEvictedTable
        = s.world.childEvictedTable ++ stubRows block_id s.childTuples children.length
      ∧ (evictChildren block_id children s).block
        = { s.block with
            tuples := s.block.tuples
              ++ children.map (fun c => (s.world.childTable.name, c)),
            serializedSize := s.block.serializedSize
              + ((children.map (·.serializedSize)).sum : Nat) } := by
  induction children with
  | nil =>
    intro s
    simp [evictChildren, stubRows]
  | cons c more ih =>
    intro s
    rw [evictChildren_cons]
    obtain ⟨h1, h2, h3, h4, h5, h6, h7, h8, h9, h10⟩ := ih (childAdmitted block_id s c)
    refine ⟨h1, h2, h3, h4, h5, ?_, ?_, ?_, ?_, ?_⟩
    · rw [h6]; simp [childAdmitted, childEvents, writtenBlocks_append, writtenBlocks]
    · rw [h7]; simp [childAdmitted]; ring
    · rw [h8]; simp [childAdmitted]; ring
    · rw [h9, List.length_cons, stubRows_succ]; simp [childAdmitted]
    · rw [h10]
      simp only [childAdmitted, BerkeleyDBBlock.addTuple, List.map_cons, List.sum_cons,
        List.append_assoc, List.singleton_append]
      congr 1
      push_cast
      ring

/-! ### The loop over the blocks of a parent/child eviction -/

theorem filledParents_rel (env : Env) (cfg : BuildConfig) (block_size : Int)
    (s : BatchEvictState) :
    ParentsRel
      { world := ({ s.world with nextBlockId := s.world.nextBlockId + 1 }).log
          (.nextBlockId s.world.nextBlockId),
        block := initializeBlock env [s.world.table.name, s.world.childTable.name]
          s.world.nextBlockId 0,
        num_tuples_evicted := 0, tuple_length := s.tuple_length, parentTuples := 0,
        childTuplesToBeEvicted := [], childTuplesSize := 0 }
      (filledParents env cfg block_size s) :=
  fillParents_rel env cfg block_size _ _ _

theorem filledChildren_facts (env : Env) (cfg : BuildConfig) (block_size : Int)
    (s : BatchEvictState) :
    (filledChildren env cfg block_size s).world.table
        = (filledParents env cfg block_size s).world.table
    ∧ (filledChildren env cfg block_size s).world.childTable = s.world.childTable
    ∧ (filledChildren env cfg block_size s).world.evictedTable
        = (filledParents env cfg block_size s).world.evictedTable
    ∧ (filledChildren env cfg block_size s).world.nextBlockId = s.world.nextBlockId + 1
    ∧ (filledChildren env cfg block_size s).world.iterator
        = (filledParents env cfg block_size s).world.iterator
    ∧ writtenBlocks (filledChildren env cfg block_size s).world.trace
        = writtenBlocks s.world.trace
    ∧ (filledChildren env cfg block_size s).childTuples
        = (filledParents env cfg block_size s).childTuplesToBeEvicted.length
    ∧ (filledChildren env cfg block_size s).num_tuples_evicted
        = (filledParents env cfg block_size s).num_tuples_evicted
          + (filledParents env cfg block_size s).childTuplesToBeEvicted.length
    ∧ (filledChildren env cfg block_size s).world.childEvictedTable
        = s.world.childEvictedTable ++ stubRows s.world.nextBlockId 0
            (filledParents env cfg block_size s).childTuplesToBeEvicted.length
    ∧ (filledChildren env cfg block_size s).block
        = { (filledParents env cfg block_size s).block with
            tuples := (filledParents env cfg block_size s).block.tuples
              ++ (filledParents env cfg block_size s).childTuplesToBeEvicted.map
                  (fun c => (s.world.childTable.name, c)),
            serializedSize := (filledParents env cfg block_size s).block.serializedSize
              + (((filledParents env cfg block_size s).childTuplesToBeEvicted.map
                  (·.serializedSize)).sum : Nat) } := by
  have hr := filledParents_rel env cfg block_size s
  obtain ⟨h1, h2, h3, h4, h5, h6, h7, h8, h9, h10⟩ := evictChildren_facts s.world.nextBlockId
    (filledParents env cfg block_size s).childTuplesToBeEvicted
    { world := (filledParents env cfg block_size s).world,
      block := (filledParents env cfg block_size s).block,
      num_tuples_evicted := (filledParents env cfg block_size s).num_tuples_evicted,
      childTuples := 0 }
  have c1 := hr.childTable_eq
  have c2 := hr.childStubs_eq
  have c3 := hr.ids
  have c4 := hr.written
  simp only [World.log_trace, writtenBlocks_append, writtenBlocks, List.append_nil] at c4
  refine ⟨h1, h2.trans c1, h3, h4.trans c3, h5, h6.trans c4, ?_, h8, ?_, ?_⟩
  · simpa using h7
  · rw [filledChildren, h9]
    simp only [c2]
    rfl
  · rw [filledChildren, h10]
    simp only [c1]
    rfl

theorem filledChildren_nonneg (env : Env) (cfg : BuildConfig) (block_size : Int)
    (s : BatchEvictState) : 0 ≤ (filledChildren env cfg block_size s).num_tuples_evicted := by
  have h1 := (filledParents_rel env cfg block_size s).mono
  have h2 := (filledChildren_facts env cfg block_size s).2.2.2.2.2.2.2.1
  simp only at h1
  omega

/-- The test `num_tuples_evicted >= 0` never fails in `evictBlockToDiskInBatch`
either: every pass of the loop writes its block. -/
theorem evictBlocksInBatch_succ (env : Env) (cfg : BuildConfig) (block_size : Int) (n : Nat)
    (s : BatchEvictState) :
    evictBlocksInBatch env cfg block_size (n + 1) s
      = evictBlocksInBatch env cfg block_size n (batchPass env cfg block_size s) := by
  have h := filledChildren_nonneg env cfg block_size s
  have key : evictBlocksInBatch env cfg block_size (n + 1) s
      = if (filledChildren env cfg block_size s).num_tuples_evicted ≥ 0 then
          evictBlocksInBatch env cfg block_size n (batchPass env cfg block_size s)
        else
          evictBlocksInBatch env cfg block_size n
            { s with
              world := (filledChildren env cfg block_size s).world.log
                (.writeHeader [(filledParents env cfg block_size s).parentTuples,
                  (filledChildren env cfg block_size s).childTuples]),
              tuple_length := (filledParents env cfg block_size s).tuple_length } := by
    rw [evictBlocksInBatch]
    rfl
  rw [key, if_pos h]

theorem batchPass_facts (env : Env) (cfg : BuildConfig) (block_size : Int)
    (s : BatchEvictState) :
    (batchPass env cfg block_size s).world.nextBlockId = s.world.nextBlockId + 1
    ∧ writtenBlocks (batchPass env cfg block_size s).world.trace
      = writtenBlocks s.world.trace
        ++ [(batchBlock env cfg block_size s, (batchBlock env cfg block_size s).serializedSize)]
    ∧ ((batchPass env cfg block_size s).world.evictedTable.length : Int)
      = s.world.evictedTable.length
        + ((batchPass env cfg block_size s).m_tuplesEvicted - s.m_tuplesEvicted)
    ∧ ((batchPass env cfg block_size s).world.childEvictedTable.length : Int)
      = s.world.childEvictedTable.length
        + ((batchPass env cfg block_size s).child_tuplesEvicted - s.child_tuplesEvicted)
    ∧ s.m_tuplesEvicted ≤ (batchPass env cfg block_size s).m_tuplesEvicted
    ∧ s.child_tuplesEvicted ≤ (batchPass env cfg block_size s).child_tuplesEvicted
    ∧ (batchPass env cfg block_size s).world.table.name = s.world.table.name
    ∧ (batchPass env cfg block_size s).world.childTable.name = s.world.childTable.name
    ∧ (batchPass env cfg block_size s).world.iterator <:+ s.world.iterator := by
  have hr := filledParents_rel env cfg block_size s
  obtain ⟨c1, c2, c3, c4, c5, c6, c7, c8, c9, c10⟩ := filledChildren_facts env cfg block_size s
  have hit : (filledParents env cfg block_size s).world.iterator <:+ s.world.iterator :=
    fillParents_iterator env cfg block_size _ _ _
  have hmono := hr.mono
  have hstubs := hr.stubs
  have hname := hr.outside.name_eq
  simp only [World.log_evictedTable, World.log_table, sub_zero] at hmono hstubs hname
  refine ⟨?_, ?_, ?_, ?_, ?_, ?_, ?_, ?_, ?_⟩
  · simpa [batchPass] using c4
  · simp [batchPass, writtenBlocks_append, writtenBlocks, c6]
  · simp only [batchPass, World.log_evictedTable, c3, c8, c7, hstubs]
    ring
  · simp only [batchPass, World.log, c9, c7, List.length_append, stubRows, List.length_map,
      List.length_range]
    push_cast
    ring
  · simp only [batchPass, c8, c7]
    omega
  · simp only [batchPass, c7]
    omega
  · simp only [batchPass, World.log_table, c1, hname]
  · simp only [batchPass, World.log, c2]
  · simp only [batchPass, World.log_iterator, c5]
    exact hit

/-- What the loop over the blocks of `evictBlockToDiskInBatch` does, by the
states in which its passes start. -/
theorem evictBlocksInBatch_facts (env : Env) (cfg : BuildConfig) (block_size : Int) (n : Nat) :
    ∀ s : BatchEvictState, ∃ starts : List BatchEvictState,
      starts.length = n
      ∧ (∀ s0 ∈ starts, s0.world.table.name = s.world.table.name
          ∧ s0.world.childTable.name = s.world.childTable.name
          ∧ s0.world.iterator <:+ s.world.iterator)
      ∧ writtenBlocks (evictBlocksInBatch env cfg block_size n s).world.trace
        = writtenBlocks s.world.trace
          ++ starts.map (fun s0 => (batchBlock env cfg block_size s0,
              (batchBlock env cfg block_size s0).serializedSize))
      ∧ (evictBlocksInBatch env cfg block_size n s).world.nextBlockId
        = s.world.nextBlockId + n
      ∧ (evictBlocksInBatch env cfg block_size n s).m_blocksEvicted = s.m_blocksEvicted + n
      ∧ (evictBlocksInBatch env cfg block_size n s).child_blocksEvicted
        = s.child_blocksEvicted + n
      ∧ ((evictBlocksInBatch env cfg block_size n s).world.evictedTable.length : Int)
        = s.world.evictedTable.length
          + ((evictBlocksInBatch env cfg block_size n s).m_tuplesEvicted - s.m_tuplesEvicted)
      ∧ ((evictBlocksInBatch env cfg block_size n s).world.childEvictedTable.length : Int)
        = s.world.childEvictedTable.length
          + ((evictBlocksInBatch env cfg block_size n s).child_tuplesEvicted
              - s.child_tuplesEvicted)
      ∧ s.m_tuplesEvicted ≤ (evictBlocksInBatch env cfg block_size n s).m_tuplesEvicted
      ∧ s.child_tuplesEvicted ≤ (evictBlocksInBatch env cfg block_size n s).child_tuplesEvicted
      ∧ (evictBlocksInBatch env cfg block_size n s).world.table.name = s.world.table.name
      ∧ (evictBlocksInBatch env cfg block_size n s).world.childTable.name
        = s.world.childTable.name
      ∧ (evictBlocksInBatch env cfg block_size n s).needs_flush
        = (s.needs_flush || decide (0 < n))
      ∧ ((s.world.table.tuplesEvicted = s.m_tuplesEvicted
            ∧ s.world.table.blocksEvicted = s.m_blocksEvicted
            ∧ s.world.childTable.tuplesEvicted = s.child_tuplesEvicted
            ∧ s.world.childTable.blocksEvicted = s.child_blocksEvicted) →
          (evictBlocksInBatch env cfg block_size n s).world.table.tuplesEvicted
            = (evictBlocksInBatch env cfg block_size n s).m_tuplesEvicted
          ∧ (evictBlocksInBatch env cfg block_size n s).world.table.blocksEvicted
            = (evictBlocksInBatch env cfg block_size n s).m_blocksEvicted
          ∧ (evictBlocksInBatch env cfg block_size n s).world.childTable.tuplesEvicted
            = (evictBlocksInBatch env cfg block_size n s).child_tuplesEvicted
          ∧ (evictBlocksInBatch env cfg block_size n s).world.childTable.blocksEvicted
            = (evictBlocksInBatch env cfg block_size n s).child_blocksEvicted) := by
  induction n with
  | zero =>
    intro s
    refine ⟨[], rfl, by simp, ?_⟩
    simp [evictBlocksInBatch]
  | succ n ih =>
    intro s
    obtain ⟨p1, p2, p3, p4, p5, p6, p7, p8, p9⟩ := batchPass_facts env cfg block_size s
    obtain ⟨starts, h1, h2, h3, h4, h5, h6, h7, h8, h9, h10, h11, h12, h13, h14⟩ :=
      ih (batchPass env cfg block_size s)
    have hb : (batchPass env cfg block_size s).m_blocksEvicted = s.m_blocksEvicted + 1 := rfl
    have hcb : (batchPass env cfg block_size s).child_blocksEvicted
        = s.child_blocksEvicted + 1 := rfl
    refine ⟨s :: starts, by simp [h1], ?_, ?_, ?_, ?_, ?_, ?_, ?_, ?_, ?_, ?_, ?_, ?_, ?_⟩
    · intro s0 hs0
      rcases List.mem_cons.1 hs0 with rfl | hs0
      · exact ⟨rfl, rfl, List.suffix_refl _⟩
      · obtain ⟨a, b, c⟩ := h2 s0 hs0
        exact ⟨a.trans p7, b.trans p8, c.trans p9⟩
    · rw [evictBlocksInBatch_succ, h3, p2, List.append_assoc]
      rfl
    · rw [evictBlocksInBatch_succ, h4, p1]; push_cast; ring
    · rw [evictBlocksInBatch_succ, h5, hb]; push_cast; ring
    · rw [evictBlocksInBatch_succ, h6, hcb]; push_cast; ring
    · rw [evictBlocksInBatch_succ, h7, p3]; ring
    · rw [evictBlocksInBatch_succ, h8, p4]; ring
    · rw [evictBlocksInBatch_succ]; exact le_trans p5 h9
    · rw [evictBlocksInBatch_succ]; exact le_trans p6 h10
    · rw [evictBlocksInBatch_succ, h11, p7]
    · rw [evictBlocksInBatch_succ, h12, p8]
    · rw [evictBlocksInBatch_succ, h13]; simp [batchPass]
    · intro _
      rw [evictBlocksInBatch_succ]
      exact h14 ⟨rfl, rfl, rfl, rfl⟩

/-! ### evictBlockToDiskInBatch as a whole -/

theorem evictBlockToDiskInBatch_eq (env : Env) (cfg : BuildConfig) (w : World)
    (block_size num_blocks : Int) (hstub : w.table.hasEvictedTable = true) :
    evictBlockToDiskInBatch env cfg w block_size num_blocks
      = (batchFlushed (evictBlocksInBatch env cfg block_size num_blocks.toNat
          (batchStartState cfg w block_size num_blocks)), .ok true) := by
  unfold evictBlockToDiskInBatch
  simp only [hstub, Bool.true_eq_false, if_false]
  rfl

theorem batchStartWorld_facts (cfg : BuildConfig) (w : World) (block_size num_blocks : Int) :
    (batchStartWorld cfg w block_size num_blocks).table = w.table
    ∧ (batchStartWorld cfg w block_size num_blocks).childTable = w.childTable
    ∧ (batchStartWorld cfg w block_size num_blocks).iterator = w.iterator
    ∧ (batchStartWorld cfg w block_size num_blocks).evictedTable = w.evictedTable
    ∧ (batchStartWorld cfg w block_size num_blocks).childEvictedTable = w.childEvictedTable
    ∧ (batchStartWorld cfg w block_size num_blocks).nextBlockId = w.nextBlockId
    ∧ writtenBlocks (batchStartWorld cfg w block_size num_blocks).trace
      = writtenBlocks w.trace := by
  unfold batchStartWorld
  simp only
  split_ifs <;> simp [World.log, writtenBlocks_append, writtenBlocks]

theorem batchFlushed_facts (s : BatchEvictState) :
    (batchFlushed s).table = s.world.table
    ∧ (batchFlushed s).childTable = s.world.childTable
    ∧ (batchFlushed s).iterator = s.world.iterator
    ∧ (batchFlushed s).evictedTable = s.world.evictedTable
    ∧ (batchFlushed s).childEvictedTable = s.world.childEvictedTable
    ∧ (batchFlushed s).nextBlockId = s.world.nextBlockId
    ∧ writtenBlocks (batchFlushed s).trace = writtenBlocks s.world.trace := by
  unfold batchFlushed
  split_ifs <;> simp [World.log, writtenBlocks_append, writtenBlocks]

/-- What a call of `evictBlockToDiskInBatch` on a parent table with an evicted
table does to the block store, the evicted tables and the counters of the two
tables, by the states in which the passes of its loop start. -/
theorem evictBlockToDiskInBatch_facts (env : Env) (cfg : BuildConfig) (w : World)
    (block_size num_blocks : Int) (hstub : w.table.hasEvictedTable = true) :
    ∃ starts : List BatchEvictState,
      starts.length = num_blocks.toNat
      ∧ (∀ s0 ∈ starts, s0.world.table.name = w.table.name
          ∧ s0.world.childTable.name = w.childTable.name
          ∧ s0.world.iterator <:+ w.iterator)
      ∧ writtenBlocks (evictBlockToDiskInBatch env cfg w block_size num_blocks).1.trace
        = writtenBlocks w.trace
          ++ starts.map (fun s0 => (batchBlock env cfg block_size s0,
              (batchBlock env cfg block_size s0).serializedSize))
      ∧ (evictBlockToDiskInBatch env cfg w block_size num_blocks).1.nextBlockId
        = w.nextBlockId + num_blocks.toNat
      ∧ (evictBlockToDiskInBatch env cfg w block_size num_blocks).1.table.blocksEvicted
        = w.table.blocksEvicted + num_blocks.toNat
      ∧ (evictBlockToDiskInBatch env cfg w block_size num_blocks).1.childTable.blocksEvicted
        = w.childTable.blocksEvicted + num_blocks.toNat
      ∧ ((evictBlockToDiskInBatch env cfg w block_size num_blocks).1.evictedTable.length : Int)
        = w.evictedTable.length
          + ((evictBlockToDiskInBatch env cfg w block_size num_blocks).1.table.tuplesEvicted
              - w.table.tuplesEvicted)
      ∧ ((evictBlockToDiskInBatch env cfg w block_size num_blocks).1.childEvictedTable.length
          : Int)
        = w.childEvictedTable.length
          + ((evictBlockToDiskInBatch env cfg w block_size
                num_blocks).1.childTable.tuplesEvicted
              - w.childTable.tuplesEvicted)
      ∧ w.table.tuplesEvicted
        ≤ (evictBlockToDiskInBatch env cfg w block_size num_blocks).1.table.tuplesEvicted
      ∧ w.childTable.tuplesEvicted
        ≤ (evictBlockToDiskInBatch env cfg w block_size num_blocks).1.childTable.tuplesEvicted
      ∧ (evictBlockToDiskInBatch env cfg w block_size num_blocks).1.table.name = w.table.name
      ∧ (evictBlockToDiskInBatch env cfg w block_size num_blocks).1.childTable.name
        = w.childTable.name := by
  rw [evictBlockToDiskInBatch_eq env cfg w block_size num_blocks hstub]
  obtain ⟨f1, f2, f3, f4, f5, f6, f7⟩ :=
    batchFlushed_facts (evictBlocksInBatch env cfg block_size num_blocks.toNat
      (batchStartState cfg w block_size num_blocks))
  obtain ⟨s1, s2, s3, s4, s5, s6, s7⟩ := batchStartWorld_facts cfg w block_size num_blocks
  have hw : (batchStartState cfg w block_size num_blocks).world
      = batchStartWorld cfg w block_size num_blocks := rfl
  have hmt : (batchStartState cfg w block_size num_blocks).m_tuplesEvicted
      = w.table.tuplesEvicted := by simp [batchStartState, s1]
  have hmb : (batchStartState cfg w block_size num_blocks).m_blocksEvicted
      = w.table.blocksEvicted := by simp [batchStartState, s1]
  have hct : (batchStartState cfg w block_size num_blocks).child_tuplesEvicted
      = w.childTable.tuplesEvicted := by simp [batchStartState, s2]
  have hcb : (batchStartState cfg w block_size num_blocks).child_blocksEvicted
      = w.childTable.blocksEvicted := by simp [batchStartState, s2]
  obtain ⟨starts, h1, h2, h3, h4, h5, h6, h7, h8, h9, h10, h11, h12, -, h14⟩ :=
    evictBlocksInBatch_facts env cfg block_size num_blocks.toNat
      (batchStartState cfg w block_size num_blocks)
  obtain ⟨y1, y2, y3, y4⟩ := h14
    ⟨by rw [hmt, hw, s1], by rw [hmb, hw, s1], by rw [hct, hw, s2], by rw [hcb, hw, s2]⟩
  rw [hw] at h2 h3 h4 h7 h8 h11 h12
  rw [s1] at h2 h11
  rw [s2] at h2 h12
  rw [s3] at h2
  rw [s7] at h3
  rw [s6] at h4
  rw [s4, hmt] at h7
  rw [s5, hct] at h8
  rw [hmt] at h9
  rw [hct] at h10
  rw [hmb] at h5
  rw [hcb] at h6
  simp only [f1, f2, f4, f5, f6, f7, y1, y2, y3, y4]
  exact ⟨starts, h1, h2, h3, h4, h5, h6, h7, h8, h9, h10, h11, h12⟩

/-! ### The size of a parent/child block -/

theorem fillParents_size (env : Env) (cfg : BuildConfig) (block_size block_id : Int)
    (items : List (Option TableTuple))
    (hsmall : ∀ t, some t ∈ items → (t.serializedSize : Int) ≤ MAX_EVICTED_TUPLE_SIZE) :
    ∀ s : BatchFillState,
      MAX_EVICTED_TUPLE_SIZE * (s.childTuplesToBeEvicted.length : Int) ≤ s.childTuplesSize →
      s.block.serializedSize
        + MAX_EVICTED_TUPLE_SIZE * (s.childTuplesToBeEvicted.length : Int) ≤ block_size →
      (fillParents env cfg block_size block_id items s).block.serializedSize
        + MAX_EVICTED_TUPLE_SIZE
          * ((fillParents env cfg block_size block_id items s).childTuplesToBeEvicted.length
              : Int)
        ≤ block_size := by
  induction items with
  | nil => intro s _ h; rw [fillParents]; exact h
  | cons item rest ih =>
    intro s hres hfit
    cases item with
    | none => rw [fillParents]; exact hfit
    | some tuple =>
      obtain ⟨-, b2, b3⟩ := bufferedFor_facts env block_size s tuple
      have hrest : ∀ t, some t ∈ rest → (t.serializedSize : Int) ≤ MAX_EVICTED_TUPLE_SIZE :=
        fun t ht => hsmall t (List.mem_cons_of_mem _ ht)
      have ht := hsmall tuple (List.mem_cons_self _ _)
      rw [fillParents_some]
      split_ifs with hnomore hfull hev hstop
      · exact hfit
      · simp only [Bool.not_eq_true] at hnomore
        have hempty : (bufferedFor env block_size s tuple).1 = [] := by
          by_contra hne
          have := (b3 hnomore).2 hne
          omega
        simpa [parentRejected, hempty] using hfit
      · refine ih hrest _ ?_ ?_
        · simp only [parentSkipped, List.length_append, Nat.cast_add]
          simp only [MAX_EVICTED_TUPLE_SIZE] at b2 hres ⊢
          omega
        · simp only [parentSkipped, List.length_append, Nat.cast_add]
          simp only [MAX_EVICTED_TUPLE_SIZE] at b2 hres hfull ⊢
          omega
      · simp only [parentAdmitted, BerkeleyDBBlock.addTuple, List.length_append, Nat.cast_add]
        simp only [MAX_EVICTED_TUPLE_SIZE] at b2 hres hfull ht ⊢
        omega
      · refine ih hrest _ ?_ ?_
        · simp only [parentAdmitted, List.length_append, Nat.cast_add]
          simp only [MAX_EVICTED_TUPLE_SIZE] at b2 hres ⊢
          omega
        · simp only [parentAdmitted, BerkeleyDBBlock.addTuple, List.length_append,
            Nat.cast_add]
          simp only [MAX_EVICTED_TUPLE_SIZE] at b2 hres hfull ht ⊢
          omega

theorem fillParents_children (env : Env) (cfg : BuildConfig) (block_size block_id : Int)
    (items : List (Option TableTuple)) :
    ∀ s : BatchFillState,
      (∀ c ∈ s.childTuplesToBeEvicted, ∃ key, c ∈ env.foreignKeyIndex key) →
      ∀ c ∈ (fillParents env cfg block_size block_id items s).childTuplesToBeEvicted,
        ∃ key, c ∈ env.foreignKeyIndex key := by
  induction items with
  | nil => intro s h; rw [fillParents]; exact h
  | cons item rest ih =>
    intro s h
    cases item with
    | none => rw [fillParents]; exact h
    | some tuple =>
      obtain ⟨b1, -, -⟩ := bufferedFor_facts env block_size s tuple
      have hext : ∀ c ∈ s.childTuplesToBeEvicted ++ (bufferedFor env block_size s tuple).1,
          ∃ key, c ∈ env.foreignKeyIndex key := by
        intro c hc
        rcases List.mem_append.1 hc with hc | hc
        · exact h c hc
        · exact ⟨_, b1 c hc⟩
      rw [fillParents_some]
      split_ifs
      · exact h
      · exact hext
      · exact ih _ hext
      · exact hext
      · exact ih _ hext

theorem sum_sizes_le (children : List TableTuple)
    (h : ∀ c ∈ children, (c.serializedSize : Int) ≤ MAX_EVICTED_TUPLE_SIZE) :
    (((children.map (·.serializedSize)).sum : Nat) : Int)
      ≤ MAX_EVICTED_TUPLE_SIZE * (children.length : Int) := by
  induction children with
  | nil => simp
  | cons c more ih =>
    have h1 := h c (List.mem_cons_self _ _)
    have h2 := ih (fun x hx => h x (List.mem_cons_of_mem _ hx))
    simp only [List.map_cons, List.sum_cons, List.length_cons, Nat.cast_add, Nat.cast_one]
    simp only [MAX_EVICTED_TUPLE_SIZE] at h1 h2 ⊢
    omega

/-- The size law of one pass of the loop of `evictBlockToDiskInBatch`. -/
theorem batchBlock_size (env : Env) (cfg : BuildConfig) (block_size : Int)
    (s : BatchEvictState)
    (hsmall : ∀ t, some t ∈ s.world.iterator →
      (t.serializedSize : Int) ≤ MAX_EVICTED_TUPLE_SIZE)
    (hchild : ∀ key, ∀ c ∈ env.foreignKeyIndex key,
      (c.serializedSize : Int) ≤ MAX_EVICTED_TUPLE_SIZE)
    (hheader : (env.headerSize [s.world.table.name, s.world.childTable.name] : Int)
      ≤ block_size) :
    (batchBlock env cfg block_size s).serializedSize ≤ block_size := by
  have h1 := fillParents_size env cfg block_size s.world.nextBlockId s.world.iterator hsmall
    { world := ({ s.world with nextBlockId := s.world.nextBlockId + 1 }).log
        (.nextBlockId s.world.nextBlockId),
      block := initializeBlock env [s.world.table.name, s.world.childTable.name]
        s.world.nextBlockId 0,
      num_tuples_evicted := 0, tuple_length := s.tuple_length, parentTuples := 0,
      childTuplesToBeEvicted := [], childTuplesSize := 0 }
    (by simp) (by simpa [initializeBlock] using hheader)
  have h2 := fillParents_children env cfg block_size s.world.nextBlockId s.world.iterator
    { world := ({ s.world with nextBlockId := s.world.nextBlockId + 1 }).log
        (.nextBlockId s.world.nextBlockId),
      block := initializeBlock env [s.world.table.name, s.world.childTable.name]
        s.world.nextBlockId 0,
      num_tuples_evicted := 0, tuple_length := s.tuple_length, parentTuples := 0,
      childTuplesToBeEvicted := [], childTuplesSize := 0 }
    (by simp)
  have h3 := sum_sizes_le (filledParents env cfg block_size s).childTuplesToBeEvicted
    (fun c hc => by
      obtain ⟨key, hkey⟩ := h2 c hc
      exact hchild key c hkey)
  have h4 := (filledChildren_facts env cfg block_size s).2.2.2.2.2.2.2.2.2
  have h5 : (batchBlock env cfg block_size s).serializedSize
      = (filledChildren env cfg block_size s).block.serializedSize := rfl
  rw [h5, h4]
  change (filledParents env cfg block_size s).block.serializedSize
    + MAX_EVICTED_TUPLE_SIZE
      * ((filledParents env cfg block_size s).childTuplesToBeEvicted.length : Int)
    ≤ block_size at h1
  simp only
  omega

/-! ### Parents and children in one block -/

theorem fillParents_colocated (env : Env) (cfg : BuildConfig) (block_size block_id : Int)
    (name : String) (items : List (Option TableTuple))
    (hlive : ∀ t, some t ∈ items → t.isEvicted = false) :
    ∀ s : BatchFillState,
      s.world.table.name = name →
      (∀ x ∈ s.block.tuples, x.1 = name) →
      (∀ c ∈ s.childTuplesToBeEvicted,
        ∃ p, (name, p) ∈ s.block.tuples ∧ c ∈ env.foreignKeyIndex p.pkey) →
      (∀ x ∈ (fillParents env cfg block_size block_id items s).block.tuples, x.1 = name)
      ∧ ∀ c ∈ (fillParents env cfg block_size block_id items s).childTuplesToBeEvicted,
          ∃ p, (name, p) ∈ (fillParents env cfg block_size block_id items s).block.tuples
            ∧ c ∈ env.foreignKeyIndex p.pkey := by
  induction items with
  | nil => intro s _ h1 h2; rw [fillParents]; exact ⟨h1, h2⟩
  | cons item rest ih =>
    intro s hname h1 h2
    cases item with
    | none => rw [fillParents]; exact ⟨h1, h2⟩
    | some tuple =>
      obtain ⟨b1, -, b3⟩ := bufferedFor_facts env block_size s tuple
      have hrest : ∀ t, some t ∈ rest → t.isEvicted = false :=
        fun t ht => hlive t (List.mem_cons_of_mem _ ht)
      have ht := hlive tuple (List.mem_cons_self _ _)
      have hn : (if cfg.hasChain then (removeTuple cfg s.world.table tuple.id).2
          else s.world.table).name = name :=
        (chainTable_outside cfg s.world.table tuple.id).name_eq.trans hname
      have hadm1 : ∀ x ∈ (parentAdmitted env cfg block_size block_id s tuple rest).block.tuples,
          x.1 = name := by
        intro x hx
        simp only [parentAdmitted, BerkeleyDBBlock.addTuple, List.mem_append,
          List.mem_singleton] at hx
        rcases hx with hx | hx
        · exact h1 x hx
        · rw [hx]; exact hn
      have hadm2 : ∀ c ∈ (parentAdmitted env cfg block_size block_id s tuple
            rest).childTuplesToBeEvicted,
          ∃ p, (name, p) ∈ (parentAdmitted env cfg block_size block_id s tuple rest).block.tuples
            ∧ c ∈ env.foreignKeyIndex p.pkey := by
        intro c hc
        simp only [parentAdmitted, List.mem_append] at hc
        rcases hc with hc | hc
        · obtain ⟨p, hp, hk⟩ := h2 c hc
          exact ⟨p, by simp [parentAdmitted, BerkeleyDBBlock.addTuple, hp], hk⟩
        · exact ⟨tuple, by simp [parentAdmitted, BerkeleyDBBlock.addTuple, hn], b1 c hc⟩
      rw [fillParents_some]
      split_ifs with hnomore hfull hev hstop
      · exact ⟨h1, h2⟩
      · simp only [Bool.not_eq_true] at hnomore
        have hempty : (bufferedFor env block_size s tuple).1 = [] := by
          by_contra hne
          have := (b3 hnomore).2 hne
          omega
        refine ⟨h1, ?_⟩
        simpa [parentRejected, hempty] using h2
      · rw [ht] at hev; exact absurd hev (by simp)
      · exact ⟨hadm1, hadm2⟩
      · exact ih hrest _ hn hadm1 hadm2

/-- Co-location in one pass of the loop of `evictBlockToDiskInBatch`, when the
iterator hands out live tuples only. -/
theorem batchBlock_colocated (env : Env) (cfg : BuildConfig) (block_size : Int)
    (s : BatchEvictState)
    (hlive : ∀ t, some t ∈ s.world.iterator → t.isEvicted = false) :
    ∃ parents children : List TableTuple,
      (batchBlock env cfg block_size s).tuples
        = parents.map (fun p => (s.world.table.name, p))
          ++ children.map (fun c => (s.world.childTable.name, c))
      ∧ ∀ c ∈ children, ∃ p ∈ parents, c ∈ env.foreignKeyIndex p.pkey := by
  obtain ⟨h1, h2⟩ := fillParents_colocated env cfg block_size s.world.nextBlockId
    s.world.table.name s.world.iterator hlive
    { world := ({ s.world with nextBlockId := s.world.nextBlockId + 1 }).log
        (.nextBlockId s.world.nextBlockId),
      block := initializeBlock env [s.world.table.name, s.world.childTable.name]
        s.world.nextBlockId 0,
      num_tuples_evicted := 0, tuple_length := s.tuple_length, parentTuples := 0,
      childTuplesToBeEvicted := [], childTuplesSize := 0 }
    rfl (by simp [initializeBlock]) (by simp)
  change (∀ x ∈ (filledParents env cfg block_size s).block.tuples, x.1 = s.world.table.name)
    at h1
  change (∀ c ∈ (filledParents env cfg block_size s).childTuplesToBeEvicted,
    ∃ p, (s.world.table.name, p) ∈ (filledParents env cfg block_size s).block.tuples
      ∧ c ∈ env.foreignKeyIndex p.pkey) at h2
  have h4 := (filledChildren_facts env cfg block_size s).2.2.2.2.2.2.2.2.2
  have h5 : (batchBlock env cfg block_size s).tuples
      = (filledChildren env cfg block_size s).block.tuples := rfl
  refine ⟨(filledParents env cfg block_size s).block.tuples.map Prod.snd,
    (filledParents env cfg block_size s).childTuplesToBeEvicted, ?_, ?_⟩
  · rw [h5, h4]
    simp only [List.map_map]
    congr 1
    conv_lhs => rw [← List.map_id (filledParents env cfg block_size s).block.tuples]
    apply List.map_congr_left
    intro x hx
    simp only [Function.comp, id]
    rw [← h1 x hx]
  · intro c hc
    obtain ⟨p, hp, hk⟩ := h2 c hc
    exact ⟨p, List.mem_map.2 ⟨_, hp, rfl⟩, hk⟩

/-! ### C24: parents and children share the block -/

/-- C24: when the iterator hands out no tuple already flagged evicted, every
block written by `evictBlockToDiskInBatch` consists of parent tuples followed
by child tuples, and every child in it is listed by the foreign key index
under the key of a parent tuple in the same block.  A parent tuple that is
rejected, by the size test in the loop over its children (`nomore`) or by the
size test that follows, ends the loop over the parents with the block, the
children to be evicted, both evicted tables and the trace as they were before
the tuple was taken: its buffered children are dropped. -/
theorem C24_colocation (env : Env) (cfg : BuildConfig) (w : World)
    (block_size num_blocks : Int)
    (hlive : ∀ t, some t ∈ w.iterator → t.isEvicted = false) :
    (∃ blocks : List (BerkeleyDBBlock × Int),
      writtenBlocks (evictBlockToDiskInBatch env cfg w block_size num_blocks).1.trace
        = writtenBlocks w.trace ++ blocks
      ∧ ∀ b ∈ blocks, ∃ parents children : List TableTuple,
          b.1.tuples = parents.map (fun p => (w.table.name, p))
            ++ children.map (fun c => (w.childTable.name, c))
          ∧ ∀ c ∈ children, ∃ p ∈ parents, c ∈ env.foreignKeyIndex p.pkey)
    ∧ ∀ (block_id : Int) (s : BatchFillState) (tuple : TableTuple)
        (rest : List (Option TableTuple)),
        ((bufferedFor env block_size s tuple).2.2 = true
          ∨ s.block.serializedSize + MAX_EVICTED_TUPLE_SIZE
              + (bufferedFor env block_size s tuple).2.1 ≥ block_size) →
        (fillParents env cfg block_size block_id (some tuple :: rest)
            s).childTuplesToBeEvicted = s.childTuplesToBeEvicted
        ∧ (fillParents env cfg block_size block_id (some tuple :: rest) s).block = s.block
        ∧ (fillParents env cfg block_size block_id (some tuple :: rest) s).world.trace
          = s.world.trace
        ∧ (fillParents env cfg block_size block_id (some tuple :: rest)
            s).world.evictedTable = s.world.evictedTable
        ∧ (fillParents env cfg block_size block_id (some tuple :: rest)
            s).world.childEvictedTable = s.world.childEvictedTable
        ∧ (fillParents env cfg block_size block_id (some tuple :: rest) s).world.iterator
          = rest := by
  constructor
  · cases hstub : w.table.hasEvictedTable
    · refine ⟨[], ?_, by simp⟩
      simp [evictBlockToDiskInBatch, hstub]
    · obtain ⟨starts, -, h2, h3, -⟩ :=
        evictBlockToDiskInBatch_facts env cfg w block_size num_blocks hstub
      refine ⟨_, h3, ?_⟩
      intro b hb
      obtain ⟨s0, hs0, rfl⟩ := List.mem_map.1 hb
      obtain ⟨n1, n2, n3⟩ := h2 s0 hs0
      obtain ⟨parents, children, e1, e2⟩ := batchBlock_colocated env cfg block_size s0
        (fun t ht => hlive t (n3.subset ht))
      exact ⟨parents, children, by rw [e1, n1, n2], e2⟩
  · intro block_id s tuple rest hrej
    obtain ⟨-, -, b3⟩ := bufferedFor_facts env block_size s tuple
    rw [fillParents_some]
    split_ifs with hnomore hfull
    · simp [parentRejected]
    · simp only [Bool.not_eq_true] at hnomore
      have hempty : (bufferedFor env block_size s tuple).1 = [] := by
        by_contra hne
        have := (b3 hnomore).2 hne
        omega
      simp [parentRejected, hempty]
    · rcases hrej with h | h
      · exact absurd h hnomore
      · exact absurd h hfull
    · rcases hrej with h | h
      · exact absurd h hnomore
      · exact absurd h hfull
    · rcases hrej with h | h
      · exact absurd h hnomore
      · exact absurd h hfull

set_option maxRecDepth 200000 in
/-- C24 at a parent table P with the live parents 1, 2 and 3 and blocks of
10000 bytes: the first block holds parent 1 with its children 11 and 12,
parent 2 is rejected and its child 21 is in no block, the second block holds
parent 3. -/
theorem C24_colocation_witness :
    (∀ t, some t ∈ worldFamily.iterator → t.isEvicted = false)
    ∧ (writtenBlocks (evictBlockToDiskInBatch envFamily lruDouble worldFamily 10000
          2).1.trace).map (fun b => b.1.tuples.map (fun x => (x.1, x.2.id)))
      = [[("P", 1), ("C", 11), ("C", 12)], [("P", 3)]]
    ∧ (∃ blocks : List (BerkeleyDBBlock × Int),
      writtenBlocks (evictBlockToDiskInBatch envFamily lruDouble worldFamily 10000 2).1.trace
        = writtenBlocks worldFamily.trace ++ blocks
      ∧ ∀ b ∈ blocks, ∃ parents children : List TableTuple,
          b.1.tuples = parents.map (fun p => (worldFamily.table.name, p))
            ++ children.map (fun c => (worldFamily.childTable.name, c))
          ∧ ∀ c ∈ children, ∃ p ∈ parents, c ∈ envFamily.foreignKeyIndex p.pkey) :=
  have hlive : ∀ t, some t ∈ worldFamily.iterator → t.isEvicted = false := by
    intro t ht
    simp only [worldFamily, List.mem_cons, Option.some.injEq, List.mem_singleton,
      List.not_mem_nil, or_false] at ht
    rcases ht with rfl | rfl | rfl <;> rfl
  ⟨hlive, by decide, (C24_colocation envFamily lruDouble worldFamily 10000 2 hlive).1⟩

/-! ### C25: the size law of parent/child eviction -/

/-- C25: if every tuple the iterator can hand out and every tuple of the
foreign key index serializes to at most `MAX_EVICTED_TUPLE_SIZE` bytes and the
header of a block fits in `block_size`, then every block
`evictBlockToDiskInBatch` hands to `writeBlock`, with its parents and all
buffered children in it, has a serialized size of at most `block_size`, and
that size is the one passed to `writeBlock`. -/
theorem C25_size_law_batch (env : Env) (cfg : BuildConfig) (w : World)
    (block_size num_blocks : Int)
    (hsmall : ∀ t, some t ∈ w.iterator → (t.serializedSize : Int) ≤ MAX_EVICTED_TUPLE_SIZE)
    (hchild : ∀ key, ∀ c ∈ env.foreignKeyIndex key,
      (c.serializedSize : Int) ≤ MAX_EVICTED_TUPLE_SIZE)
    (hheader : (env.headerSize [w.table.name, w.childTable.name] : Int) ≤ block_size) :
    ∃ blocks : List (BerkeleyDBBlock × Int),
      writtenBlocks (evictBlockToDiskInBatch env cfg w block_size num_blocks).1.trace
        = writtenBlocks w.trace ++ blocks
      ∧ ∀ b ∈ blocks, b.1.serializedSize ≤ block_size ∧ b.2 = b.1.serializedSize := by
  cases hstub : w.table.hasEvictedTable
  · refine ⟨[], ?_, by simp⟩
    simp [evictBlockToDiskInBatch, hstub]
  · obtain ⟨starts, -, h2, h3, -⟩ :=
      evictBlockToDiskInBatch_facts env cfg w block_size num_blocks hstub
    refine ⟨_, h3, ?_⟩
    intro b hb
    obtain ⟨s0, hs0, rfl⟩ := List.mem_map.1 hb
    obtain ⟨n1, n2, n3⟩ := h2 s0 hs0
    exact ⟨batchBlock_size env cfg block_size s0 (fun t ht => hsmall t (n3.subset ht)) hchild
      (by rw [n1, n2]; exact hheader), rfl⟩

set_option maxRecDepth 200000 in
/-- C25 at a parent table P with the parents 1, 2 and 3 and blocks of 10000
bytes: the blocks written have 260 and 140 bytes. -/
theorem C25_size_law_batch_witness :
    (∀ t, some t ∈ worldFamily.iterator → (t.serializedSize : Int) ≤ MAX_EVICTED_TUPLE_SIZE)
    ∧ (∀ key, ∀ c ∈ envFamily.foreignKeyIndex key,
        (c.serializedSize : Int) ≤ MAX_EVICTED_TUPLE_SIZE)
    ∧ (envFamily.headerSize [worldFamily.table.name, worldFamily.childTable.name] : Int)
        ≤ 10000
    ∧ (writtenBlocks (evictBlockToDiskInBatch envFamily lruDouble worldFamily 10000
          2).1.trace).map (fun b => b.2) = [260, 140]
    ∧ ∃ blocks : List (BerkeleyDBBlock × Int),
      writtenBlocks (evictBlockToDiskInBatch envFamily lruDouble worldFamily 10000 2).1.trace
        = writtenBlocks worldFamily.trace ++ blocks
      ∧ ∀ b ∈ blocks, b.1.serializedSize ≤ 10000 ∧ b.2 = b.1.serializedSize :=
  have hsmall : ∀ t, some t ∈ worldFamily.iterator →
      (t.serializedSize : Int) ≤ MAX_EVICTED_TUPLE_SIZE := by
    intro t ht
    simp only [worldFamily, List.mem_cons, Option.some.injEq, List.mem_singleton,
      List.not_mem_nil, or_false] at ht
    rcases ht with rfl | rfl | rfl <;> decide
  have hchild : ∀ key, ∀ c ∈ envFamily.foreignKeyIndex key,
      (c.serializedSize : Int) ≤ MAX_EVICTED_TUPLE_SIZE := by
    intro key c hc
    simp only [envFamily] at hc
    split_ifs at hc
    · simp only [List.mem_cons, List.mem_singleton, List.not_mem_nil, or_false] at hc
      rcases hc with rfl | rfl <;> decide
    · simp only [List.mem_singleton] at hc
      subst hc; decide
    · simp at hc
  ⟨hsmall, hchild, by decide, by decide,
    C25_size_law_batch envFamily lruDouble worldFamily 10000 2 hsmall hchild (by decide)⟩

/-! ### C26: the counts in the header of a parent/child block -/

set_option maxRecDepth 200000 in
/-- C26, evaluated: `evictBlockToDiskInBatch` with the parent of key 1
already flagged evicted and the live parent of key 2, in one block of 20000
bytes.  The header of the block written says 2 parents and 3 children; the
block holds one parent, the tuple of slot 2, and the children of slots 11, 12
and 21.  `parentTuples` is incremented before the test of the evicted flag. -/
theorem C26_header_counts_skipped_parent :
    worldFamilyStale.iterator
      = [some { smallTuple 1 with isEvicted := true }, some (smallTuple 2)]
    ∧ (writtenBlocks (evictBlockToDiskInBatch envFamily lruDouble worldFamilyStale 20000
          1).1.trace).map
        (fun b => (b.1.headerCounts, b.1.tuples.map (fun x => (x.1, x.2.id))))
      = [([2, 3], [("P", 2), ("C", 11), ("C", 12), ("C", 21)])] := by
  refine ⟨rfl, by decide⟩

/-! ### C27: the result rows of evictBlockInBatch -/

theorem evictBlockInBatch_eq (env : Env) (cfg : BuildConfig) (w : World)
    (blockSize numBlocks : Int) (hstub : w.table.hasEvictedTable = true) :
    evictBlockInBatch env cfg w blockSize numBlocks
      = ({ (evictBlockToDiskInBatch env cfg w blockSize numBlocks).1 with
            evictResultTable :=
              [{ TABLE_NAME := (evictBlockToDiskInBatch env cfg w blockSize numBlocks).1.table.name,
                 ANTICACHE_TUPLES_EVICTED := toInt32 (toInt32
                   ((evictBlockToDiskInBatch env cfg w blockSize
                      numBlocks).1.table.tuplesEvicted - toInt32 w.table.tuplesEvicted)),
                 ANTICACHE_BLOCKS_EVICTED := toInt32 (toInt32
                   ((evictBlockToDiskInBatch env cfg w blockSize
                      numBlocks).1.table.blocksEvicted - toInt32 w.table.blocksEvicted)),
                 ANTICACHE_BYTES_EVICTED := toInt32
                   ((evictBlockToDiskInBatch env cfg w blockSize
                      numBlocks).1.table.bytesEvicted - w.table.bytesEvicted) },
               { TABLE_NAME :=
                   (evictBlockToDiskInBatch env cfg w blockSize numBlocks).1.childTable.name,
                 ANTICACHE_TUPLES_EVICTED := toInt32 (toInt32
                   ((evictBlockToDiskInBatch env cfg w blockSize
                      numBlocks).1.childTable.tuplesEvicted
                    - toInt32 w.childTable.tuplesEvicted)),
                 ANTICACHE_BLOCKS_EVICTED := toInt32 (toInt32
                   ((evictBlockToDiskInBatch env cfg w blockSize
                      numBlocks).1.childTable.blocksEvicted
                    - toInt32 w.childTable.blocksEvicted)),
                 ANTICACHE_BYTES_EVICTED := toInt32
                   ((evictBlockToDiskInBatch env cfg w blockSize
                      numBlocks).1.childTable.bytesEvicted - w.childTable.bytesEvicted) }] },
         .ok
           [{ TABLE_NAME := (evictBlockToDiskInBatch env cfg w blockSize numBlocks).1.table.name,
              ANTICACHE_TUPLES_EVICTED := toInt32 (toInt32
                ((evictBlockToDiskInBatch env cfg w blockSize
                   numBlocks).1.table.tuplesEvicted - toInt32 w.table.tuplesEvicted)),
              ANTICACHE_BLOCKS_EVICTED := toInt32 (toInt32
                ((evictBlockToDiskInBatch env cfg w blockSize
                   numBlocks).1.table.blocksEvicted - toInt32 w.table.blocksEvicted)),
              ANTICACHE_BYTES_EVICTED := toInt32
                ((evictBlockToDiskInBatch env cfg w blockSize
                   numBlocks).1.table.bytesEvicted - w.table.bytesEvicted) },
            { TABLE_NAME :=
                (evictBlockToDiskInBatch env cfg w blockSize numBlocks).1.childTable.name,
              ANTICACHE_TUPLES_EVICTED := toInt32 (toInt32
                ((evictBlockToDiskInBatch env cfg w blockSize
                   numBlocks).1.childTable.tuplesEvicted
                 - toInt32 w.childTable.tuplesEvicted)),
              ANTICACHE_BLOCKS_EVICTED := toInt32 (toInt32
                ((evictBlockToDiskInBatch env cfg w blockSize
                   numBlocks).1.childTable.blocksEvicted
                 - toInt32 w.childTable.blocksEvicted)),
              ANTICACHE_BYTES_EVICTED := toInt32
                ((evictBlockToDiskInBatch env cfg w blockSize
                   numBlocks).1.childTable.bytesEvicted - w.childTable.bytesEvicted) }]) := by
  have h := evictBlockToDiskInBatch_eq env cfg w blockSize numBlocks hstub
  unfold evictBlockInBatch
  rw [h]

theorem batchPass_childFlag (env : Env) (cfg : BuildConfig) (block_size : Int)
    (s : BatchEvictState) :
    (batchPass env cfg block_size s).world.childTable.hasEvictedTable
      = s.world.childTable.hasEvictedTable := by
  obtain ⟨-, c2, -⟩ := filledChildren_facts env cfg block_size s
  simp only [batchPass, World.log, c2]

theorem evictBlocksInBatch_childFlag (env : Env) (cfg : BuildConfig) (block_size : Int)
    (n : Nat) :
    ∀ s : BatchEvictState,
      (evictBlocksInBatch env cfg block_size n s).world.childTable.hasEvictedTable
        = s.world.childTable.hasEvictedTable := by
  induction n with
  | zero => intro s; simp [evictBlocksInBatch]
  | succ n ih =>
    intro s
    rw [evictBlocksInBatch_succ, ih, batchPass_childFlag]

/-- The batch eviction leaves the child table with or without its evicted
table as it was. -/
theorem evictBlockToDiskInBatch_childFlag (env : Env) (cfg : BuildConfig) (w : World)
    (block_size num_blocks : Int) (hstub : w.table.hasEvictedTable = true) :
    (evictBlockToDiskInBatch env cfg w block_size num_blocks).1.childTable.hasEvictedTable
      = w.childTable.hasEvictedTable := by
  rw [evictBlockToDiskInBatch_eq env cfg w block_size num_blocks hstub]
  obtain ⟨-, f2, -⟩ := batchFlushed_facts (evictBlocksInBatch env cfg block_size
    num_blocks.toNat (batchStartState cfg w block_size num_blocks))
  obtain ⟨-, s2, -⟩ := batchStartWorld_facts cfg w block_size num_blocks
  have hw : (batchStartState cfg w block_size num_blocks).world
      = batchStartWorld cfg w block_size num_blocks := rfl
  simp only [f2]
  rw [evictBlocksInBatch_childFlag, hw, s2]

/-- C27: on a parent table and a child table that both have an evicted table,
`evictBlockInBatch` returns a result table of exactly two rows, the row of the
parent table first and the row of the child table second, and the child has
its evicted table still.  When the call inserts fewer than 2^31 stub
rows into either evicted table and fewer than 2^31 blocks are asked for, the
tuple count of the parent row is the number of rows inserted into the evicted
table of the parent, the tuple count of the child row is the number of rows
inserted into the evicted table of the child, and the block count of both
rows is the number of `writeBlock` calls. -/
theorem C27_evictBlockInBatch_result_rows (env : Env) (cfg : BuildConfig) (w : World)
    (blockSize numBlocks : Int) (hstub : w.table.hasEvictedTable = true)
    (hchild : w.childTable.hasEvictedTable = true)
    (hparents : ((evictBlockInBatch env cfg w blockSize numBlocks).1.evictedTable.length : Int)
      - w.evictedTable.length < 2 ^ 31)
    (hchildren :
      ((evictBlockInBatch env cfg w blockSize numBlocks).1.childEvictedTable.length : Int)
      - w.childEvictedTable.length < 2 ^ 31)
    (hblocks : numBlocks < 2 ^ 31) :
    (evictBlockInBatch env cfg w blockSize numBlocks).1.childTable.hasEvictedTable = true
    ∧ ∃ bytes childBytes : Int,
      (evictBlockInBatch env cfg w blockSize numBlocks).2
        = .ok
          [⟨w.table.name,
             ((evictBlockInBatch env cfg w blockSize numBlocks).1.evictedTable.length : Int)
               - w.evictedTable.length,
             ((writtenBlocks
                 (evictBlockInBatch env cfg w blockSize numBlocks).1.trace).length : Int)
               - (writtenBlocks w.trace).length,
             bytes⟩,
           ⟨w.childTable.name,
             ((evictBlockInBatch env cfg w blockSize numBlocks).1.childEvictedTable.length
                 : Int) - w.childEvictedTable.length,
             ((writtenBlocks
                 (evictBlockInBatch env cfg w blockSize numBlocks).1.trace).length : Int)
               - (writtenBlocks w.trace).length,
             childBytes⟩]
      ∧ (evictBlockInBatch env cfg w blockSize numBlocks).1.evictResultTable
        = [⟨w.table.name,
             ((evictBlockInBatch env cfg w blockSize numBlocks).1.evictedTable.length : Int)
               - w.evictedTable.length,
             ((writtenBlocks
                 (evictBlockInBatch env cfg w blockSize numBlocks).1.trace).length : Int)
               - (writtenBlocks w.trace).length,
             bytes⟩,
           ⟨w.childTable.name,
             ((evictBlockInBatch env cfg w blockSize numBlocks).1.childEvictedTable.length
                 : Int) - w.childEvictedTable.length,
             ((writtenBlocks
                 (evictBlockInBatch env cfg w blockSize numBlocks).1.trace).length : Int)
               - (writtenBlocks w.trace).length,
             childBytes⟩] := by
  obtain ⟨starts, h1, -, h3, -, h5, h6, h7, h8, h9, h10, h11, h12⟩ :=
    evictBlockToDiskInBatch_facts env cfg w blockSize numBlocks hstub
  rw [evictBlockInBatch_eq env cfg w blockSize numBlocks hstub] at hparents hchildren ⊢
  simp only at hparents hchildren
  have hT : toInt32 (toInt32
      ((evictBlockToDiskInBatch env cfg w blockSize numBlocks).1.table.tuplesEvicted
        - toInt32 w.table.tuplesEvicted))
      = ((evictBlockToDiskInBatch env cfg w blockSize numBlocks).1.evictedTable.length : Int)
        - w.evictedTable.length := by
    rw [toInt32_idem, toInt32_sub, toInt32_of_range _ (by omega) (by omega)]
    omega
  have hC : toInt32 (toInt32
      ((evictBlockToDiskInBatch env cfg w blockSize numBlocks).1.childTable.tuplesEvicted
        - toInt32 w.childTable.tuplesEvicted))
      = ((evictBlockToDiskInBatch env cfg w blockSize numBlocks).1.childEvictedTable.length
          : Int) - w.childEvictedTable.length := by
    rw [toInt32_idem, toInt32_sub, toInt32_of_range _ (by omega) (by omega)]
    omega
  have hlen : ((writtenBlocks
      (evictBlockToDiskInBatch env cfg w blockSize numBlocks).1.trace).length : Int)
      - (writtenBlocks w.trace).length = numBlocks.toNat := by
    rw [h3, List.length_append, List.length_map, h1]
    push_cast
    ring
  have hB : toInt32 (toInt32
      ((evictBlockToDiskInBatch env cfg w blockSize numBlocks).1.table.blocksEvicted
        - toInt32 w.table.blocksEvicted))
      = ((writtenBlocks
          (evictBlockToDiskInBatch env cfg w blockSize numBlocks).1.trace).length : Int)
        - (writtenBlocks w.trace).length := by
    rw [toInt32_idem, toInt32_sub, toInt32_of_range _ (by omega) (by omega)]
    omega
  have hCB : toInt32 (toInt32
      ((evictBlockToDiskInBatch env cfg w blockSize numBlocks).1.childTable.blocksEvicted
        - toInt32 w.childTable.blocksEvicted))
      = ((writtenBlocks
          (evictBlockToDiskInBatch env cfg w blockSize numBlocks).1.trace).length : Int)
        - (writtenBlocks w.trace).length := by
    rw [toInt32_idem, toInt32_sub, toInt32_of_range _ (by omega) (by omega)]
    omega
  refine ⟨?_, toInt32 ((evictBlockToDiskInBatch env cfg w blockSize
      numBlocks).1.table.bytesEvicted - w.table.bytesEvicted),
    toInt32 ((evictBlockToDiskInBatch env cfg w blockSize
      numBlocks).1.childTable.bytesEvicted - w.childTable.bytesEvicted), ?_, ?_⟩
  · show (evictBlockToDiskInBatch env cfg w blockSize
      numBlocks).1.childTable.hasEvictedTable = true
    rw [evictBlockToDiskInBatch_childFlag env cfg w blockSize numBlocks hstub]
    exact hchild
  · simp only [hT, hC, hB, hCB, h11, h12]
  · simp only [hT, hC, hB, hCB, h11, h12]

set_option maxRecDepth 200000 in
/-- C27 at a parent table P with the live parents 1, 2 and 3 and two blocks
of 10000 bytes: the rows are `(P, 2, 2, 80)` and `(C, 2, 2, 120)`. -/
theorem C27_evictBlockInBatch_result_rows_witness :
    worldFamily.table.hasEvictedTable = true
    ∧ worldFamily.childTable.hasEvictedTable = true
    ∧ (evictBlockInBatch envFamily lruDouble worldFamily 10000 2).1.evictResultTable
      = [⟨"P", 2, 2, 80⟩, ⟨"C", 2, 2, 120⟩]
    ∧ (evictBlockInBatch envFamily lruDouble worldFamily 10000
        2).1.childTable.hasEvictedTable = true
    ∧ ∃ bytes childBytes : Int,
      (evictBlockInBatch envFamily lruDouble worldFamily 10000 2).2
        = .ok
          [⟨worldFamily.table.name,
             ((evictBlockInBatch envFamily lruDouble worldFamily 10000
                 2).1.evictedTable.length : Int) - worldFamily.evictedTable.length,
             ((writtenBlocks
                 (evictBlockInBatch envFamily lruDouble worldFamily 10000
                   2).1.trace).length : Int) - (writtenBlocks worldFamily.trace).length,
             bytes⟩,
           ⟨worldFamily.childTable.name,
             ((evictBlockInBatch envFamily lruDouble worldFamily 10000
                 2).1.childEvictedTable.length : Int) - worldFamily.childEvictedTable.length,
             ((writtenBlocks
                 (evictBlockInBatch envFamily lruDouble worldFamily 10000
                   2).1.trace).length : Int) - (writtenBlocks worldFamily.trace).length,
             childBytes⟩]
      ∧ (evictBlockInBatch envFamily lruDouble worldFamily 10000 2).1.evictResultTable
        = [⟨worldFamily.table.name,
             ((evictBlockInBatch envFamily lruDouble worldFamily 10000
                 2).1.evictedTable.length : Int) - worldFamily.evictedTable.length,
             ((writtenBlocks
                 (evictBlockInBatch envFamily lruDouble worldFamily 10000
                   2).1.trace).length : Int) - (writtenBlocks worldFamily.trace).length,
             bytes⟩,
           ⟨worldFamily.childTable.name,
             ((evictBlockInBatch envFamily lruDouble worldFamily 10000
                 2).1.childEvictedTable.length : Int) - worldFamily.childEvictedTable.length,
             ((writtenBlocks
                 (evictBlockInBatch envFamily lruDouble worldFamily 10000
                   2).1.trace).length : Int) - (writtenBlocks worldFamily.trace).length,
             childBytes⟩] :=
  ⟨rfl, rfl, by decide,
    C27_evictBlockInBatch_result_rows envFamily lruDouble worldFamily 10000 2 rfl rfl
      (by decide) (by decide) (by decide)⟩

/-! ### C28, C29: reading an evicted block -/

theorem isAlreadyUnEvicted_insert (table : PersistentTable) (block : AntiCacheBlock)
    (tuple_offset block_id value : Int) :
    isAlreadyUnEvicted
      (insertUnevictedBlockID
        (insertTupleOffset (insertUnevictedBlock table block) tuple_offset) (block_id, value))
      block_id = true := by
  unfold insertUnevictedBlockID
  split_ifs with h
  · exact h
  · simp [isAlreadyUnEvicted, insertTupleOffset, insertUnevictedBlock]

/-- C28: after a call of `readEvictedBlock` for a block id that returned true,
a second call for the same block id, with any offset, returns true and leaves
the world as it was: no call is made on the block store, and the blocks read,
the merge offsets and the unevicted block ids of the table are the same.  When
the block had not been read before the two calls, they make exactly one
`readBlock` call. -/
theorem C28_idempotent_read (readBlock : String → Int → Option AntiCacheBlock) (w : World)
    (block_id tuple_offset tuple_offset' : Int)
    (hok : (readEvictedBlock readBlock w block_id tuple_offset).2 = .ok true) :
    readEvictedBlock readBlock (readEvictedBlock readBlock w block_id tuple_offset).1
        block_id tuple_offset'
      = ((readEvictedBlock readBlock w block_id tuple_offset).1, .ok true)
    ∧ (isAlreadyUnEvicted w.table block_id = false →
        (readEvictedBlock readBlock (readEvictedBlock readBlock w block_id tuple_offset).1
            block_id tuple_offset').1.trace
          = w.trace ++ [.readBlock w.table.name block_id]) := by
  cases hseen : isAlreadyUnEvicted w.table block_id
  · cases hread : readBlock w.table.name block_id with
    | none => simp [readEvictedBlock, hseen, hread] at hok
    | some value =>
      have h1 : readEvictedBlock readBlock w block_id tuple_offset
          = ({ (w.log (.readBlock w.table.name block_id)) with
                table := insertUnevictedBlockID
                  (insertTupleOffset (insertUnevictedBlock w.table value) tuple_offset)
                  (block_id, 0) }, .ok true) := by
        simp [readEvictedBlock, hseen, hread]
      have h2 := isAlreadyUnEvicted_insert w.table value tuple_offset block_id 0
      rw [h1]
      constructor
      · simp [readEvictedBlock, h2]
      · intro _
        simp [readEvictedBlock, h2]
  · have h1 : readEvictedBlock readBlock w block_id tuple_offset = (w, .ok true) := by
      simp [readEvictedBlock, hseen]
    rw [h1]
    constructor
    · simp [readEvictedBlock, hseen]
    · intro h; simp at h

/-- C28 at a table named T and the block 7 of a store that holds it. -/
theorem C28_idempotent_read_witness :
    (readEvictedBlock storeWithBlock7 worldNoTuples 7 2).2 = .ok true
    ∧ ((readEvictedBlock storeWithBlock7 worldNoTuples 7 2).1.table.unevictedBlocks,
        (readEvictedBlock storeWithBlock7 worldNoTuples 7 2).1.table.mergeTupleOffsets,
        (readEvictedBlock storeWithBlock7 worldNoTuples 7 2).1.table.unevictedBlockIDs)
      = ([{ header := [("T", 3)], body := [(1, 40), (2, 50), (3, 60)] }], [2], [(7, 0)])
    ∧ readEvictedBlock storeWithBlock7 (readEvictedBlock storeWithBlock7 worldNoTuples 7 2).1
        7 0
      = ((readEvictedBlock storeWithBlock7 worldNoTuples 7 2).1, .ok true)
    ∧ (isAlreadyUnEvicted worldNoTuples.table 7 = false →
        (readEvictedBlock storeWithBlock7
            (readEvictedBlock storeWithBlock7 worldNoTuples 7 2).1 7 0).1.trace
          = worldNoTuples.trace ++ [.readBlock worldNoTuples.table.name 7]) :=
  ⟨rfl, by decide, C28_idempotent_read storeWithBlock7 worldNoTuples 7 2 0 rfl⟩

/-- C29: when the block has not been read before and the block store throws
`UnknownBlockAccessException` for it, `readEvictedBlock` ends in that
exception after the one `readBlock` call, and the table, with its blocks read,
merge offsets and unevicted block ids, is as it was.  No call of
`readEvictedBlock` returns false. -/
theorem C29_read_failure (readBlock : String → Int → Option AntiCacheBlock) (w : World)
    (block_id tuple_offset : Int)
    (hnew : isAlreadyUnEvicted w.table block_id = false)
    (hthrows : readBlock w.table.name block_id = none) :
    (readEvictedBlock readBlock w block_id tuple_offset).2
        = .error "UnknownBlockAccessException"
    ∧ (readEvictedBlock readBlock w block_id tuple_offset).1.table = w.table
    ∧ (readEvictedBlock readBlock w block_id tuple_offset).1.trace
        = w.trace ++ [.readBlock w.table.name block_id]
    ∧ ∀ (store : String → Int → Option AntiCacheBlock) (w' : World) (b o : Int),
        (readEvictedBlock store w' b o).2 ≠ .ok false := by
  refine ⟨by simp [readEvictedBlock, hnew, hthrows], by simp [readEvictedBlock, hnew, hthrows],
    by simp [readEvictedBlock, hnew, hthrows], ?_⟩
  intro store w' b o
  unfold readEvictedBlock
  simp only
  split_ifs
  · simp
  · cases store w'.table.name b <;> simp

/-- C29 at a table named T and the block 8, which the store does not hold. -/
theorem C29_read_failure_witness :
    isAlreadyUnEvicted worldNoTuples.table 8 = false
    ∧ storeWithBlock7 worldNoTuples.table.name 8 = none
    ∧ (readEvictedBlock storeWithBlock7 worldNoTuples 8 0).2
        = .error "UnknownBlockAccessException"
    ∧ (readEvictedBlock storeWithBlock7 worldNoTuples 8 0).1.table = worldNoTuples.table
    ∧ (readEvictedBlock storeWithBlock7 worldNoTuples 8 0).1.trace
        = worldNoTuples.trace ++ [.readBlock worldNoTuples.table.name 8]
    ∧ ∀ (store : String → Int → Option AntiCacheBlock) (w' : World) (b o : Int),
        (readEvictedBlock store w' b o).2 ≠ .ok false :=
  ⟨rfl, by decide, C29_read_failure storeWithBlock7 worldNoTuples 8 0 rfl (by decide)⟩

/-! ### C30: the counters of a merge -/

set_option maxRecDepth 200000 in
/-- C30, evaluated.  First engine: the faulting table P is under tuple-merge
and the table C in its block is under block-merge; the section of C has two
tuples and the offset is 0.  One tuple of C is re-inserted through
`unevictTuple`, and `tuples_evicted` of C goes from 2 to 0, `tuples_read`
from 0 to 2; the block counters of both tables move by 1.  Second engine:
both tables are under tuple-merge and the offset is 2; no tuple of the
one-tuple section of C is re-inserted, and `tuples_evicted` of C goes from 1
to 0, `tuples_read` from 0 to 1. -/
theorem C30_merge_counts_differ_from_reinserted :
    ((mergeUnevictedTuples engineMixed "P").map (fun r => r.1.trace)
        = some [.unevictTuple "P" 0 0, .deserializeWithHeaderFrom "P" 1 10,
                .unevictTuple "C" 0 0, .deserializeWithHeaderFrom "C" 11 10]
      ∧ (mergeUnevictedTuples engineMixed "P").map
          (fun r => r.1.tupleCounters)
        = some [("P", 0, 1), ("C", 0, 2)]
      ∧ engineMixed.tupleCounters = [("P", 1, 0), ("C", 2, 0)]
      ∧ (mergeUnevictedTuples engineMixed "P").map
          (fun r => r.1.blockCounters)
        = some [("P", 0, 1), ("C", 0, 1)]
      ∧ engineMixed.blockCounters = [("P", 1, 0), ("C", 1, 0)])
    ∧ ((mergeUnevictedTuples engineTupleMerge "P").map (fun r => r.1.trace)
        = some [.unevictTuple "P" 2 2, .deserializeWithHeaderFrom "P" 1 10]
      ∧ (mergeUnevictedTuples engineTupleMerge "P").map
          (fun r => r.1.tupleCounters)
        = some [("P", 2, 1), ("C", 0, 1)]
      ∧ engineTupleMerge.tupleCounters = [("P", 3, 0), ("C", 1, 0)]) := by
  refine ⟨⟨by decide, by decide, by decide, by decide, by decide⟩,
    ⟨by decide, by decide, by decide⟩⟩

/-! ### C37: removal from the double linked chain always succeeds on a non-empty chain -/

theorem removeDouble_count (table : PersistentTable) (tup id : Nat)
    (hpos : 0 < table.numTuplesInEvictionChain) :
    (removeTupleDoubleLinkedList table tup id).1 = true
    ∧ (removeTupleDoubleLinkedList table tup id).2.numTuplesInEvictionChain
      = table.numTuplesInEvictionChain - 1 := by
  by_cases hn : table.newestTupleID = id
  · by_cases h1 : table.numTuplesInEvictionChain = 1
    · rw [removeDouble_newest_one table tup id h1 hn]; simp [h1]
    · by_cases h2 : table.numTuplesInEvictionChain = 2
      · rw [removeDouble_newest_two table tup id h2 hn]; simp [h2]
      · rw [removeDouble_newest_many table tup id (by omega) hn]; simp
  · by_cases ho : table.oldestTupleID = id
    · by_cases h1 : table.numTuplesInEvictionChain = 1
      · rw [removeDouble_oldest_one table tup id h1 hn ho]; simp [h1]
      · by_cases h2 : table.numTuplesInEvictionChain = 2
        · rw [removeDouble_oldest_two table tup id h2 hn ho]; simp [h2]
        · rw [removeDouble_oldest_many table tup id (by omega) hn ho]; simp
    · rw [removeDouble_other table tup id hpos hn ho]; simp

/-- C37: `removeTupleDoubleLinkedList` returns false exactly when the count of
the chain is at most 0.  On a chain with a positive count it returns true and
lowers the count by one, whatever tuple it is given; when the tuple is at
neither end of the chain, member or not, the `next` link of the slot its own
`prev` names and the `prev` link of the slot its own `next` names are
rewritten and the endpoints stay as they are. -/
theorem C37_removeDouble_always_counts (table : PersistentTable) (tup id : Nat) :
    ((removeTupleDoubleLinkedList table tup id).1 = false
      ↔ table.numTuplesInEvictionChain ≤ 0)
    ∧ (0 < table.numTuplesInEvictionChain →
        (removeTupleDoubleLinkedList table tup id).1 = true
        ∧ (removeTupleDoubleLinkedList table tup id).2.numTuplesInEvictionChain
          = table.numTuplesInEvictionChain - 1)
    ∧ (0 < table.numTuplesInEvictionChain → table.newestTupleID ≠ id →
        table.oldestTupleID ≠ id →
        (removeTupleDoubleLinkedList table tup id).2
          = { table with
              nextTupleInChain := setSlot table.nextTupleInChain
                (table.previousTupleInChain tup) (table.nextTupleInChain tup)
              previousTupleInChain := setSlot table.previousTupleInChain
                (table.nextTupleInChain tup) (table.previousTupleInChain tup)
              numTuplesInEvictionChain := table.numTuplesInEvictionChain - 1 }) := by
  refine ⟨⟨?_, ?_⟩, removeDouble_count table tup id, ?_⟩
  · intro hfalse
    by_contra hpos
    have := (removeDouble_count table tup id (by omega)).1
    rw [hfalse] at this
    exact absurd this (by simp)
  · intro h0
    rw [removeDouble_empty table tup id h0]
  · intro hpos hn ho
    rw [removeDouble_other table tup id hpos hn ho]

/-- C37 at the chain 1, 2 and the tuple of slot 7, which is not a member: the
removal returns true and the count drops to 1 while the tuples 1 and 2 are
both still in the chain, with the endpoints 1 and 2 and the links between
them as before. -/
theorem C37_removeDouble_always_counts_witness :
    0 < chain12.numTuplesInEvictionChain
    ∧ chain12.newestTupleID ≠ 7 ∧ chain12.oldestTupleID ≠ 7
    ∧ ((removeTupleDoubleLinkedList chain12 7 7).1 = true
      ∧ (removeTupleDoubleLinkedList chain12 7 7).2.numTuplesInEvictionChain
        = chain12.numTuplesInEvictionChain - 1)
    ∧ (removeTupleDoubleLinkedList chain12 7 7).2.view 3 = (1, 2, 1, [0, 2, 0], [0, 0, 1])
    ∧ chain12.view 3 = (1, 2, 2, [0, 2, 0], [0, 0, 1]) :=
  ⟨by decide, by decide, by decide,
    (C37_removeDouble_always_counts chain12 7 7).2.1 (by decide), by decide, by decide⟩

/-! ### C34: blocks without tuples are written -/

set_option maxRecDepth 200000 in
/-- C34, evaluated: with an iterator that has nothing to hand out and
`num_blocks = 1`, `evictBlockToDisk` calls `writeBlock` with a tuple count of
0 and raises `blocks_evicted` and `blocks_written` of the table from 0 to 1;
`evictBlockToDiskInBatch` calls `writeBlock` with a tuple count of 0 and
raises both counters of the parent and of the child from 0 to 1. -/
theorem C34_empty_blocks_are_written_and_counted :
    worldNoTuples.iterator = [] ∧ worldFamilyEmpty.iterator = []
    ∧ (evictBlockToDisk env100 lruDouble worldNoTuples 1000 1).1.trace
      = [.nextBlockId 0, .writeHeader [0], .writeBlock "T" 0 0 ⟨0, ["T"], [0], [], 100⟩ 100,
         .flushBlocks]
    ∧ ((evictBlockToDisk env100 lruDouble worldNoTuples 1000 1).1.table.blocksEvicted,
        (evictBlockToDisk env100 lruDouble worldNoTuples 1000 1).1.table.blocksWritten)
      = (1, 1)
    ∧ (evictBlockToDiskInBatch env100 lruDouble worldFamilyEmpty 1000 1).1.trace
      = [.nextBlockId 0, .writeHeader [0, 0],
         .writeBlock "P" 0 0 ⟨0, ["P", "C"], [0, 0], [], 100⟩ 100, .flushBlocks]
    ∧ ((evictBlockToDiskInBatch env100 lruDouble worldFamilyEmpty 1000 1).1.table.blocksEvicted,
        (evictBlockToDiskInBatch env100 lruDouble worldFamilyEmpty 1000
          1).1.table.blocksWritten,
        (evictBlockToDiskInBatch env100 lruDouble worldFamilyEmpty 1000
          1).1.childTable.blocksEvicted,
        (evictBlockToDiskInBatch env100 lruDouble worldFamilyEmpty 1000
          1).1.childTable.blocksWritten)
      = (1, 1, 1, 1) := by
  refine ⟨rfl, rfl, by decide, by decide, by decide, by decide⟩

/-! ### C35: tuples already evicted -/

theorem runStubs_length (passes : List (List TableTuple)) :
    ∀ block_id : Int, (runStubs block_id passes).length = (passes.map List.length).sum := by
  induction passes with
  | nil => intro b; simp [runStubs]
  | cons admitted more ih =>
    intro b
    simp [runStubs, stubRows, ih]

/-- C35: in a build with an LRU chain, when the loop of `evictBlockToDisk`
takes a tuple whose evicted flag is set, the tuple is removed from the chain
and the loop goes on with the next tuple: the trace, the evicted table, the
block and `num_tuples_evicted` are as before, so no stub row is inserted, no
index entry is changed, nothing is serialized and nothing is deleted.  In a
whole call on a table with an evicted table, the tuples that are stubbed,
serialized and counted in the header are live tuples, and `tuples_evicted`
grows by their number. -/
theorem C35_evicted_tuple_is_skipped (env : Env) (cfg : BuildConfig)
    (hchain : cfg.hasChain = true) (w : World) (block_size num_blocks : Int)
    (hstub : w.table.hasEvictedTable = true) :
    (∀ (block_id : Int) (s : FillState) (tuple : TableTuple)
        (rest : List (Option TableTuple)),
        tuple.isEvicted = true →
        s.block.serializedSize + MAX_EVICTED_TUPLE_SIZE < block_size →
        fillBlock cfg block_size block_id (some tuple :: rest) s
          = fillBlock cfg block_size block_id rest
              { s with
                world := { s.world with
                  table := (removeTuple cfg s.world.table tuple.id).2 },
                tuple_length :=
                  if s.tuple_length = -1 then tuple.tupleLength else s.tuple_length })
    ∧ ∃ passes : List (List TableTuple),
        passes.length = num_blocks.toNat
        ∧ (∀ admitted ∈ passes, ∀ t ∈ admitted, t.isEvicted = false)
        ∧ (evictBlockToDisk env cfg w block_size num_blocks).1.trace
          = w.trace
            ++ (if cfg.ANTICACHE_TIMESTAMPS then [.reserve (block_size * num_blocks)] else [])
            ++ (if cfg.ANTICACHE_CLOCK then [.initClock w.table.m_clockPosition] else [])
            ++ runEvents env w.table.name w.nextBlockId w.evictedTable.length passes
            ++ (if 0 < num_blocks then [.flushBlocks] else [])
        ∧ (evictBlockToDisk env cfg w block_size num_blocks).1.evictedTable
          = w.evictedTable ++ runStubs w.nextBlockId passes
        ∧ (evictBlockToDisk env cfg w block_size num_blocks).1.table.tuplesEvicted
          = w.table.tuplesEvicted + ((passes.map List.length).sum : Nat) := by
  constructor
  · intro block_id s tuple rest hev hroom
    rw [fillBlock, if_pos hroom]
    simp only
    congr 1
    simp [evictTuple, hev, hchain]
  · obtain ⟨passes, h1, h2, h3, h4⟩ :=
      evictBlockToDisk_calls env cfg w block_size num_blocks hstub
    obtain ⟨-, -, -, -, hT, -⟩ := evictBlockToDisk_facts env cfg w block_size num_blocks hstub
    refine ⟨passes, h1, fun admitted ha t ht => (h2 admitted ha t ht).1, h3, h4, ?_⟩
    rw [h4, List.length_append, runStubs_length] at hT
    push_cast at hT ⊢
    omega

set_option maxRecDepth 200000 in
/-- C35 at a table named T with the chain 1, 2 whose iterator hands out the
tuple of slot 1 with its evicted flag set: the chain is left with the tuple
of slot 2 alone, the block is written empty and no stub row is inserted. -/
theorem C35_evicted_tuple_is_skipped_witness :
    lruDouble.hasChain = true
    ∧ worldStaleChain.table.hasEvictedTable = true
    ∧ (evictBlockToDisk env100 lruDouble worldStaleChain 3000 1).1.table.view 3
      = (2, 2, 1, [0, 2, 0], [0, 0, 1])
    ∧ (evictBlockToDisk env100 lruDouble worldStaleChain 3000 1).1.trace
      = [.nextBlockId 0, .writeHeader [0], .writeBlock "T" 0 0 ⟨0, ["T"], [0], [], 100⟩ 100,
         .flushBlocks]
    ∧ ∃ passes : List (List TableTuple),
        passes.length = (1 : Int).toNat
        ∧ (∀ admitted ∈ passes, ∀ t ∈ admitted, t.isEvicted = false)
        ∧ (evictBlockToDisk env100 lruDouble worldStaleChain 3000 1).1.trace
          = worldStaleChain.trace
            ++ (if lruDouble.ANTICACHE_TIMESTAMPS then [.reserve (3000 * 1)] else [])
            ++ (if lruDouble.ANTICACHE_CLOCK then
                  [.initClock worldStaleChain.table.m_clockPosition]
                else [])
            ++ runEvents env100 worldStaleChain.table.name worldStaleChain.nextBlockId
                worldStaleChain.evictedTable.length passes
            ++ (if (0 : Int) < 1 then [.flushBlocks] else [])
        ∧ (evictBlockToDisk env100 lruDouble worldStaleChain 3000 1).1.evictedTable
          = worldStaleChain.evictedTable ++ runStubs worldStaleChain.nextBlockId passes
        ∧ (evictBlockToDisk env100 lruDouble worldStaleChain 3000 1).1.table.tuplesEvicted
          = worldStaleChain.table.tuplesEvicted + ((passes.map List.length).sum : Nat) :=
  ⟨rfl, rfl, by decide, by decide,
    (C35_evicted_tuple_is_skipped env100 lruDouble rfl worldStaleChain 3000 1 rfl).2⟩

/-! ### C33, C39: the payload of the access fault -/

theorem recordAll_active (accesses : List (CatalogTable × AccessedTuple))
    (hactive : ∀ a ∈ accesses, a.2.isActive = true) :
    ∀ m : AccessLists,
      recordAll m accesses
        = .ok { m_evicted_tables := m.m_evicted_tables ++ accesses.map (·.1),
                m_evicted_block_ids := m.m_evicted_block_ids ++ accesses.map (·.2.block_id),
                m_evicted_offsets := m.m_evicted_offsets ++ accesses.map (·.2.tuple_id) } := by
  induction accesses with
  | nil => intro m; simp [recordAll]
  | cons a more ih =>
    intro m
    have ha := hactive a (List.mem_cons_self _ _)
    obtain ⟨t, tup⟩ := a
    simp only at ha
    rw [recordAll]
    simp only [recordEvictedAccess, ha, Bool.true_eq_false, if_false]
    rw [ih (fun x hx => hactive x (List.mem_cons_of_mem _ hx))]
    simp

theorem recordAll_lengths (accesses : List (CatalogTable × AccessedTuple)) :
    ∀ m m' : AccessLists,
      m.m_evicted_tables.length = m.m_evicted_block_ids.length →
      m.m_evicted_offsets.length = m.m_evicted_block_ids.length →
      recordAll m accesses = .ok m' →
      m'.m_evicted_tables.length = m'.m_evicted_block_ids.length
      ∧ m'.m_evicted_offsets.length = m'.m_evicted_block_ids.length := by
  induction accesses with
  | nil =>
    intro m m' h1 h2 h
    simp only [recordAll, Except.ok.injEq] at h
    subst h
    exact ⟨h1, h2⟩
  | cons a more ih =>
    intro m m' h1 h2 h
    obtain ⟨t, tup⟩ := a
    rw [recordAll] at h
    cases hact : tup.isActive
    · simp [recordEvictedAccess, hact] at h
    · simp only [recordEvictedAccess, hact, Bool.true_eq_false, if_false] at h
      exact ih _ m' (by simp [h1]) (by simp [h2]) h

/-- C33: after `m >= 1` calls of `recordEvictedAccess` on active tuples whose
stubs decode to `(b_1, o_1), ..., (b_m, o_m)`, starting with empty lists,
`throwEvictedAccessException` throws an exception with `num_blocks = m`, the
block ids `b_1 .. b_m` and the tuple offsets `o_1 .. o_m`, in the order of the
calls and with duplicates kept.  Whatever calls are made, on lists of equal
length, the three lists have equal length afterwards. -/
theorem C33_fault_payload (first : CatalogTable × AccessedTuple)
    (more : List (CatalogTable × AccessedTuple))
    (hactive : ∀ a ∈ first :: more, a.2.isActive = true) :
    (∃ m : AccessLists, ∃ e : EvictedTupleAccessException,
      recordAll {} (first :: more) = .ok m
      ∧ throwEvictedAccessException m = some e
      ∧ e.numBlocks = ((first :: more).length : Int)
      ∧ e.blockIds = (first :: more).map (·.2.block_id)
      ∧ e.tupleIds = (first :: more).map (·.2.tuple_id))
    ∧ ∀ (accesses : List (CatalogTable × AccessedTuple)) (m m' : AccessLists),
        m.m_evicted_tables.length = m.m_evicted_block_ids.length →
        m.m_evicted_offsets.length = m.m_evicted_block_ids.length →
        recordAll m accesses = .ok m' →
        m'.m_evicted_tables.length = m'.m_evicted_block_ids.length
        ∧ m'.m_evicted_offsets.length = m'.m_evicted_block_ids.length := by
  refine ⟨?_, fun accesses m m' => recordAll_lengths accesses m m'⟩
  have h := recordAll_active (first :: more) hactive {}
  refine ⟨_, ⟨first.1.relativeIndex, ((first :: more).length : Int),
    (first :: more).map (·.2.block_id), (first :: more).map (·.2.tuple_id)⟩, h, ?_, rfl, rfl, rfl⟩
  simp [throwEvictedAccessException]

/-- C33 at three accesses, two of them to the same stub of block 4. -/
theorem C33_fault_payload_witness :
    (∀ a ∈ [((⟨"A", 3⟩ : CatalogTable), (⟨true, 4, 0⟩ : AccessedTuple)),
              (⟨"A", 3⟩, ⟨true, 9, 5⟩), (⟨"A", 3⟩, ⟨true, 4, 0⟩)], a.2.isActive = true)
    ∧ (recordAll {} [((⟨"A", 3⟩ : CatalogTable), (⟨true, 4, 0⟩ : AccessedTuple)),
          (⟨"A", 3⟩, ⟨true, 9, 5⟩), (⟨"A", 3⟩, ⟨true, 4, 0⟩)]).toOption.bind
        throwEvictedAccessException
      = some ⟨3, 3, [4, 9, 4], [0, 5, 0]⟩
    ∧ ∃ m : AccessLists, ∃ e : EvictedTupleAccessException,
      recordAll {} [((⟨"A", 3⟩ : CatalogTable), (⟨true, 4, 0⟩ : AccessedTuple)),
          (⟨"A", 3⟩, ⟨true, 9, 5⟩), (⟨"A", 3⟩, ⟨true, 4, 0⟩)] = .ok m
      ∧ throwEvictedAccessException m = some e
      ∧ e.numBlocks = (([((⟨"A", 3⟩ : CatalogTable), (⟨true, 4, 0⟩ : AccessedTuple)),
          (⟨"A", 3⟩, ⟨true, 9, 5⟩), (⟨"A", 3⟩, ⟨true, 4, 0⟩)]).length : Int)
      ∧ e.blockIds = [((⟨"A", 3⟩ : CatalogTable), (⟨true, 4, 0⟩ : AccessedTuple)),
          (⟨"A", 3⟩, ⟨true, 9, 5⟩), (⟨"A", 3⟩, ⟨true, 4, 0⟩)].map (·.2.block_id)
      ∧ e.tupleIds = [((⟨"A", 3⟩ : CatalogTable), (⟨true, 4, 0⟩ : AccessedTuple)),
          (⟨"A", 3⟩, ⟨true, 9, 5⟩), (⟨"A", 3⟩, ⟨true, 4, 0⟩)].map (·.2.tuple_id) :=
  have hactive : ∀ a ∈ [((⟨"A", 3⟩ : CatalogTable), (⟨true, 4, 0⟩ : AccessedTuple)),
      (⟨"A", 3⟩, ⟨true, 9, 5⟩), (⟨"A", 3⟩, ⟨true, 4, 0⟩)], a.2.isActive = true := by
    decide
  ⟨hactive, by decide, (C33_fault_payload _ _ hactive).1⟩

/-- C39: the table index of the exception is the relative index of the table
of the first recorded access, whatever tables the later accesses are to, and
the exception carries the block ids and offsets of all accesses. -/
theorem C39_fault_table_is_first (first : CatalogTable × AccessedTuple)
    (more : List (CatalogTable × AccessedTuple))
    (hactive : ∀ a ∈ first :: more, a.2.isActive = true) :
    ∃ m : AccessLists,
      recordAll {} (first :: more) = .ok m
      ∧ m.m_evicted_tables.head? = some first.1
      ∧ throwEvictedAccessException m
        = some { tableId := first.1.relativeIndex,
                 numBlocks := ((first :: more).length : Int),
                 blockIds := (first :: more).map (·.2.block_id),
                 tupleIds := (first :: more).map (·.2.tuple_id) } := by
  have h := recordAll_active (first :: more) hactive {}
  refine ⟨_, h, by simp, ?_⟩
  simp [throwEvictedAccessException]

/-- C39 at accesses to three different tables: the exception names the table
of the first access, with relative index 3. -/
theorem C39_fault_table_is_first_witness :
    (∀ a ∈ [((⟨"A", 3⟩ : CatalogTable), (⟨true, 4, 0⟩ : AccessedTuple)),
              (⟨"B", 1⟩, ⟨true, 9, 5⟩), (⟨"C", 8⟩, ⟨true, 2, 7⟩)], a.2.isActive = true)
    ∧ ∃ m : AccessLists,
      recordAll {} [((⟨"A", 3⟩ : CatalogTable), (⟨true, 4, 0⟩ : AccessedTuple)),
          (⟨"B", 1⟩, ⟨true, 9, 5⟩), (⟨"C", 8⟩, ⟨true, 2, 7⟩)] = .ok m
      ∧ m.m_evicted_tables.head? = some (⟨"A", 3⟩ : CatalogTable)
      ∧ throwEvictedAccessException m = some ⟨3, 3, [4, 9, 2], [0, 5, 7]⟩ :=
  ⟨by decide,
    C39_fault_table_is_first ((⟨"A", 3⟩ : CatalogTable), (⟨true, 4, 0⟩ : AccessedTuple))
      [(⟨"B", 1⟩, ⟨true, 9, 5⟩), (⟨"C", 8⟩, ⟨true, 2, 7⟩)] (by decide)⟩

/-! ### Removal from the chain does not read the counters -/

theorem removeDouble_setCounters (table : PersistentTable) (tup id : Nat)
    (a b c d e f : Int) :
    removeTupleDoubleLinkedList (table.setCounters a b c d e f) tup id
      = ((removeTupleDoubleLinkedList table tup id).1,
         (removeTupleDoubleLinkedList table tup id).2.setCounters a b c d e f) := by
  by_cases h0 : table.numTuplesInEvictionChain ≤ 0
  · rw [removeDouble_empty table tup id h0,
      removeDouble_empty (table.setCounters a b c d e f) tup id h0]
  · have hpos : 0 < table.numTuplesInEvictionChain := by omega
    by_cases hn : table.newestTupleID = id
    · by_cases h1 : table.numTuplesInEvictionChain = 1
      · rw [removeDouble_newest_one table tup id h1 hn,
          removeDouble_newest_one (table.setCounters a b c d e f) tup id h1 hn]
        rfl
      · by_cases h2 : table.numTuplesInEvictionChain = 2
        · rw [removeDouble_newest_two table tup id h2 hn,
            removeDouble_newest_two (table.setCounters a b c d e f) tup id h2 hn]
          rfl
        · rw [removeDouble_newest_many table tup id (by omega) hn,
            removeDouble_newest_many (table.setCounters a b c d e f) tup id
              (show 2 < table.numTuplesInEvictionChain by omega) hn]
          rfl
    · by_cases ho : table.oldestTupleID = id
      · by_cases h1 : table.numTuplesInEvictionChain = 1
        · rw [removeDouble_oldest_one table tup id h1 hn ho,
            removeDouble_oldest_one (table.setCounters a b c d e f) tup id h1 hn ho]
          rfl
        · by_cases h2 : table.numTuplesInEvictionChain = 2
          · rw [removeDouble_oldest_two table tup id h2 hn ho,
              removeDouble_oldest_two (table.setCounters a b c d e f) tup id h2 hn ho]
            rfl
          · rw [removeDouble_oldest_many table tup id (by omega) hn ho,
              removeDouble_oldest_many (table.setCounters a b c d e f) tup id
                (show 2 < table.numTuplesInEvictionChain by omega) hn ho]
            rfl
      · rw [removeDouble_other table tup id hpos hn ho,
          removeDouble_other (table.setCounters a b c d e f) tup id hpos hn ho]
        rfl

theorem scanChain_setCounters (removal_id : Nat) (a b c d e f : Int) :
    ∀ (fuel : Nat) (s : ScanState),
      scanChain removal_id fuel { s with table := s.table.setCounters a b c d e f }
        = { scanChain removal_id fuel s with
            table := (scanChain removal_id fuel s).table.setCounters a b c d e f } := by
  intro fuel
  induction fuel with
  | zero => intro s; rfl
  | succ n ih =>
    intro s
    rw [scanChain, scanChain]
    by_cases hc : s.tuple_found = false ∧ s.iterations < s.table.numTuplesInEvictionChain
    · have hc' : ({ s with table := s.table.setCounters a b c d e f } : ScanState).tuple_found
            = false
          ∧ ({ s with table := s.table.setCounters a b c d e f } : ScanState).iterations
            < ({ s with table := s.table.setCounters a b c d e f }
                : ScanState).table.numTuplesInEvictionChain := hc
      rw [if_pos hc, if_pos hc']
      by_cases hid : s.current_tuple_id = removal_id
      · have hid' : ({ s with table := s.table.setCounters a b c d e f }
            : ScanState).current_tuple_id = removal_id := hid
        rw [if_pos hid, if_pos hid']
        rfl
      · have hid' : ¬ ({ s with table := s.table.setCounters a b c d e f }
            : ScanState).current_tuple_id = removal_id := hid
        rw [if_neg hid, if_neg hid']
        exact ih ⟨s.table, s.table.nextTupleInChain s.tuple, s.table.nextTupleInChain s.tuple,
          s.current_tuple_id, s.tuple_found, s.iterations + 1⟩
    · have hc' : ¬ (({ s with table := s.table.setCounters a b c d e f }
              : ScanState).tuple_found = false
          ∧ ({ s with table := s.table.setCounters a b c d e f } : ScanState).iterations
            < ({ s with table := s.table.setCounters a b c d e f }
                : ScanState).table.numTuplesInEvictionChain) := hc
      rw [if_neg hc, if_neg hc']

theorem removeSingle_setCounters (table : PersistentTable) (id : Nat)
    (a b c d e f : Int) :
    removeTupleSingleLinkedList (table.setCounters a b c d e f) id
      = ((removeTupleSingleLinkedList table id).1,
         (removeTupleSingleLinkedList table id).2.setCounters a b c d e f) := by
  by_cases h0 : table.numTuplesInEvictionChain ≤ 0
  · rw [removeSingle_empty table id h0,
      removeSingle_empty (table.setCounters a b c d e f) id h0]
  · by_cases ho : table.oldestTupleID = id
    · by_cases h1 : table.numTuplesInEvictionChain = 1
      · rw [removeSingle_oldest_one table id h1 ho,
          removeSingle_oldest_one (table.setCounters a b c d e f) id h1 ho]
        rfl
      · rw [removeSingle_oldest_many table id (by omega) ho,
          removeSingle_oldest_many (table.setCounters a b c d e f) id
            (show 1 < table.numTuplesInEvictionChain by omega) ho]
        rfl
    · have hs := scanChain_setCounters id a b c d e f table.numTuplesInEvictionChain.toNat
        ⟨table, table.oldestTupleID, table.oldestTupleID, 0, false, 0⟩
      have h0' : ¬ (table.setCounters a b c d e f).numTuplesInEvictionChain ≤ 0 := h0
      have ho' : ¬ (table.setCounters a b c d e f).oldestTupleID = id := ho
      have e1 : (table.setCounters a b c d e f).numTuplesInEvictionChain
          = table.numTuplesInEvictionChain := rfl
      have e2 : (table.setCounters a b c d e f).oldestTupleID = table.oldestTupleID := rfl
      have e3 : (table.setCounters a b c d e f).newestTupleID = table.newestTupleID := rfl
      simp only [removeTupleSingleLinkedList, h0, h0', ho, ho', if_false, e1, e2, e3]
      simp only at hs
      rw [hs]
      simp only
      split_ifs <;> rfl

theorem removeTuple_setCounters (cfg : BuildConfig) (table : PersistentTable) (t : Nat)
    (a b c d e f : Int) :
    removeTuple cfg (table.setCounters a b c d e f) t
      = ((removeTuple cfg table t).1, (removeTuple cfg table t).2.setCounters a b c d e f) := by
  unfold removeTuple
  split
  · exact removeDouble_setCounters _ _ _ _ _ _ _ _ _
  · exact removeSingle_setCounters _ _ _ _ _ _ _ _

/-! ### The chains of the two tables in a parent/child eviction -/

theorem sameChain_refl (t : PersistentTable) : SameChain t t := ⟨rfl, rfl, rfl, rfl, rfl⟩

theorem sameChain_trans {a b c : PersistentTable} (h1 : SameChain a b) (h2 : SameChain b c) :
    SameChain a c :=
  ⟨h2.oldest_eq.trans h1.oldest_eq, h2.newest_eq.trans h1.newest_eq,
    h2.count_eq.trans h1.count_eq, h2.next_eq.trans h1.next_eq, h2.prev_eq.trans h1.prev_eq⟩

theorem sameChain_setCounters (t : PersistentTable) (a b c d e f : Int) :
    SameChain t (t.setCounters a b c d e f) := ⟨rfl, rfl, rfl, rfl, rfl⟩

theorem chainAfter_append (cfg : BuildConfig) (ps qs : List TableTuple) :
    ∀ table : PersistentTable,
      chainAfter cfg table (ps ++ qs) = chainAfter cfg (chainAfter cfg table ps) qs := by
  induction ps with
  | nil => intro table; rfl
  | cons p more ih =>
    intro table
    show chainAfter cfg _ (more ++ qs) = _
    rw [ih]
    rfl

theorem chainAfter_setCounters (cfg : BuildConfig) (ps : List TableTuple) (a b c d e f : Int) :
    ∀ table : PersistentTable,
      chainAfter cfg (table.setCounters a b c d e f) ps
        = (chainAfter cfg table ps).setCounters a b c d e f := by
  induction ps with
  | nil => intro table; rfl
  | cons p more ih =>
    intro table
    simp only [chainAfter]
    cases hc : cfg.hasChain
    · simp only [Bool.false_eq_true, if_false, ih]
    · simp only [if_true, removeTuple_setCounters, ih]

/-- The table of the parent after the loop over the parents: `removeTuple`
has been called for the tuples that passed both size tests, which are the
tuples counted in `parentTuples`, and the live ones among them are the tuples
counted in `num_tuples_evicted`. -/
theorem fillParents_chain (env : Env) (cfg : BuildConfig) (block_size block_id : Int)
    (items : List (Option TableTuple)) :
    ∀ s : BatchFillState, ∃ passed : List TableTuple,
      (∀ p ∈ passed, some p ∈ items)
      ∧ (fillParents env cfg block_size block_id items s).world.table
        = chainAfter cfg s.world.table passed
      ∧ (fillParents env cfg block_size block_id items s).parentTuples
        = s.parentTuples + passed.length
      ∧ (fillParents env cfg block_size block_id items s).num_tuples_evicted
        = s.num_tuples_evicted + (passed.filter (fun p => !p.isEvicted)).length := by
  induction items with
  | nil => intro s; exact ⟨[], by simp, by rw [fillParents]; rfl, by rw [fillParents]; simp,
      by rw [fillParents]; simp⟩
  | cons item rest ih =>
    intro s
    cases item with
    | none => exact ⟨[], by simp, by rw [fillParents]; rfl, by rw [fillParents]; simp,
        by rw [fillParents]; simp⟩
    | some tuple =>
      rw [fillParents_some]
      split_ifs with hnomore hfull hev hstop
      · exact ⟨[], by simp, rfl, by simp [parentRejected], by simp [parentRejected]⟩
      · exact ⟨[], by simp, rfl, by simp [parentRejected], by simp [parentRejected]⟩
      · obtain ⟨passed, h1, h2, h3, h4⟩ := ih (parentSkipped env cfg block_size s tuple rest)
        refine ⟨tuple :: passed, ?_, ?_, ?_, ?_⟩
        · intro p hp
          rcases List.mem_cons.1 hp with rfl | hp
          · exact List.mem_cons_self _ _
          · exact List.mem_cons_of_mem _ (h1 p hp)
        · rw [h2]; rfl
        · rw [h3]; simp [parentSkipped]; ring
        · rw [h4]; simp [parentSkipped, hev]
      · refine ⟨[tuple], by simp, rfl, by simp [parentAdmitted], ?_⟩
        simp only [Bool.not_eq_true] at hev
        simp [parentAdmitted, hev]
      · obtain ⟨passed, h1, h2, h3, h4⟩ :=
          ih (parentAdmitted env cfg block_size block_id s tuple rest)
        simp only [Bool.not_eq_true] at hev
        refine ⟨tuple :: passed, ?_, ?_, ?_, ?_⟩
        · intro p hp
          rcases List.mem_cons.1 hp with rfl | hp
          · exact List.mem_cons_self _ _
          · exact List.mem_cons_of_mem _ (h1 p hp)
        · rw [h2]; rfl
        · rw [h3]; simp [parentAdmitted]; ring
        · rw [h4]; simp [parentAdmitted, hev]; ring

theorem batchPass_chain (env : Env) (cfg : BuildConfig) (block_size : Int)
    (s : BatchEvictState) :
    ∃ passed : List TableTuple,
      (∀ p ∈ passed, some p ∈ s.world.iterator)
      ∧ (∃ a b c d e f : Int, (batchPass env cfg block_size s).world.table
          = (chainAfter cfg s.world.table passed).setCounters a b c d e f)
      ∧ (batchBlock env cfg block_size s).headerCounts.head? = some (passed.length : Int)
      ∧ ((batchPass env cfg block_size s).world.evictedTable.length : Int)
        = s.world.evictedTable.length + (passed.filter (fun p => !p.isEvicted)).length
      ∧ SameChain s.world.childTable (batchPass env cfg block_size s).world.childTable := by
  obtain ⟨passed, h1, h2, h3, h4⟩ := fillParents_chain env cfg block_size s.world.nextBlockId
    s.world.iterator
    { world := ({ s.world with nextBlockId := s.world.nextBlockId + 1 }).log
        (.nextBlockId s.world.nextBlockId),
      block := initializeBlock env [s.world.table.name, s.world.childTable.name]
        s.world.nextBlockId 0,
      num_tuples_evicted := 0, tuple_length := s.tuple_length, parentTuples := 0,
      childTuplesToBeEvicted := [], childTuplesSize := 0 }
  change (filledParents env cfg block_size s).world.table
    = chainAfter cfg s.world.table passed at h2
  change (filledParents env cfg block_size s).parentTuples = 0 + (passed.length : Int) at h3
  change (filledParents env cfg block_size s).num_tuples_evicted
    = 0 + ((passed.filter (fun p => !p.isEvicted)).length : Int) at h4
  obtain ⟨c1, c2, c3, -, -, -, -, -, -, -⟩ := filledChildren_facts env cfg block_size s
  have hstubs := (filledParents_rel env cfg block_size s).stubs
  simp only [World.log_evictedTable, sub_zero] at hstubs
  refine ⟨passed, h1, ?_, ?_, ?_, ?_⟩
  · refine ⟨(batchPass env cfg block_size s).world.table.tuplesEvicted,
      (batchPass env cfg block_size s).world.table.blocksEvicted,
      (batchPass env cfg block_size s).world.table.bytesEvicted,
      (batchPass env cfg block_size s).world.table.tuplesWritten,
      (batchPass env cfg block_size s).world.table.blocksWritten,
      (batchPass env cfg block_size s).world.table.bytesWritten, ?_⟩
    have ht : (batchPass env cfg block_size s).world.table
        = (filledChildren env cfg block_size s).world.table.setCounters
            (batchPass env cfg block_size s).world.table.tuplesEvicted
            (batchPass env cfg block_size s).world.table.blocksEvicted
            (batchPass env cfg block_size s).world.table.bytesEvicted
            (batchPass env cfg block_size s).world.table.tuplesWritten
            (batchPass env cfg block_size s).world.table.blocksWritten
            (batchPass env cfg block_size s).world.table.bytesWritten := rfl
    rw [c1, h2] at ht
    exact ht
  · simp [batchBlock, BerkeleyDBBlock.writeHeader, h3]
  · simp only [batchPass, World.log_evictedTable, c3, hstubs, h4]
    ring
  · have hct : (batchPass env cfg block_size s).world.childTable
        = (filledChildren env cfg block_size s).world.childTable.setCounters
            (batchPass env cfg block_size s).world.childTable.tuplesEvicted
            (batchPass env cfg block_size s).world.childTable.blocksEvicted
            (batchPass env cfg block_size s).world.childTable.bytesEvicted
            (batchPass env cfg block_size s).world.childTable.tuplesWritten
            (batchPass env cfg block_size s).world.childTable.blocksWritten
            (batchPass env cfg block_size s).world.childTable.bytesWritten := rfl
    rw [hct, c2]
    exact sameChain_setCounters _ _ _ _ _ _ _

/-- The chains of the two tables after the loop over the blocks of
`evictBlockToDiskInBatch`, by the parents that passed both size tests in each
pass. -/
theorem evictBlocksInBatch_chain (env : Env) (cfg : BuildConfig) (block_size : Int)
    (n : Nat) :
    ∀ s : BatchEvictState, ∃ passes : List (List TableTuple),
      passes.length = n
      ∧ (∀ passed ∈ passes, ∀ p ∈ passed, some p ∈ s.world.iterator)
      ∧ SameChain (chainAfter cfg s.world.table passes.flatten)
          (evictBlocksInBatch env cfg block_size n s).world.table
      ∧ (writtenBlocks (evictBlocksInBatch env cfg block_size n s).world.trace).map
          (fun b => b.1.headerCounts.head?)
        = (writtenBlocks s.world.trace).map (fun b => b.1.headerCounts.head?)
          ++ passes.map (fun passed => some (passed.length : Int))
      ∧ ((evictBlocksInBatch env cfg block_size n s).world.evictedTable.length : Int)
        = s.world.evictedTable.length
          + (passes.flatten.filter (fun p => !p.isEvicted)).length
      ∧ SameChain s.world.childTable
          (evictBlocksInBatch env cfg block_size n s).world.childTable := by
  induction n with
  | zero =>
    intro s
    exact ⟨[], rfl, by simp, by simpa [evictBlocksInBatch, chainAfter] using sameChain_refl _,
      by simp [evictBlocksInBatch], by simp [evictBlocksInBatch],
      by simpa [evictBlocksInBatch] using sameChain_refl _⟩
  | succ n ih =>
    intro s
    obtain ⟨passed, a1, ⟨a, b, c, d, e, f, a2⟩, a3, a4, a5⟩ :=
      batchPass_chain env cfg block_size s
    obtain ⟨passes, p1, p2, p3, p4, p5, p6⟩ := ih (batchPass env cfg block_size s)
    obtain ⟨-, w2, -, -, -, -, -, -, hit⟩ := batchPass_facts env cfg block_size s
    refine ⟨passed :: passes, by simp [p1], ?_, ?_, ?_, ?_, ?_⟩
    · intro ps hps p hp
      rcases List.mem_cons.1 hps with rfl | hps
      · exact a1 p hp
      · exact hit.subset (p2 ps hps p hp)
    · rw [evictBlocksInBatch_succ, List.flatten_cons, chainAfter_append]
      rw [a2, chainAfter_setCounters] at p3
      exact sameChain_trans (sameChain_setCounters _ a b c d e f) p3
    · rw [evictBlocksInBatch_succ, p4, w2]
      simp [a3]
    · rw [evictBlocksInBatch_succ, p5, a4, List.flatten_cons, List.filter_append,
        List.length_append]
      push_cast
      ring
    · rw [evictBlocksInBatch_succ]
      exact sameChain_trans a5 p6

/-! ### C36: the chains after a parent/child eviction -/

/-- C36: after `evictBlockToDiskInBatch` the chain of the child table
(endpoints, count and links) is the chain it had before, whatever its
batch-evicted flag says.  On a parent table with an evicted table, the chain
of the parent is the chain obtained by calling `removeTuple` for the parents
that passed both size tests, in order, pass by pass; these are the parents
counted in the header of each block, they come from the iterator, and the
live ones among them are the parents that got a stub row.  A parent that is
rejected leaves the table of the parent as it was. -/
theorem C36_child_chain_untouched (env : Env) (cfg : BuildConfig) (w : World)
    (block_size num_blocks : Int) :
    SameChain w.childTable (evictBlockToDiskInBatch env cfg w block_size num_blocks).1.childTable
    ∧ (w.table.hasEvictedTable = true →
        ∃ passes : List (List TableTuple),
          passes.length = num_blocks.toNat
          ∧ (∀ passed ∈ passes, ∀ p ∈ passed, some p ∈ w.iterator)
          ∧ SameChain (chainAfter cfg w.table passes.flatten)
              (evictBlockToDiskInBatch env cfg w block_size num_blocks).1.table
          ∧ (writtenBlocks
                (evictBlockToDiskInBatch env cfg w block_size num_blocks).1.trace).map
              (fun b => b.1.headerCounts.head?)
            = (writtenBlocks w.trace).map (fun b => b.1.headerCounts.head?)
              ++ passes.map (fun passed => some (passed.length : Int))
          ∧ ((evictBlockToDiskInBatch env cfg w block_size num_blocks).1.evictedTable.length
              : Int)
            = w.evictedTable.length
              + (passes.flatten.filter (fun p => !p.isEvicted)).length)
    ∧ ∀ (block_id : Int) (s : BatchFillState) (tuple : TableTuple)
        (rest : List (Option TableTuple)),
        ((bufferedFor env block_size s tuple).2.2 = true
          ∨ s.block.serializedSize + MAX_EVICTED_TUPLE_SIZE
              + (bufferedFor env block_size s tuple).2.1 ≥ block_size) →
        (fillParents env cfg block_size block_id (some tuple :: rest) s).world.table
          = s.world.table := by
  have hmain : w.table.hasEvictedTable = true →
      ∃ passes : List (List TableTuple),
        passes.length = num_blocks.toNat
        ∧ (∀ passed ∈ passes, ∀ p ∈ passed, some p ∈ w.iterator)
        ∧ SameChain (chainAfter cfg w.table passes.flatten)
            (evictBlockToDiskInBatch env cfg w block_size num_blocks).1.table
        ∧ (writtenBlocks
              (evictBlockToDiskInBatch env cfg w block_size num_blocks).1.trace).map
            (fun b => b.1.headerCounts.head?)
          = (writtenBlocks w.trace).map (fun b => b.1.headerCounts.head?)
            ++ passes.map (fun passed => some (passed.length : Int))
        ∧ ((evictBlockToDiskInBatch env cfg w block_size num_blocks).1.evictedTable.length
            : Int)
          = w.evictedTable.length
            + (passes.flatten.filter (fun p => !p.isEvicted)).length
        ∧ SameChain w.childTable
            (evictBlockToDiskInBatch env cfg w block_size num_blocks).1.childTable := by
    intro hstub
    rw [evictBlockToDiskInBatch_eq env cfg w block_size num_blocks hstub]
    obtain ⟨f1, f2, -, f4, -, -, f7⟩ :=
      batchFlushed_facts (evictBlocksInBatch env cfg block_size num_blocks.toNat
        (batchStartState cfg w block_size num_blocks))
    obtain ⟨s1, s2, s3, s4, -, -, s7⟩ := batchStartWorld_facts cfg w block_size num_blocks
    have hw : (batchStartState cfg w block_size num_blocks).world
        = batchStartWorld cfg w block_size num_blocks := rfl
    obtain ⟨passes, p1, p2, p3, p4, p5, p6⟩ :=
      evictBlocksInBatch_chain env cfg block_size num_blocks.toNat
        (batchStartState cfg w block_size num_blocks)
    rw [hw] at p2 p3 p4 p5 p6
    rw [s3] at p2
    rw [s1] at p3
    rw [s7] at p4
    rw [s4] at p5
    rw [s2] at p6
    simp only [f1, f2, f4, f7]
    exact ⟨passes, p1, p2, p3, p4, p5, p6⟩
  refine ⟨?_, ?_, ?_⟩
  · cases hstub : w.table.hasEvictedTable
    · simp only [evictBlockToDiskInBatch, hstub, if_true]
      exact sameChain_refl _
    · obtain ⟨_, _, _, _, _, _, h⟩ := hmain hstub
      exact h
  · intro hstub
    obtain ⟨passes, h1, h2, h3, h4, h5, _⟩ := hmain hstub
    exact ⟨passes, h1, h2, h3, h4, h5⟩
  · intro block_id s tuple rest hrej
    rw [fillParents_some]
    split_ifs with hnomore hfull
    · rfl
    · rfl
    · rcases hrej with h | h
      · exact absurd h hnomore
      · exact absurd h hfull
    · rcases hrej with h | h
      · exact absurd h hnomore
      · exact absurd h hfull
    · rcases hrej with h | h
      · exact absurd h hnomore
      · exact absurd h hfull

set_option maxRecDepth 200000 in
/-- C36 at a parent table with the chain 1, 2, 3 and a child table with the
chain 11, 12, with two blocks of 10000 bytes: the children 11 and 12 are
evicted with parent 1 and the chain of the child is as before; parents 1 and
3 are removed from the chain of the parent, parent 2 is rejected and stays. -/
theorem C36_child_chain_untouched_witness :
    worldFamilyChains.table.hasEvictedTable = true
    ∧ (evictBlockToDiskInBatch envFamily lruDouble worldFamilyChains 10000
        2).1.childTable.view 13 = worldFamilyChains.childTable.view 13
    ∧ (evictBlockToDiskInBatch envFamily lruDouble worldFamilyChains 10000
        2).1.childEvictedTable = [⟨0, 0, true⟩, ⟨0, 1, true⟩]
    ∧ (evictBlockToDiskInBatch envFamily lruDouble worldFamilyChains 10000 2).1.table.view 4
      = (2, 2, 1, [0, 2, 3, 0], [0, 0, 1, 2])
    ∧ SameChain worldFamilyChains.childTable
        (evictBlockToDiskInBatch envFamily lruDouble worldFamilyChains 10000 2).1.childTable
    ∧ ∃ passes : List (List TableTuple),
        passes.length = (2 : Int).toNat
        ∧ (∀ passed ∈ passes, ∀ p ∈ passed, some p ∈ worldFamilyChains.iterator)
        ∧ SameChain (chainAfter lruDouble worldFamilyChains.table passes.flatten)
            (evictBlockToDiskInBatch envFamily lruDouble worldFamilyChains 10000 2).1.table
        ∧ (writtenBlocks
              (evictBlockToDiskInBatch envFamily lruDouble worldFamilyChains 10000
                2).1.trace).map (fun b => b.1.headerCounts.head?)
          = (writtenBlocks worldFamilyChains.trace).map (fun b => b.1.headerCounts.head?)
            ++ passes.map (fun passed => some (passed.length : Int))
        ∧ ((evictBlockToDiskInBatch envFamily lruDouble worldFamilyChains 10000
              2).1.evictedTable.length : Int)
          = worldFamilyChains.evictedTable.length
            + (passes.flatten.filter (fun p => !p.isEvicted)).length :=
  ⟨rfl, by decide, by decide, by decide,
    (C36_child_chain_untouched envFamily lruDouble worldFamilyChains 10000 2).1,
    (C36_child_chain_untouched envFamily lruDouble worldFamilyChains 10000 2).2.1 rfl⟩

/-! ### C32: the tuple a tuple-merge deserializes -/

theorem unevictTuples_tupleMerge (name : String) (k : Nat) :
    ∀ (m a : Nat) (s : MergeState),
      unevictTuples false name k (List.range' a m) s
        = if a ≤ k ∧ k < a + m then
            (unevictTuple name k k s).map
              (fun r => { r.1 with bytes_unevicted := r.1.bytes_unevicted + r.2 })
          else some s := by
  intro m
  induction m with
  | zero =>
    intro a s
    have h : ¬ (a ≤ k ∧ k < a + 0) := by omega
    rw [if_neg h]; rfl
  | succ m ih =>
    intro a s
    rw [List.range'_succ, unevictTuples]
    by_cases hak : a = k
    · subst hak
      have h1 : ¬ ((!false && decide ((a : Int) ≠ (a : Int))) = true) := by simp
      rw [if_neg h1]
      have h2 : a ≤ a ∧ a < a + (m + 1) := by omega
      rw [if_pos h2]
      cases hu : unevictTuple name a a s with
      | none => rfl
      | some r =>
        obtain ⟨s', bytes⟩ := r
        show unevictTuples false name a (List.range' (a + 1) m) _ = _
        rw [ih]
        have h3 : ¬ (a + 1 ≤ a ∧ a < a + 1 + m) := by omega
        rw [if_neg h3]; rfl
    · have h1 : (!false && decide ((a : Int) ≠ (k : Int))) = true := by
        simp; exact_mod_cast hak
      rw [if_pos h1, ih]
      by_cases h2 : a ≤ k ∧ k < a + (m + 1)
      · have h3 : a + 1 ≤ k ∧ k < a + 1 + m := by omega
        rw [if_pos h2, if_pos h3]
      · have h3 : ¬ (a + 1 ≤ k ∧ k < a + 1 + m) := by omega
        rw [if_neg h2, if_neg h3]

/-- Under tuple-merge, on a table with an evicted table, for a block with one
section of `n` tuples and a fault at the offset `k < n`: one call of `unevictTuple` is made, and it reads the
first serialized tuple of the block. -/
theorem mergeUnevictedTuples_tupleMerge (e : Engine) (t : PersistentTable) (n k : Nat)
    (first : Nat × Int) (rest : List (Nat × Int))
    (he : e.tables = [t]) (hev : t.hasEvictedTable = true) (hs : t.mergeStrategy = false)
    (hb : t.unevictedBlocks = [{ header := [(t.name, (n : Int))], body := first :: rest }])
    (ho : t.mergeTupleOffsets = [(k : Int)]) (hk : k < n) :
    mergeUnevictedTuples e t.name
      = some ({ tables :=
                  [{ t with
                      tuplesEvicted := t.tuplesEvicted - 1,
                      tuplesRead := t.tuplesRead + 1,
                      bytesEvicted := t.bytesEvicted - first.2,
                      bytesRead := t.bytesRead + first.2,
                      blocksEvicted := t.blocksEvicted - 1,
                      blocksRead := t.blocksRead + 1,
                      unevictedBlocks := [], mergeTupleOffsets := [] }],
                trace := e.trace ++ [.unevictTuple t.name k k,
                                     .deserializeWithHeaderFrom t.name first.1 first.2] },
              true) := by
  have hget : e.getTable t.name = some t := by
    simp [Engine.getTable, he]
  have hin : (0 ≤ k ∧ k < 0 + n) := by omega
  have hread : unevictTuples false t.name (k : Int) (List.range n)
        { trace := e.trace, stream := first :: rest, bytes_unevicted := 0 }
      = some { trace := e.trace ++ [.unevictTuple t.name k k,
                                    .deserializeWithHeaderFrom t.name first.1 first.2],
               stream := rest, bytes_unevicted := first.2 } := by
    rw [List.range_eq_range', unevictTuples_tupleMerge, if_pos hin]
    simp [unevictTuple]
  simp [mergeUnevictedTuples, hget, hb, ho, hs, hev, mergeBlocks, mergeSections, mergeSection,
    hread, Engine.setTable, he, Engine.getTable]

set_option maxRecDepth 200000 in
/-- C32, evaluated on a block of the table T with the tuples of the slots 1,
2, 3 serialized in 40, 50 and 60 bytes, under tuple-merge.  For each faulting
offset 0, 1, 2 the merge calls `unevictTuple` once and `tuples_evicted` goes
from 3 to 2, but the tuple that call deserializes is the one serialized at
position 0 (slot 1, 40 bytes), also for the offsets 1 and 2. -/
theorem C32_tuple_merge_reads_first_tuple :
    ((mergeUnevictedTuples (engineFault 0) "T").map (fun r => (r.1.trace, r.2))
        = some ([.unevictTuple "T" 0 0, .deserializeWithHeaderFrom "T" 1 40], true)
      ∧ (mergeUnevictedTuples (engineFault 1) "T").map (fun r => (r.1.trace, r.2))
        = some ([.unevictTuple "T" 1 1, .deserializeWithHeaderFrom "T" 1 40], true)
      ∧ (mergeUnevictedTuples (engineFault 2) "T").map (fun r => (r.1.trace, r.2))
        = some ([.unevictTuple "T" 2 2, .deserializeWithHeaderFrom "T" 1 40], true))
    ∧ ((engineFault 2).tupleCounters = [("T", 3, 0)]
      ∧ (mergeUnevictedTuples (engineFault 1) "T").map (fun r => r.1.tupleCounters)
        = some [("T", 2, 1)]
      ∧ (mergeUnevictedTuples (engineFault 2) "T").map (fun r => r.1.tupleCounters)
        = some [("T", 2, 1)])
    ∧ ((engineFault 2).byteCounters = [("T", 150, 0)]
      ∧ (mergeUnevictedTuples (engineFault 2) "T").map (fun r => r.1.byteCounters)
        = some [("T", 110, 40)]) := by
  refine ⟨⟨by decide, by decide, by decide⟩, ⟨by decide, by decide, by decide⟩,
    ⟨by decide, by decide⟩⟩

/-! ### C38: the pending lists of a table -/

theorem setTable_names (e : Engine) (table : PersistentTable) :
    (e.setTable table).names = e.names := by
  simp only [Engine.setTable, Engine.names, List.map_map]
  apply List.map_congr_left
  intro t _
  simp only [Function.comp]
  split_ifs with h
  · exact (eq_of_beq h).symm
  · rfl

theorem getTable_name (e : Engine) (name : String) (t : PersistentTable)
    (h : e.getTable name = some t) : t.name = name := by
  have := List.find?_some h
  exact eq_of_beq this

theorem getTable_of_mem (e : Engine) (name : String) (h : name ∈ e.names) :
    ∃ t, e.getTable name = some t := by
  simp only [Engine.names, List.mem_map] at h
  obtain ⟨t, ht, hn⟩ := h
  have : (e.tables.find? (fun t => t.name == name)).isSome = true := by
    rw [List.find?_isSome]
    exact ⟨t, ht, by simp [hn]⟩
  exact Option.isSome_iff_exists.mp this

theorem mem_names_of_getTable (e : Engine) (name : String) (t : PersistentTable)
    (h : e.getTable name = some t) : name ∈ e.names := by
  have h1 := List.mem_of_find?_eq_some h
  have h2 := getTable_name e name t h
  simp only [Engine.names, List.mem_map]
  exact ⟨t, h1, h2⟩

theorem find_map_set (name : String) (table : PersistentTable) (hn : table.name = name) :
    ∀ (ts : List PersistentTable) (t : PersistentTable),
      ts.find? (fun t => t.name == name) = some t →
      (ts.map (fun t => if t.name == table.name then table else t)).find?
          (fun t => t.name == name) = some table := by
  intro ts
  induction ts with
  | nil => intro t h; simp at h
  | cons x xs ih =>
    intro t h
    by_cases hx : x.name = name
    · simp [List.find?, hx, hn]
    · have hx1 : (x.name == name) = false := by simpa using hx
      have hx2 : (x.name == table.name) = false := by rw [hn]; exact hx1
      rw [List.find?_cons, hx1] at h
      simp only [List.map_cons, hx2, Bool.false_eq_true, if_false, List.find?_cons, hx1]
      exact ih t h

theorem getTable_setTable (e : Engine) (name : String) (t table : PersistentTable)
    (h : e.getTable name = some t) (hn : table.name = name) :
    (e.setTable table).getTable name = some table :=
  find_map_set name table hn e.tables t h

theorem unevictTuples_defined (tableStrategy : Bool) (name : String) (offset : Int) :
    ∀ (js : List Nat) (s : MergeState), js.length ≤ s.stream.length →
      ∃ s', unevictTuples tableStrategy name offset js s = some s'
        ∧ s.stream.length ≤ s'.stream.length + js.length := by
  intro js
  induction js with
  | nil => intro s _; exact ⟨s, rfl, by simp⟩
  | cons j more ih =>
    intro s hlen
    rw [unevictTuples]
    simp only [List.length_cons] at hlen
    split_ifs with hskip
    · obtain ⟨s', h1, h2⟩ := ih s (by omega)
      exact ⟨s', h1, by simp only [List.length_cons]; omega⟩
    · cases hs : s.stream with
      | nil => rw [hs] at hlen; simp at hlen
      | cons x rest =>
        have hu : unevictTuple name j offset s
            = some ({ s with
                trace := s.trace ++ [.unevictTuple name j offset,
                                     .deserializeWithHeaderFrom name x.1 x.2],
                stream := rest }, x.2) := by
          simp [unevictTuple, hs]
        rw [hu]
        rw [hs] at hlen
        simp only [List.length_cons] at hlen
        obtain ⟨s', h1, h2⟩ := ih
          { trace := s.trace ++ [.unevictTuple name j offset,
                                 .deserializeWithHeaderFrom name x.1 x.2],
            stream := rest, bytes_unevicted := s.bytes_unevicted + x.2 } (by simpa using by omega)
        refine ⟨s', h1, ?_⟩
        simp only [List.length_cons] at h2 ⊢
        omega

theorem mergeSection_defined (tableStrategy : Bool) (offset : Int) (e : Engine)
    (stream : List (Nat × Int)) (sect : String × Int)
    (hname : sect.1 ∈ e.names) (hlen : sect.2.toNat ≤ stream.length) :
    ∃ e' stream', mergeSection tableStrategy offset e stream sect = some (e', stream')
      ∧ e'.names = e.names ∧ stream.length ≤ stream'.length + sect.2.toNat := by
  obtain ⟨t, ht⟩ := getTable_of_mem e sect.1 hname
  obtain ⟨s', h1, h2⟩ := unevictTuples_defined tableStrategy sect.1 offset
    (List.range sect.2.toNat) { trace := e.trace, stream := stream, bytes_unevicted := 0 }
    (by simpa using hlen)
  simp only [mergeSection, ht, h1]
  refine ⟨_, _, rfl, ?_, ?_⟩
  · rw [setTable_names]; rfl
  · simpa using h2

theorem mergeSections_defined (tableStrategy : Bool) (offset : Int) :
    ∀ (sects : List (String × Int)) (e : Engine) (stream : List (Nat × Int)),
      (∀ sect ∈ sects, sect.1 ∈ e.names) →
      (sects.map (fun sect => sect.2.toNat)).sum ≤ stream.length →
      ∃ e' stream', mergeSections tableStrategy offset e stream sects = some (e', stream')
        ∧ e'.names = e.names := by
  intro sects
  induction sects with
  | nil => intro e stream _ _; exact ⟨e, stream, rfl, rfl⟩
  | cons sect more ih =>
    intro e stream hnames hlen
    simp only [List.map_cons, List.sum_cons] at hlen
    obtain ⟨e1, stream1, h1, h2, h3⟩ := mergeSection_defined tableStrategy offset e stream sect
      (hnames sect (List.mem_cons_self _ _)) (by omega)
    obtain ⟨e2, stream2, h4, h5⟩ := ih e1 stream1
      (fun s hs => by rw [h2]; exact hnames s (List.mem_cons_of_mem _ hs)) (by omega)
    refine ⟨e2, stream2, ?_, by rw [h5, h2]⟩
    rw [mergeSections, h1]
    exact h4

theorem wellFormed_iff (names : List String) (block : AntiCacheBlock) :
    block.wellFormed names = true ↔
      (∀ sect ∈ block.header, sect.1 ∈ names)
        ∧ (block.header.map (fun sect => sect.2.toNat)).sum ≤ block.body.length := by
  simp [AntiCacheBlock.wellFormed]

theorem mergeBlocks_defined (tableStrategy : Bool) :
    ∀ (blocks : List AntiCacheBlock) (e : Engine) (offsets : List Int),
      blocks.length ≤ offsets.length →
      (∀ block ∈ blocks, block.wellFormed e.names = true) →
      ∃ e', mergeBlocks tableStrategy e blocks offsets = some e' ∧ e'.names = e.names := by
  intro blocks
  induction blocks with
  | nil => intro e offsets _ _; exact ⟨e, by rw [mergeBlocks], rfl⟩
  | cons block more ih =>
    intro e offsets hlen hwf
    cases offsets with
    | nil => simp at hlen
    | cons offset offsets =>
      have hb := (wellFormed_iff e.names block).mp (hwf block (List.mem_cons_self _ _))
      obtain ⟨e1, stream1, h1, h2⟩ := mergeSections_defined tableStrategy offset block.header e
        block.body hb.1 hb.2
      obtain ⟨e2, h3, h4⟩ := ih e1 offsets (by simpa using hlen)
        (fun b hbm => by rw [h2]; exact hwf b (List.mem_cons_of_mem _ hbm))
      refine ⟨e2, ?_, by rw [h4, h2]⟩
      rw [mergeBlocks, h1]
      exact h3

theorem find_map_set_ne (name : String) (table : PersistentTable) (hn : table.name ≠ name) :
    ∀ ts : List PersistentTable,
      (ts.map (fun t => if t.name == table.name then table else t)).find?
          (fun t => t.name == name)
        = ts.find? (fun t => t.name == name) := by
  intro ts
  induction ts with
  | nil => rfl
  | cons x xs ih =>
    have ht : (table.name == name) = false := by simpa using hn
    by_cases hx : x.name = table.name
    · have hx1 : (x.name == table.name) = true := by simpa using hx
      have hx2 : (x.name == name) = false := by rw [hx]; exact ht
      simp only [List.map_cons, hx1, if_true, List.find?_cons, ht, hx2]
      exact ih
    · have hx1 : (x.name == table.name) = false := by simpa using hx
      simp only [List.map_cons, hx1, Bool.false_eq_true, if_false, List.find?_cons]
      cases (x.name == name)
      · exact ih
      · rfl

theorem getTable_setTable_ne (e : Engine) (name : String) (table : PersistentTable)
    (hn : table.name ≠ name) : (e.setTable table).getTable name = e.getTable name :=
  find_map_set_ne name table hn e.tables

/-- Writing to a table through its pointer the flag it had leaves every table
of the engine with or without its evicted table as before. -/
theorem setTable_evicted (e : Engine) (table found : PersistentTable)
    (hfound : e.getTable table.name = some found)
    (hev : table.hasEvictedTable = found.hasEvictedTable) (name : String) :
    ((e.setTable table).getTable name).map (fun t => t.hasEvictedTable)
      = (e.getTable name).map (fun t => t.hasEvictedTable) := by
  by_cases hn : table.name = name
  · subst hn
    rw [getTable_setTable e table.name found table hfound rfl, hfound]
    simp [hev]
  · rw [getTable_setTable_ne e name table hn]

theorem mergeSection_evicted (tableStrategy : Bool) (offset : Int) (e e' : Engine)
    (stream stream' : List (Nat × Int)) (sect : String × Int)
    (h : mergeSection tableStrategy offset e stream sect = some (e', stream'))
    (name : String) :
    (e'.getTable name).map (fun t => t.hasEvictedTable)
      = (e.getTable name).map (fun t => t.hasEvictedTable) := by
  unfold mergeSection at h
  cases hg : e.getTable sect.1 with
  | none => rw [hg] at h; simp at h
  | some found =>
    rw [hg] at h
    simp only at h
    cases hu : unevictTuples tableStrategy sect.1 offset (List.range sect.2.toNat)
        { trace := e.trace, stream := stream, bytes_unevicted := 0 } with
    | none => rw [hu] at h; simp at h
    | some read =>
      rw [hu] at h
      simp only [Option.some.injEq, Prod.mk.injEq] at h
      obtain ⟨h1, -⟩ := h
      rw [← h1]
      have hn : found.name = sect.1 := getTable_name e sect.1 found hg
      refine setTable_evicted _ _ found ?_ ?_ name
      · show e.getTable found.name = some found
        rw [hn]; exact hg
      · rfl

theorem mergeSections_evicted (tableStrategy : Bool) (offset : Int) :
    ∀ (sects : List (String × Int)) (e e' : Engine) (stream stream' : List (Nat × Int)),
      mergeSections tableStrategy offset e stream sects = some (e', stream') →
      ∀ name : String, (e'.getTable name).map (fun t => t.hasEvictedTable)
        = (e.getTable name).map (fun t => t.hasEvictedTable) := by
  intro sects
  induction sects with
  | nil =>
    intro e e' stream stream' h name
    simp only [mergeSections, Option.some.injEq, Prod.mk.injEq] at h
    rw [← h.1]
  | cons sect more ih =>
    intro e e' stream stream' h name
    rw [mergeSections] at h
    cases h1 : mergeSection tableStrategy offset e stream sect with
    | none => rw [h1] at h; simp at h
    | some r =>
      obtain ⟨e1, stream1⟩ := r
      rw [h1] at h
      rw [ih e1 e' stream1 stream' h name,
        mergeSection_evicted tableStrategy offset e e1 stream stream1 sect h1 name]

theorem mergeBlocks_evicted (tableStrategy : Bool) :
    ∀ (blocks : List AntiCacheBlock) (e e' : Engine) (offsets : List Int),
      mergeBlocks tableStrategy e blocks offsets = some e' →
      ∀ name : String, (e'.getTable name).map (fun t => t.hasEvictedTable)
        = (e.getTable name).map (fun t => t.hasEvictedTable) := by
  intro blocks
  induction blocks with
  | nil =>
    intro e e' offsets h name
    rw [mergeBlocks] at h
    simp only [Option.some.injEq] at h
    rw [← h]
  | cons block more ih =>
    intro e e' offsets h name
    cases offsets with
    | nil => rw [mergeBlocks] at h; simp at h
    | cons offset offsets =>
      rw [mergeBlocks] at h
      cases h1 : mergeSections tableStrategy offset e block.body block.header with
      | none => rw [h1] at h; simp at h
      | some r =>
        obtain ⟨e1, stream1⟩ := r
        rw [h1] at h
        rw [ih e1 e' offsets h name,
          mergeSections_evicted tableStrategy offset block.header e e1 block.body stream1 h1
            name]

/-- Whatever a merge with a pending block returns, it returns true and the
table it was called for has no pending block and no merge offset left. -/
theorem mergeUnevictedTuples_clears (e : Engine) (name : String) (t : PersistentTable)
    (ht : e.getTable name = some t) (hne : t.unevictedBlocks ≠ [])
    (r : Engine × Bool) (hr : mergeUnevictedTuples e name = some r) :
    r.2 = true
      ∧ ∃ t', r.1.getTable name = some t' ∧ t'.unevictedBlocks = []
          ∧ t'.mergeTupleOffsets = [] := by
  have hlen : ¬ t.unevictedBlocks.length = 0 := by
    intro h; exact hne (List.length_eq_zero.mp h)
  simp only [mergeUnevictedTuples, ht, hlen, if_false] at hr
  by_cases hev : t.hasEvictedTable = false
  · rw [if_pos hev] at hr; simp at hr
  rw [if_neg hev] at hr
  cases h1 : mergeBlocks t.mergeStrategy e t.unevictedBlocks t.mergeTupleOffsets with
  | none => rw [h1] at hr; simp at hr
  | some e1 =>
    rw [h1] at hr
    cases h2 : e1.getTable name with
    | none => simp [h2] at hr
    | some t1 =>
      simp only [h2, Option.some.injEq] at hr
      subst hr
      refine ⟨rfl, { t1 with unevictedBlocks := [], mergeTupleOffsets := [] }, ?_, rfl, rfl⟩
      exact getTable_setTable e1 name t1 _ h2 (getTable_name e1 name t1 h2)

/-- A merge with a pending block is defined when the table has an evicted
table, the pending lists are parallel and the pending blocks are well
formed. -/
theorem mergeUnevictedTuples_defined (e : Engine) (name : String) (t : PersistentTable)
    (ht : e.getTable name = some t) (hne : t.unevictedBlocks ≠ [])
    (hev : t.hasEvictedTable = true)
    (hpar : t.unevictedBlocks.length = t.mergeTupleOffsets.length)
    (hwf : ∀ block ∈ t.unevictedBlocks, block.wellFormed e.names = true) :
    ∃ e' t', mergeUnevictedTuples e name = some (e', true)
      ∧ e'.getTable name = some t' ∧ t'.unevictedBlocks = [] ∧ t'.mergeTupleOffsets = []
      ∧ e'.names = e.names ∧ t'.hasEvictedTable = true := by
  have hlen : ¬ t.unevictedBlocks.length = 0 := by
    intro h; exact hne (List.length_eq_zero.mp h)
  obtain ⟨e1, h1, h2⟩ := mergeBlocks_defined t.mergeStrategy t.unevictedBlocks e
    t.mergeTupleOffsets (by omega) hwf
  have hmem : name ∈ e1.names := by
    rw [h2]; exact mem_names_of_getTable e name t ht
  obtain ⟨t1, h3⟩ := getTable_of_mem e1 name hmem
  have hkeep := mergeBlocks_evicted t.mergeStrategy t.unevictedBlocks e e1
    t.mergeTupleOffsets h1 name
  rw [h3, ht] at hkeep
  simp only [Option.map_some', Option.some.injEq] at hkeep
  refine ⟨e1.setTable { t1 with unevictedBlocks := [], mergeTupleOffsets := [] },
    { t1 with unevictedBlocks := [], mergeTupleOffsets := [] }, ?_, ?_, rfl, rfl, ?_, ?_⟩
  · simp only [mergeUnevictedTuples, ht, hlen, if_false, hev, Bool.true_eq_false, h1, h3]
  · exact getTable_setTable e1 name t1 _ h3 (getTable_name e1 name t1 h3)
  · rw [setTable_names, h2]
  · show t1.hasEvictedTable = true
    rw [hkeep]; exact hev

theorem mergeUnevictedTuples_none_pending (e : Engine) (name : String) (t : PersistentTable)
    (ht : e.getTable name = some t) (hnil : t.unevictedBlocks = []) :
    mergeUnevictedTuples e name = some (e, false) := by
  simp [mergeUnevictedTuples, ht, hnil]

theorem insertUnevictedBlockID_fields (table : PersistentTable) (entry : Int × Int) :
    (insertUnevictedBlockID table entry).name = table.name
      ∧ (insertUnevictedBlockID table entry).unevictedBlocks = table.unevictedBlocks
      ∧ (insertUnevictedBlockID table entry).mergeTupleOffsets = table.mergeTupleOffsets := by
  unfold insertUnevictedBlockID
  split_ifs <;> exact ⟨rfl, rfl, rfl⟩

theorem readEvictedBlock_table (readBlock : String → Int → Option AntiCacheBlock) (w : World)
    (block_id tuple_offset : Int) :
    (readEvictedBlock readBlock w block_id tuple_offset).1.table.name = w.table.name
      ∧ (((readEvictedBlock readBlock w block_id tuple_offset).1.table.unevictedBlocks
            = w.table.unevictedBlocks
          ∧ (readEvictedBlock readBlock w block_id tuple_offset).1.table.mergeTupleOffsets
            = w.table.mergeTupleOffsets)
        ∨ ∃ value, readBlock w.table.name block_id = some value
          ∧ (readEvictedBlock readBlock w block_id tuple_offset).1.table.unevictedBlocks
            = w.table.unevictedBlocks ++ [value]
          ∧ (readEvictedBlock readBlock w block_id tuple_offset).1.table.mergeTupleOffsets
            = w.table.mergeTupleOffsets ++ [tuple_offset]) := by
  by_cases hseen : isAlreadyUnEvicted w.table block_id = true
  · have h1 : readEvictedBlock readBlock w block_id tuple_offset = (w, .ok true) := by
      simp [readEvictedBlock, hseen]
    rw [h1]
    exact ⟨rfl, Or.inl ⟨rfl, rfl⟩⟩
  · cases hread : readBlock w.table.name block_id with
    | none =>
      have h1 : readEvictedBlock readBlock w block_id tuple_offset
          = (w.log (.readBlock w.table.name block_id),
              .error "UnknownBlockAccessException") := by
        simp [readEvictedBlock, hseen, hread]
      rw [h1]
      exact ⟨rfl, Or.inl ⟨rfl, rfl⟩⟩
    | some value =>
      have h1 : readEvictedBlock readBlock w block_id tuple_offset
          = ({ w.log (.readBlock w.table.name block_id) with
                table := insertUnevictedBlockID
                  (insertTupleOffset (insertUnevictedBlock w.table value) tuple_offset)
                  (block_id, 0) }, .ok true) := by
        simp [readEvictedBlock, hseen, hread]
      rw [h1]
      obtain ⟨f1, f2, f3⟩ := insertUnevictedBlockID_fields
        (insertTupleOffset (insertUnevictedBlock w.table value) tuple_offset) (block_id, 0)
      refine ⟨?_, Or.inr ⟨value, rfl, ?_, ?_⟩⟩
      · show (insertUnevictedBlockID _ _).name = _
        rw [f1]; rfl
      · show (insertUnevictedBlockID _ _).unevictedBlocks = _
        rw [f2]; rfl
      · show (insertUnevictedBlockID _ _).mergeTupleOffsets = _
        rw [f3]; rfl

theorem pendingParallel_iff (name : String) (e : Engine) :
    pendingParallel name e = true ↔
      ∃ t, e.getTable name = some t
        ∧ t.unevictedBlocks.length = t.mergeTupleOffsets.length := by
  unfold pendingParallel
  cases h : e.getTable name with
  | none => simp
  | some t => simp

theorem pendingWellFormed_iff (name : String) (e : Engine) :
    pendingWellFormed name e = true ↔
      ∃ t, e.getTable name = some t
        ∧ t.hasEvictedTable = true
        ∧ t.unevictedBlocks.length = t.mergeTupleOffsets.length
        ∧ ∀ block ∈ t.unevictedBlocks, block.wellFormed e.names = true := by
  unfold pendingWellFormed
  cases h : e.getTable name with
  | none => simp
  | some t => simp [and_assoc]

theorem readEvictedBlock_hasEvictedTable (readBlock : String → Int → Option AntiCacheBlock)
    (w : World) (block_id tuple_offset : Int) :
    (readEvictedBlock readBlock w block_id tuple_offset).1.table.hasEvictedTable
      = w.table.hasEvictedTable := by
  unfold readEvictedBlock
  simp only
  split_ifs
  · rfl
  · cases readBlock w.table.name block_id with
    | none => rfl
    | some value =>
      show (insertUnevictedBlockID _ _).hasEvictedTable = _
      unfold insertUnevictedBlockID
      split_ifs <;> rfl

theorem callOnTable_parallel (readBlock : String → Int → Option AntiCacheBlock)
    (name : String) (e e' : Engine) (call : PendingCall)
    (hpar : pendingParallel name e = true)
    (hcall : callOnTable readBlock name e call = some e') :
    pendingParallel name e' = true := by
  obtain ⟨t, ht, hlen⟩ := (pendingParallel_iff name e).mp hpar
  rw [pendingParallel_iff]
  cases call with
  | readEvictedBlock block_id tuple_offset =>
    simp only [callOnTable, ht, Option.some.injEq] at hcall
    subst hcall
    obtain ⟨hn, hcases⟩ := readEvictedBlock_table readBlock
      { table := t, trace := e.trace } block_id tuple_offset
    have hname : t.name = name := getTable_name e name t ht
    refine ⟨_, getTable_setTable _ name t _ ht (by rw [hn]; exact hname), ?_⟩
    rcases hcases with ⟨h1, h2⟩ | ⟨value, _, h1, h2⟩
    · rw [h1, h2]; exact hlen
    · rw [h1, h2]; simp only [List.length_append, List.length_singleton]
      have : t.unevictedBlocks.length = t.mergeTupleOffsets.length := hlen
      omega
  | mergeUnevictedTuples =>
    simp only [callOnTable, Option.map_eq_some'] at hcall
    obtain ⟨r, hr, hre⟩ := hcall
    subst hre
    by_cases hnil : t.unevictedBlocks = []
    · rw [mergeUnevictedTuples_none_pending e name t ht hnil] at hr
      simp only [Option.some.injEq] at hr
      subst hr
      exact ⟨t, ht, hlen⟩
    · obtain ⟨_, t', h1, h2, h3⟩ := mergeUnevictedTuples_clears e name t ht hnil r hr
      exact ⟨t', h1, by rw [h2, h3]; rfl⟩

theorem callOnTable_wellFormed (readBlock : String → Int → Option AntiCacheBlock)
    (name : String) (e : Engine) (call : PendingCall)
    (hstore : ∀ n b value, readBlock n b = some value → value.wellFormed e.names = true)
    (hwf : pendingWellFormed name e = true) :
    ∃ e', callOnTable readBlock name e call = some e'
      ∧ e'.names = e.names ∧ pendingWellFormed name e' = true := by
  obtain ⟨t, ht, hev, hlen, hblocks⟩ := (pendingWellFormed_iff name e).mp hwf
  cases call with
  | readEvictedBlock block_id tuple_offset =>
    obtain ⟨hn, hcases⟩ := readEvictedBlock_table readBlock
      { table := t, trace := e.trace } block_id tuple_offset
    have hkeep := readEvictedBlock_hasEvictedTable readBlock
      { table := t, trace := e.trace } block_id tuple_offset
    have hname : t.name = name := getTable_name e name t ht
    refine ⟨_, by simp only [callOnTable, ht]; rfl, ?_, ?_⟩
    · rw [setTable_names]; rfl
    · rw [pendingWellFormed_iff]
      refine ⟨_, getTable_setTable _ name t _ ht (by rw [hn]; exact hname),
        by rw [hkeep]; exact hev, ?_, ?_⟩
      · rcases hcases with ⟨h1, h2⟩ | ⟨value, _, h1, h2⟩
        · rw [h1, h2]; exact hlen
        · rw [h1, h2]; simp only [List.length_append, List.length_singleton]
          have : t.unevictedBlocks.length = t.mergeTupleOffsets.length := hlen
          omega
      · rw [setTable_names]
        show ∀ block ∈ _, AntiCacheBlock.wellFormed e.names block = true
        rcases hcases with ⟨h1, _⟩ | ⟨value, hv, h1, _⟩
        · rw [h1]; exact hblocks
        · rw [h1]
          intro block hb
          rcases List.mem_append.mp hb with hb | hb
          · exact hblocks block hb
          · rw [List.mem_singleton.mp hb]
            exact hstore _ _ value hv
  | mergeUnevictedTuples =>
    by_cases hnil : t.unevictedBlocks = []
    · refine ⟨e, ?_, rfl, hwf⟩
      simp only [callOnTable, mergeUnevictedTuples_none_pending e name t ht hnil, Option.map_some']
    · obtain ⟨e1, t1, h1, h2, h3, h4, h5, h6⟩ :=
        mergeUnevictedTuples_defined e name t ht hnil hev hlen hblocks
      refine ⟨e1, ?_, h5, ?_⟩
      · simp only [callOnTable, h1, Option.map_some']
      · rw [pendingWellFormed_iff]
        exact ⟨t1, h2, h6, by rw [h3, h4]; rfl, by rw [h3]; intro b hb; simp at hb⟩

theorem callsOnTable_parallel (readBlock : String → Int → Option AntiCacheBlock)
    (name : String) :
    ∀ (calls : List PendingCall) (e e' : Engine), pendingParallel name e = true →
      callsOnTable readBlock name e calls = some e' → pendingParallel name e' = true := by
  intro calls
  induction calls with
  | nil =>
    intro e e' hpar h
    simp only [callsOnTable, Option.some.injEq] at h
    subst h; exact hpar
  | cons call more ih =>
    intro e e' hpar h
    rw [callsOnTable] at h
    cases h1 : callOnTable readBlock name e call with
    | none => rw [h1] at h; simp at h
    | some e1 =>
      rw [h1] at h
      exact ih e1 e' (callOnTable_parallel readBlock name e e1 call hpar h1) h

theorem callsOnTable_wellFormed (readBlock : String → Int → Option AntiCacheBlock)
    (name : String) :
    ∀ (calls : List PendingCall) (e : Engine),
      (∀ n b value, readBlock n b = some value → value.wellFormed e.names = true) →
      pendingWellFormed name e = true →
      ∃ e', callsOnTable readBlock name e calls = some e'
        ∧ pendingWellFormed name e' = true := by
  intro calls
  induction calls with
  | nil => intro e _ hwf; exact ⟨e, rfl, hwf⟩
  | cons call more ih =>
    intro e hstore hwf
    obtain ⟨e1, h1, h2, h3⟩ := callOnTable_wellFormed readBlock name e call hstore hwf
    obtain ⟨e2, h4, h5⟩ := ih e1 (by rw [h2]; exact hstore) h3
    refine ⟨e2, ?_, h5⟩
    rw [callsOnTable, h1]
    exact h4

/-- C38: the list of pending blocks and the list of merge offsets of a table
stay parallel.  (1) Every sequence of `readEvictedBlock` and
`mergeUnevictedTuples` calls on the table that starts with lists of equal
length ends with lists of equal length.  (2) When the table has an evicted
table and the blocks of the store are well formed for the tables of the
engine, every such sequence runs to its end.  (3) A read of a block that is
not marked unevicted and that the store holds returns true and appends the
block to the one list and the offset to the other.  (4) A merge with a pending
block returns true and leaves both lists empty, and (5) it is defined when the
table has an evicted table, the lists are parallel and the pending blocks well
formed.  (6) A merge with no pending block returns false and leaves the whole
engine as it was. -/
theorem C38_pending_lists_parallel (readBlock : String → Int → Option AntiCacheBlock)
    (name : String) :
    (∀ (calls : List PendingCall) (e e' : Engine), pendingParallel name e = true →
        callsOnTable readBlock name e calls = some e' → pendingParallel name e' = true)
    ∧ (∀ (calls : List PendingCall) (e : Engine),
        (∀ n b value, readBlock n b = some value → value.wellFormed e.names = true) →
        pendingWellFormed name e = true →
        ∃ e', callsOnTable readBlock name e calls = some e'
          ∧ pendingWellFormed name e' = true ∧ pendingParallel name e' = true)
    ∧ (∀ (w : World) (block_id tuple_offset : Int) (value : AntiCacheBlock),
        isAlreadyUnEvicted w.table block_id = false →
        readBlock w.table.name block_id = some value →
        (readEvictedBlock readBlock w block_id tuple_offset).2 = .ok true
          ∧ (readEvictedBlock readBlock w block_id tuple_offset).1.table.unevictedBlocks
            = w.table.unevictedBlocks ++ [value]
          ∧ (readEvictedBlock readBlock w block_id tuple_offset).1.table.mergeTupleOffsets
            = w.table.mergeTupleOffsets ++ [tuple_offset])
    ∧ (∀ (e : Engine) (t : PersistentTable) (r : Engine × Bool),
        e.getTable name = some t → t.unevictedBlocks ≠ [] →
        mergeUnevictedTuples e name = some r →
        r.2 = true
          ∧ ∃ t', r.1.getTable name = some t' ∧ t'.unevictedBlocks = []
              ∧ t'.mergeTupleOffsets = [])
    ∧ (∀ (e : Engine) (t : PersistentTable),
        e.getTable name = some t → t.unevictedBlocks ≠ [] →
        t.hasEvictedTable = true →
        t.unevictedBlocks.length = t.mergeTupleOffsets.length →
        (∀ block ∈ t.unevictedBlocks, block.wellFormed e.names = true) →
        ∃ e' t', mergeUnevictedTuples e name = some (e', true)
          ∧ e'.getTable name = some t' ∧ t'.unevictedBlocks = []
          ∧ t'.mergeTupleOffsets = [])
    ∧ (∀ (e : Engine) (t : PersistentTable),
        e.getTable name = some t → t.unevictedBlocks = [] →
        mergeUnevictedTuples e name = some (e, false)) := by
  refine ⟨callsOnTable_parallel readBlock name, ?_, ?_, ?_, ?_, ?_⟩
  · intro calls e hstore hwf
    obtain ⟨e', h1, h2⟩ := callsOnTable_wellFormed readBlock name calls e hstore hwf
    refine ⟨e', h1, h2, ?_⟩
    obtain ⟨t, ht, _, hlen, _⟩ := (pendingWellFormed_iff name e').mp h2
    exact (pendingParallel_iff name e').mpr ⟨t, ht, hlen⟩
  · intro w block_id tuple_offset value hnew hread
    have h1 : readEvictedBlock readBlock w block_id tuple_offset
        = ({ w.log (.readBlock w.table.name block_id) with
              table := insertUnevictedBlockID
                (insertTupleOffset (insertUnevictedBlock w.table value) tuple_offset)
                (block_id, 0) }, .ok true) := by
      simp [readEvictedBlock, hnew, hread]
    rw [h1]
    obtain ⟨_, f2, f3⟩ := insertUnevictedBlockID_fields
      (insertTupleOffset (insertUnevictedBlock w.table value) tuple_offset) (block_id, 0)
    refine ⟨rfl, ?_, ?_⟩
    · show (insertUnevictedBlockID _ _).unevictedBlocks = _
      rw [f2]; rfl
    · show (insertUnevictedBlockID _ _).mergeTupleOffsets = _
      rw [f3]; rfl
  · intro e t r ht hne hr
    exact mergeUnevictedTuples_clears e name t ht hne r hr
  · intro e t ht hne hev hlen hwf
    obtain ⟨e', t', h1, h2, h3, h4, _⟩ :=
      mergeUnevictedTuples_defined e name t ht hne hev hlen hwf
    exact ⟨e', t', h1, h2, h3, h4⟩
  · intro e t ht hnil
    exact mergeUnevictedTuples_none_pending e name t ht hnil

set_option maxRecDepth 200000 in
/-- C38 at the table T of an engine and a store that holds the block 7: the
block is read for the offset 2, read again for the offset 0, merged, and the
merge is called once more. -/
theorem C38_pending_lists_parallel_witness :
    pendingWellFormed "T" engineOneTable = true
    ∧ (∃ e', callsOnTable storeWithBlock7 "T" engineOneTable
          [.readEvictedBlock 7 2, .readEvictedBlock 7 0, .mergeUnevictedTuples,
           .mergeUnevictedTuples] = some e'
        ∧ pendingWellFormed "T" e' = true ∧ pendingParallel "T" e' = true)
    ∧ (callsOnTable storeWithBlock7 "T" engineOneTable [.readEvictedBlock 7 2]).map
        (fun e => e.pending) = some [(1, [2], [(7, 0)])]
    ∧ (callsOnTable storeWithBlock7 "T" engineOneTable
        [.readEvictedBlock 7 2, .readEvictedBlock 7 0]).map
        (fun e => e.pending) = some [(1, [2], [(7, 0)])]
    ∧ (callsOnTable storeWithBlock7 "T" engineOneTable
        [.readEvictedBlock 7 2, .readEvictedBlock 7 0, .mergeUnevictedTuples]).map
        (fun e => e.pending) = some [(0, [], [(7, 0)])]
    ∧ (callsOnTable storeWithBlock7 "T" engineOneTable
        [.readEvictedBlock 7 2, .readEvictedBlock 7 0, .mergeUnevictedTuples]).map
        (fun e => e.tupleCounters) = some [("T", 0, 3)]
    ∧ (callsOnTable storeWithBlock7 "T" engineOneTable
        [.readEvictedBlock 7 2, .readEvictedBlock 7 0, .mergeUnevictedTuples,
         .mergeUnevictedTuples]).map
        (fun e => e.pending) = some [(0, [], [(7, 0)])]
    ∧ (callsOnTable storeWithBlock7 "T" engineOneTable
        [.readEvictedBlock 7 2, .readEvictedBlock 7 0, .mergeUnevictedTuples,
         .mergeUnevictedTuples]).map
        (fun e => e.tupleCounters) = some [("T", 0, 3)] :=
  ⟨by decide,
   (C38_pending_lists_parallel storeWithBlock7 "T").2.1
     [.readEvictedBlock 7 2, .readEvictedBlock 7 0, .mergeUnevictedTuples,
      .mergeUnevictedTuples] engineOneTable
     (fun n b value h => by
        unfold storeWithBlock7 at h
        split_ifs at h
        simp only [Option.some.injEq] at h
        subst h
        decide)
     (by decide),
   by decide, by decide, by decide, by decide, by decide, by decide⟩

/-! ### C31: the counters of an eviction, a read and a merge -/

theorem removeDouble_pending (table : PersistentTable) (tup id : Nat) :
    (removeTupleDoubleLinkedList table tup id).2.pendingView = table.pendingView := by
  by_cases h0 : table.numTuplesInEvictionChain ≤ 0
  · rw [removeDouble_empty table tup id h0]
  · have hpos : 0 < table.numTuplesInEvictionChain := by omega
    by_cases hn : table.newestTupleID = id
    · by_cases h1 : table.numTuplesInEvictionChain = 1
      · rw [removeDouble_newest_one table tup id h1 hn]; rfl
      · by_cases h2 : table.numTuplesInEvictionChain = 2
        · rw [removeDouble_newest_two table tup id h2 hn]; rfl
        · rw [removeDouble_newest_many table tup id (by omega) hn]; rfl
    · by_cases ho : table.oldestTupleID = id
      · by_cases h1 : table.numTuplesInEvictionChain = 1
        · rw [removeDouble_oldest_one table tup id h1 hn ho]; rfl
        · by_cases h2 : table.numTuplesInEvictionChain = 2
          · rw [removeDouble_oldest_two table tup id h2 hn ho]; rfl
          · rw [removeDouble_oldest_many table tup id (by omega) hn ho]; rfl
      · rw [removeDouble_other table tup id hpos hn ho]; rfl

theorem scanChain_pending (removal_id : Nat) :
    ∀ (fuel : Nat) (s : ScanState),
      (scanChain removal_id fuel s).table.pendingView = s.table.pendingView := by
  intro fuel
  induction fuel with
  | zero => intro s; rfl
  | succ n ih =>
    intro s
    unfold scanChain
    split
    · split
      · rfl
      · exact ih ⟨s.table, s.table.nextTupleInChain s.tuple, s.table.nextTupleInChain s.tuple,
          s.current_tuple_id, s.tuple_found, s.iterations + 1⟩
    · rfl

theorem removeSingle_pending (table : PersistentTable) (id : Nat) :
    (removeTupleSingleLinkedList table id).2.pendingView = table.pendingView := by
  unfold removeTupleSingleLinkedList
  lift_lets
  intro tuples_in_chain previous current newest tuple nxt s1 s2 relinked s3 t3
  have h1 : s1.1.pendingView = table.pendingView := by
    show PersistentTable.pendingView (Prod.fst (ite _ _ _)) = _
    split_ifs <;> rfl
  have h2 : s2.table.pendingView = table.pendingView :=
    (scanChain_pending id s1.1.numTuplesInEvictionChain.toNat
      ⟨s1.1, tuple, current, previous, s1.2, 0⟩).trans h1
  have h3 : s3.1.pendingView = table.pendingView := by
    show PersistentTable.pendingView (Prod.fst (ite _ _ _)) = _
    split_ifs
    · exact Eq.trans rfl h2
    · exact h2
    · exact h2
  split_ifs
  · rfl
  · exact Eq.trans rfl h3
  · exact h3

theorem removeTuple_pending (cfg : BuildConfig) (table : PersistentTable) (t : Nat) :
    (removeTuple cfg table t).2.pendingView = table.pendingView := by
  unfold removeTuple
  split
  · exact removeDouble_pending _ _ _
  · exact removeSingle_pending _ _

theorem evictTuple_pending (cfg : BuildConfig) (block_id : Int) (s : FillState)
    (tuple : TableTuple) :
    (evictTuple cfg block_id s tuple).world.table.pendingView
      = s.world.table.pendingView := by
  have ho : (if cfg.hasChain then (removeTuple cfg s.world.table tuple.id).2
      else s.world.table).pendingView = s.world.table.pendingView := by
    split
    · exact removeTuple_pending cfg s.world.table tuple.id
    · rfl
  unfold evictTuple
  by_cases he : tuple.isEvicted = true
  · simp only [he, if_true]; exact ho
  · simp only [he, if_false]; exact ho

theorem fillBlock_pending (cfg : BuildConfig) (block_size block_id : Int)
    (items : List (Option TableTuple)) :
    ∀ s : FillState,
      (fillBlock cfg block_size block_id items s).world.table.pendingView
        = s.world.table.pendingView := by
  induction items with
  | nil => intro s; rfl
  | cons item rest ih =>
    intro s
    unfold fillBlock
    split_ifs with hroom
    · cases item with
      | none => rfl
      | some tuple => exact (ih _).trans (evictTuple_pending cfg block_id s tuple)
    · rfl

theorem blockPass_pending (env : Env) (cfg : BuildConfig) (block_size : Int)
    (s : EvictState) :
    (blockPass env cfg block_size s).world.table.pendingView
      = s.world.table.pendingView :=
  (fillBlock_pending cfg block_size _ _ _ : (filledBlock env cfg block_size s).world.table.pendingView = _)

theorem evictBlocks_pending (env : Env) (cfg : BuildConfig) (block_size : Int) (n : Nat) :
    ∀ s : EvictState,
      (evictBlocks env cfg block_size n s).world.table.pendingView
        = s.world.table.pendingView := by
  induction n with
  | zero => intro s; simp [evictBlocks]
  | succ n ih =>
    intro s
    rw [evictBlocks_succ]
    exact (ih _).trans (blockPass_pending env cfg block_size s)

theorem evictBlocks_writtenCounters (env : Env) (cfg : BuildConfig) (block_size : Int)
    (n : Nat) :
    ∀ s : EvictState,
      s.world.table.tuplesWritten = s.m_tuplesWritten →
      s.world.table.blocksWritten = s.m_blocksWritten →
      (evictBlocks env cfg block_size n s).world.table.tuplesWritten - s.m_tuplesWritten
        = (evictBlocks env cfg block_size n s).m_tuplesEvicted - s.m_tuplesEvicted
      ∧ (evictBlocks env cfg block_size n s).world.table.blocksWritten - s.m_blocksWritten
        = n := by
  induction n with
  | zero =>
    intro s h1 h2
    simp [evictBlocks, h1, h2]
  | succ n ih =>
    intro s _ _
    rw [evictBlocks_succ]
    obtain ⟨h1, h2⟩ := ih (blockPass env cfg block_size s) rfl rfl
    have h3 : (blockPass env cfg block_size s).m_tuplesEvicted
        = s.m_tuplesEvicted + (filledBlock env cfg block_size s).num_tuples_evicted := rfl
    have h4 : (blockPass env cfg block_size s).m_tuplesWritten
        = s.m_tuplesWritten + (filledBlock env cfg block_size s).num_tuples_evicted := rfl
    have h5 : (blockPass env cfg block_size s).m_blocksWritten = s.m_blocksWritten + 1 := rfl
    constructor
    · omega
    · push_cast; omega

/-- The table after `evictBlockToDisk`: the pending lists, the merge strategy
and the `*_read` counters are as before, `tuples_written` has grown as
`tuples_evicted` has and `blocks_written` by the number of blocks. -/
theorem evictBlockToDisk_written (env : Env) (cfg : BuildConfig) (w : World)
    (block_size num_blocks : Int) (hstub : w.table.hasEvictedTable = true) :
    (evictBlockToDisk env cfg w block_size num_blocks).1.table.pendingView
      = w.table.pendingView
    ∧ (evictBlockToDisk env cfg w block_size num_blocks).1.table.tuplesWritten
        - w.table.tuplesWritten
      = (evictBlockToDisk env cfg w block_size num_blocks).1.table.tuplesEvicted
        - w.table.tuplesEvicted
    ∧ (evictBlockToDisk env cfg w block_size num_blocks).1.table.blocksWritten
        - w.table.blocksWritten = num_blocks.toNat := by
  rw [evictBlockToDisk_eq env cfg w block_size num_blocks hstub]
  obtain ⟨f1, -⟩ := flushed_facts (evictBlocks env cfg block_size num_blocks.toNat
      (startState cfg w block_size num_blocks))
  obtain ⟨s1, -⟩ := startWorld_facts cfg w block_size num_blocks
  have hw : (startState cfg w block_size num_blocks).world
      = startWorld cfg w block_size num_blocks := rfl
  have hmt : (startState cfg w block_size num_blocks).m_tuplesEvicted
      = w.table.tuplesEvicted := by simp [startState, s1]
  have hmb : (startState cfg w block_size num_blocks).m_blocksEvicted
      = w.table.blocksEvicted := by simp [startState, s1]
  have hwt : (startState cfg w block_size num_blocks).m_tuplesWritten
      = w.table.tuplesWritten := by simp [startState, s1]
  have hwb : (startState cfg w block_size num_blocks).m_blocksWritten
      = w.table.blocksWritten := by simp [startState, s1]
  obtain ⟨y1, -⟩ := evictBlocks_sync env cfg block_size num_blocks.toNat
    (startState cfg w block_size num_blocks) (by rw [hmt, hw, s1]) (by rw [hmb, hw, s1])
  obtain ⟨z1, z2⟩ := evictBlocks_writtenCounters env cfg block_size num_blocks.toNat
    (startState cfg w block_size num_blocks) (by rw [hwt, hw, s1]) (by rw [hwb, hw, s1])
  have p1 := evictBlocks_pending env cfg block_size num_blocks.toNat
    (startState cfg w block_size num_blocks)
  rw [hw, s1] at p1
  rw [hwt, hmt] at z1
  rw [hwb] at z2
  simp only [f1]
  exact ⟨p1, by rw [y1]; exact z1, z2⟩

theorem storedBlock_builtBlock (env : Env) (name : String) (block_id : Int)
    (admitted : List TableTuple) :
    storedBlock (builtBlock env name block_id admitted) = writtenAs name admitted := by
  simp [storedBlock, builtBlock, writtenAs, List.map_map, Function.comp]

theorem blockStore_append_some (name : String) (block_id : Int) (value : AntiCacheBlock)
    (b : List Event) (h : blockStore b name block_id = some value) :
    ∀ a : List Event, blockStore (a ++ b) name block_id = some value := by
  intro a
  induction a with
  | nil => exact h
  | cons e a ih =>
    rw [List.cons_append]
    cases e <;> simp only [blockStore, ih]

theorem blockStore_append_none (name : String) (block_id : Int)
    (b : List Event) (h : blockStore b name block_id = none) :
    ∀ a : List Event, blockStore (a ++ b) name block_id = blockStore a name block_id := by
  intro a
  induction a with
  | nil => simpa using h
  | cons e a ih =>
    rw [List.cons_append]
    cases e <;> simp only [blockStore, ih]

theorem blockStore_admittedEvents (table name : String) (id block_id : Int) :
    ∀ (admitted : List TableTuple) (offset : Int) (address : Nat),
      blockStore (admittedEvents table id offset address admitted) name block_id = none := by
  intro admitted
  induction admitted with
  | nil => intro o a; rfl
  | cons t ts ih =>
    intro o a
    rw [admittedEvents, blockStore_append_none name block_id _ (ih _ _)]
    rfl

theorem blockStore_blockEvents (env : Env) (table name : String) (id block_id : Int)
    (address : Nat) (admitted : List TableTuple) :
    blockStore (blockEvents env table id address admitted) name block_id
      = if table = name ∧ id = block_id then some (writtenAs table admitted) else none := by
  have htail : blockStore
      [.writeHeader [(admitted.length : Int)],
        .writeBlock table id admitted.length (builtBlock env table id admitted)
          (builtBlock env table id admitted).serializedSize] name block_id
      = if table = name ∧ id = block_id then some (writtenAs table admitted) else none := by
    simp only [blockStore, storedBlock_builtBlock]
  unfold blockEvents
  by_cases hk : table = name ∧ id = block_id
  · rw [if_pos hk] at htail ⊢
    exact blockStore_append_some name block_id _ _ htail _
  · rw [if_neg hk] at htail ⊢
    rw [blockStore_append_none name block_id _ htail,
      blockStore_append_none name block_id _ (blockStore_admittedEvents _ _ _ _ _ _ _)]
    rfl

theorem blockStore_runEvents_below (env : Env) (table name : String) (block_id : Int) :
    ∀ (passes : List (List TableTuple)) (id : Int) (address : Nat), block_id < id →
      blockStore (runEvents env table id address passes) name block_id = none := by
  intro passes
  induction passes with
  | nil => intro id a _; rfl
  | cons p more ih =>
    intro id a hlt
    rw [runEvents, blockStore_append_none name block_id _ (ih _ _ (by omega)),
      blockStore_blockEvents]
    have : ¬ (table = name ∧ id = block_id) := by
      intro h; omega
    rw [if_neg this]

theorem blockStore_runEvents (env : Env) (name : String) :
    ∀ (passes : List (List TableTuple)) (id : Int) (address : Nat) (i : Nat)
      (admitted : List TableTuple), passes[i]? = some admitted →
      blockStore (runEvents env name id address passes) name (id + i)
        = some (writtenAs name admitted) := by
  intro passes
  induction passes with
  | nil => intro id a i p h; simp at h
  | cons q more ih =>
    intro id a i p h
    rw [runEvents]
    cases i with
    | zero =>
      simp only [List.getElem?_cons_zero, Option.some.injEq] at h
      subst h
      have h1 : blockStore (runEvents env name (id + 1) (a + q.length) more) name
          (id + ((0 : Nat) : Int)) = none :=
        blockStore_runEvents_below env name name _ more (id + 1) _ (by simp)
      rw [blockStore_append_none name _ _ h1, blockStore_blockEvents]
      simp
    | succ i =>
      simp only [List.getElem?_cons_succ] at h
      have h1 := ih (id + 1) (a + q.length) i p h
      have h2 : id + 1 + (i : Int) = id + ((i + 1 : Nat) : Int) := by push_cast; ring
      rw [h2] at h1
      exact blockStore_append_some name _ _ _ h1 _

/-- The block store after `evictBlockToDisk` holds, under the ids the call was
given, the blocks it has written. -/
theorem evictBlockToDisk_store (env : Env) (cfg : BuildConfig) (w : World)
    (block_size num_blocks : Int) (hstub : w.table.hasEvictedTable = true) :
    ∃ passes : List (List TableTuple),
      passes.length = num_blocks.toNat
      ∧ (evictBlockToDisk env cfg w block_size num_blocks).1.evictedTable.length
        = w.evictedTable.length + (passes.map List.length).sum
      ∧ ∀ (i : Nat) (admitted : List TableTuple), passes[i]? = some admitted →
          blockStore (evictBlockToDisk env cfg w block_size num_blocks).1.trace
              w.table.name (w.nextBlockId + i)
            = some (writtenAs w.table.name admitted) := by
  obtain ⟨passes, p1, -, p3, p4⟩ := evictBlockToDisk_calls env cfg w block_size num_blocks hstub
  refine ⟨passes, p1, ?_, ?_⟩
  · rw [p4, List.length_append, runStubs_length]
  · intro i admitted hi
    rw [p3]
    have hflush : blockStore (if 0 < num_blocks then [Event.flushBlocks] else [])
        w.table.name (w.nextBlockId + i) = none := by
      split_ifs <;> rfl
    rw [blockStore_append_none _ _ _ hflush]
    exact blockStore_append_some _ _ _ _
      (blockStore_runEvents env w.table.name passes w.nextBlockId w.evictedTable.length i
        admitted hi) _

theorem readEvictedBlock_new (readBlock : String → Int → Option AntiCacheBlock) (w : World)
    (block_id tuple_offset : Int) (value : AntiCacheBlock)
    (hnew : isAlreadyUnEvicted w.table block_id = false)
    (hread : readBlock w.table.name block_id = some value) :
    (readEvictedBlock readBlock w block_id tuple_offset).1
      = { w with
          trace := w.trace ++ [.readBlock w.table.name block_id],
          table := { w.table with
            unevictedBlocks := w.table.unevictedBlocks ++ [value],
            mergeTupleOffsets := w.table.mergeTupleOffsets ++ [tuple_offset],
            unevictedBlockIDs := w.table.unevictedBlockIDs ++ [(block_id, 0)] } } := by
  have hany : (w.table.unevictedBlockIDs.any (fun e => e.1 == block_id)) = false := hnew
  simp [readEvictedBlock, hnew, hread, insertUnevictedBlockID, insertTupleOffset,
    insertUnevictedBlock, hany, World.log]

theorem range_ids (id : Int) (n : Nat) :
    (List.range (n + 1)).map (fun (i : Nat) => id + (i : Int))
      = id :: (List.range n).map (fun (i : Nat) => id + 1 + (i : Int)) := by
  rw [List.range_succ_eq_map, List.map_cons, List.map_map]
  simp only [Nat.cast_zero, add_zero, List.cons.injEq, true_and]
  apply List.map_congr_left
  intro i _
  simp only [Function.comp, Nat.cast_succ]
  ring

/-- Reading the blocks `id, id + 1, ...` that the store holds and that are not
marked unevicted appends them, in order, to the pending blocks of the table,
and the offsets to its merge offsets. -/
theorem readBlocks_run (readBlock : String → Int → Option AntiCacheBlock) :
    ∀ (passes : List (List TableTuple)) (id : Int) (offsets : List Int) (w : World),
      offsets.length = passes.length →
      (∀ (i : Nat) (admitted : List TableTuple), passes[i]? = some admitted →
        readBlock w.table.name (id + i) = some (writtenAs w.table.name admitted)) →
      (∀ i : Nat, i < passes.length → isAlreadyUnEvicted w.table (id + i) = false) →
      ∃ ids trace,
        readBlocks readBlock w
            (((List.range passes.length).map (fun (i : Nat) => id + (i : Int))).zip offsets)
          = { w with
              trace := trace,
              table := { w.table with
                unevictedBlocks :=
                  w.table.unevictedBlocks ++ passes.map (writtenAs w.table.name),
                mergeTupleOffsets := w.table.mergeTupleOffsets ++ offsets,
                unevictedBlockIDs := ids } } := by
  intro passes
  induction passes with
  | nil =>
    intro id offsets w hlen _ _
    have : offsets = [] := List.length_eq_zero.mp hlen
    subst this
    exact ⟨w.table.unevictedBlockIDs, w.trace, by simp [readBlocks]⟩
  | cons p more ih =>
    intro id offsets w hlen hstore hnew
    cases offsets with
    | nil => simp at hlen
    | cons o offsets =>
      simp only [List.length_cons, add_left_inj] at hlen
      have h0 := hstore 0 p (by simp)
      have n0 := hnew 0 (by simp)
      simp only [Nat.cast_zero, add_zero] at h0 n0
      have hr := readEvictedBlock_new readBlock w id o _ n0 h0
      rw [List.length_cons, range_ids, List.zip_cons_cons, readBlocks, hr]
      obtain ⟨ids, trace, hrest⟩ := ih (id + 1) offsets
        { w with
          trace := w.trace ++ [.readBlock w.table.name id],
          table := { w.table with
            unevictedBlocks := w.table.unevictedBlocks ++ [writtenAs w.table.name p],
            mergeTupleOffsets := w.table.mergeTupleOffsets ++ [o],
            unevictedBlockIDs := w.table.unevictedBlockIDs ++ [(id, 0)] } }
        hlen
        (fun i admitted hi => by
          have := hstore (i + 1) admitted (by simpa using hi)
          have h2 : id + 1 + (i : Int) = id + ((i + 1 : Nat) : Int) := by push_cast; ring
          rw [h2]; exact this)
        (fun i hi => by
          have := hnew (i + 1) (by simp only [List.length_cons]; omega)
          have h2 : id + 1 + (i : Int) = id + ((i + 1 : Nat) : Int) := by push_cast; ring
          rw [h2]
          simp only [isAlreadyUnEvicted, List.any_append, List.any_cons, List.any_nil,
            Bool.or_false, Bool.or_eq_false_iff] at this ⊢
          refine ⟨this, ?_⟩
          simp only [beq_eq_false_iff_ne, ne_eq]
          push_cast
          omega)
      refine ⟨ids, trace, ?_⟩
      rw [hrest]
      simp [List.append_assoc]

theorem mergeSection_own (tableStrategy : Bool) (offset : Int) (e : Engine)
    (t : PersistentTable) (stream : List (Nat × Int)) (c : Nat)
    (he : e.tables = [t]) (hs : t.mergeStrategy = true) (hc : c ≤ stream.length) :
    ∃ e' t' stream', mergeSection tableStrategy offset e stream (t.name, (c : Int))
        = some (e', stream')
      ∧ e'.tables = [t'] ∧ t'.name = t.name ∧ t'.mergeStrategy = true
      ∧ t'.tuplesEvicted = t.tuplesEvicted - c ∧ t'.tuplesRead = t.tuplesRead + c
      ∧ t'.blocksEvicted = t.blocksEvicted - 1 ∧ t'.blocksRead = t.blocksRead + 1
      ∧ t'.tuplesWritten = t.tuplesWritten ∧ t'.blocksWritten = t.blocksWritten := by
  have hget : e.getTable t.name = some t := by simp [Engine.getTable, he]
  obtain ⟨s', h1, -⟩ := unevictTuples_defined tableStrategy t.name offset
    (List.range c) { trace := e.trace, stream := stream, bytes_unevicted := 0 }
    (by simpa using hc)
  have hnat : ((c : Int)).toNat = c := Int.toNat_natCast c
  refine ⟨{ tables := [{ t with
      tuplesEvicted := t.tuplesEvicted - c,
      tuplesRead := t.tuplesRead + c,
      bytesEvicted := t.bytesEvicted - s'.bytes_unevicted,
      bytesRead := t.bytesRead + s'.bytes_unevicted,
      blocksEvicted := t.blocksEvicted - 1,
      blocksRead := t.blocksRead + 1 }], trace := s'.trace }, _, s'.stream, ?_, rfl, rfl, hs,
    rfl, rfl, rfl, rfl, rfl, rfl⟩
  simp only [mergeSection, hget, hnat, h1, hs, if_true, Engine.setTable, he, List.map_cons,
    List.map_nil, beq_self_eq_true]

theorem mergeBlocks_own (tableStrategy : Bool) :
    ∀ (passes : List (List TableTuple)) (offsets : List Int) (e : Engine)
      (t : PersistentTable),
      e.tables = [t] → t.mergeStrategy = true → passes.length ≤ offsets.length →
      ∃ e' t', mergeBlocks tableStrategy e (passes.map (writtenAs t.name)) offsets = some e'
        ∧ e'.tables = [t'] ∧ t'.name = t.name ∧ t'.mergeStrategy = true
        ∧ t'.tuplesEvicted = t.tuplesEvicted - ((passes.map List.length).sum : Nat)
        ∧ t'.tuplesRead = t.tuplesRead + ((passes.map List.length).sum : Nat)
        ∧ t'.blocksEvicted = t.blocksEvicted - passes.length
        ∧ t'.blocksRead = t.blocksRead + passes.length
        ∧ t'.tuplesWritten = t.tuplesWritten ∧ t'.blocksWritten = t.blocksWritten := by
  intro passes
  induction passes with
  | nil =>
    intro offsets e t he hs _
    refine ⟨e, t, by simp [mergeBlocks], he, rfl, hs, ?_⟩
    simp
  | cons p more ih =>
    intro offsets e t he hs hlen
    cases offsets with
    | nil => simp at hlen
    | cons offset offsets =>
      obtain ⟨e1, t1, stream1, h1, g1, g2, g3, g4, g5, g6, g7, g8, g9⟩ :=
        mergeSection_own tableStrategy offset e t
          (p.map (fun t => (t.id, (t.serializedSize : Int)))) p.length he hs (by simp)
      obtain ⟨e2, t2, h2, k1, k2, k3, k4, k5, k6, k7, k8, k9⟩ :=
        ih offsets e1 t1 g1 g3 (by simpa using hlen)
      refine ⟨e2, t2, ?_, k1, k2.trans g2, k3, ?_, ?_, ?_, ?_, k8.trans g8, k9.trans g9⟩
      · rw [List.map_cons, mergeBlocks]
        simp only [writtenAs, mergeSections, h1]
        rw [g2] at h2
        exact h2
      · rw [k4, g4]; simp only [List.map_cons, List.sum_cons]; push_cast; ring
      · rw [k5, g5]; simp only [List.map_cons, List.sum_cons]; push_cast; ring
      · rw [k6, g6]; simp only [List.length_cons]; push_cast; ring
      · rw [k7, g7]; simp only [List.length_cons]; push_cast; ring

/-- The merge of a table under block-merge, with an evicted table, whose
pending blocks are blocks of its own tuples: the counters move by the tuples
and the blocks merged. -/
theorem mergeUnevictedTuples_own (t : PersistentTable) (trace : List Event)
    (passes : List (List TableTuple))
    (hev : t.hasEvictedTable = true)
    (hs : t.mergeStrategy = true)
    (hb : t.unevictedBlocks = passes.map (writtenAs t.name))
    (hlen : passes.length ≤ t.mergeTupleOffsets.length) :
    ∃ e' t', mergeUnevictedTuples { tables := [t], trace := trace } t.name
        = some (e', decide (0 < passes.length))
      ∧ e'.tables = [t'] ∧ t'.unevictedBlocks = []
      ∧ t'.tuplesEvicted = t.tuplesEvicted - ((passes.map List.length).sum : Nat)
      ∧ t'.tuplesRead = t.tuplesRead + ((passes.map List.length).sum : Nat)
      ∧ t'.blocksEvicted = t.blocksEvicted - passes.length
      ∧ t'.blocksRead = t.blocksRead + passes.length
      ∧ t'.tuplesWritten = t.tuplesWritten ∧ t'.blocksWritten = t.blocksWritten := by
  have hget : Engine.getTable { tables := [t], trace := trace } t.name = some t := by
    simp [Engine.getTable]
  cases passes with
  | nil =>
    have hnil : t.unevictedBlocks = [] := by simpa using hb
    refine ⟨{ tables := [t], trace := trace }, t, ?_, rfl, hnil, ?_⟩
    · simp [mergeUnevictedTuples, hget, hnil]
    · simp
  | cons p more =>
    obtain ⟨e1, t1, h1, k1, k2, k3, k4, k5, k6, k7, k8, k9⟩ :=
      mergeBlocks_own t.mergeStrategy (p :: more) t.mergeTupleOffsets
        { tables := [t], trace := trace } t rfl hs hlen
    have hget1 : e1.getTable t.name = some t1 := by
      simp [Engine.getTable, k1, k2]
    have hne : ¬ t.unevictedBlocks.length = 0 := by rw [hb]; simp
    rw [← hb] at h1
    refine ⟨e1.setTable { t1 with unevictedBlocks := [], mergeTupleOffsets := [] },
      { t1 with unevictedBlocks := [], mergeTupleOffsets := [] }, ?_, ?_, rfl,
      k4, k5, k6, k7, k8, k9⟩
    · simp only [mergeUnevictedTuples, hget, hne, if_false, hev, Bool.true_eq_false, h1,
        hget1]
      simp
    · simp only [Engine.setTable, k1, List.map_cons, List.map_nil, beq_self_eq_true, if_true]

theorem toInt16_of_range (x : Int) (h1 : -2 ^ 15 ≤ x) (h2 : x < 2 ^ 15) : toInt16 x = x := by
  unfold toInt16
  omega

theorem evictBlockToDisk_hasEvictedTable (env : Env) (cfg : BuildConfig) (w : World)
    (block_size num_blocks : Int) (hstub : w.table.hasEvictedTable = true) :
    (evictBlockToDisk env cfg w block_size num_blocks).1.table.hasEvictedTable = true := by
  rw [evictBlockToDisk_eq env cfg w block_size num_blocks hstub]
  obtain ⟨f1, -⟩ := flushed_facts (evictBlocks env cfg block_size num_blocks.toNat
      (startState cfg w block_size num_blocks))
  obtain ⟨s1, -⟩ := startWorld_facts cfg w block_size num_blocks
  have hw : (startState cfg w block_size num_blocks).world
      = startWorld cfg w block_size num_blocks := rfl
  have h := (evictBlocks_outside env cfg block_size num_blocks.toNat
    (startState cfg w block_size num_blocks)).2
  rw [hw, s1] at h
  simp only [f1]
  rw [h]; exact hstub

/-- C31: the counter round trip of a table under block-merge.  The table has
an evicted table and no pending block, and the block ids the eviction is given
fit the `int16_t` in which the program holds them (they lie between `-2^15`
and `2^15 - 1`, so that no two of them are the same id); `evictBlockToDisk` is
called for `num_blocks` blocks, every block id it was given is read once with
`readEvictedBlock` from the store the eviction has written to (no such id was
marked unevicted before), and `mergeUnevictedTuples` is called.  The merge is
defined and returns true when a block was written; after it `tuples_evicted`
and `blocks_evicted` have the values they had before the eviction, and
`tuples_read` and `blocks_read` have grown by what `tuples_written` and
`blocks_written` have grown by, the latter by `num_blocks`. -/
theorem C31_counter_round_trip (env : Env) (cfg : BuildConfig) (w : World)
    (block_size num_blocks : Int) (offsets : List Int)
    (hstub : w.table.hasEvictedTable = true)
    (hstrategy : w.table.mergeStrategy = true)
    (hnone : w.table.unevictedBlocks = [])
    (hlow : -2 ^ 15 ≤ w.nextBlockId)
    (hhigh : w.nextBlockId + num_blocks.toNat ≤ 2 ^ 15)
    (hnew : ∀ i : Nat, i < num_blocks.toNat →
      isAlreadyUnEvicted w.table (w.nextBlockId + i) = false)
    (hoffsets : offsets.length = num_blocks.toNat) :
    ∃ e' t',
      evictReadMerge env cfg w block_size num_blocks offsets
        = some (e', decide (0 < num_blocks))
      ∧ e'.tables = [t']
      ∧ t'.unevictedBlocks = []
      ∧ t'.tuplesEvicted = w.table.tuplesEvicted
      ∧ t'.blocksEvicted = w.table.blocksEvicted
      ∧ t'.tuplesRead - w.table.tuplesRead
        = (evictBlockToDisk env cfg w block_size num_blocks).1.table.tuplesWritten
          - w.table.tuplesWritten
      ∧ t'.blocksRead - w.table.blocksRead
        = (evictBlockToDisk env cfg w block_size num_blocks).1.table.blocksWritten
          - w.table.blocksWritten
      ∧ t'.tuplesWritten
        = (evictBlockToDisk env cfg w block_size num_blocks).1.table.tuplesWritten
      ∧ t'.blocksWritten
        = (evictBlockToDisk env cfg w block_size num_blocks).1.table.blocksWritten
      ∧ (evictBlockToDisk env cfg w block_size num_blocks).1.table.blocksWritten
          - w.table.blocksWritten = num_blocks.toNat
      ∧ (evictBlockToDisk env cfg w block_size num_blocks).1.table.tuplesWritten
          - w.table.tuplesWritten
        = (evictBlockToDisk env cfg w block_size num_blocks).1.table.tuplesEvicted
          - w.table.tuplesEvicted := by
  obtain ⟨passes, p1, p2, p3⟩ := evictBlockToDisk_store env cfg w block_size num_blocks hstub
  obtain ⟨-, -, -, f4, f5, -, f7, -, -⟩ :=
    evictBlockToDisk_facts env cfg w block_size num_blocks hstub
  obtain ⟨v1, v2, v3⟩ := evictBlockToDisk_written env cfg w block_size num_blocks hstub
  simp only [PersistentTable.pendingView, Prod.mk.injEq] at v1
  obtain ⟨u1, u2, u3, u4, u5, u6, -⟩ := v1
  have hnew' : ∀ i : Nat, i < passes.length →
      isAlreadyUnEvicted (evictBlockToDisk env cfg w block_size num_blocks).1.table
        (w.nextBlockId + i) = false := by
    intro i hi
    have := hnew i (by omega)
    simp only [isAlreadyUnEvicted] at this ⊢
    rw [u4]; exact this
  obtain ⟨ids, trace, hread⟩ := readBlocks_run
    (blockStore (evictBlockToDisk env cfg w block_size num_blocks).1.trace) passes
    w.nextBlockId offsets (evictBlockToDisk env cfg w block_size num_blocks).1
    (by omega) (by rw [f7]; exact p3) hnew'
  rw [u2, hnone, List.nil_append] at hread
  obtain ⟨e', t', m1, m2, m3, m4, m5, m6, m7, m8, m9⟩ := mergeUnevictedTuples_own
    { (evictBlockToDisk env cfg w block_size num_blocks).1.table with
        unevictedBlocks := passes.map
          (writtenAs (evictBlockToDisk env cfg w block_size num_blocks).1.table.name),
        mergeTupleOffsets :=
          (evictBlockToDisk env cfg w block_size num_blocks).1.table.mergeTupleOffsets
            ++ offsets,
        unevictedBlockIDs := ids } trace passes
    (evictBlockToDisk_hasEvictedTable env cfg w block_size num_blocks hstub)
    (by show (evictBlockToDisk env cfg w block_size num_blocks).1.table.mergeStrategy = true
        rw [u1]; exact hstrategy)
    rfl
    (by show passes.length ≤ (_ ++ offsets).length
        rw [List.length_append]; omega)
  have hdec : decide (0 < passes.length) = decide (0 < num_blocks) := by
    have : (0 < passes.length) ↔ (0 < num_blocks) := by omega
    simp only [this]
  refine ⟨e', t', ?_, m2, m3, ?_, ?_, ?_, ?_, m8, m9, v3, v2⟩
  · have hids : (List.range passes.length).map
          (fun (i : Nat) => toInt16 (w.nextBlockId + (i : Int)))
        = (List.range passes.length).map (fun (i : Nat) => w.nextBlockId + (i : Int)) := by
      apply List.map_congr_left
      intro i hi
      have hi' : i < passes.length := List.mem_range.mp hi
      exact toInt16_of_range _ (by omega) (by omega)
    unfold evictReadMerge
    simp only [← p1, hids, hread]
    rw [← hdec]
    exact m1
  · rw [m4]
    show (evictBlockToDisk env cfg w block_size num_blocks).1.table.tuplesEvicted - _ = _
    have hlen : ((evictBlockToDisk env cfg w block_size num_blocks).1.evictedTable.length : Int)
        = w.evictedTable.length + ((passes.map List.length).sum : Nat) := by
      rw [p2]; push_cast; rfl
    omega
  · rw [m6]
    show (evictBlockToDisk env cfg w block_size num_blocks).1.table.blocksEvicted - _ = _
    rw [f4, p1]; ring
  · rw [m5]
    show (evictBlockToDisk env cfg w block_size num_blocks).1.table.tuplesRead + _ - _ = _
    have hlen : ((evictBlockToDisk env cfg w block_size num_blocks).1.evictedTable.length : Int)
        = w.evictedTable.length + ((passes.map List.length).sum : Nat) := by
      rw [p2]; push_cast; rfl
    rw [u5]
    omega
  · rw [m7]
    show (evictBlockToDisk env cfg w block_size num_blocks).1.table.blocksRead + _ - _ = _
    rw [u6, v3, p1]; ring

set_option maxRecDepth 200000 in
/-- C31 at a table T with 5 tuples in 2 blocks evicted so far, under
block-merge, in a build with the double linked chain: two blocks of one tuple
each are written under the ids 2 and 3, both are read and merged. -/
theorem C31_counter_round_trip_witness :
    worldThreeTuples.table.tupleCountersOf = ("T", 5, 0)
    ∧ ((evictBlockToDisk env100 lruDouble worldThreeTuples 2640 2).1.table.tupleCountersOf,
        (evictBlockToDisk env100 lruDouble worldThreeTuples 2640 2).1.table.tuplesWritten,
        (evictBlockToDisk env100 lruDouble worldThreeTuples 2640 2).1.table.blocksWritten)
      = (("T", 7, 0), 2, 2)
    ∧ (evictReadMerge env100 lruDouble worldThreeTuples 2640 2 [0, 0]).map
        (fun r => r.1.tupleCounters) = some [("T", 5, 2)]
    ∧ (evictReadMerge env100 lruDouble worldThreeTuples 2640 2 [0, 0]).map
        (fun r => r.1.blockCounters) = some [("T", 2, 2)]
    ∧ (evictReadMerge env100 lruDouble worldThreeTuples 2640 2 [0, 0]).map
        (fun r => r.2) = some true
    ∧ ∃ e' t',
      evictReadMerge env100 lruDouble worldThreeTuples 2640 2 [0, 0]
        = some (e', decide ((0 : Int) < 2))
      ∧ e'.tables = [t']
      ∧ t'.unevictedBlocks = []
      ∧ t'.tuplesEvicted = worldThreeTuples.table.tuplesEvicted
      ∧ t'.blocksEvicted = worldThreeTuples.table.blocksEvicted
      ∧ t'.tuplesRead - worldThreeTuples.table.tuplesRead
        = (evictBlockToDisk env100 lruDouble worldThreeTuples 2640 2).1.table.tuplesWritten
          - worldThreeTuples.table.tuplesWritten
      ∧ t'.blocksRead - worldThreeTuples.table.blocksRead
        = (evictBlockToDisk env100 lruDouble worldThreeTuples 2640 2).1.table.blocksWritten
          - worldThreeTuples.table.blocksWritten
      ∧ t'.tuplesWritten
        = (evictBlockToDisk env100 lruDouble worldThreeTuples 2640 2).1.table.tuplesWritten
      ∧ t'.blocksWritten
        = (evictBlockToDisk env100 lruDouble worldThreeTuples 2640 2).1.table.blocksWritten
      ∧ (evictBlockToDisk env100 lruDouble worldThreeTuples 2640 2).1.table.blocksWritten
          - worldThreeTuples.table.blocksWritten = (2 : Int).toNat
      ∧ (evictBlockToDisk env100 lruDouble worldThreeTuples 2640 2).1.table.tuplesWritten
          - worldThreeTuples.table.tuplesWritten
        = (evictBlockToDisk env100 lruDouble worldThreeTuples 2640 2).1.table.tuplesEvicted
          - worldThreeTuples.table.tuplesEvicted :=
  ⟨by decide, by decide, by decide, by decide, by decide,
   C31_counter_round_trip env100 lruDouble worldThreeTuples 2640 2 [0, 0] rfl rfl rfl
     (by decide) (by decide) (fun _ _ => rfl) rfl⟩

end AntiCache
